import Mathlib

/-!
Verification of simple-redis-server: protocol decoder, string objects and
dispatch.

A shallow embedding of `src/networking.c`, `src/object.c` and the dispatch
part of `src/server.c`.

Conventions of the embedding.

* A byte is a natural number, an `sds` string is the list of its bytes
  (the implicit terminating NUL is not stored).  C string functions
  (`strchr`, `sdssplitargs`) stop at the first NUL byte, as in C.
* Machine integers are mathematical integers; every conversion the C code
  performs is written out (`toInt32` for `int` and `(signed)`, `toUInt32`
  for `(unsigned)`, `toSizeT` for `size_t`), for an LP64 platform.
* Undefined behaviour (a NULL dereference, a store past the end of the
  `argv` array, reading an uninitialised slot) is the explicit result
  `Except.error`.
-/

namespace SimpleRedis

/-! ## Constants of `server.h` -/

def C_OK : Int := 0
def C_ERR : Int := -1

def PROTO_INLINE_MAX_SIZE : Nat := 1024 * 64
def PROTO_MBULK_BIG_ARG : Nat := 1024 * 32
def PROTO_IOBUF_LEN : Nat := 1024 * 16

def PROTO_REQ_INLINE : Int := 1
def PROTO_REQ_MULTIBULK : Int := 2

def OBJ_STRING : Nat := 0
def OBJ_ENCODING_RAW : Nat := 0
def OBJ_ENCODING_EMBSTR : Nat := 8
def OBJ_ENCODING_EMBSTR_SIZE_LIMIT : Nat := 44

def INT_MAX : Int := 2147483647
def OBJ_SHARED_REFCOUNT : Int := INT_MAX

def ULLONG_MAX : Nat := 18446744073709551615
def LLONG_MAX : Nat := 9223372036854775807

/-! ## Integer conversions -/

/-- Conversion to a 32-bit `int` (two's complement wrap-around). -/
def toInt32 (x : Int) : Int := (x + 2147483648) % 4294967296 - 2147483648

/-- Conversion to a 32-bit `unsigned`. -/
def toUInt32 (x : Int) : Int := x % 4294967296

/-- Conversion to a 64-bit `size_t`. -/
def toSizeT (x : Int) : Int := x % 18446744073709551616

/-! ## Undefined behaviour -/

/-- The ways in which an execution can leave defined behaviour. -/
inductive Fault where
  /-- a NULL pointer is dereferenced -/
  | nullDeref
  /-- an uninitialised `argv` slot is read -/
  | uninitRead
  /-- a store past the end of the allocated `argv` array -/
  | argvOverflow
  /-- a buffer access outside `[0, sdslen]` -/
  | outOfBounds
  /-- an object is created with a negative length -/
  | badLength
  /-- the iteration budget of a loop is exhausted (the loop does not end) -/
  | fuel
  deriving DecidableEq, Repr

/-- Results with a fault can be compared. -/
instance instDecidableEqExcept {ε α : Type} [DecidableEq ε] [DecidableEq α] :
    DecidableEq (Except ε α)
  | .ok a, .ok b => if h : a = b then isTrue (by rw [h]) else isFalse (fun h1 => h (by cases h1; rfl))
  | .error a, .error b =>
    if h : a = b then isTrue (by rw [h]) else isFalse (fun h1 => h (by cases h1; rfl))
  | .ok _, .error _ => isFalse (fun h => by cases h)
  | .error _, .ok _ => isFalse (fun h => by cases h)

/-! ## String objects (`object.c`) -/

/-- The `robj` of `server.h`: type, encoding, payload bytes and reference count. -/
structure robj where
  type : Nat
  encoding : Nat
  ptr : List Nat
  refcount : Int
  deriving DecidableEq, Repr

/-- `createObject`: RAW encoding, reference count 1, `ptr` adopted as is. -/
def createObject (type : Nat) (ptr : List Nat) : robj :=
  { type := type, encoding := OBJ_ENCODING_RAW, ptr := ptr, refcount := 1 }

/-- `createRawStringObject`: `sdsnewlen(ptr,len)` copies the first `len` bytes. -/
def createRawStringObject (ptr : List Nat) (len : Nat) : robj :=
  createObject OBJ_STRING (ptr.take len)

/-- `createEmbeddedStringObject`: header and payload in one block. -/
def createEmbeddedStringObject (ptr : List Nat) (len : Nat) : robj :=
  { type := OBJ_STRING, encoding := OBJ_ENCODING_EMBSTR, ptr := ptr.take len, refcount := 1 }

/-- `createStringObject`: EMBSTR up to 44 bytes, RAW above. -/
def createStringObject (ptr : List Nat) (len : Nat) : robj :=
  if len ≤ OBJ_ENCODING_EMBSTR_SIZE_LIMIT then createEmbeddedStringObject ptr len
  else createRawStringObject ptr len

/-- `incrRefCount`. -/
def incrRefCount (o : robj) : robj :=
  if o.refcount ≠ OBJ_SHARED_REFCOUNT then { o with refcount := o.refcount + 1 } else o

/-- `decrRefCount`: `none` is the freed object. -/
def decrRefCount (o : robj) : Option robj :=
  if o.refcount = 1 then none
  else if o.refcount ≠ OBJ_SHARED_REFCOUNT then some { o with refcount := o.refcount - 1 }
  else some o

/-! ## C library and `sds` helpers -/

/-- `strchr(s, ch)` for `ch ≠ 0`: offset of the first `ch` that comes before any NUL. -/
def strchr : List Nat → Nat → Option Nat
  | [], _ => none
  | b :: bs, ch =>
    if b = ch then some 0
    else if b = 0 then none
    else (strchr bs ch).map (· + 1)

/-- Modelled from the spec: `sdsrange` of `sds.c` (not under `src/`), the
`trimPrefix` of the Growable Byte Buffer.  `sdsrange s start end` keeps the
bytes from index `start` to index `end` inclusive, negative indexes counting
from the end of the string; `sdsrange s n (-1)` removes the first `n` bytes. -/
def sdsrange (s : List Nat) (start end_ : Int) : List Nat :=
  let len : Int := s.length
  if len = 0 then s
  else
    let start1 := if start < 0 then (if toInt32 (len + start) < 0 then 0 else toInt32 (len + start)) else start
    let end1 := if end_ < 0 then (if toInt32 (len + end_) < 0 then 0 else toInt32 (len + end_)) else end_
    let newlen := if start1 > end1 then 0 else (end1 - start1) + 1
    if newlen ≠ 0 then
      if start1 ≥ toInt32 len then []
      else if end1 ≥ toInt32 len then
        (s.drop start1.toNat).take (if start1 > len - 1 then 0 else (len - 1 - start1) + 1).toNat
      else (s.drop start1.toNat).take newlen.toNat
    else []

/-- Modelled from the spec: the digit loop of `string2ll` (`util.c`, not under
`src/`): accumulates the value in an `unsigned long long`, failing on
overflow and on a byte that is not a digit. -/
def string2llDigits : List Nat → Nat → Option Nat
  | [], v => some v
  | d :: ds, v =>
    if 48 ≤ d ∧ d ≤ 57 then
      if v > ULLONG_MAX / 10 then none
      else if v * 10 > ULLONG_MAX - (d - 48) then none
      else string2llDigits ds (v * 10 + (d - 48))
    else none

/-- Modelled from the spec: `string2ll` of `util.c` (not under `src/`), the
strict base-10 parser of a signed 64-bit integer: an optional `-`, then either
the single digit `0` or a digit `1`-`9` followed by digits; nothing else is
accepted (no sign `+`, no leading zero, no blank, no trailing byte, not the
empty string), and a value outside the `long long` range is refused. -/
def string2ll (s : List Nat) : Option Int :=
  if s.length = 0 then none
  else if s = [48] then some 0
  else
    let negative : Bool := s.head? = some 45
    let p := if negative then s.tail else s
    match p with
    | [] => none
    | d :: ds =>
      if 49 ≤ d ∧ d ≤ 57 then
        match string2llDigits ds (d - 48) with
        | none => none
        | some v =>
          if negative then (if v > LLONG_MAX + 1 then none else some (-(v : Int)))
          else (if v > LLONG_MAX then none else some (v : Int))
      else if d = 48 ∧ s.length = 1 then some 0
      else none

/-- `isspace` in the C locale. -/
def isspace (b : Nat) : Bool := b = 32 || (9 ≤ b && b ≤ 13)

/-- Modelled from the spec: `is_hex_digit` of `sds.c` (not under `src/`). -/
def is_hex_digit (b : Nat) : Bool :=
  (48 ≤ b && b ≤ 57) || (97 ≤ b && b ≤ 102) || (65 ≤ b && b ≤ 70)

/-- Modelled from the spec: `hex_digit_to_int` of `sds.c` (not under `src/`). -/
def hex_digit_to_int (b : Nat) : Nat :=
  if 48 ≤ b ∧ b ≤ 57 then b - 48
  else if 97 ≤ b ∧ b ≤ 102 then b - 87
  else if 65 ≤ b ∧ b ≤ 70 then b - 55
  else 0

/-- Modelled from the spec: the scanner states of `sdssplitargs` (`sds.c`, not
under `src/`): between tokens, inside an unquoted token, inside double
quotes, inside single quotes. -/
inductive SplitMode where
  | blank
  | plain
  | inq
  | insq
  deriving DecidableEq, Repr

/-- Modelled from the spec: the character a backslash escape stands for inside
double quotes, in `sdssplitargs` (`sds.c`, not under `src/`). -/
def escapeChar (b : Nat) : Nat :=
  if b = 110 then 10
  else if b = 114 then 13
  else if b = 116 then 9
  else if b = 98 then 8
  else if b = 97 then 7
  else b

/-- Modelled from the spec: the scanner of `sdssplitargs` (`sds.c`, not under
`src/`) over the bytes that remain, with the token being built (`current`)
and the tokens already produced (`vector`).  `skip`
counts bytes that an escape sequence has already consumed (`p += 3` after
`\xHH`, `p++` after a backslash escape).  `none` is the error exit
(unbalanced quotes, or a closing quote followed by a byte that is not a
blank). -/
def splitargsAux : SplitMode → Nat → List Nat → List Nat → List (List Nat) →
    Option (List (List Nat))
  | .blank, _, [], _, vector => some vector
  | .plain, _, [], current, vector => some (vector ++ [current])
  | .inq, _, [], _, _ => none
  | .insq, _, [], _, _ => none
  | mode, skip + 1, _ :: rest, current, vector => splitargsAux mode skip rest current vector
  | .blank, 0, b :: rest, _, vector =>
    if isspace b then splitargsAux .blank 0 rest [] vector
    else if b = 34 then splitargsAux .inq 0 rest [] vector
    else if b = 39 then splitargsAux .insq 0 rest [] vector
    else splitargsAux .plain 0 rest [b] vector
  | .plain, 0, b :: rest, current, vector =>
    if b = 32 ∨ b = 10 ∨ b = 13 ∨ b = 9 then splitargsAux .blank 0 rest [] (vector ++ [current])
    else if b = 34 then splitargsAux .inq 0 rest current vector
    else if b = 39 then splitargsAux .insq 0 rest current vector
    else splitargsAux .plain 0 rest (current ++ [b]) vector
  | .inq, 0, b :: rest, current, vector =>
    if b = 92 ∧ rest.getD 0 0 = 120 ∧ is_hex_digit (rest.getD 1 0) = true
        ∧ is_hex_digit (rest.getD 2 0) = true then
      splitargsAux .inq 3 rest
        (current ++ [hex_digit_to_int (rest.getD 1 0) * 16 + hex_digit_to_int (rest.getD 2 0)]) vector
    else if b = 92 ∧ rest ≠ [] then
      splitargsAux .inq 1 rest (current ++ [escapeChar (rest.getD 0 0)]) vector
    else if b = 34 then
      (if rest ≠ [] ∧ isspace (rest.getD 0 0) = false then none
       else splitargsAux .blank 0 rest [] (vector ++ [current]))
    else splitargsAux .inq 0 rest (current ++ [b]) vector
  | .insq, 0, b :: rest, current, vector =>
    if b = 92 ∧ rest.getD 0 0 = 39 then splitargsAux .insq 1 rest (current ++ [39]) vector
    else if b = 39 then
      (if rest ≠ [] ∧ isspace (rest.getD 0 0) = false then none
       else splitargsAux .blank 0 rest [] (vector ++ [current]))
    else splitargsAux .insq 0 rest (current ++ [b]) vector

/-- Modelled from the spec: `sdssplitargs` of `sds.c` (not under `src/`), the
shell-style line splitter: tokens are separated by blanks, a token may hold
parts in double quotes (with backslash and `\xHH` escapes) or in single
quotes (with `\'`), and malformed quoting is an error (`none`).  The line is
read as a C string, up to its first NUL byte. -/
def sdssplitargs (line : List Nat) : Option (List (List Nat)) :=
  splitargsAux .blank 0 (line.takeWhile (· ≠ 0)) [] []

/-- Decimal digits of a natural number, most significant first
(`fuel` bounds the number of digits). -/
def decimalFuel : Nat → Nat → List Nat
  | 0, _ => []
  | fuel + 1, n => if n < 10 then [48 + n] else decimalFuel fuel (n / 10) ++ [48 + n % 10]

/-- The decimal text of a natural number, as a client writes a count or a length. -/
def decimal (n : Nat) : List Nat := decimalFuel (n + 1) n

/-- The decimal text of an integer: a minus sign before the digits of a negative one. -/
def decimalInt (z : Int) : List Nat :=
  if z < 0 then 45 :: decimal z.natAbs else decimal z.toNat


/-! ## Commands and clients (`server.h`, `server.c`) -/

/-- The handlers named by `redisCommandTable`. -/
inductive redisCommandProc where
  | getCommand
  | setCommand
  | commandCommand
  deriving DecidableEq, Repr

/-- The fields of `struct redisCommand` that the table initialises. -/
structure redisCommand where
  name : List Nat
  proc : redisCommandProc
  arity : Int
  sflags : List Nat
  deriving DecidableEq, Repr

/-- The table `redisCommandTable`: `get`, `set`, `command`. -/
def redisCommandTable : List redisCommand :=
  [ { name := [103, 101, 116], proc := .getCommand, arity := 2, sflags := [114, 70] },
    { name := [115, 101, 116], proc := .setCommand, arity := -3, sflags := [119, 109] },
    { name := [99, 111, 109, 109, 97, 110, 100], proc := .commandCommand, arity := 0,
      sflags := [108, 116] } ]

/-- The decoding and dispatch fields of `struct client`.  `argv` is `none`
for the NULL pointer, otherwise the allocated array, one entry per slot,
`none` for a slot that was never written. -/
structure client where
  querybuf : List Nat
  querybuf_peak : Nat
  argc : Int
  argv : Option (List (Option robj))
  cmd : Option redisCommand
  lastcmd : Option redisCommand
  reqtype : Int
  multibulklen : Int
  bulklen : Int
  deriving DecidableEq, Repr

/-- The client that `createClient` returns. -/
def createClient : client :=
  { querybuf := [], querybuf_peak := 0, argc := 0, argv := none, cmd := none, lastcmd := none,
    reqtype := 0, multibulklen := 0, bulklen := -1 }

/-- `tolower` in the C locale. -/
def tolower (b : Nat) : Nat := if 65 ≤ b ∧ b ≤ 90 then b + 32 else b

/-- Modelled from the spec: the command dictionary of `dict.c` (not under
`src/`) with the case-insensitive key type `commandTableDictType`, filled by
`populateCommandTable` from `redisCommandTable`: the lookup of a name returns
the descriptor whose name equals it up to the case of letters, or nothing. -/
def lookupCommand (name : List Nat) : Option redisCommand :=
  redisCommandTable.find? (fun cmd => cmd.name.map tolower = name.map tolower)

/-- The handlers whose bodies are not in the repository's sources. -/
structure Handlers where
  getCommand : client → client
  setCommand : client → client

/-- `commandCommand`: creates and releases an iterator; the client is untouched. -/
def commandCommand (c : client) : client := c

/-- `c->cmd->proc(c)`. -/
def runProc (H : Handlers) : redisCommandProc → client → client
  | .getCommand, c => H.getCommand c
  | .setCommand, c => H.setCommand c
  | .commandCommand, c => commandCommand c

/-- `call`: reads `c->cmd->name`, then runs the handler. -/
def call (H : Handlers) (c : client) : Except Fault client :=
  match c.cmd with
  | none => .error .nullDeref
  | some cmd => .ok (runProc H cmd.proc c)

/-- The read `c->argv[0]->ptr`. -/
def argv0 (c : client) : Except Fault robj :=
  match c.argv with
  | none => .error .nullDeref
  | some slots =>
    match slots.head? with
    | none => .error .outOfBounds
    | some none => .error .uninitRead
    | some (some o) => .ok o

/-- `processCommand`. -/
def processCommand (H : Handlers) (c : client) : Except Fault (Int × client) :=
  match argv0 c with
  | .error e => .error e
  | .ok o =>
    let cmd := lookupCommand o.ptr
    match call H { c with cmd := cmd, lastcmd := cmd } with
    | .error e => .error e
    | .ok c1 => .ok (C_OK, c1)

/-! ## The decoder (`networking.c`) -/

/-- The store `c->argv[c->argc] = o` followed by `c->argc++`. -/
def argvStore (c : client) (o : robj) : Except Fault client :=
  match c.argv with
  | none => .error .nullDeref
  | some slots =>
    if 0 ≤ c.argc ∧ c.argc < slots.length then
      .ok { c with argv := some (slots.set c.argc.toNat (some o)), argc := c.argc + 1 }
    else .error .argvOverflow

/-- The loop of `processInlineBuffer` over the tokens: an object for every
token that is not empty. -/
def inlineArgs : List (List Nat) → client → Except Fault client
  | [], c => .ok c
  | a :: rest, c =>
    if a.length ≠ 0 then
      match argvStore c (createObject OBJ_STRING a) with
      | .error e => .error e
      | .ok c1 => inlineArgs rest c1
    else inlineArgs rest c

/-- `processInlineBuffer`. -/
def processInlineBuffer (c : client) : Except Fault (Int × client) :=
  match strchr c.querybuf 10 with
  | none => .ok (C_ERR, c)
  | some nl =>
    let newline := if nl ≠ 0 ∧ c.querybuf.getD (nl - 1) 0 = 13 then nl - 1 else nl
    let querylen := newline
    let aux := c.querybuf.take querylen
    match sdssplitargs aux with
    | none => .ok (C_ERR, c)
    | some argv =>
      let c1 := { c with querybuf := sdsrange c.querybuf (toInt32 ((querylen : Int) + 2)) (-1) }
      let c2 := if argv.length ≠ 0 then { c1 with argv := some (List.replicate argv.length none) }
        else c1
      match inlineArgs argv { c2 with argc := 0 } with
      | .error e => .error e
      | .ok c3 => .ok (C_OK, c3)

/-- How a part of `processMultibulkBuffer` ends: by `return`, by `break` out
of the argument loop, or by going on, the last two with the cursor `pos`. -/
inductive BulkStep where
  | ret (r : Int) (c : client)
  | brk (c : client) (pos : Int)
  | go (c : client) (pos : Int)
  deriving DecidableEq, Repr

/-- The header phase of `processMultibulkBuffer` (`if (c->multibulklen == 0)`). -/
def processMultibulkHeader (c : client) : BulkStep :=
  if c.multibulklen = 0 then
    match strchr c.querybuf 13 with
    | none => .ret C_ERR c
    | some nl =>
      if (nl : Int) > toInt32 c.querybuf.length - 2 then .ret C_ERR c
      else
        match string2ll ((c.querybuf.drop 1).take (nl - 1)) with
        | none => .ret C_ERR c
        | some ll =>
          if ll > 1024 * 1024 then .ret C_ERR c
          else
            let pos := toInt32 ((nl : Int) + 2)
            if ll ≤ 0 then .ret C_OK { c with querybuf := sdsrange c.querybuf pos (-1) }
            else .go { c with multibulklen := toInt32 ll,
                              argv := some (List.replicate (toInt32 ll).toNat none) } pos
  else .go c 0

/-- The first half of the loop body (`if (c->bulklen == -1)`): reads the
`$<len>` line at the cursor. -/
def readBulkLength (c : client) (pos : Int) : Except Fault BulkStep :=
  if c.bulklen = -1 then
    if pos < 0 ∨ pos > c.querybuf.length then .error .outOfBounds
    else
      match strchr (c.querybuf.drop pos.toNat) 13 with
      | none =>
        if c.querybuf.length > PROTO_INLINE_MAX_SIZE then .ok (.ret C_ERR c)
        else .ok (.brk c pos)
      | some off =>
        if pos + (off : Int) > toInt32 c.querybuf.length - 2 then .ok (.brk c pos)
        else if c.querybuf.getD pos.toNat 0 ≠ 36 then .ok (.ret C_ERR c)
        else
          match string2ll ((c.querybuf.drop (pos.toNat + 1)).take (off - 1)) with
          | none => .ok (.ret C_ERR c)
          | some ll =>
            if ll < 0 ∨ ll > 512 * 1024 * 1024 then .ok (.ret C_ERR c)
            else
              let pos1 := toInt32 (pos + ((off : Int) + 2))
              if ll ≥ PROTO_MBULK_BIG_ARG then
                .ok (.go { c with querybuf := sdsrange c.querybuf pos1 (-1), bulklen := ll } 0)
              else .ok (.go { c with bulklen := ll } pos1)
  else .ok (.go c pos)

/-- The second half of the loop body: reads the argument when the buffer
holds it with its CRLF (`none` is the `break` for lack of data). -/
def readBulkArgument (c : client) (pos : Int) : Except Fault (Option (client × Int)) :=
  let len : Int := c.querybuf.length
  if toSizeT (len - pos) < toUInt32 (c.bulklen + 2) then .ok none
  else if pos = 0 ∧ c.bulklen ≥ PROTO_MBULK_BIG_ARG ∧ toInt32 len = c.bulklen + 2 then
    match argvStore c (createObject OBJ_STRING (c.querybuf.take (c.querybuf.length - 2))) with
    | .error e => .error e
    | .ok c1 =>
      .ok (some ({ c1 with querybuf := [], bulklen := -1, multibulklen := c1.multibulklen - 1 }, 0))
  else if c.bulklen < 0 then .error .badLength
  else if pos < 0 ∨ pos + c.bulklen > len then .error .outOfBounds
  else
    match argvStore c (createStringObject (c.querybuf.drop pos.toNat) c.bulklen.toNat) with
    | .error e => .error e
    | .ok c1 =>
      .ok (some ({ c1 with bulklen := -1, multibulklen := c1.multibulklen - 1 },
                 toInt32 (pos + (c.bulklen + 2))))

/-- The loop `while(c->multibulklen)`, at most `fuel` iterations. -/
def processMultibulkLoop : Nat → client → Int → Except Fault BulkStep
  | 0, _, _ => .error .fuel
  | fuel + 1, c, pos =>
    if c.multibulklen = 0 then .ok (.go c pos)
    else
      match readBulkLength c pos with
      | .error e => .error e
      | .ok (.ret r c1) => .ok (.ret r c1)
      | .ok (.brk c1 pos1) => .ok (.brk c1 pos1)
      | .ok (.go c1 pos1) =>
        match readBulkArgument c1 pos1 with
        | .error e => .error e
        | .ok none => .ok (.brk c1 pos1)
        | .ok (some (c2, pos2)) => processMultibulkLoop fuel c2 pos2

/-- The end of `processMultibulkBuffer`: trim to the cursor, then `C_OK` when
no argument remains. -/
def multibulkFinish (c : client) (pos : Int) : Int × client :=
  let c1 := if pos ≠ 0 then { c with querybuf := sdsrange c.querybuf pos (-1) } else c
  if c1.multibulklen = 0 then (C_OK, c1) else (C_ERR, c1)

/-- `processMultibulkBuffer`.  Every iteration of the loop that does not
leave it moves the cursor forward by two bytes or more, or empties the
buffer, so `sdslen + 2` iterations are enough. -/
def processMultibulkBuffer (c : client) : Except Fault (Int × client) :=
  match processMultibulkHeader c with
  | .ret r c1 => .ok (r, c1)
  | .brk c1 pos => .ok (multibulkFinish c1 pos)
  | .go c1 pos =>
    match processMultibulkLoop (c1.querybuf.length + 2) c1 pos with
    | .error e => .error e
    | .ok (.ret r c2) => .ok (r, c2)
    | .ok (.brk c2 pos2) => .ok (multibulkFinish c2 pos2)
    | .ok (.go c2 pos2) => .ok (multibulkFinish c2 pos2)

/-- `resetClient`: the body is empty. -/
def resetClient (c : client) : client := c

/-- The argument count and vector with which `processCommand` was entered. -/
structure Dispatch where
  argc : Int
  argv : Option (List (Option robj))
  deriving DecidableEq, Repr

/-- The loop of `processInputBuffer`, at most `fuel` iterations; the second
component of the state lists the calls of `processCommand` so far. -/
def processInputBufferLoop (H : Handlers) :
    Nat → client → List Dispatch → Except Fault (client × List Dispatch)
  | 0, c, log => if c.querybuf.length = 0 then .ok (c, log) else .error .fuel
  | fuel + 1, c, log =>
    if c.querybuf.length = 0 then .ok (c, log)
    else
      let c1 :=
        if c.reqtype = 0 then
          (if c.querybuf.getD 0 0 = 42 then { c with reqtype := PROTO_REQ_MULTIBULK }
           else { c with reqtype := PROTO_REQ_INLINE })
        else c
      let parsed : Except Fault (Int × client) :=
        if c1.reqtype = PROTO_REQ_INLINE then processInlineBuffer c1
        else if c1.reqtype = PROTO_REQ_MULTIBULK then processMultibulkBuffer c1
        else .ok (C_OK, c1)
      match parsed with
      | .error e => .error e
      | .ok (r, c2) =>
        if r ≠ C_OK then .ok (c2, log)
        else
          match argv0 c2 with
          | .error e => .error e
          | .ok _ =>
            if c2.argc = 0 then processInputBufferLoop H fuel (resetClient c2) log
            else
              match processCommand H c2 with
              | .error e => .error e
              | .ok (rc, c3) =>
                processInputBufferLoop H fuel (if rc = C_OK then resetClient c3 else c3)
                  (log ++ [{ argc := c2.argc, argv := c2.argv }])

/-- `processInputBuffer`.  A parse that returns `C_OK` removes one byte or
more from the buffer, so `sdslen + 1` iterations are enough when the
handlers leave the buffer alone. -/
def processInputBuffer (H : Handlers) (c : client) : Except Fault (client × List Dispatch) :=
  processInputBufferLoop H (c.querybuf.length + 1) c []

/-- `readQueryFromClient` with the bytes `data` that `read` delivered: the
peak is updated, and when `read` delivered nothing (end of file, or an error)
the function returns; otherwise the bytes are appended and the decode loop
runs. -/
def readQueryFromClient (H : Handlers) (c : client) (data : List Nat) :
    Except Fault (client × List Dispatch) :=
  let c1 := if c.querybuf_peak < c.querybuf.length then
    { c with querybuf_peak := c.querybuf.length } else c
  if data.length = 0 then .ok (c1, [])
  else processInputBuffer H { c1 with querybuf := c1.querybuf ++ data }

/-- Handlers that leave the client as it is. -/
def idleHandlers : Handlers := { getCommand := fun c => c, setCommand := fun c => c }

/-- The bytes of `*2\r\n$3\r\nGET\r\n$3\r\nfoo\r\n`. -/
def getFoo : List Nat :=
  [42, 50, 13, 10, 36, 51, 13, 10, 71, 69, 84, 13, 10, 36, 51, 13, 10, 102, 111, 111, 13, 10]

/-- The bytes of `*1\r\n$7\r\ncommand\r\n`. -/
def commandCmd : List Nat :=
  [42, 49, 13, 10, 36, 55, 13, 10, 99, 111, 109, 109, 97, 110, 100, 13, 10]

/-- The bytes of `*0\r\n`. -/
def emptyCmd : List Nat := [42, 48, 13, 10]

/-- The bytes of `PING`. -/
def pingName : List Nat := [80, 73, 78, 71]

/-- What a test observes of a run of the decode loop: request type, `argc`,
`multibulklen`, `bulklen`, the bytes left in the buffer, and the argument
counts of the commands handed to `processCommand`, in order. -/
structure Observation where
  reqtype : Int
  argc : Int
  multibulklen : Int
  bulklen : Int
  querybuf : List Nat
  dispatched : List Int
  deriving DecidableEq, Repr

/-- The observation of the result of a run. -/
def observe (r : Except Fault (client × List Dispatch)) : Except Fault Observation :=
  r.map (fun p =>
    { reqtype := p.1.reqtype, argc := p.1.argc, multibulklen := p.1.multibulklen,
      bulklen := p.1.bulklen, querybuf := p.1.querybuf,
      dispatched := p.2.map (fun d => d.argc) })

/-- The wire form of one bulk string: `$<len>\r\n<bytes>\r\n`. -/
def bulk (a : List Nat) : List Nat := 36 :: (decimal a.length ++ (13 :: 10 :: (a ++ [13, 10])))

/-- The wire form of a sequence of bulk strings. -/
def bulks : List (List Nat) → List Nat
  | [] => []
  | a :: rest => bulk a ++ bulks rest

/-- The wire form of a multibulk command: `*<N>\r\n` and the `N` bulk strings. -/
def multibulk (args : List (List Nat)) : List Nat :=
  42 :: (decimal args.length ++ (13 :: 10 :: bulks args))

/-- The bytes of `command`. -/
def commandName : List Nat := [99, 111, 109, 109, 97, 110, 100]

/-- A client as `createClient` returns it, with buffer `buf`. -/
def freshWith (buf : List Nat) : client := { createClient with querybuf := buf }

/-- Feeding a client the chunks that successive reads deliver: one
`readQueryFromClient` (append, then the decode loop) per chunk.  The second
component lists the calls of `processCommand` of all the runs. -/
def feedChunks (H : Handlers) :
    List (List Nat) → client → List Dispatch → Except Fault (client × List Dispatch)
  | [], c, log => .ok (c, log)
  | d :: ds, c, log =>
    match readQueryFromClient H c d with
    | .error e => .error e
    | .ok (c1, l1) => feedChunks H ds c1 (log ++ l1)

/-- An argument of 70,000 bytes, all `A`. -/
def bigArg : List Nat := List.replicate 70000 65

/-- The command `command <z> b` in multibulk form. -/
def bigCommand (z : List Nat) : List Nat := multibulk [commandName, z, [98]]

/-- The bytes of `bigCommand z` up to the `$` of its last length line. -/
def bigCommandHead (z : List Nat) : List Nat :=
  42 :: 51 :: 13 :: 10 :: (bulk commandName ++ (bulk z ++ [36]))

/-- The rest of `bigCommand z`: `1\r\nb\r\n`. -/
def bigCommandTail : List Nat := [49, 13, 10, 98, 13, 10]

/-- An argument of the largest length the grammar admits: 512 MiB of `A`. -/
def maxArg : List Nat := List.replicate 536870912 65

/-- A byte that stands for itself in an unquoted token of an inline line:
not NUL, not a blank (space, TAB, LF, VT, FF, CR), not a quote. -/
def plainByte (b : Nat) : Prop := b ≠ 0 ∧ b ≠ 32 ∧ ¬ (9 ≤ b ∧ b ≤ 13) ∧ b ≠ 34 ∧ b ≠ 39

instance instDecidablePlainByte (b : Nat) : Decidable (plainByte b) := by
  unfold plainByte; infer_instance

/-- A non-empty unquoted token. -/
def unquotedToken (t : List Nat) : Prop := t ≠ [] ∧ ∀ b ∈ t, plainByte b

instance instDecidableUnquotedToken (t : List Nat) : Decidable (unquotedToken t) := by
  unfold unquotedToken; infer_instance

/-- The tokens of an inline line, separated by single spaces. -/
def inlineLine : List (List Nat) → List Nat
  | [] => []
  | [t] => t
  | t :: t2 :: ts => t ++ 32 :: inlineLine (t2 :: ts)

/-- A byte string without the byte `ch` and without NUL. -/
def cleanOf (ch : Nat) (p : List Nat) : Prop := ∀ b ∈ p, b ≠ ch ∧ b ≠ 0

instance instDecidableCleanOf (ch : Nat) (p : List Nat) : Decidable (cleanOf ch p) := by
  unfold cleanOf; infer_instance

/-! ## Reference counts, values in `argv`, rejections -/

/-- One call on the reference count of an object. -/
inductive RefOp where
  | incr
  | decr
  deriving DecidableEq, Repr

/-- A sequence of `incrRefCount` and `decrRefCount` calls on one object, in
order; `none` as soon as a call has freed the object. -/
def applyRefOps : List RefOp → robj → Option robj
  | [], o => some o
  | .incr :: ops, o => applyRefOps ops (incrRefCount o)
  | .decr :: ops, o =>
    match decrRefCount o with
    | none => none
    | some o1 => applyRefOps ops o1

/-- Every object stored in the argument vector of the client satisfies `P`. -/
def argvAll (P : robj → Prop) (c : client) : Prop :=
  ∀ slots, c.argv = some slots → ∀ o, some o ∈ slots → P o

/-- The encoding of the object follows from the length of its payload:
EMBSTR up to 44 bytes, RAW above. -/
def lengthEncoded (o : robj) : Prop :=
  (o.ptr.length ≤ 44 → o.encoding = OBJ_ENCODING_EMBSTR) ∧
  (44 < o.ptr.length → o.encoding = OBJ_ENCODING_RAW)

instance instDecidableLengthEncoded (o : robj) : Decidable (lengthEncoded o) := by
  unfold lengthEncoded; infer_instance

/-- The client with which a part of `processMultibulkBuffer` ends. -/
def stepClient : BulkStep → client
  | .ret _ c => c
  | .brk c _ => c
  | .go c _ => c

/-- An argument of 40,000 bytes, all `A`. -/
def zeroCopyArg : List Nat := List.replicate 40000 65

/-- `processInlineBuffer` leaves by its second `return C_ERR`: a line is in
the buffer and `sdssplitargs` refuses it (malformed quoting). -/
def inlineRejects (c : client) : Bool :=
  match strchr c.querybuf 10 with
  | none => false
  | some nl =>
    (sdssplitargs (c.querybuf.take
      (if nl ≠ 0 ∧ c.querybuf.getD (nl - 1) 0 = 13 then nl - 1 else nl))).isNone

/-- The header phase of `processMultibulkBuffer` leaves by its third
`return C_ERR`: the count line is complete and its count is not an integer or
exceeds 1024*1024.  (The first two `return C_ERR` are taken when the CR or
the byte after it has not arrived.) -/
def headerRejects (c : client) : Bool :=
  decide (c.multibulklen = 0) &&
  match strchr c.querybuf 13 with
  | none => false
  | some nl =>
    if (nl : Int) > toInt32 c.querybuf.length - 2 then false
    else
      match string2ll ((c.querybuf.drop 1).take (nl - 1)) with
      | none => true
      | some ll => decide (ll > 1024 * 1024)

/-- `processMultibulkBuffer` leaves by one of its rejecting returns: the one
of the header phase, or a `return C_ERR` inside the argument loop (no CR for
a length line in a buffer of more than 64 KiB, a line that does not start
with `$`, a length that is not an integer or lies outside 0..512 MiB). -/
def multibulkRejects (c : client) : Bool :=
  headerRejects c ||
  match processMultibulkHeader c with
  | .go c1 pos =>
    (match processMultibulkLoop (c1.querybuf.length + 2) c1 pos with
     | .ok (.ret _ _) => true
     | _ => false)
  | _ => false

/-- The bytes of `*x\r\n`: a count that is not an integer. -/
def badCount : List Nat := [42, 120, 13, 10]

/-- The bytes of `*1\r`: a count line whose line feed has not arrived. -/
def partialCount : List Nat := [42, 49, 13]

/-- The bytes of `"a\r\n`: an inline line with an unbalanced quote. -/
def badQuote : List Nat := [34, 97, 13, 10]

/-- The bytes of `a`: an inline line whose end has not arrived. -/
def partialLine : List Nat := [97]

/-- The bytes of `*2\r\n$3\r\nGET\r\n$3\r\nfo`: `getFoo` without its last three bytes. -/
def partialGetFoo : List Nat :=
  [42, 50, 13, 10, 36, 51, 13, 10, 71, 69, 84, 13, 10, 36, 51, 13, 10, 102, 111]

/-! ## One byte at a time -/

/-- The client on which the decode loop runs after `readQueryFromClient` has
read the one byte `b`: the peak is updated and the byte appended. -/
def appendByte (c : client) (b : Nat) : client :=
  { c with querybuf := c.querybuf ++ [b],
           querybuf_peak := if c.querybuf_peak < c.querybuf.length then c.querybuf.length
             else c.querybuf_peak }

/-- The block `if (!c->reqtype)` of `processInputBuffer`: the request type
is taken from the first byte of the buffer when it is not set. -/
def withReqtype (c : client) : client :=
  if c.reqtype = 0 then
    (if c.querybuf.getD 0 0 = 42 then { c with reqtype := PROTO_REQ_MULTIBULK }
     else { c with reqtype := PROTO_REQ_INLINE })
  else c

/-- The parse that `processInputBuffer` runs for the request type. -/
def parseRequest (c : client) : Except Fault (Int × client) :=
  if c.reqtype = PROTO_REQ_INLINE then processInlineBuffer c
  else if c.reqtype = PROTO_REQ_MULTIBULK then processMultibulkBuffer c
  else .ok (C_OK, c)

/-- The parse that `processInputBuffer` runs for the request type leaves by a
rejecting return. -/
def parseRejects (c : client) : Bool :=
  if c.reqtype = PROTO_REQ_INLINE then inlineRejects c
  else if c.reqtype = PROTO_REQ_MULTIBULK then multibulkRejects c
  else false

/-- The client on which `processMultibulkBuffer` runs after the byte `b` of a
multibulk request has been read. -/
def appendMultibulk (c : client) (b : Nat) : client :=
  { appendByte c b with reqtype := PROTO_REQ_MULTIBULK }

/-- The client on which `processInlineBuffer` runs after the byte `b` of an
inline request has been read. -/
def appendInline (c : client) (b : Nat) : client :=
  { appendByte c b with reqtype := PROTO_REQ_INLINE }

/-- The tokens for which `processInlineBuffer` creates an object: those with
`sdslen(argv[j])` not zero. -/
def nonEmptyTokens (toks : List (List Nat)) : List (List Nat) :=
  toks.filter (fun t => decide (t.length ≠ 0))

/-- Where the byte-by-byte decoding of the inline request `bytes` stands, for
a client and the bytes `rem` that it has not been given yet: the buffer holds
the bytes given so far. -/
def PendingInline (bytes : List Nat) (c : client) (rem : List Nat) : Prop :=
  (c.reqtype = PROTO_REQ_INLINE ∨ (c.reqtype = 0 ∧ c.querybuf = [])) ∧
  c.querybuf ++ rem = bytes

/-- One well-formed command in wire form, with the byte strings of its
arguments.  Multibulk: `*<N>\r\n` and `N` bulk strings, `N` from 1 to
1,048,576, each of at most 512 MiB.  Inline: a line of at most 64 KiB
without NUL and LF that does not start with `*`, accepted by the line
splitter with one non-empty token or more, ended by `\r\n` or (when the line
does not end in CR) by `\n`. -/
inductive WellFormedCommand : List Nat → List (List Nat) → Prop where
  | multibulk (args : List (List Nat)) (h1 : 1 ≤ args.length) (h2 : args.length ≤ 1048576)
      (h3 : ∀ a ∈ args, a.length ≤ 536870912) : WellFormedCommand (multibulk args) args
  | inline (line term : List Nat) (toks : List (List Nat))
      (hterm : term = [13, 10] ∨ (term = [10] ∧ line.getLast? ≠ some 13))
      (hstar : line.head? ≠ some 42) (hclean : ∀ b ∈ line, b ≠ 0 ∧ b ≠ 10)
      (hlen : line.length ≤ 65536)
      (hs : sdssplitargs line = some toks) (hne : nonEmptyTokens toks ≠ []) :
      WellFormedCommand (line ++ term) (nonEmptyTokens toks)

/-- Feeding a client its input one byte at a time: one `readQueryFromClient`
(append the byte, run the decode loop) per byte. -/
def feedBytes (H : Handlers) (bytes : List Nat) (c : client) :
    Except Fault (client × List Dispatch) :=
  feedChunks H (bytes.map (fun b => [b])) c []

/-- The payloads of a list of `argv` slots, `none` when a slot was never written. -/
def payloads : List (Option robj) → Option (List (List Nat))
  | [] => some []
  | none :: _ => none
  | some o :: rest => (payloads rest).map (fun l => o.ptr :: l)

/-- The argument vector of the client as byte strings: the payloads of the
first `argc` slots of `argv`. -/
def argvBytes (c : client) : Option (List (List Nat)) :=
  match c.argv with
  | none => none
  | some slots => payloads (slots.take c.argc.toNat)

/-- Where the byte-by-byte decoding of the multibulk command with arguments
`args` stands, for a client and the bytes `rem` of the command that it has not
been given yet: inside the count line, inside the length line of an argument,
or inside the payload of an argument (with its CRLF).  The buffer holds the
part of the line or payload given so far; `done` are the arguments already
stored. -/
inductive Pending (args : List (List Nat)) : client → List Nat → Prop where
  | header (c : client) (rem : List Nat)
      (ht : c.reqtype = PROTO_REQ_MULTIBULK ∨ (c.reqtype = 0 ∧ c.querybuf = []))
      (hm : c.multibulklen = 0) (hb : c.bulklen = -1) (hk : c.argc = 0)
      (hq : c.querybuf ++ rem = multibulk args)
      (hl : c.querybuf.length < (decimal args.length).length + 3) : Pending args c rem
  | lengthLine (c : client) (rem : List Nat) (done : List (List Nat)) (a : List Nat)
      (todo : List (List Nat))
      (ha : args = done ++ a :: todo)
      (ht : c.reqtype = PROTO_REQ_MULTIBULK)
      (hm : c.multibulklen = ((todo.length + 1 : Nat) : Int)) (hb : c.bulklen = -1)
      (hk : c.argc = (done.length : Int))
      (hv : c.argv = some ((done.map (fun x => createStringObject x x.length)).map some ++
        List.replicate (todo.length + 1) none))
      (hq : c.querybuf ++ rem = bulks (a :: todo))
      (hl : c.querybuf.length < (decimal a.length).length + 3) : Pending args c rem
  | payload (c : client) (rem : List Nat) (done : List (List Nat)) (a : List Nat)
      (todo : List (List Nat))
      (ha : args = done ++ a :: todo)
      (ht : c.reqtype = PROTO_REQ_MULTIBULK)
      (hm : c.multibulklen = ((todo.length + 1 : Nat) : Int)) (hb : c.bulklen = (a.length : Int))
      (hk : c.argc = (done.length : Int))
      (hv : c.argv = some ((done.map (fun x => createStringObject x x.length)).map some ++
        List.replicate (todo.length + 1) none))
      (hq : c.querybuf ++ rem = a ++ 13 :: 10 :: bulks todo)
      (hl : c.querybuf.length < a.length + 2) : Pending args c rem

/-! ## Sample inputs -/

/-- The bytes of the inline command `command\r\n`. -/
def inlineCommand : List Nat := commandName ++ [13, 10]

/-- A base-10 integer in the strict sense: an optional minus sign, then one
decimal digit or more, and nothing else. -/
def isBase10 (txt : List Nat) : Prop :=
  (if txt.head? = some 45 then txt.tail else txt) ≠ [] ∧
  ∀ b ∈ (if txt.head? = some 45 then txt.tail else txt), 48 ≤ b ∧ b ≤ 57

instance instDecidableIsBase10 (txt : List Nat) : Decidable (isBase10 txt) := by
  unfold isBase10; infer_instance

/-- A sequence of 2 GiB of bytes, all `A`. -/
def hugeTail : List Nat := List.replicate 2147483648 65

/-- A count of 70,000 digits, all `1`. -/
def bigCount : List Nat := List.replicate 70000 49

/-- The bytes of `a "" b`: an inline line whose second token is empty. -/
def lineWithEmptyToken : List Nat := [97, 32, 34, 34, 32, 98]

/-! ## Invariants of the decoder -/

/-- The cursor lies inside the buffer: `0 <= pos <= sdslen(querybuf)`. -/
def inBounds (c : client) (pos : Int) : Prop := 0 ≤ pos ∧ pos ≤ c.querybuf.length

instance instDecidableInBounds (c : client) (pos : Int) : Decidable (inBounds c pos) := by
  unfold inBounds; infer_instance

/-- The ranges of the two resumable fields of the multibulk decoder. -/
def DecoderInv (c : client) : Prop :=
  0 ≤ c.multibulklen ∧ c.multibulklen ≤ 1048576 ∧
  (c.bulklen = -1 ∨ (0 ≤ c.bulklen ∧ c.bulklen ≤ 536870912)) ∧
  (c.bulklen ≠ -1 → 0 < c.multibulklen)

instance instDecidableDecoderInv (c : client) : Decidable (DecoderInv c) := by
  unfold DecoderInv; infer_instance

/-- The clients reached from the client that `createClient` returns by
appending bytes to the buffer and by calls of `processMultibulkBuffer` that
return. -/
inductive Reachable : client → Prop
  | fresh : Reachable createClient
  | append (c : client) (data : List Nat) :
      Reachable c → Reachable { c with querybuf := c.querybuf ++ data }
  | call (c : client) (r : Int) (c1 : client) :
      Reachable c → processMultibulkBuffer c = .ok (r, c1) → Reachable c1

/-- The clients reached from `c` by appending bytes to the buffer and by calls
of `processMultibulkBuffer` made in the argument phase (`multibulklen` not 0
on entry): the calls that work on the command that `c` is in the middle of. -/
inductive SameCommand (c : client) : client → Prop
  | refl : SameCommand c c
  | append (c1 : client) (data : List Nat) :
      SameCommand c c1 → SameCommand c { c1 with querybuf := c1.querybuf ++ data }
  | call (c1 : client) (r : Int) (c2 : client) :
      SameCommand c c1 → c1.multibulklen ≠ 0 → processMultibulkBuffer c1 = .ok (r, c2) →
      SameCommand c c2

/-- The client and cursor at the head of an iteration of the argument
loop that started with client `c` and cursor `pos`. -/
inductive LoopReach (c : client) (pos : Int) : client → Int → Prop
  | start : LoopReach c pos c pos
  | step (c1 : client) (p1 : Int) (c2 : client) (p2 : Int) (c3 : client) (p3 : Int) :
      LoopReach c pos c1 p1 → c1.multibulklen ≠ 0 →
      readBulkLength c1 p1 = .ok (.go c2 p2) →
      readBulkArgument c2 p2 = .ok (some (c3, p3)) → LoopReach c pos c3 p3

/-- The handlers leave the buffer and the request type of the client as
they are. -/
def KeepBuffer (H : Handlers) : Prop :=
  ∀ c : client,
    (H.getCommand c).querybuf = c.querybuf ∧ (H.getCommand c).reqtype = c.reqtype ∧
    (H.setCommand c).querybuf = c.querybuf ∧ (H.setCommand c).reqtype = c.reqtype

/-- The request type is one of the three values that the code gives it. -/
def validReqtype (c : client) : Prop :=
  c.reqtype = 0 ∨ c.reqtype = PROTO_REQ_INLINE ∨ c.reqtype = PROTO_REQ_MULTIBULK

instance instDecidableValidReqtype (c : client) : Decidable (validReqtype c) := by
  unfold validReqtype; infer_instance

/-! ## Bytes that the multibulk parser passes over -/

/-- Two unread parts of the buffer that differ at most in bytes that the
argument loop passes over, for the pending length `b` (-1 when the next thing
to read is a length line): the byte after the CR of a line, and the two bytes
after a payload.  A line is the text `pre` up to the first CR of the unread
part (no CR in `pre`); the length `b'` with which the comparison goes on is
the one that `string2ll` reads in it.  A payload is the `b` bytes
at the cursor; `payloadTail` is the payload of which only one of the two
following bytes has arrived. -/
inductive SkipRel : Int → List Nat → List Nat → Prop
  | same (b : Int) (u : List Nat) : SkipRel b u u
  | line (pre rest rest' : List Nat) (x y : Nat) (b' : Int) :
      (∀ b ∈ pre, b ≠ 13) →
      (string2ll (pre.drop 1) = some b' ∨ string2ll (pre.drop 1) = none) →
      SkipRel b' rest rest' →
      SkipRel (-1) (pre ++ 13 :: x :: rest) (pre ++ 13 :: y :: rest')
  | payload (a rest rest' : List Nat) (x y x' y' : Nat) :
      SkipRel (-1) rest rest' →
      SkipRel (a.length : Int) (a ++ x :: y :: rest) (a ++ x' :: y' :: rest')
  | payloadTail (a : List Nat) (x x' : Nat) :
      SkipRel (a.length : Int) (a ++ [x]) (a ++ [x'])

/-- The buffers that differ from the buffer of `c` at most in bytes that a
call of `processMultibulkBuffer` on `c` passes over: in the argument phase,
those of the argument loop from cursor 0; in the header phase, the byte after
the CR of the count line and then those of the argument loop. -/
def SkipBuffers (c : client) (q' : List Nat) : Prop :=
  (c.multibulklen ≠ 0 ∧ SkipRel c.bulklen c.querybuf q') ∨
  (c.multibulklen = 0 ∧
    (q' = c.querybuf ∨
      ∃ pre rest rest' x y, (∀ b ∈ pre, b ≠ 13) ∧ c.querybuf = pre ++ 13 :: x :: rest ∧
        q' = pre ++ 13 :: y :: rest' ∧ SkipRel c.bulklen rest rest'))

/-- What is compared of two calls of `processMultibulkBuffer`: the return
value, `argc`, `argv`, `multibulklen`, `bulklen`, and the number of bytes by
which the buffer has become shorter. -/
structure CallObs where
  ret : Int
  argc : Int
  argv : Option (List (Option robj))
  multibulklen : Int
  bulklen : Int
  consumed : Int
  deriving DecidableEq, Repr

/-- The observation of a call on the client `c`. -/
def callObs (c : client) (res : Except Fault (Int × client)) : Except Fault CallObs :=
  res.map (fun p =>
    { ret := p.1, argc := p.2.argc, argv := p.2.argv, multibulklen := p.2.multibulklen,
      bulklen := p.2.bulklen,
      consumed := (c.querybuf.length : Int) - (p.2.querybuf.length : Int) })

/-- The bytes of `getFoo` with other bytes at the places of its line feeds
and of the CRLF after its payloads: `*2\rX$3\rYGETab$3\rZfoocd`. -/
def getFooSkewed : List Nat :=
  [42, 50, 13, 88, 36, 51, 13, 89, 71, 69, 84, 97, 98, 36, 51, 13, 90, 102, 111, 111, 99, 100]

/-- Two results of a part of `processMultibulkBuffer` that are the same up to
the buffer of the client: the same fault, or the same way out with the same
return value or cursor and the same fields of the client; the two buffers have
the same length, and where the part goes on their unread parts differ at most
in bytes that are passed over. -/
inductive SkipSim : Except Fault BulkStep → Except Fault BulkStep → Prop
  | error (e : Fault) : SkipSim (.error e) (.error e)
  | ret (r : Int) (c : client) (q1 : List Nat) : q1.length = c.querybuf.length →
      SkipSim (.ok (.ret r c)) (.ok (.ret r { c with querybuf := q1 }))
  | brk (c : client) (pos : Int) (q1 : List Nat) : q1.length = c.querybuf.length →
      SkipSim (.ok (.brk c pos)) (.ok (.brk { c with querybuf := q1 } pos))
  | go (c : client) (pos : Int) (q1 : List Nat) : q1.length = c.querybuf.length →
      SkipRel c.bulklen (c.querybuf.drop pos.toNat) (q1.drop pos.toNat) →
      SkipSim (.ok (.go c pos)) (.ok (.go { c with querybuf := q1 } pos))

/-- The same for two results of `readBulkArgument`. -/
inductive ArgSim :
    Except Fault (Option (client × Int)) → Except Fault (Option (client × Int)) → Prop
  | error (e : Fault) : ArgSim (.error e) (.error e)
  | none : ArgSim (.ok none) (.ok none)
  | some (c : client) (pos : Int) (q1 : List Nat) : q1.length = c.querybuf.length →
      SkipRel c.bulklen (c.querybuf.drop pos.toNat) (q1.drop pos.toNat) →
      ArgSim (.ok (some (c, pos))) (.ok (some ({ c with querybuf := q1 }, pos)))

/-- The same for two results of `processMultibulkBuffer`. -/
inductive CallSim : Except Fault (Int × client) → Except Fault (Int × client) → Prop
  | error (e : Fault) : CallSim (.error e) (.error e)
  | ok (r : Int) (c : client) (q1 : List Nat) : q1.length = c.querybuf.length →
      CallSim (.ok (r, c)) (.ok (r, { c with querybuf := q1 }))

/-! ## Integer conversions: no change within range -/

theorem toInt32_of_range (x : Int) (h1 : -2147483648 ≤ x) (h2 : x < 2147483648) :
    toInt32 x = x := by
  unfold toInt32; omega

theorem toUInt32_of_range (x : Int) (h1 : 0 ≤ x) (h2 : x < 4294967296) : toUInt32 x = x := by
  unfold toUInt32; omega

theorem toSizeT_of_range (x : Int) (h1 : 0 ≤ x) (h2 : x < 18446744073709551616) :
    toSizeT x = x := by
  unfold toSizeT; omega

/-! ## Decimal text -/

theorem decimalFuel_fuel (f1 : Nat) : ∀ (f2 n : Nat), n < f1 → n < f2 →
    decimalFuel f1 n = decimalFuel f2 n := by
  induction f1 with
  | zero => intro f2 n h; omega
  | succ f1 ih =>
    intro f2 n h1 h2
    cases f2 with
    | zero => omega
    | succ f2 =>
      unfold decimalFuel
      by_cases h : n < 10
      · simp [h]
      · simp only [h, if_false]
        rw [ih f2 (n / 10) (by omega) (by omega)]

theorem decimal_lt_ten (n : Nat) (h : n < 10) : decimal n = [48 + n] := by
  unfold decimal decimalFuel; simp [h]

theorem decimal_ge_ten (n : Nat) (h : 10 ≤ n) :
    decimal n = decimal (n / 10) ++ [48 + n % 10] := by
  have h1 : ¬ n < 10 := by omega
  conv_lhs => unfold decimal decimalFuel
  simp only [h1, if_false]
  rw [decimalFuel_fuel n (n / 10 + 1) (n / 10) (by omega) (by omega)]
  rfl

theorem decimal_digits (n : Nat) : ∀ b ∈ decimal n, 48 ≤ b ∧ b ≤ 57 := by
  induction n using Nat.strong_induction_on with
  | _ n ih =>
    by_cases h : n < 10
    · rw [decimal_lt_ten n h]; intro b hb; simp at hb; omega
    · rw [decimal_ge_ten n (by omega)]
      intro b hb
      rcases List.mem_append.1 hb with hb | hb
      · exact ih (n / 10) (by omega) b hb
      · simp at hb; omega

theorem string2llDigits_append (l : List Nat) (x : Nat) : ∀ v : Nat,
    string2llDigits (l ++ [x]) v =
      match string2llDigits l v with
      | none => none
      | some w => string2llDigits [x] w := by
  induction l with
  | nil => intro v; simp [string2llDigits]
  | cons d ds ih =>
    intro v
    simp only [List.cons_append, string2llDigits]
    by_cases h1 : 48 ≤ d ∧ d ≤ 57
    · simp only [h1, and_self, if_true]
      by_cases h2 : v > ULLONG_MAX / 10
      · simp [h2]
      · simp only [h2, if_false]
        by_cases h3 : v * 10 > ULLONG_MAX - (d - 48)
        · simp [h3]
        · simp only [h3, if_false]
          exact ih _
    · simp [h1]

/-- The text of a positive number starts with a digit from 1 to 9, and the
digit loop of `string2ll` over the other digits finds the number, unless it
exceeds `ULLONG_MAX`. -/
theorem decimal_pos_shape (n : Nat) (hn : 1 ≤ n) :
    ∃ d ds, decimal n = d :: ds ∧ 49 ≤ d ∧ d ≤ 57 ∧
      string2llDigits ds (d - 48) = if n ≤ ULLONG_MAX then some n else none := by
  induction n using Nat.strong_induction_on with
  | _ n ih =>
    by_cases h : n < 10
    · refine ⟨48 + n, [], decimal_lt_ten n h, by omega, by omega, ?_⟩
      have : n ≤ ULLONG_MAX := by unfold ULLONG_MAX; omega
      simp [string2llDigits, this]
    · obtain ⟨d, ds, hd, h1, h2, h3⟩ := ih (n / 10) (by omega) (by omega)
      refine ⟨d, ds ++ [48 + n % 10], ?_, h1, h2, ?_⟩
      · rw [decimal_ge_ten n (by omega), hd]; rfl
      · rw [string2llDigits_append, h3]
        by_cases h4 : n / 10 ≤ ULLONG_MAX
        · simp only [h4, if_true, string2llDigits]
          have hx : 48 ≤ 48 + n % 10 ∧ 48 + n % 10 ≤ 57 := by omega
          simp only [hx, and_self, if_true, Nat.add_sub_cancel_left]
          unfold ULLONG_MAX at h4 ⊢
          by_cases h5 : n ≤ 18446744073709551615
          · have h6 : ¬ n / 10 > 18446744073709551615 / 10 := by omega
            have h7 : ¬ n / 10 * 10 > 18446744073709551615 - n % 10 := by omega
            have h8 : n / 10 * 10 + n % 10 = n := by omega
            simp [h5, h6, h7, h8]
          · by_cases h6 : n / 10 > 18446744073709551615 / 10
            · simp [h5, h6]
            · have h7 : n / 10 * 10 > 18446744073709551615 - n % 10 := by omega
              simp [h5, h6, h7]
        · have h5 : ¬ n ≤ ULLONG_MAX := by unfold ULLONG_MAX at h4 ⊢; omega
          simp [h4, h5]

/-- `string2ll` reads back the decimal text of a natural number that fits a
`long long`, and refuses the text of a larger one. -/
theorem string2ll_decimal (n : Nat) :
    string2ll (decimal n) = if n ≤ LLONG_MAX then some (n : Int) else none := by
  by_cases h0 : n = 0
  · subst h0; rfl
  · obtain ⟨d, ds, hd, h1, h2, h3⟩ := decimal_pos_shape n (by omega)
    have hne : ¬ (d :: ds = [48]) := by
      intro h; injection h with h _; omega
    have hneg : ¬ (d = 45) := by omega
    unfold string2ll
    rw [hd]
    simp only [List.length_cons, Nat.add_eq_zero, one_ne_zero, and_false, if_false, hne,
      List.head?_cons, Option.some.injEq, hneg, decide_False, Bool.false_eq_true, h1, h2,
      and_self, if_true, h3]
    by_cases h4 : n ≤ LLONG_MAX
    · have h5 : n ≤ ULLONG_MAX := by unfold LLONG_MAX at h4; unfold ULLONG_MAX; omega
      have h6 : ¬ n > LLONG_MAX := by omega
      simp [h4, h5, h6]
    · by_cases h5 : n ≤ ULLONG_MAX
      · have h6 : n > LLONG_MAX := by omega
        simp [h4, h5, h6]
      · simp [h4, h5]

/-- `string2ll` on a minus sign followed by the text of a positive number. -/
theorem string2ll_neg_decimal (m : Nat) (hm : 1 ≤ m) :
    string2ll (45 :: decimal m) = if m ≤ LLONG_MAX + 1 then some (-(m : Int)) else none := by
  obtain ⟨d, ds, hd, h1, h2, h3⟩ := decimal_pos_shape m hm
  unfold string2ll
  rw [hd]
  have hne : ¬ (45 :: d :: ds = [48]) := by
    intro h; injection h with h _; omega
  simp only [List.length_cons, Nat.add_eq_zero, one_ne_zero, and_false, if_false, hne,
    List.head?_cons, decide_True, if_true, List.tail_cons, h1, h2, and_self, h3]
  by_cases h4 : m ≤ LLONG_MAX + 1
  · have h5 : m ≤ ULLONG_MAX := by unfold LLONG_MAX at h4; unfold ULLONG_MAX; omega
    have h6 : ¬ m > LLONG_MAX + 1 := by omega
    simp [h4, h5, h6]
  · by_cases h5 : m ≤ ULLONG_MAX
    · have h6 : m > LLONG_MAX + 1 := by omega
      simp [h4, h5, h6]
    · simp [h4, h5]

/-- `string2ll` on the decimal text of an integer: the integer itself when it
fits a `long long`, a refusal otherwise. -/
theorem string2ll_decimalInt (z : Int) :
    string2ll (decimalInt z) =
      if -((LLONG_MAX : Int) + 1) ≤ z ∧ z ≤ LLONG_MAX then some z else none := by
  unfold decimalInt
  by_cases hz : z < 0
  · simp only [hz, if_true]
    rw [string2ll_neg_decimal z.natAbs (by omega)]
    by_cases h : z.natAbs ≤ LLONG_MAX + 1
    · have h1 : -((LLONG_MAX : Int) + 1) ≤ z ∧ z ≤ LLONG_MAX := by omega
      have h2 : -((z.natAbs : Nat) : Int) = z := by omega
      rw [if_pos h, if_pos h1, h2]
    · have h1 : ¬ (-((LLONG_MAX : Int) + 1) ≤ z ∧ z ≤ LLONG_MAX) := by omega
      rw [if_neg h, if_neg h1]
  · simp only [hz, if_false]
    rw [string2ll_decimal]
    by_cases h : z.toNat ≤ LLONG_MAX
    · have h1 : -((LLONG_MAX : Int) + 1) ≤ z ∧ z ≤ LLONG_MAX := by omega
      have h2 : ((z.toNat : Nat) : Int) = z := by omega
      rw [if_pos h, if_pos h1, h2]
    · have h1 : ¬ (-((LLONG_MAX : Int) + 1) ≤ z ∧ z ≤ LLONG_MAX) := by omega
      rw [if_neg h, if_neg h1]

/-! ## `strchr` and `sdsrange` -/

theorem strchr_clean_append (ch : Nat) (p r : List Nat) (h : cleanOf ch p) :
    strchr (p ++ ch :: r) ch = some p.length := by
  induction p with
  | nil => simp [strchr]
  | cons b bs ih =>
    have hb := h b (List.mem_cons_self b bs)
    have hbs : cleanOf ch bs := fun x hx => h x (List.mem_cons_of_mem b hx)
    simp [strchr, hb.1, hb.2, ih hbs]

theorem strchr_clean (ch : Nat) (p : List Nat) (h : cleanOf ch p) : strchr p ch = none := by
  induction p with
  | nil => simp [strchr]
  | cons b bs ih =>
    have hb := h b (List.mem_cons_self b bs)
    have hbs : cleanOf ch bs := fun x hx => h x (List.mem_cons_of_mem b hx)
    simp [strchr, hb.1, hb.2, ih hbs]

theorem cleanOf_decimal (n : Nat) : cleanOf 13 (decimal n) := by
  intro b hb
  have := decimal_digits n b hb
  omega

theorem cleanOf_cons (ch b : Nat) (p : List Nat) (h1 : b ≠ ch) (h2 : b ≠ 0) (h : cleanOf ch p) :
    cleanOf ch (b :: p) := by
  intro x hx
  rcases List.mem_cons.1 hx with hx | hx
  · subst hx; exact ⟨h1, h2⟩
  · exact h x hx

/-- Below 2 GiB, `sdsrange s n (-1)` removes the first `n` bytes. -/
theorem sdsrange_drop (s : List Nat) (n : Nat) (h : s.length < 2147483648) :
    sdsrange s n (-1) = s.drop n := by
  unfold sdsrange
  by_cases h0 : (s.length : Int) = 0
  · have : s = [] := List.length_eq_zero.1 (by omega)
    subst this; simp
  · have e1 : toInt32 ((s.length : Int) + (-1)) = (s.length : Int) - 1 := by
      rw [toInt32_of_range] <;> omega
    have e2 : toInt32 (s.length : Int) = (s.length : Int) := by
      rw [toInt32_of_range] <;> omega
    have hn : ¬ ((n : Int) < 0) := by omega
    have hm : ((-1 : Int) < 0) := by omega
    have hl : ¬ ((s.length : Int) - 1 < 0) := by omega
    simp only [h0, if_false, hn, hm, if_true, e1, e2, hl]
    by_cases h1 : (n : Int) > (s.length : Int) - 1
    · simp only [h1, if_true, ne_eq, not_true_eq_false, if_false]
      rw [List.drop_of_length_le (by omega)]
    · have h2 : ¬ ((s.length : Int) - 1 - n + 1 = 0) := by omega
      have h3 : ¬ ((n : Int) ≥ s.length) := by omega
      have h4 : ¬ ((s.length : Int) - 1 ≥ s.length) := by omega
      simp only [h1, if_false, ne_eq, h2, not_false_eq_true, if_true, h3, h4, Int.toNat_ofNat]
      rw [List.take_of_length_le]
      simp only [List.length_drop]
      omega

/-! ## The header phase -/

/-- The header phase on a buffer that starts with a complete line
`<b0><txt>\r\n`, below 2 GiB: the outcome is decided by `string2ll txt`. -/
theorem header_eval (c : client) (b0 : Nat) (txt rest : List Nat)
    (hm : c.multibulklen = 0) (hq : c.querybuf = b0 :: (txt ++ 13 :: 10 :: rest))
    (hb : b0 ≠ 13 ∧ b0 ≠ 0) (ht : cleanOf 13 txt) (hlen : c.querybuf.length < 2147483648) :
    processMultibulkHeader c =
      match string2ll txt with
      | none => .ret C_ERR c
      | some ll =>
        if ll > 1024 * 1024 then .ret C_ERR c
        else if ll ≤ 0 then .ret C_OK { c with querybuf := rest }
        else .go { c with multibulklen := ll, argv := some (List.replicate ll.toNat none) }
          ((txt.length : Int) + 3) := by
  have hs : strchr c.querybuf 13 = some (txt.length + 1) := by
    rw [hq]
    have := strchr_clean_append 13 (b0 :: txt) (10 :: rest) (cleanOf_cons 13 b0 txt hb.1 hb.2 ht)
    simpa using this
  have hl : c.querybuf.length = txt.length + 3 + rest.length := by
    rw [hq]; simp; omega
  have e1 : toInt32 (c.querybuf.length : Int) = (c.querybuf.length : Int) := by
    rw [toInt32_of_range] <;> omega
  have e2 : ¬ (((txt.length + 1 : Nat) : Int) > toInt32 (c.querybuf.length : Int) - 2) := by
    rw [e1, hl]; push_cast; omega
  have e3 : (c.querybuf.drop 1).take (txt.length + 1 - 1) = txt := by
    rw [hq]; simp
  have e4 : toInt32 (((txt.length + 1 : Nat) : Int) + 2) = ((txt.length + 3 : Nat) : Int) := by
    rw [toInt32_of_range] <;> push_cast <;> omega
  have e5 : sdsrange c.querybuf ((txt.length + 3 : Nat) : Int) (-1) = rest := by
    rw [sdsrange_drop _ _ hlen, hq]
    have : (b0 :: (txt ++ 13 :: 10 :: rest)) = (b0 :: (txt ++ [13, 10])) ++ rest := by simp
    rw [this]
    exact List.drop_left' (by simp)
  unfold processMultibulkHeader
  simp only [hm, if_true, hs, e2, if_false, e3, e4]
  cases hll : string2ll txt with
  | none => rfl
  | some ll =>
    simp only []
    by_cases h1 : ll > 1024 * 1024
    · simp only [h1, if_true]
    · by_cases h2 : ll ≤ 0
      · simp only [h1, if_false, h2, if_true, e5]
      · have e6 : toInt32 ll = ll := by rw [toInt32_of_range] <;> omega
        simp only [h1, if_false, h2, e6]
        push_cast
        rfl

/-- The header phase refuses a line whose count `string2ll` does not read or
reads as more than 1024*1024, whatever the length of the buffer, and leaves
the client as it was. -/
theorem header_reject (c : client) (b0 : Nat) (txt rest : List Nat)
    (hm : c.multibulklen = 0) (hq : c.querybuf = b0 :: (txt ++ 13 :: rest))
    (hb : b0 ≠ 13 ∧ b0 ≠ 0) (ht : cleanOf 13 txt)
    (hbad : ∀ ll, string2ll txt = some ll → ll > 1024 * 1024) :
    processMultibulkHeader c = .ret C_ERR c := by
  have hs : strchr c.querybuf 13 = some (txt.length + 1) := by
    rw [hq]
    have := strchr_clean_append 13 (b0 :: txt) rest (cleanOf_cons 13 b0 txt hb.1 hb.2 ht)
    simpa using this
  have e3 : (c.querybuf.drop 1).take (txt.length + 1 - 1) = txt := by
    rw [hq]; simp
  unfold processMultibulkHeader
  simp only [hm, if_true, hs, e3]
  by_cases h0 : ((txt.length + 1 : Nat) : Int) > toInt32 (c.querybuf.length : Int) - 2
  · simp only [h0, if_true]
  · simp only [h0, if_false]
    cases hll : string2ll txt with
    | none => rfl
    | some ll =>
      have := hbad ll hll
      simp only [this, if_true]

/-- The header phase on a buffer of 2 GiB or more (and less than 4 GiB): the
length converted by `(signed)` is negative, the test "the buffer also
contains the line feed" fails, and the call returns `C_ERR`. -/
theorem header_over_2GiB (c : client) (b0 : Nat) (txt rest : List Nat)
    (hm : c.multibulklen = 0) (hq : c.querybuf = b0 :: (txt ++ 13 :: rest))
    (hb : b0 ≠ 13 ∧ b0 ≠ 0) (ht : cleanOf 13 txt)
    (h1 : 2147483648 ≤ c.querybuf.length) (h2 : c.querybuf.length < 4294967296) :
    processMultibulkHeader c = .ret C_ERR c := by
  have hs : strchr c.querybuf 13 = some (txt.length + 1) := by
    rw [hq]
    have := strchr_clean_append 13 (b0 :: txt) rest (cleanOf_cons 13 b0 txt hb.1 hb.2 ht)
    simpa using this
  have e1 : toInt32 (c.querybuf.length : Int) = (c.querybuf.length : Int) - 4294967296 := by
    clear hs hq
    unfold toInt32; omega
  have e2 : ((txt.length + 1 : Nat) : Int) > toInt32 (c.querybuf.length : Int) - 2 := by
    rw [e1]
    clear hs hq e1
    push_cast; omega
  unfold processMultibulkHeader
  simp only [hm, if_true, hs, e2]

/-! ## The argument phase -/

/-- Reading the length line at the cursor, when the buffer holds a complete
line `$<txt>\r\n` there and is below 2 GiB: the outcome is decided by
`string2ll txt`. -/
theorem readBulkLength_eval (c : client) (pos : Nat) (txt rest : List Nat)
    (hb : c.bulklen = -1) (hq : c.querybuf.drop pos = 36 :: (txt ++ 13 :: 10 :: rest))
    (ht : cleanOf 13 txt) (hlen : c.querybuf.length < 2147483648) :
    readBulkLength c pos = .ok
      (match string2ll txt with
      | none => .ret C_ERR c
      | some ll =>
        if ll < 0 ∨ ll > 512 * 1024 * 1024 then .ret C_ERR c
        else if ll ≥ PROTO_MBULK_BIG_ARG then .go { c with querybuf := rest, bulklen := ll } 0
        else .go { c with bulklen := ll } ((pos : Int) + txt.length + 3)) := by
  have hdl : (c.querybuf.drop pos).length = txt.length + 3 + rest.length := by
    rw [hq]; simp; omega
  have hl : pos + (txt.length + 3 + rest.length) = c.querybuf.length := by
    rw [List.length_drop] at hdl; omega
  have hs : strchr (c.querybuf.drop pos) 13 = some (txt.length + 1) := by
    rw [hq]
    have := strchr_clean_append 13 (36 :: txt) (10 :: rest)
      (cleanOf_cons 13 36 txt (by decide) (by decide) ht)
    simpa using this
  have e0 : ¬ ((pos : Int) < 0 ∨ (pos : Int) > c.querybuf.length) := by omega
  have e1 : toInt32 (c.querybuf.length : Int) = (c.querybuf.length : Int) := by
    rw [toInt32_of_range] <;> omega
  have e2 : ¬ ((pos : Int) + ((txt.length + 1 : Nat) : Int) >
      toInt32 (c.querybuf.length : Int) - 2) := by
    rw [e1]; push_cast; omega
  have e3 : c.querybuf.getD pos 0 = 36 := by
    have h1 := List.getElem?_drop c.querybuf pos 0
    rw [hq] at h1
    simp only [List.getElem?_cons_zero, Nat.add_zero] at h1
    rw [List.getD_eq_getElem?_getD, ← h1]; rfl
  have e4 : (c.querybuf.drop (pos + 1)).take (txt.length + 1 - 1) = txt := by
    rw [← List.drop_drop, hq]; simp
  have e5 : toInt32 ((pos : Int) + (((txt.length + 1 : Nat) : Int) + 2)) =
      ((pos + txt.length + 3 : Nat) : Int) := by
    rw [toInt32_of_range] <;> push_cast <;> omega
  have e6 : sdsrange c.querybuf ((pos + txt.length + 3 : Nat) : Int) (-1) = rest := by
    rw [sdsrange_drop _ _ hlen]
    have h1 : c.querybuf.drop (pos + txt.length + 3) = (c.querybuf.drop pos).drop (txt.length + 3) := by
      rw [List.drop_drop, Nat.add_assoc]
    rw [h1, hq]
    have : (36 :: (txt ++ 13 :: 10 :: rest)) = (36 :: (txt ++ [13, 10])) ++ rest := by simp
    rw [this]
    exact List.drop_left' (by simp)
  unfold readBulkLength
  simp only [hb, if_true, e0, if_false, Int.toNat_ofNat, hs, e2, e3, ne_eq, not_true_eq_false,
    e4, e5]
  cases hll : string2ll txt with
  | none => rfl
  | some ll =>
    simp only []
    by_cases h1 : ll < 0 ∨ ll > 512 * 1024 * 1024
    · simp only [h1, if_true]
    · by_cases h2 : ll ≥ (PROTO_MBULK_BIG_ARG : Int)
      · simp only [h1, if_false, h2, if_true, e6]
      · simp only [h1, if_false, h2]
        push_cast
        rfl

theorem createStringObject_append (a x : List Nat) :
    createStringObject (a ++ x) a.length = createStringObject a a.length := by
  unfold createStringObject createEmbeddedStringObject createRawStringObject
  simp

theorem createObject_big (a : List Nat) (h : PROTO_MBULK_BIG_ARG ≤ a.length) :
    createObject OBJ_STRING a = createStringObject a a.length := by
  have : ¬ a.length ≤ OBJ_ENCODING_EMBSTR_SIZE_LIMIT := by
    unfold PROTO_MBULK_BIG_ARG at h; unfold OBJ_ENCODING_EMBSTR_SIZE_LIMIT; omega
  unfold createStringObject createRawStringObject
  simp [this]

theorem argvStore_eval (c : client) (o : robj) (slots : List (Option robj)) (k : Nat)
    (hv : c.argv = some slots) (hk : c.argc = k) (hlt : k < slots.length) :
    argvStore c o = .ok { c with argv := some (slots.set k (some o)), argc := (k : Int) + 1 } := by
  unfold argvStore
  have : 0 ≤ (k : Int) ∧ (k : Int) < slots.length := by omega
  simp only [hv, hk, this, and_self, if_true, Int.toNat_ofNat]

/-- The copy path: the buffer holds the payload `a` and two more bytes at
the cursor, and is not the exact fit of a big argument at offset 0. -/
theorem readBulkArgument_copy (c : client) (pos : Nat) (a rest : List Nat) (x y : Nat)
    (slots : List (Option robj)) (k : Nat)
    (hb : c.bulklen = a.length) (ha : a.length ≤ 536870912)
    (hq : c.querybuf.drop pos = a ++ x :: y :: rest) (hlen : c.querybuf.length < 2147483648)
    (hv : c.argv = some slots) (hk : c.argc = k) (hlt : k < slots.length)
    (hfit : ¬ (pos = 0 ∧ PROTO_MBULK_BIG_ARG ≤ a.length ∧ rest = [])) :
    readBulkArgument c pos = .ok (some
      ({ c with argv := some (slots.set k (some (createStringObject a a.length))),
                argc := (k : Int) + 1, bulklen := -1, multibulklen := c.multibulklen - 1 },
       (pos : Int) + a.length + 2)) := by
  have hl : pos + (a.length + 2 + rest.length) = c.querybuf.length := by
    have hdl : (c.querybuf.drop pos).length = a.length + 2 + rest.length := by
      rw [hq]; simp; omega
    clear hv hk hlt hfit hb hq
    rw [List.length_drop] at hdl; omega
  have e9 : createStringObject (c.querybuf.drop pos) a.length = createStringObject a a.length := by
    rw [hq, createStringObject_append]
  have e5 : ¬ ((pos : Int) = 0 ∧ (a.length : Int) ≥ PROTO_MBULK_BIG_ARG ∧
      (c.querybuf.length : Int) = (a.length : Int) + 2) := by
    clear hv hk hlt hb hq e9
    intro ⟨h1, h2, h3⟩
    apply hfit
    refine ⟨by omega, by exact_mod_cast h2, ?_⟩
    exact List.length_eq_zero.1 (by omega)
  clear hfit hq
  have e1 : toSizeT ((c.querybuf.length : Int) - pos) = (c.querybuf.length : Int) - pos := by
    clear hv hk hlt hb e9 e5
    rw [toSizeT_of_range] <;> omega
  have e2 : toUInt32 ((a.length : Int) + 2) = (a.length : Int) + 2 := by
    clear hv hk hlt hb e9 e5 e1
    rw [toUInt32_of_range] <;> omega
  have e3 : ¬ ((c.querybuf.length : Int) - pos < (a.length : Int) + 2) := by
    clear hv hk hlt hb e9 e5 e1 e2
    omega
  have e4 : toInt32 (c.querybuf.length : Int) = (c.querybuf.length : Int) := by
    clear hv hk hlt hb e9 e5 e1 e2 e3
    rw [toInt32_of_range] <;> omega
  have e6 : ¬ ((a.length : Int) < 0) := by
    clear hv hk hlt hb e9 e5 e1 e2 e3 e4
    omega
  have e7 : ¬ ((pos : Int) < 0 ∨ (pos : Int) + a.length > c.querybuf.length) := by
    clear hv hk hlt hb e9 e5 e1 e2 e3 e4 e6
    omega
  have e8 : toInt32 ((pos : Int) + ((a.length : Int) + 2)) = (pos : Int) + a.length + 2 := by
    clear hv hk hlt hb e9 e5 e1 e2 e3 e4 e6 e7
    rw [toInt32_of_range] <;> omega
  unfold readBulkArgument
  simp only [hb, e1, e2, e3, if_false, e4, e5, e6, e7, Int.toNat_ofNat, e8, e9,
    argvStore_eval c _ slots k hv hk hlt]

/-- The zero-copy path: a big argument at offset 0 of a buffer that holds
exactly the payload and two more bytes; the buffer is adopted. -/
theorem readBulkArgument_adopt (c : client) (a : List Nat) (x y : Nat)
    (slots : List (Option robj)) (k : Nat)
    (hb : c.bulklen = a.length) (ha : a.length ≤ 536870912)
    (hbig : PROTO_MBULK_BIG_ARG ≤ a.length)
    (hq : c.querybuf = a ++ [x, y])
    (hv : c.argv = some slots) (hk : c.argc = k) (hlt : k < slots.length) :
    readBulkArgument c 0 = .ok (some
      ({ c with argv := some (slots.set k (some (createStringObject a a.length))),
                argc := (k : Int) + 1, querybuf := [], bulklen := -1,
                multibulklen := c.multibulklen - 1 }, 0)) := by
  have hl : c.querybuf.length = a.length + 2 := by rw [hq]; simp
  have e6 : c.querybuf.take (c.querybuf.length - 2) = a := by
    rw [hl, hq]; simp
  have hl1 : (c.querybuf.length : Int) = (a.length : Int) + 2 := by
    clear hv hk hlt hb hq e6
    omega
  have e5 : (a.length : Int) ≥ PROTO_MBULK_BIG_ARG := by exact_mod_cast hbig
  clear hq hl
  have e1 : toSizeT ((a.length : Int) + 2 - 0) = (a.length : Int) + 2 := by
    clear hv hk hlt hb e6 e5 hbig hl1
    rw [toSizeT_of_range] <;> omega
  have e2 : toUInt32 ((a.length : Int) + 2) = (a.length : Int) + 2 := by
    clear hv hk hlt hb e6 e5 hbig e1 hl1
    rw [toUInt32_of_range] <;> omega
  have e4 : toInt32 ((a.length : Int) + 2) = (a.length : Int) + 2 := by
    clear hv hk hlt hb e6 e5 hbig e1 e2 hl1
    rw [toInt32_of_range] <;> omega
  unfold readBulkArgument
  simp only [hb, hl1, e1, e2, lt_self_iff_false, if_false, e4, e5, and_self, if_true, e6,
    createObject_big a hbig, argvStore_eval c _ slots k hv hk hlt]

/-- The length line of a bulk string at the cursor, below 2 GiB. -/
theorem readBulkLength_bulk (c : client) (pos : Nat) (a rest : List Nat)
    (hb : c.bulklen = -1) (ha : a.length ≤ 536870912)
    (hq : c.querybuf.drop pos = bulk a ++ rest) (hlen : c.querybuf.length < 2147483648) :
    readBulkLength c pos = .ok
      (if (a.length : Int) ≥ PROTO_MBULK_BIG_ARG then
        .go { c with querybuf := a ++ 13 :: 10 :: rest, bulklen := (a.length : Int) } 0
      else .go { c with bulklen := (a.length : Int) }
        ((pos : Int) + (decimal a.length).length + 3)) := by
  have hq1 : c.querybuf.drop pos =
      36 :: (decimal a.length ++ 13 :: 10 :: (a ++ 13 :: 10 :: rest)) := by
    rw [hq]; simp [bulk]
  have hrl := readBulkLength_eval c pos (decimal a.length) (a ++ 13 :: 10 :: rest) hb hq1
    (cleanOf_decimal a.length) hlen
  have hll : string2ll (decimal a.length) = some (a.length : Int) := by
    rw [string2ll_decimal, if_pos]
    unfold LLONG_MAX; omega
  have hr : ¬ ((a.length : Int) < 0 ∨ (a.length : Int) > 512 * 1024 * 1024) := by
    clear hrl hll hq1 hq hb
    omega
  rw [hll] at hrl
  simp only [hr, if_false] at hrl
  rw [hrl]

theorem drop_past_length_line (q : List Nat) (pos : Nat) (a rest : List Nat)
    (hq : q.drop pos = bulk a ++ rest) :
    q.drop (pos + (decimal a.length).length + 3) = a ++ 13 :: 10 :: rest := by
  have h1 : q.drop (pos + (decimal a.length).length + 3) =
      (q.drop pos).drop ((decimal a.length).length + 3) := by
    rw [List.drop_drop, Nat.add_assoc]
  rw [h1, hq]
  have : bulk a ++ rest =
      (36 :: (decimal a.length ++ [13, 10])) ++ (a ++ 13 :: 10 :: rest) := by simp [bulk]
  rw [this]
  exact List.drop_left' (by simp)

theorem drop_past_payload (q : List Nat) (pos : Nat) (a rest : List Nat)
    (hq : q.drop pos = a ++ 13 :: 10 :: rest) :
    q.drop (pos + a.length + 2) = rest := by
  have h1 : q.drop (pos + a.length + 2) = (q.drop pos).drop (a.length + 2) := by
    rw [List.drop_drop, Nat.add_assoc]
  rw [h1, hq]
  have : a ++ 13 :: 10 :: rest = (a ++ [13, 10]) ++ rest := by simp
  rw [this]
  exact List.drop_left' (by simp)

/-- One iteration of the argument loop on a complete bulk string shorter
than 32 KiB at the cursor: the argument is copied and the cursor moves past
the bulk string; the buffer is not touched. -/
theorem bulk_step_small (c : client) (pos : Nat) (a rest : List Nat)
    (slots : List (Option robj)) (k : Nat)
    (hm : c.multibulklen ≠ 0) (hb : c.bulklen = -1) (ha : a.length < PROTO_MBULK_BIG_ARG)
    (hq : c.querybuf.drop pos = bulk a ++ rest) (hlen : c.querybuf.length < 2147483648)
    (hv : c.argv = some slots) (hk : c.argc = k) (hlt : k < slots.length) (fuel : Nat) :
    processMultibulkLoop (fuel + 1) c pos =
      processMultibulkLoop fuel
        { c with argv := some (slots.set k (some (createStringObject a a.length))),
                 argc := (k : Int) + 1, bulklen := -1, multibulklen := c.multibulklen - 1 }
        ((pos + (decimal a.length).length + 3 + a.length + 2 : Nat) : Int) := by
  have ha1 : a.length ≤ 536870912 := by unfold PROTO_MBULK_BIG_ARG at ha; omega
  have hrl := readBulkLength_bulk c pos a rest hb ha1 hq hlen
  have hbig1 : ¬ ((a.length : Int) ≥ (PROTO_MBULK_BIG_ARG : Int)) := by
    intro h
    have : PROTO_MBULK_BIG_ARG ≤ a.length := by exact_mod_cast h
    omega
  simp only [hbig1, if_false] at hrl
  have hra := readBulkArgument_copy
    { c with bulklen := (a.length : Int) } (pos + (decimal a.length).length + 3) a rest 13 10
    slots k rfl ha1 (drop_past_length_line _ pos a rest hq) hlen hv hk hlt
    (fun h => by have := h.2.1; omega)
  conv_lhs => unfold processMultibulkLoop
  have e : ((pos : Int) + ((decimal a.length).length : Int) + 3) =
      ((pos + (decimal a.length).length + 3 : Nat) : Int) := by push_cast; rfl
  simp only [hm, if_false, hrl, e, hra]
  push_cast
  rfl

/-- One iteration of the argument loop on a complete bulk string of 32 KiB
or more followed by further bytes: the buffer is trimmed to the payload when
the length line is read, the argument is copied and the cursor is just after
its CRLF. -/
theorem bulk_step_big (c : client) (pos : Nat) (a rest : List Nat)
    (slots : List (Option robj)) (k : Nat)
    (hm : c.multibulklen ≠ 0) (hb : c.bulklen = -1)
    (ha : a.length ≤ 536870912) (hbig : PROTO_MBULK_BIG_ARG ≤ a.length) (hrest : rest ≠ [])
    (hq : c.querybuf.drop pos = bulk a ++ rest) (hlen : c.querybuf.length < 2147483648)
    (hv : c.argv = some slots) (hk : c.argc = k) (hlt : k < slots.length) (fuel : Nat) :
    processMultibulkLoop (fuel + 1) c pos =
      processMultibulkLoop fuel
        { c with querybuf := a ++ 13 :: 10 :: rest,
                 argv := some (slots.set k (some (createStringObject a a.length))),
                 argc := (k : Int) + 1, bulklen := -1, multibulklen := c.multibulklen - 1 }
        ((a.length + 2 : Nat) : Int) := by
  have hrl := readBulkLength_bulk c pos a rest hb ha hq hlen
  have hbig1 : (a.length : Int) ≥ (PROTO_MBULK_BIG_ARG : Int) := by exact_mod_cast hbig
  simp only [hbig1, if_true] at hrl
  have hlq : a.length + 2 + rest.length ≤ c.querybuf.length := by
    have hdl : (c.querybuf.drop pos).length =
        (decimal a.length).length + 3 + (a.length + 2 + rest.length) := by
      rw [hq]; simp [bulk]; omega
    clear hrl hq hv hk hlt hm hb hbig1
    rw [List.length_drop] at hdl; omega
  have hra := readBulkArgument_copy
    { c with querybuf := a ++ 13 :: 10 :: rest, bulklen := (a.length : Int) } 0 a rest 13 10
    slots k rfl ha rfl
    (by simp only [List.length_append, List.length_cons]
        clear hrl hq hv hk hlt hm hb hbig1
        omega)
    hv hk hlt (fun h => hrest h.2.2)
  conv_lhs => unfold processMultibulkLoop
  simp only [Nat.cast_zero, zero_add] at hra
  simp only [hm, if_false, hrl, hra]
  push_cast
  rfl

/-- One iteration of the argument loop on a complete bulk string of 32 KiB
or more that ends the buffer: the buffer is adopted as the argument and
replaced by an empty one. -/
theorem bulk_step_adopt (c : client) (pos : Nat) (a : List Nat)
    (slots : List (Option robj)) (k : Nat)
    (hm : c.multibulklen ≠ 0) (hb : c.bulklen = -1)
    (ha : a.length ≤ 536870912) (hbig : PROTO_MBULK_BIG_ARG ≤ a.length)
    (hq : c.querybuf.drop pos = bulk a) (hlen : c.querybuf.length < 2147483648)
    (hv : c.argv = some slots) (hk : c.argc = k) (hlt : k < slots.length) (fuel : Nat) :
    processMultibulkLoop (fuel + 1) c pos =
      processMultibulkLoop fuel
        { c with querybuf := [],
                 argv := some (slots.set k (some (createStringObject a a.length))),
                 argc := (k : Int) + 1, bulklen := -1, multibulklen := c.multibulklen - 1 }
        0 := by
  have hrl := readBulkLength_bulk c pos a [] hb ha (by simpa using hq) hlen
  have hbig1 : (a.length : Int) ≥ (PROTO_MBULK_BIG_ARG : Int) := by exact_mod_cast hbig
  simp only [hbig1, if_true] at hrl
  have hra := readBulkArgument_adopt
    { c with querybuf := a ++ [13, 10], bulklen := (a.length : Int) } a 13 10 slots k
    rfl ha hbig rfl hv hk hlt
  conv_lhs => unfold processMultibulkLoop
  simp only [hm, if_false, hrl]
  have : (a ++ [13, 10]) = a ++ 13 :: 10 :: [] := rfl
  rw [← this, hra]

/-- One iteration of the argument loop on a complete bulk string at the
cursor, below 2 GiB: the argument is stored at index `argc`, and the loop
goes on with the cursor (or the buffer) just after the bulk string. -/
theorem bulk_step (c : client) (pos : Nat) (a rest : List Nat)
    (slots : List (Option robj)) (k : Nat)
    (hm : c.multibulklen ≠ 0) (hb : c.bulklen = -1) (ha : a.length ≤ 536870912)
    (hq : c.querybuf.drop pos = bulk a ++ rest) (hlen : c.querybuf.length < 2147483648)
    (hv : c.argv = some slots) (hk : c.argc = k) (hlt : k < slots.length) :
    ∃ (c2 : client) (pos2 : Nat),
      (∀ fuel, processMultibulkLoop (fuel + 1) c pos = processMultibulkLoop fuel c2 pos2) ∧
      c2.querybuf.drop pos2 = rest ∧ c2.querybuf.length ≤ c.querybuf.length ∧
      c2 = { c with querybuf := c2.querybuf,
                    argv := some (slots.set k (some (createStringObject a a.length))),
                    argc := (k : Int) + 1, multibulklen := c.multibulklen - 1 } := by
  by_cases hbig : PROTO_MBULK_BIG_ARG ≤ a.length
  · have hlq : a.length + 2 + rest.length ≤ c.querybuf.length := by
      have hdl : (c.querybuf.drop pos).length =
          (decimal a.length).length + 3 + (a.length + 2 + rest.length) := by
        rw [hq]; simp [bulk]; omega
      clear hq hv hk hlt hm hb
      rw [List.length_drop] at hdl; omega
    by_cases hfit : rest = []
    · subst hfit
      refine ⟨{ c with querybuf := [],
                       argv := some (slots.set k (some (createStringObject a a.length))),
                       argc := (k : Int) + 1, bulklen := -1,
                       multibulklen := c.multibulklen - 1 }, 0, ?_, rfl, by simp, by simp [hb]⟩
      intro fuel
      exact bulk_step_adopt c pos a slots k hm hb ha hbig (by simpa using hq) hlen hv hk hlt fuel
    · refine ⟨{ c with querybuf := a ++ 13 :: 10 :: rest,
                       argv := some (slots.set k (some (createStringObject a a.length))),
                       argc := (k : Int) + 1, bulklen := -1,
                       multibulklen := c.multibulklen - 1 }, a.length + 2, ?_, ?_, ?_,
        by simp [hb]⟩
      · intro fuel
        exact bulk_step_big c pos a rest slots k hm hb ha hbig hfit hq hlen hv hk hlt fuel
      · show List.drop (a.length + 2) (a ++ 13 :: 10 :: rest) = rest
        simp
      · simp only [List.length_append, List.length_cons]
        clear hq hv hk hlt hm hb
        omega
  · refine ⟨{ c with argv := some (slots.set k (some (createStringObject a a.length))),
                     argc := (k : Int) + 1, bulklen := -1,
                     multibulklen := c.multibulklen - 1 },
      pos + (decimal a.length).length + 3 + a.length + 2, ?_, ?_, Nat.le_refl _, by simp [hb]⟩
    · intro fuel
      exact bulk_step_small c pos a rest slots k hm hb (by omega) hq hlen hv hk hlt fuel
    · exact drop_past_payload c.querybuf _ a rest (drop_past_length_line _ pos a rest hq)

theorem set_next_slot (done : List robj) (o : robj) (n : Nat) :
    (done.map some ++ List.replicate (n + 1) none).set done.length (some o) =
      (done ++ [o]).map some ++ List.replicate n none := by
  induction done with
  | nil => simp [List.replicate_succ]
  | cons d ds ih => simpa using ih

theorem length_le_bulks (args : List (List Nat)) : args.length ≤ (bulks args).length := by
  induction args with
  | nil => simp [bulks]
  | cons a rest ih =>
    simp only [bulks, bulk, List.length_cons, List.length_append]
    omega

theorem createStringObject_ptr (a : List Nat) : (createStringObject a a.length).ptr = a := by
  unfold createStringObject createEmbeddedStringObject createRawStringObject createObject
  by_cases h : a.length ≤ OBJ_ENCODING_EMBSTR_SIZE_LIMIT <;> simp [h]

/-- The argument loop on a buffer that holds, at the cursor, the bulk strings
`args` followed by `tail`, below 2 GiB: every argument is stored in order and
the cursor ends just before `tail`. -/
theorem loop_bulks (args : List (List Nat)) :
    ∀ (fuel : Nat) (c : client) (pos : Nat) (done : List robj) (tail : List Nat),
    args.length < fuel → c.bulklen = -1 → c.multibulklen = args.length →
    c.argv = some (done.map some ++ List.replicate args.length none) →
    c.argc = done.length →
    c.querybuf.length < 2147483648 → c.querybuf.drop pos = bulks args ++ tail →
    (∀ a ∈ args, a.length ≤ 536870912) →
    ∃ (c1 : client) (pos1 : Nat), processMultibulkLoop fuel c pos = .ok (.go c1 pos1) ∧
      c1.querybuf.drop pos1 = tail ∧ c1.querybuf.length < 2147483648 ∧
      c1 = { c with querybuf := c1.querybuf,
                    argc := ((done.length + args.length : Nat) : Int),
                    argv := some ((done ++ args.map (fun a => createStringObject a a.length)).map
                      some),
                    multibulklen := 0 } := by
  induction args with
  | nil =>
    intro fuel c pos done tail hf hb hm hv hk hlen hq _
    cases fuel with
    | zero => simp at hf
    | succ fuel =>
      refine ⟨c, pos, ?_, by simpa [bulks] using hq, hlen, ?_⟩
      · unfold processMultibulkLoop
        simp at hm
        simp [hm]
      · cases c
        simp at hm hv hk
        simp [hm, hv, hk]
  | cons a rest ih =>
    intro fuel c pos done tail hf hb hm hv hk hlen hq hsz
    cases fuel with
    | zero => simp at hf
    | succ fuel =>
      have hm0 : c.multibulklen ≠ 0 := by
        rw [hm]; simp only [List.length_cons]; push_cast; omega
      have hq1 : c.querybuf.drop pos = bulk a ++ (bulks rest ++ tail) := by
        rw [hq]; simp [bulks]
      have hlt : done.length < (done.map some ++ List.replicate (a :: rest).length none).length := by
        simp
      obtain ⟨c2, pos2, hstep, hd2, hl2, hc2⟩ :=
        bulk_step c pos a (bulks rest ++ tail) _ done.length hm0 hb
          (hsz a (List.mem_cons_self a rest)) hq1 hlen hv hk hlt
      have hb2 : c2.bulklen = -1 := by
        have := congrArg client.bulklen hc2
        simpa [hb] using this
      have hm2 : c2.multibulklen = rest.length := by
        have := congrArg client.multibulklen hc2
        simp only [hm, List.length_cons] at this
        rw [this]; push_cast; omega
      have hv2 : c2.argv = some ((done ++ [createStringObject a a.length]).map some ++
          List.replicate rest.length none) := by
        have := congrArg client.argv hc2
        simp only [List.length_cons] at this
        rw [this, set_next_slot]
      have hk2 : c2.argc = ((done ++ [createStringObject a a.length]).length : Nat) := by
        have := congrArg client.argc hc2
        simp only at this
        rw [this]; simp
      obtain ⟨c3, pos3, hloop, hd3, hl3, hc3⟩ :=
        ih fuel c2 pos2 (done ++ [createStringObject a a.length]) tail
          (by simp only [List.length_cons] at hf; omega) hb2 hm2 hv2 hk2
          (by omega) hd2 (fun x hx => hsz x (List.mem_cons_of_mem a hx))
      refine ⟨c3, pos3, ?_, hd3, hl3, ?_⟩
      · rw [hstep, hloop]
      · rw [hc3, hc2]
        simp only [List.length_append, List.length_cons, List.length_nil, List.map_cons,
          List.append_assoc, List.singleton_append]
        congr 1
        push_cast
        omega

theorem multibulkFinish_eval (c : client) (pos : Nat) (tail : List Nat)
    (hq : c.querybuf.drop pos = tail) (hlen : c.querybuf.length < 2147483648) :
    multibulkFinish c pos =
      (if c.multibulklen = 0 then C_OK else C_ERR, { c with querybuf := tail }) := by
  unfold multibulkFinish
  by_cases hp : pos = 0
  · subst hp
    simp only [List.drop_zero] at hq
    have : ({ c with querybuf := tail } : client) = c := by rw [← hq]
    rw [this]
    by_cases hm : c.multibulklen = 0 <;> simp [hm]
  · have hp1 : (pos : Int) ≠ 0 := by exact_mod_cast hp
    simp only [hp1, ne_eq, not_false_eq_true, if_true, sdsrange_drop _ _ hlen, hq]
    by_cases hm : c.multibulklen = 0 <;> simp [hm]

/-- `processMultibulkBuffer` on a fresh client whose buffer is a multibulk
command of 1 to 1048576 bulk strings of at most 512 MiB each, followed by
`tail`, the whole buffer below 2 GiB: `C_OK`, the arguments in wire order,
and exactly `tail` left in the buffer. -/
theorem multibulk_decode (c : client) (args : List (List Nat)) (tail : List Nat)
    (hm : c.multibulklen = 0) (hb : c.bulklen = -1) (hk : c.argc = 0)
    (hq : c.querybuf = multibulk args ++ tail)
    (h1 : 1 ≤ args.length) (h2 : args.length ≤ 1048576)
    (h3 : ∀ a ∈ args, a.length ≤ 536870912)
    (h4 : c.querybuf.length < 2147483648) :
    processMultibulkBuffer c = .ok (C_OK,
      { c with querybuf := tail, argc := (args.length : Int),
               argv := some (args.map (fun a => some (createStringObject a a.length))) }) := by
  have hq1 : c.querybuf = 42 :: (decimal args.length ++ 13 :: 10 :: (bulks args ++ tail)) := by
    rw [hq]; simp [multibulk]
  have hh := header_eval c 42 (decimal args.length) (bulks args ++ tail) hm hq1
    (by decide) (cleanOf_decimal _) h4
  have hll : string2ll (decimal args.length) = some (args.length : Int) := by
    rw [string2ll_decimal, if_pos]
    unfold LLONG_MAX; omega
  have hr1 : ¬ ((args.length : Int) > 1024 * 1024) := by
    clear hh hll hq1 hq; omega
  have hr2 : ¬ ((args.length : Int) ≤ 0) := by
    clear hh hll hq1 hq; omega
  rw [hll] at hh
  simp only [hr1, hr2, if_false, Int.toNat_ofNat] at hh
  have hlen1 : (decimal args.length).length + 3 + ((bulks args).length + tail.length)
      = c.querybuf.length := by
    rw [hq1]; simp; omega
  have hd : c.querybuf.drop ((decimal args.length).length + 3) = bulks args ++ tail := by
    rw [hq1]
    have : (42 :: (decimal args.length ++ 13 :: 10 :: (bulks args ++ tail))) =
        (42 :: (decimal args.length ++ [13, 10])) ++ (bulks args ++ tail) := by simp
    rw [this]
    exact List.drop_left' (by simp)
  have hfuel : args.length < c.querybuf.length + 2 := by
    have := length_le_bulks args
    clear hh hll hq1 hq hd
    omega
  obtain ⟨c1, pos1, hloop, hd1, hl1, hc1⟩ :=
    loop_bulks args (c.querybuf.length + 2)
      { c with multibulklen := (args.length : Int),
               argv := some (List.replicate args.length none) }
      ((decimal args.length).length + 3) [] tail hfuel hb rfl (by simp) (by simpa using hk)
      h4 hd h3
  unfold processMultibulkBuffer
  have e : ((decimal args.length).length : Int) + 3 =
      (((decimal args.length).length + 3 : Nat) : Int) := by push_cast; rfl
  rw [hh]
  simp only [e, hloop, multibulkFinish_eval c1 pos1 tail hd1 hl1]
  have hm1 : c1.multibulklen = 0 := by
    have := congrArg client.multibulklen hc1
    simpa using this
  simp only [hm1, if_true]
  rw [hc1]
  simp [List.map_map, Function.comp_def, hm]

theorem cleanOf_decimalInt (z : Int) : cleanOf 13 (decimalInt z) := by
  unfold decimalInt
  by_cases hz : z < 0
  · simp only [hz, if_true]
    exact cleanOf_cons 13 45 _ (by decide) (by decide) (cleanOf_decimal _)
  · simp only [hz, if_false]
    exact cleanOf_decimal _

/-- Reading a length line whose number `string2ll` does not read, or reads as
negative or as more than 512 MiB, whatever the length of the buffer: the call
returns `C_ERR` at once, or (when the length test on the wrapped `int` fails)
breaks out of the loop; the client is unchanged in both cases. -/
theorem readBulkLength_bad (c : client) (pos : Nat) (txt rest : List Nat)
    (hb : c.bulklen = -1) (hq : c.querybuf.drop pos = 36 :: (txt ++ 13 :: rest))
    (ht : cleanOf 13 txt)
    (hbad : ∀ ll, string2ll txt = some ll → ll < 0 ∨ ll > 512 * 1024 * 1024) :
    readBulkLength c pos = .ok (.ret C_ERR c) ∨ readBulkLength c pos = .ok (.brk c pos) := by
  have hl : pos < c.querybuf.length := by
    have hdl : 0 < (c.querybuf.drop pos).length := by rw [hq]; simp
    clear hq hb
    rw [List.length_drop] at hdl; omega
  have hs : strchr (c.querybuf.drop pos) 13 = some (txt.length + 1) := by
    rw [hq]
    have := strchr_clean_append 13 (36 :: txt) rest
      (cleanOf_cons 13 36 txt (by decide) (by decide) ht)
    simpa using this
  have e0 : ¬ ((pos : Int) < 0 ∨ (pos : Int) > c.querybuf.length) := by
    clear hq hb hs; omega
  have e3 : c.querybuf.getD pos 0 = 36 := by
    have h1 := List.getElem?_drop c.querybuf pos 0
    rw [hq] at h1
    simp only [List.getElem?_cons_zero, Nat.add_zero] at h1
    rw [List.getD_eq_getElem?_getD, ← h1]; rfl
  have e4 : (c.querybuf.drop (pos + 1)).take (txt.length + 1 - 1) = txt := by
    rw [← List.drop_drop, hq]; simp
  unfold readBulkLength
  simp only [hb, if_true, e0, if_false, Int.toNat_ofNat, hs, e3, ne_eq, not_true_eq_false, e4]
  by_cases h0 : (pos : Int) + ((txt.length + 1 : Nat) : Int) > toInt32 (c.querybuf.length : Int) - 2
  · right; simp only [h0, if_true]
  · left
    simp only [h0, if_false]
    cases hll : string2ll txt with
    | none => rfl
    | some ll =>
      have := hbad ll hll
      simp only [this, if_true]

/-! ## The decode loop -/

theorem processInputBufferLoop_empty (H : Handlers) (fuel : Nat) (c : client)
    (log : List Dispatch) (hq : c.querybuf = []) :
    processInputBufferLoop H fuel c log = .ok (c, log) := by
  cases fuel <;> simp [processInputBufferLoop, hq]

/-- An iteration of the decode loop in which the multibulk parser does not
return `C_OK`: the loop is left and nothing is dispatched. -/
theorem processInputBufferLoop_break (H : Handlers) (fuel : Nat) (c c2 : client)
    (log : List Dispatch) (hne : c.querybuf ≠ [])
    (ht : c.reqtype = PROTO_REQ_MULTIBULK ∨ (c.reqtype = 0 ∧ c.querybuf.getD 0 0 = 42))
    (hp : processMultibulkBuffer { c with reqtype := PROTO_REQ_MULTIBULK } = .ok (C_ERR, c2)) :
    processInputBufferLoop H (fuel + 1) c log = .ok (c2, log) := by
  have hl : ¬ c.querybuf.length = 0 := fun h => hne (List.length_eq_zero.1 h)
  have hc : (if c.reqtype = 0 then
      (if c.querybuf.getD 0 0 = 42 then { c with reqtype := PROTO_REQ_MULTIBULK }
       else { c with reqtype := PROTO_REQ_INLINE })
      else c) = { c with reqtype := PROTO_REQ_MULTIBULK } := by
    rcases ht with ht | ⟨ht1, ht2⟩
    · have : ¬ c.reqtype = 0 := by rw [ht]; decide
      simp only [this, if_false]
      rw [← ht]
    · simp only [ht1, ht2, if_true]
  unfold processInputBufferLoop
  simp only [hl, if_false, hc]
  have h1 : ¬ (PROTO_REQ_MULTIBULK = PROTO_REQ_INLINE) := by decide
  have h2 : ¬ (C_ERR = C_OK) := by decide
  simp only [h1, if_false, if_true, hp, ne_eq, h2, not_false_eq_true]

/-- An iteration of the decode loop in which the multibulk parser returns
`C_OK` with a first argument that names a command whose handler is
`commandCommand`: the command is dispatched and the loop goes on. -/
theorem processInputBufferLoop_dispatch (H : Handlers) (fuel : Nat) (c c2 : client)
    (log : List Dispatch) (o : robj) (cmd : redisCommand) (hne : c.querybuf ≠ [])
    (ht : c.reqtype = PROTO_REQ_MULTIBULK ∨ (c.reqtype = 0 ∧ c.querybuf.getD 0 0 = 42))
    (hp : processMultibulkBuffer { c with reqtype := PROTO_REQ_MULTIBULK } = .ok (C_OK, c2))
    (h0 : argv0 c2 = .ok o) (hargc : c2.argc ≠ 0)
    (hl : lookupCommand o.ptr = some cmd) (hproc : cmd.proc = .commandCommand) :
    processInputBufferLoop H (fuel + 1) c log =
      processInputBufferLoop H fuel { c2 with cmd := some cmd, lastcmd := some cmd }
        (log ++ [{ argc := c2.argc, argv := c2.argv }]) := by
  have hl0 : ¬ c.querybuf.length = 0 := fun h => hne (List.length_eq_zero.1 h)
  have hc : (if c.reqtype = 0 then
      (if c.querybuf.getD 0 0 = 42 then { c with reqtype := PROTO_REQ_MULTIBULK }
       else { c with reqtype := PROTO_REQ_INLINE })
      else c) = { c with reqtype := PROTO_REQ_MULTIBULK } := by
    rcases ht with ht | ⟨ht1, ht2⟩
    · have : ¬ c.reqtype = 0 := by rw [ht]; decide
      simp only [this, if_false]
      rw [← ht]
    · simp only [ht1, ht2, if_true]
  have hpc : processCommand H c2 = .ok (C_OK, { c2 with cmd := some cmd, lastcmd := some cmd }) := by
    unfold processCommand
    simp only [h0, hl, call, runProc, hproc, commandCommand]
  conv_lhs => unfold processInputBufferLoop
  simp only [hl0, if_false, hc]
  have h1 : ¬ (PROTO_REQ_MULTIBULK = PROTO_REQ_INLINE) := by decide
  simp only [h1, if_false, if_true, hp, ne_eq, not_true_eq_false, h0, hargc, hpc, resetClient]

theorem readQueryFromClient_eval (H : Handlers) (c : client) (data : List Nat)
    (hd : data ≠ []) :
    readQueryFromClient H c data =
      processInputBuffer H
        { c with querybuf := c.querybuf ++ data,
                 querybuf_peak := if c.querybuf_peak < c.querybuf.length then c.querybuf.length
                   else c.querybuf_peak } := by
  have hl : ¬ data.length = 0 := fun h => hd (List.length_eq_zero.1 h)
  unfold readQueryFromClient
  simp only [hl, if_false]
  by_cases hp : c.querybuf_peak < c.querybuf.length <;> simp [hp]

theorem feedChunks_one (H : Handlers) (c c1 : client) (d : List Nat) (l1 : List Dispatch)
    (h1 : readQueryFromClient H c d = .ok (c1, l1)) :
    feedChunks H [d] c [] = .ok (c1, l1) := by
  simp [feedChunks, h1]

theorem feedChunks_two (H : Handlers) (c c1 c2 : client) (d1 d2 : List Nat)
    (l1 l2 : List Dispatch)
    (h1 : readQueryFromClient H c d1 = .ok (c1, l1))
    (h2 : readQueryFromClient H c1 d2 = .ok (c2, l2)) :
    feedChunks H [d1, d2] c [] = .ok (c2, l1 ++ l2) := by
  simp [feedChunks, h1, h2]

/-- In the argument loop, with the length of the argument unknown and no CR
from the cursor on: the call returns `C_ERR` at once, without trimming the
buffer to the cursor, when the whole buffer is longer than 64 KiB, and breaks
out of the loop otherwise. -/
theorem loop_no_cr (c : client) (pos fuel : Nat)
    (hm : c.multibulklen ≠ 0) (hb : c.bulklen = -1) (hp : pos ≤ c.querybuf.length)
    (hs : strchr (c.querybuf.drop pos) 13 = none) :
    processMultibulkLoop (fuel + 1) c pos =
      if c.querybuf.length > PROTO_INLINE_MAX_SIZE then .ok (.ret C_ERR c)
      else .ok (.brk c pos) := by
  have e0 : ¬ ((pos : Int) < 0 ∨ (pos : Int) > c.querybuf.length) := by
    clear hs hb hm; omega
  unfold processMultibulkLoop readBulkLength
  simp only [hm, if_false, hb, if_true, e0, Int.toNat_ofNat, hs]
  by_cases h : c.querybuf.length > PROTO_INLINE_MAX_SIZE <;> simp only [h, if_true, if_false]

/-- In the argument loop, with the length of the argument unknown and a
complete line at the cursor that does not start with `$`: the call returns
`C_ERR` and the client is unchanged. -/
theorem loop_not_dollar (c : client) (pos fuel off : Nat)
    (hm : c.multibulklen ≠ 0) (hb : c.bulklen = -1)
    (hs : strchr (c.querybuf.drop pos) 13 = some off)
    (hl : pos + off + 2 ≤ c.querybuf.length) (hlen : c.querybuf.length < 2147483648)
    (hd : c.querybuf.getD pos 0 ≠ 36) :
    processMultibulkLoop (fuel + 1) c pos = .ok (.ret C_ERR c) := by
  have e0 : ¬ ((pos : Int) < 0 ∨ (pos : Int) > c.querybuf.length) := by
    clear hs hb hm hd; omega
  have e1 : toInt32 (c.querybuf.length : Int) = (c.querybuf.length : Int) := by
    clear hs hb hm hd e0
    rw [toInt32_of_range] <;> omega
  have e2 : ¬ ((pos : Int) + (off : Int) > toInt32 (c.querybuf.length : Int) - 2) := by
    rw [e1]
    clear hs hb hm hd e0 e1
    omega
  unfold processMultibulkLoop readBulkLength
  simp only [hm, if_false, hb, if_true, e0, Int.toNat_ofNat, hs, e2, hd, ne_eq,
    not_false_eq_true]

/-- The result of `processMultibulkBuffer` when the argument loop ends by `return`. -/
theorem processMultibulkBuffer_of_ret (c c1 c2 : client) (pos r : Int)
    (hh : processMultibulkHeader c = .go c1 pos)
    (hl : processMultibulkLoop (c1.querybuf.length + 2) c1 pos = .ok (.ret r c2)) :
    processMultibulkBuffer c = .ok (r, c2) := by
  unfold processMultibulkBuffer
  rw [hh]
  simp only [hl]

/-! ## A command with an argument longer than 64 KiB, whole and in two chunks -/

theorem length_bulk_commandName : (bulk commandName).length = 13 := by decide

theorem length_bulk_70000 (z : List Nat) (hz : z.length = 70000) : (bulk z).length = 70010 := by
  have hd : decimal 70000 = [55, 48, 48, 48, 48] := by decide
  simp only [bulk, hz, hd, List.length_cons, List.length_append, List.length_nil]

theorem bigCommand_split (z : List Nat) : bigCommandHead z ++ bigCommandTail = bigCommand z := by
  have h3 : decimal 3 = [51] := by decide
  have h1 : decimal 1 = [49] := by decide
  simp [bigCommandHead, bigCommandTail, bigCommand, multibulk, bulks, bulk, h3, h1]

theorem length_bigCommand (z : List Nat) (hz : z.length = 70000) :
    (bigCommand z).length = 70034 := by
  have h3 : decimal 3 = [51] := by decide
  have hb : (bulk [98]).length = 7 := by decide
  simp only [bigCommand, multibulk, bulks, List.length_cons, List.length_append, List.length_nil,
    length_bulk_commandName, length_bulk_70000 z hz, h3, hb]

theorem length_bigCommandHead (z : List Nat) (hz : z.length = 70000) :
    (bigCommandHead z).length = 70028 := by
  simp only [bigCommandHead, List.length_cons, List.length_append, List.length_nil,
    length_bulk_commandName, length_bulk_70000 z hz]

/-- The descriptor of `command` in the table. -/
theorem lookupCommand_command :
    lookupCommand commandName =
      some { name := commandName, proc := .commandCommand, arity := 0, sflags := [108, 116] } := by
  decide

/-- The whole command in the buffer of a client in its initial decode state:
the three arguments are decoded and the command is dispatched once. -/
theorem bigCommand_whole (H : Handlers) (c : client) (z : List Nat) (hz : z.length = 70000)
    (hq : c.querybuf = bigCommand z) (hr : c.reqtype = 0) (hm : c.multibulklen = 0)
    (hb : c.bulklen = -1) (hk : c.argc = 0) :
    observe (processInputBuffer H c) =
      .ok { reqtype := PROTO_REQ_MULTIBULK, argc := 3, multibulklen := 0, bulklen := -1,
            querybuf := [], dispatched := [3] } := by
  have hlen : c.querybuf.length = 70034 := by rw [hq]; exact length_bigCommand z hz
  have hne : c.querybuf ≠ [] := by
    intro h; rw [h] at hlen; simp at hlen
  have hg : c.querybuf.getD 0 0 = 42 := by
    rw [hq]; simp [bigCommand, multibulk]
  have hsz : ∀ a ∈ ([commandName, z, [98]] : List (List Nat)), a.length ≤ 536870912 := by
    intro a ha
    simp only [List.mem_cons, List.mem_singleton, List.not_mem_nil, or_false] at ha
    rcases ha with ha | ha | ha
    · rw [ha]; decide
    · rw [ha, hz]; decide
    · rw [ha]; decide
  have hp := multibulk_decode { c with reqtype := PROTO_REQ_MULTIBULK } [commandName, z, [98]] []
    hm hb hk (by simpa [bigCommand] using hq) (by simp) (by simp) hsz
    (by show c.querybuf.length < 2147483648
        rw [hlen]; decide)
  have hd := processInputBufferLoop_dispatch H c.querybuf.length c _ []
    (createStringObject commandName commandName.length) _ hne (Or.inr ⟨hr, hg⟩) hp
    (by simp [argv0]) (by simp)
    (by rw [createStringObject_ptr]; exact lookupCommand_command) rfl
  unfold processInputBuffer
  rw [hd, processInputBufferLoop_empty H _ _ _ rfl]
  simp [observe, Except.map, hm, hb]

/-- The command up to the `$` of its last length line, in the buffer of a
client in its initial decode state.  Two arguments are decoded, the second
one from a buffer trimmed to its payload; for the third one no CR is found,
the buffer (payload, CRLF and `$`) is longer than 64 KiB, and the call
returns `C_ERR` without trimming the buffer to the cursor. -/
theorem bigCommandHead_parse (c : client) (z : List Nat) (hz : z.length = 70000)
    (hq : c.querybuf = bigCommandHead z) (hm : c.multibulklen = 0)
    (hb : c.bulklen = -1) (hk : c.argc = 0) :
    processMultibulkBuffer c = .ok (C_ERR,
      { c with querybuf := z ++ [13, 10, 36], multibulklen := 1, argc := 2,
               argv := some [some (createStringObject commandName commandName.length),
                             some (createStringObject z z.length), none] }) := by
  have hlen : c.querybuf.length = 70028 := by rw [hq]; exact length_bigCommandHead z hz
  have hlt : c.querybuf.length < 2147483648 := by rw [hlen]; decide
  have hq1 : c.querybuf = 42 :: ([51] ++ 13 :: 10 :: (bulk commandName ++ (bulk z ++ [36]))) := by
    rw [hq]; rfl
  have hh := header_eval c 42 [51] (bulk commandName ++ (bulk z ++ [36])) hm hq1
    (by decide) (by intro b hb; simp at hb; subst hb; decide) hlt
  have hs3 : string2ll [51] = some 3 := by decide
  rw [hs3] at hh
  simp only [show ¬ ((3 : Int) > 1024 * 1024) by decide, show ¬ ((3 : Int) ≤ 0) by decide,
    if_false] at hh
  have hd4 : c.querybuf.drop 4 = bulk commandName ++ (bulk z ++ [36]) := by rw [hq]; rfl
  -- first argument
  have hs1 := bulk_step_small
    { c with multibulklen := 3, argv := some (List.replicate (3 : Int).toNat none) } 4
    commandName (bulk z ++ [36]) [none, none, none] 0 (by show (3 : Int) ≠ 0; decide) hb
    (by decide) hd4 hlt rfl
    (by simpa using hk) (by decide) (c.querybuf.length + 1)
  have hd17 : c.querybuf.drop 17 = bulk z ++ [36] := by rw [hq]; rfl
  -- second argument
  have hs2 := bulk_step_big
    { c with multibulklen := 3 - 1, bulklen := -1, argc := ((0 : Nat) : Int) + 1,
             argv := some ([none, none, none].set 0
               (some (createStringObject commandName commandName.length))) } 17
    z [36] ([none, none, none].set 0 (some (createStringObject commandName commandName.length))) 1
    (by show (3 : Int) - 1 ≠ 0; decide) rfl (by rw [hz]; decide) (by rw [hz]; decide) (by simp)
    hd17 hlt rfl
    (by simp) (by decide) c.querybuf.length
  -- third argument: no CR after the `$`
  have hs3 := loop_no_cr
    { c with querybuf := z ++ 13 :: 10 :: [36], multibulklen := 3 - 1 - 1, bulklen := -1,
             argc := ((1 : Nat) : Int) + 1,
             argv := some (([none, none, none].set 0
               (some (createStringObject commandName commandName.length))).set 1
               (some (createStringObject z z.length))) }
    (z.length + 2) 70027 (by show (3 : Int) - 1 - 1 ≠ 0; decide) rfl (by simp)
    (by show strchr (List.drop (z.length + 2) (z ++ 13 :: 10 :: [36])) 13 = none
        have : z ++ 13 :: 10 :: [36] = (z ++ [13, 10]) ++ [36] := by simp
        rw [this, List.drop_left' (by simp)]
        decide)
  have hbig : (z ++ 13 :: 10 :: [36]).length > PROTO_INLINE_MAX_SIZE := by
    simp only [List.length_append, List.length_cons, List.length_nil, hz]; decide
  simp only [hbig, if_true] at hs3
  have hloop : processMultibulkLoop (c.querybuf.length + 2)
      { c with multibulklen := 3, argv := some (List.replicate (3 : Int).toNat none) }
      ((4 : Nat) : Int) = .ok (.ret C_ERR
        { c with querybuf := z ++ [13, 10, 36], multibulklen := 1, argc := 2,
                 argv := some [some (createStringObject commandName commandName.length),
                               some (createStringObject z z.length), none] }) :=
    calc processMultibulkLoop (c.querybuf.length + 2)
          { c with multibulklen := 3, argv := some (List.replicate (3 : Int).toNat none) }
          ((4 : Nat) : Int)
        = processMultibulkLoop (c.querybuf.length + 1)
          { c with multibulklen := 3 - 1, bulklen := -1, argc := ((0 : Nat) : Int) + 1,
                   argv := some ([none, none, none].set 0
                     (some (createStringObject commandName commandName.length))) }
          ((17 : Nat) : Int) := hs1
      _ = processMultibulkLoop c.querybuf.length
          { c with querybuf := z ++ 13 :: 10 :: [36], multibulklen := 3 - 1 - 1, bulklen := -1,
                   argc := ((1 : Nat) : Int) + 1,
                   argv := some (([none, none, none].set 0
                     (some (createStringObject commandName commandName.length))).set 1
                     (some (createStringObject z z.length))) }
          ((z.length + 2 : Nat) : Int) := hs2
      _ = .ok (.ret C_ERR
          { c with querybuf := z ++ [13, 10, 36], multibulklen := 1, argc := 2,
                   argv := some [some (createStringObject commandName commandName.length),
                                 some (createStringObject z z.length), none] }) := by
        rw [hlen, hs3]
        simp only [List.set_cons_zero, List.set_cons_succ, hb]
        rfl
  exact processMultibulkBuffer_of_ret c _ _ _ _ hh hloop

/-- The state that the first chunk leaves, with the rest of the command
appended.  The multibulk parser starts at offset 0 of the untrimmed buffer,
finds the CR that ends the payload of the second argument, and returns
`C_ERR` because the byte at the cursor is not `$`; the client is unchanged. -/
theorem bigCommandTail_parse (c : client) (z rest : List Nat) (hz : z.length = 70000)
    (hA : ∀ b ∈ z, b = 65) (hq : c.querybuf = z ++ 13 :: rest) (hr : 1 ≤ rest.length)
    (hlen : c.querybuf.length < 2147483648)
    (hm : c.multibulklen ≠ 0) (hb : c.bulklen = -1) :
    processMultibulkBuffer c = .ok (C_ERR, c) := by
  have hh : processMultibulkHeader c = .go c 0 := by
    unfold processMultibulkHeader; simp [hm]
  have hc : cleanOf 13 z := by
    intro b hb; rw [hA b hb]; decide
  have hs : strchr (c.querybuf.drop 0) 13 = some z.length := by
    rw [List.drop_zero, hq]; exact strchr_clean_append 13 z rest hc
  have hl : 0 + z.length + 2 ≤ c.querybuf.length := by
    rw [hq]; simp only [List.length_append, List.length_cons]; omega
  have hd : c.querybuf.getD 0 0 ≠ 36 := by
    rw [hq]
    cases z with
    | nil => simp at hz
    | cons b bs =>
      have := hA b (List.mem_cons_self b bs)
      simp [this]
  have hloop := loop_not_dollar c 0 (c.querybuf.length + 1) z.length hm hb hs hl hlen hd
  unfold processMultibulkBuffer
  rw [hh]
  simp only [Nat.cast_zero] at hloop
  simp only [hloop]

theorem observe_feedChunks_one (H : Handlers) (c : client) (d : List Nat) :
    observe (feedChunks H [d] c []) = observe (readQueryFromClient H c d) := by
  unfold feedChunks
  cases h : readQueryFromClient H c d with
  | error e => rfl
  | ok p => cases p; simp [feedChunks]

theorem bigArg_length : bigArg.length = 70000 := by
  unfold bigArg; rw [List.length_replicate]

theorem bigArg_bytes : ∀ b ∈ bigArg, b = 65 := by
  intro b hb
  unfold bigArg at hb
  exact (List.mem_replicate.1 hb).2

/-- The command `command <z> b`, with `z` 70,000 bytes `A`, fed to a fresh
client whole and in two chunks, the first one ending after the `$` of the last
length line. -/
theorem chunking_breaks (H : Handlers) (z : List Nat) (hz : z.length = 70000)
    (hA : ∀ b ∈ z, b = 65) :
    bigCommandHead z ++ bigCommandTail = bigCommand z ∧
    observe (feedChunks H [bigCommandHead z ++ bigCommandTail] createClient []) =
      .ok { reqtype := PROTO_REQ_MULTIBULK, argc := 3, multibulklen := 0, bulklen := -1,
            querybuf := [], dispatched := [3] } ∧
    observe (feedChunks H [bigCommandHead z, bigCommandTail] createClient []) =
      .ok { reqtype := PROTO_REQ_MULTIBULK, argc := 2, multibulklen := 1, bulklen := -1,
            querybuf := z ++ [13, 10, 36] ++ bigCommandTail, dispatched := [] } := by
  have hne1 : bigCommandHead z ≠ [] := by simp [bigCommandHead]
  have hne2 : bigCommandTail ≠ [] := by simp [bigCommandTail]
  refine ⟨bigCommand_split z, ?_, ?_⟩
  · rw [observe_feedChunks_one,
      readQueryFromClient_eval H createClient _ (by simp [bigCommandHead])]
    exact bigCommand_whole H _ z hz
      (by show [] ++ (bigCommandHead z ++ bigCommandTail) = bigCommand z
          rw [List.nil_append]; exact bigCommand_split z)
      rfl rfl rfl rfl
  · -- the first chunk
    have hp1 := bigCommandHead_parse
      { createClient with querybuf := [] ++ bigCommandHead z, reqtype := PROTO_REQ_MULTIBULK }
      z hz (by simp) rfl rfl rfl
    have h1 : readQueryFromClient H createClient (bigCommandHead z) =
        .ok ({ createClient with
                 querybuf := z ++ [13, 10, 36], reqtype := PROTO_REQ_MULTIBULK,
                 multibulklen := 1, argc := 2,
                 argv := some [some (createStringObject commandName commandName.length),
                               some (createStringObject z z.length), none] }, []) := by
      rw [readQueryFromClient_eval H createClient _ hne1]
      unfold processInputBuffer
      exact processInputBufferLoop_break H _
        { createClient with querybuf := [] ++ bigCommandHead z } _ []
        (by simp [bigCommandHead])
        (Or.inr ⟨rfl, by simp [bigCommandHead]⟩) hp1
    -- the second chunk
    have hlen2 : (z ++ [13, 10, 36] ++ bigCommandTail).length < 2147483648 := by
      simp only [List.length_append, List.length_cons, List.length_nil, hz, bigCommandTail]
      decide
    have hp2 := bigCommandTail_parse
      { createClient with
          querybuf := z ++ [13, 10, 36] ++ bigCommandTail, reqtype := PROTO_REQ_MULTIBULK,
          querybuf_peak := (z ++ [13, 10, 36]).length,
          multibulklen := 1, argc := 2,
          argv := some [some (createStringObject commandName commandName.length),
                        some (createStringObject z z.length), none] }
      z (10 :: 36 :: bigCommandTail) hz hA (by simp) (by simp) hlen2
      (by show (1 : Int) ≠ 0; decide) rfl
    have hpk : createClient.querybuf_peak < (z ++ [13, 10, 36]).length := by
      simp [createClient]
    have h2 : readQueryFromClient H
        { createClient with
            querybuf := z ++ [13, 10, 36], reqtype := PROTO_REQ_MULTIBULK,
            multibulklen := 1, argc := 2,
            argv := some [some (createStringObject commandName commandName.length),
                          some (createStringObject z z.length), none] } bigCommandTail =
        .ok ({ createClient with
            querybuf := z ++ [13, 10, 36] ++ bigCommandTail, reqtype := PROTO_REQ_MULTIBULK,
            querybuf_peak := (z ++ [13, 10, 36]).length,
            multibulklen := 1, argc := 2,
            argv := some [some (createStringObject commandName commandName.length),
                          some (createStringObject z z.length), none] }, []) := by
      rw [readQueryFromClient_eval H _ _ hne2]
      simp only [hpk, if_true]
      unfold processInputBuffer
      exact processInputBufferLoop_break H _ _ _ [] (by simp) (Or.inl rfl) hp2
    rw [feedChunks_two H _ _ _ _ _ _ _ h1 h2]
    rfl

/-! ## Inline lines -/

theorem splitargs_plain (t : List Nat) (ht : ∀ b ∈ t, plainByte b) :
    ∀ (rest current : List Nat) (vector : List (List Nat)),
    splitargsAux .plain 0 (t ++ rest) current vector =
      splitargsAux .plain 0 rest (current ++ t) vector := by
  induction t with
  | nil => intro rest current vector; simp
  | cons b bs ih =>
    intro rest current vector
    have hb := ht b (List.mem_cons_self b bs)
    unfold plainByte at hb
    have h1 : ¬ (b = 32 ∨ b = 10 ∨ b = 13 ∨ b = 9) := by omega
    have h2 : ¬ b = 34 := hb.2.2.2.1
    have h3 : ¬ b = 39 := hb.2.2.2.2
    simp only [List.cons_append, splitargsAux, h1, h2, h3, if_false, List.append_eq]
    rw [ih (fun x hx => ht x (List.mem_cons_of_mem b hx))]
    simp

theorem splitargs_token (t : List Nat) (ht : unquotedToken t) (rest : List Nat)
    (current : List Nat) (vector : List (List Nat)) :
    splitargsAux .blank 0 (t ++ rest) current vector = splitargsAux .plain 0 rest t vector := by
  obtain ⟨hne, hp⟩ := ht
  cases t with
  | nil => exact absurd rfl hne
  | cons b bs =>
    have hb := hp b (List.mem_cons_self b bs)
    unfold plainByte at hb
    have h1 : isspace b = false := by
      unfold isspace
      have h11 : ¬ b = 32 := hb.2.1
      have h12 : ¬ (9 ≤ b ∧ b ≤ 13) := hb.2.2.1
      simp only [Bool.or_eq_false_iff, decide_eq_false_iff_not, Bool.and_eq_false_iff]
      refine ⟨h11, ?_⟩
      by_cases h9 : 9 ≤ b
      · right; intro h; exact h12 ⟨h9, h⟩
      · left; exact h9
    have h2 : ¬ b = 34 := hb.2.2.2.1
    have h3 : ¬ b = 39 := hb.2.2.2.2
    simp only [List.cons_append, splitargsAux, h1, h2, h3, if_false, Bool.false_eq_true,
      List.append_eq]
    rw [splitargs_plain bs (fun x hx => hp x (List.mem_cons_of_mem b hx))]
    simp

/-- The splitter on tokens separated by single spaces returns the tokens. -/
theorem splitargs_inlineLine (tokens : List (List Nat)) :
    tokens ≠ [] → (∀ t ∈ tokens, unquotedToken t) →
    ∀ (current : List Nat) (vector : List (List Nat)),
    splitargsAux .blank 0 (inlineLine tokens) current vector = some (vector ++ tokens) := by
  induction tokens with
  | nil => intro h; exact absurd rfl h
  | cons t ts ih =>
    intro _ ht current vector
    have htt := ht t (List.mem_cons_self t ts)
    cases ts with
    | nil =>
      have := splitargs_token t htt [] current vector
      simp only [List.append_nil] at this
      simp only [inlineLine, this, splitargsAux]
    | cons t2 ts2 =>
      have h1 := splitargs_token t htt (32 :: inlineLine (t2 :: ts2)) current vector
      simp only [inlineLine, h1, splitargsAux, true_or, if_true]
      rw [ih (by simp) (fun x hx => ht x (List.mem_cons_of_mem t hx))]
      simp

theorem plain_no_nul (tokens : List (List Nat)) (ht : ∀ t ∈ tokens, unquotedToken t) :
    ∀ b ∈ inlineLine tokens, b ≠ 0 ∧ b ≠ 10 ∧ b ≠ 13 := by
  induction tokens with
  | nil => intro b hb; simp [inlineLine] at hb
  | cons t ts ih =>
    have htt := ht t (List.mem_cons_self t ts)
    have hplain : ∀ b ∈ t, b ≠ 0 ∧ b ≠ 10 ∧ b ≠ 13 := by
      intro b hb
      have := htt.2 b hb
      unfold plainByte at this
      omega
    cases ts with
    | nil => simpa [inlineLine] using hplain
    | cons t2 ts2 =>
      intro b hb
      simp only [inlineLine, List.mem_append, List.mem_cons] at hb
      rcases hb with hb | hb | hb
      · exact hplain b hb
      · subst hb; decide
      · exact ih (fun x hx => ht x (List.mem_cons_of_mem t hx)) b hb

/-- The splitter on an inline line of unquoted tokens. -/
theorem sdssplitargs_inlineLine (tokens : List (List Nat))
    (hn : tokens ≠ []) (ht : ∀ t ∈ tokens, unquotedToken t) :
    sdssplitargs (inlineLine tokens) = some tokens := by
  unfold sdssplitargs
  have h0 : (inlineLine tokens).takeWhile (· ≠ 0) = inlineLine tokens := by
    rw [List.takeWhile_eq_self_iff]
    intro b hb
    have := (plain_no_nul tokens ht b hb).1
    simpa using this
  rw [h0, splitargs_inlineLine tokens hn ht]
  simp

/-- The loop of `processInlineBuffer` over tokens none of which is empty. -/
theorem inlineArgs_eval (toks : List (List Nat)) :
    ∀ (c : client) (done : List robj),
    (∀ t ∈ toks, t ≠ []) →
    c.argv = some (done.map some ++ List.replicate toks.length none) →
    c.argc = done.length →
    inlineArgs toks c = .ok { c with
      argv := some ((done ++ toks.map (fun t => createObject OBJ_STRING t)).map some),
      argc := ((done.length + toks.length : Nat) : Int) } := by
  induction toks with
  | nil =>
    intro c done _ hv hk
    cases c
    simp at hv hk
    simp [inlineArgs, hv, hk]
  | cons t ts ih =>
    intro c done hne hv hk
    have htn : t.length ≠ 0 := by
      have := hne t (List.mem_cons_self t ts)
      intro h; exact this (List.length_eq_zero.1 h)
    have hlt : done.length < (done.map some ++ List.replicate (t :: ts).length none).length := by
      simp
    unfold inlineArgs
    simp only [htn, ne_eq, not_false_eq_true, if_true,
      argvStore_eval c _ _ done.length hv hk hlt]
    rw [ih _ (done ++ [createObject OBJ_STRING t])
      (fun x hx => hne x (List.mem_cons_of_mem t hx))
      (by simp only [List.length_cons]; rw [set_next_slot])
      (by simp)]
    simp only [List.length_append, List.length_cons, List.length_nil, List.map_cons,
      List.append_assoc, List.singleton_append]
    congr 2
    push_cast
    omega

/-- `processInlineBuffer` on a buffer that starts with a line ended by
`\r\n`, the line without LF and NUL and accepted by the splitter with tokens
none of which is empty: `C_OK`, one object per token, in order. -/
theorem processInlineBuffer_eval (c : client) (line rest : List Nat) (toks : List (List Nat))
    (hq : c.querybuf = line ++ 13 :: 10 :: rest)
    (hclean : ∀ b ∈ line, b ≠ 0 ∧ b ≠ 10)
    (hs : sdssplitargs line = some toks) (hne : ∀ t ∈ toks, t ≠ []) (hn : toks ≠ []) :
    processInlineBuffer c = .ok (C_OK, { c with
      querybuf := sdsrange c.querybuf (toInt32 ((line.length : Int) + 2)) (-1),
      argv := some (toks.map (fun t => some (createObject OBJ_STRING t))),
      argc := (toks.length : Int) }) := by
  have hc : cleanOf 10 (line ++ [13]) := by
    intro b hb
    rcases List.mem_append.1 hb with hb | hb
    · have := hclean b hb; exact ⟨this.2, this.1⟩
    · simp at hb; subst hb; decide
  have hstr : strchr c.querybuf 10 = some (line.length + 1) := by
    rw [hq]
    have := strchr_clean_append 10 (line ++ [13]) rest hc
    simpa using this
  have hg : c.querybuf.getD line.length 0 = 13 := by
    rw [hq, List.getD_eq_getElem?_getD, List.getElem?_append_right (Nat.le_refl _)]
    simp
  have ht : c.querybuf.take line.length = line := by
    rw [hq]; simp
  have hl : toks.length ≠ 0 := by
    intro h; exact hn (List.length_eq_zero.1 h)
  unfold processInlineBuffer
  simp only [hstr, hg, ne_eq, Nat.add_one_ne_zero, not_false_eq_true, and_self, if_true,
    Nat.add_sub_cancel, ht, hs, hl]
  rw [inlineArgs_eval toks _ [] hne (by simp) (by simp)]
  simp [List.map_map, Function.comp_def]

/-! ## Claims -/

/-- C2 (as amended): for every list of 1 to 1,048,576 byte strings of at most
512 MiB each whose multibulk encoding is shorter than 2 GiB,
`processMultibulkBuffer` on a fresh client whose buffer is exactly that
encoding returns `C_OK` with `argc = n`, `argv[i]` holding exactly the bytes
of the i-th string in wire order, and an empty buffer. -/
theorem multibulk_roundtrip_below_2GiB (args : List (List Nat))
    (h1 : 1 ≤ args.length) (h2 : args.length ≤ 1048576)
    (h3 : ∀ a ∈ args, a.length ≤ 536870912)
    (h4 : (multibulk args).length < 2147483648) :
    processMultibulkBuffer { createClient with querybuf := multibulk args } =
        .ok (C_OK, { createClient with
          querybuf := [], argc := (args.length : Int),
          argv := some (args.map (fun a => some (createStringObject a a.length))) }) ∧
      ∀ a ∈ args, (createStringObject a a.length).ptr = a := by
  constructor
  · have := multibulk_decode { createClient with querybuf := multibulk args } args []
      rfl rfl rfl (by simp) h1 h2 h3 h4
    rw [this]
  · intro a _
    exact createStringObject_ptr a

/-- The witness of C2: `*2\r\n$3\r\nGET\r\n$3\r\nfoo\r\n` gives `argc = 2` and
`argv = ["GET","foo"]`. -/
theorem multibulk_roundtrip_getFoo :
    (multibulk [[71, 69, 84], [102, 111, 111]] = getFoo ∧
      (multibulk [[71, 69, 84], [102, 111, 111]]).length < 2147483648) ∧
    (processMultibulkBuffer
        { createClient with querybuf := multibulk [[71, 69, 84], [102, 111, 111]] } =
        .ok (C_OK, { createClient with
          querybuf := [], argc := (([[71, 69, 84], [102, 111, 111]] : List (List Nat)).length : Int),
          argv := some (([[71, 69, 84], [102, 111, 111]] : List (List Nat)).map
            (fun a => some (createStringObject a a.length))) }) ∧
      ∀ a ∈ ([[71, 69, 84], [102, 111, 111]] : List (List Nat)),
        (createStringObject a a.length).ptr = a) :=
  ⟨⟨by decide, by decide⟩,
    multibulk_roundtrip_below_2GiB [[71, 69, 84], [102, 111, 111]] (by decide) (by decide)
      (by decide) (by decide)⟩

theorem maxArg_length : maxArg.length = 536870912 := by
  unfold maxArg; rw [List.length_replicate]

theorem decimal_536870912 : decimal 536870912 = [53, 51, 54, 56, 55, 48, 57, 49, 50] := by
  rw [decimal_ge_ten _ (by norm_num), decimal_ge_ten _ (by norm_num),
    decimal_ge_ten _ (by norm_num), decimal_ge_ten _ (by norm_num),
    decimal_ge_ten _ (by norm_num), decimal_ge_ten _ (by norm_num),
    decimal_ge_ten _ (by norm_num), decimal_ge_ten _ (by norm_num),
    decimal_lt_ten _ (by norm_num)]
  norm_num

theorem length_four_max (z : List Nat) (hz : z.length = 536870912) :
    (multibulk [z, z, z, z]).length = 2147483708 := by
  have h4 : decimal (0 + 1 + 1 + 1 + 1) = [52] := by decide
  simp only [multibulk, bulks, bulk, List.length_cons, List.length_append, List.length_nil, h4,
    hz, decimal_536870912]

/-- A call in the header phase on a buffer of 2 GiB or more (and less than
4 GiB) that starts with a complete header line returns `C_ERR` and leaves the
client as it was. -/
theorem processMultibulkBuffer_over_2GiB (c : client) (b0 : Nat) (txt rest : List Nat)
    (hm : c.multibulklen = 0) (hq : c.querybuf = b0 :: (txt ++ 13 :: rest))
    (hb : b0 ≠ 13 ∧ b0 ≠ 0) (ht : cleanOf 13 txt)
    (h1 : 2147483648 ≤ c.querybuf.length) (h2 : c.querybuf.length < 4294967296) :
    processMultibulkBuffer c = .ok (C_ERR, c) := by
  unfold processMultibulkBuffer
  rw [header_over_2GiB c b0 txt rest hm hq hb ht h1 h2]

/-- Four arguments of 512 MiB each: the encoding is 2,147,483,708 bytes long
and the header phase refuses it. -/
theorem four_max_refused (z : List Nat) (hz : z.length = 536870912) :
    (1 ≤ ([z, z, z, z] : List (List Nat)).length ∧
      ([z, z, z, z] : List (List Nat)).length ≤ 1048576 ∧
      ∀ a ∈ ([z, z, z, z] : List (List Nat)), a.length ≤ 536870912) ∧
    processMultibulkBuffer { createClient with querybuf := multibulk [z, z, z, z] } =
      .ok (C_ERR, { createClient with querybuf := multibulk [z, z, z, z] }) := by
  refine ⟨⟨by simp, by simp, ?_⟩, ?_⟩
  · intro a ha
    simp only [List.mem_cons, List.mem_singleton, or_self, List.not_mem_nil, or_false] at ha
    rw [ha, hz]
  · exact processMultibulkBuffer_over_2GiB
      { createClient with querybuf := multibulk [z, z, z, z] } 42
      (decimal ([z, z, z, z] : List (List Nat)).length)
      (10 :: bulks [z, z, z, z]) rfl rfl (by decide) (cleanOf_decimal _)
      (by show 2147483648 ≤ (multibulk [z, z, z, z]).length
          rw [length_four_max z hz]; decide)
      (by show (multibulk [z, z, z, z]).length < 4294967296
          rw [length_four_max z hz]; decide)

/-- The counterexample to C2 as stated: four arguments of 512 MiB each are
within the limits of the claim, their encoding is 2,147,483,708 bytes long,
and `processMultibulkBuffer` on a fresh client holding exactly that encoding
returns `C_ERR` and leaves the client as it was. -/
theorem multibulk_roundtrip_fails_at_2GiB :
    (1 ≤ ([maxArg, maxArg, maxArg, maxArg] : List (List Nat)).length ∧
      ([maxArg, maxArg, maxArg, maxArg] : List (List Nat)).length ≤ 1048576 ∧
      ∀ a ∈ ([maxArg, maxArg, maxArg, maxArg] : List (List Nat)), a.length ≤ 536870912) ∧
    processMultibulkBuffer
        { createClient with querybuf := multibulk [maxArg, maxArg, maxArg, maxArg] } =
      .ok (C_ERR, { createClient with querybuf := multibulk [maxArg, maxArg, maxArg, maxArg] }) :=
  four_max_refused maxArg maxArg_length

/-- C3 (the code at the failing input): two copies of `*1\r\n$7\r\ncommand\r\n`
in the buffer of a fresh client.  The first command is decoded and
dispatched; `resetClient` does nothing, `argc` is still 1 when the second
command is decoded, its argument is stored at index 1 of a new array of one
slot, and the run leaves defined behaviour there: the second command is
never handed to `processCommand` with its own arguments. -/
theorem pipelined_second_command_overflows :
    observe (processInputBuffer idleHandlers (freshWith commandCmd)) =
      .ok { reqtype := 2, argc := 1, multibulklen := 0, bulklen := -1, querybuf := [],
            dispatched := [1] } ∧
    processInputBuffer idleHandlers (freshWith (commandCmd ++ commandCmd)) =
      .error .argvOverflow := by
  decide

/-- C4 (the code at the failing input): after `*1\r\n$7\r\ncommand\r\n` has been
decoded and `processCommand` has returned `C_OK`, the request type is still
MULTIBULK (2) and `argc` is still 1; only `multibulklen = 0` and
`bulklen = -1` hold, left so by the parser itself. -/
theorem decode_state_not_reset (H : Handlers) :
    observe (processInputBuffer H (freshWith commandCmd)) =
      .ok { reqtype := PROTO_REQ_MULTIBULK, argc := 1, multibulklen := 0, bulklen := -1,
            querybuf := [], dispatched := [1] } :=
  rfl

/-- C5 (the code at the failing input): a client whose first argument is
`PING`, a name that is not in the command table.  `processCommand` stores the
NULL descriptor and enters `call`, which dereferences it; no error code is
returned to the caller. -/
theorem unknown_command_enters_call (H : Handlers) :
    lookupCommand pingName = none ∧
    processCommand H { createClient with
        argc := 1, argv := some [some (createObject OBJ_STRING pingName)] } =
      .error .nullDeref ∧
    call H { createClient with
        argc := 1, argv := some [some (createObject OBJ_STRING pingName)],
        cmd := none, lastcmd := none } = .error .nullDeref ∧
    processInputBuffer H (freshWith [80, 73, 78, 71, 13, 10]) = .error .nullDeref :=
  ⟨rfl, rfl, rfl, rfl⟩

/-- C7 (the code at the failing input): the buffer `PING\nX`, a line ended
by a bare line feed and followed by the byte `X`.  `processInlineBuffer`
returns `C_OK` with `argv = ["PING"]` and trims `querylen+2` bytes, so the
byte `X` is removed with the line and the buffer is empty.  With `PING\r\nX`
the byte `X` remains. -/
theorem bare_linefeed_eats_a_byte :
    processInlineBuffer (freshWith [80, 73, 78, 71, 10, 88]) =
      .ok (C_OK, { createClient with
        querybuf := [], argc := 1, argv := some [some (createObject OBJ_STRING pingName)] }) ∧
    processInlineBuffer (freshWith [80, 73, 78, 71, 13, 10, 88]) =
      .ok (C_OK, { createClient with
        querybuf := [88], argc := 1, argv := some [some (createObject OBJ_STRING pingName)] }) :=
  ⟨rfl, rfl⟩

/-- C10 (the code at the failing input): `*1\r\n$7\r\ncommand\r\n` followed by
`*0\r\n` in the buffer of a fresh client.  In the state that the first
command leaves (`argc = 1`, since `resetClient` does nothing),
`processMultibulkBuffer` consumes the line `*0\r\n` and returns `C_OK`, but
`argc` is still 1, and `processInputBuffer` hands the arguments of the first
command to `processCommand` a second time.  On a fresh client, where `argc`
is 0 on return, the read of `argv[0]` for the debug output that follows the
parse dereferences the NULL `argv`. -/
theorem empty_multibulk_redispatches :
    (processMultibulkBuffer
        { createClient with
          querybuf := emptyCmd, argc := 1, reqtype := PROTO_REQ_MULTIBULK,
          argv := some [some (createStringObject commandName 7)] }).map
        (fun r => (r.1, r.2.argc, r.2.multibulklen, r.2.querybuf)) = .ok (C_OK, 1, 0, []) ∧
    observe (processInputBuffer idleHandlers (freshWith (commandCmd ++ emptyCmd))) =
      .ok { reqtype := 2, argc := 1, multibulklen := 0, bulklen := -1, querybuf := [],
            dispatched := [1, 1] } ∧
    processInputBuffer idleHandlers (freshWith emptyCmd) = .error .nullDeref := by
  decide

/-- C8: in the header phase, a header `*<count>\r\n` whose count is greater
than 1,048,576 makes `processMultibulkBuffer` return `C_ERR` with the client
unchanged (no argument read; `argc`, `multibulklen` and the buffer as they
were), whatever follows the header; a count of exactly 1,048,576 is accepted
by the header phase, which sets `multibulklen` to 1,048,576. -/
theorem multibulk_count_limit (c : client) (n : Nat) (rest : List Nat)
    (hm : c.multibulklen = 0) (hq : c.querybuf = 42 :: (decimal n ++ 13 :: 10 :: rest)) :
    (1048576 < n → processMultibulkBuffer c = .ok (C_ERR, c)) ∧
    (n = 1048576 → c.querybuf.length < 2147483648 →
      processMultibulkHeader c =
        .go { c with multibulklen := 1048576, argv := some (List.replicate 1048576 none) } 10) := by
  constructor
  · intro hn
    have hbad : ∀ ll, string2ll (decimal n) = some ll → ll > 1024 * 1024 := by
      intro ll hll
      rw [string2ll_decimal] at hll
      by_cases h : n ≤ LLONG_MAX
      · rw [if_pos h] at hll
        injection hll with hll
        clear hq
        omega
      · rw [if_neg h] at hll
        cases hll
    unfold processMultibulkBuffer
    rw [header_reject c 42 (decimal n) (10 :: rest) hm hq (by decide) (cleanOf_decimal n) hbad]
  · intro hn hlen
    subst hn
    have hh := header_eval c 42 (decimal 1048576) rest hm hq (by decide) (cleanOf_decimal _) hlen
    have hd : decimal 1048576 = [49, 48, 52, 56, 53, 55, 54] := by decide
    have hs : string2ll (decimal 1048576) = some 1048576 := by rw [hd]; decide
    rw [hs] at hh
    rw [hh, hd]
    rfl

/-- The witness of C8: `*1048577\r\n` is refused and leaves the fresh client
as it was; `*1048576\r\n` is accepted. -/
theorem multibulk_count_limit_witness :
    processMultibulkBuffer (freshWith [42, 49, 48, 52, 56, 53, 55, 55, 13, 10]) =
      .ok (C_ERR, freshWith [42, 49, 48, 52, 56, 53, 55, 55, 13, 10]) ∧
    processMultibulkHeader (freshWith [42, 49, 48, 52, 56, 53, 55, 54, 13, 10]) =
      .go { freshWith [42, 49, 48, 52, 56, 53, 55, 54, 13, 10] with
            multibulklen := 1048576, argv := some (List.replicate 1048576 none) } 10 :=
  ⟨(multibulk_count_limit (freshWith [42, 49, 48, 52, 56, 53, 55, 55, 13, 10]) 1048577 []
      rfl (by decide)).1 (by decide),
   (multibulk_count_limit (freshWith [42, 49, 48, 52, 56, 53, 55, 54, 13, 10]) 1048576 []
      rfl (by decide)).2 rfl (by decide)⟩

/-- C9: in the argument phase, with the length of the current argument
unknown and a complete line `$<len>\r\n` at the cursor.  When `len` is
negative or greater than 536,870,912 the call returns `C_ERR` and the client
is unchanged: no object is stored, `argc` is not incremented and `bulklen`
stays -1 (at the start of a call for every buffer, at any cursor of the loop
for a buffer below 2 GiB).  When `len` is 0 or exactly 536,870,912 the line is
accepted: `bulklen` becomes `len`. -/
theorem bulk_length_limit (c : client) (pos fuel : Nat) (z : Int) (rest : List Nat)
    (hm : c.multibulklen ≠ 0) (hb : c.bulklen = -1)
    (hq : c.querybuf.drop pos = 36 :: (decimalInt z ++ 13 :: 10 :: rest)) :
    ((z < 0 ∨ 536870912 < z) →
      (pos = 0 → processMultibulkBuffer c = .ok (C_ERR, c)) ∧
      (c.querybuf.length < 2147483648 →
        processMultibulkLoop (fuel + 1) c pos = .ok (.ret C_ERR c))) ∧
    ((z = 0 ∨ z = 536870912) → c.querybuf.length < 2147483648 →
      ∃ (c1 : client) (pos1 : Int), readBulkLength c pos = .ok (.go c1 pos1) ∧
        c1.bulklen = z ∧ c1.argc = c.argc ∧ c1.argv = c.argv ∧
        c1.multibulklen = c.multibulklen) := by
  constructor
  · intro hz
    have hbad : ∀ ll, string2ll (decimalInt z) = some ll → ll < 0 ∨ ll > 512 * 1024 * 1024 := by
      intro ll hll
      rw [string2ll_decimalInt] at hll
      by_cases h : -((LLONG_MAX : Int) + 1) ≤ z ∧ z ≤ LLONG_MAX
      · rw [if_pos h] at hll
        injection hll with hll
        clear hq hb hm
        omega
      · rw [if_neg h] at hll
        cases hll
    constructor
    · intro hp
      subst hp
      have hr := readBulkLength_bad c 0 (decimalInt z) (10 :: rest) hb hq
        (cleanOf_decimalInt z) hbad
      have hh : processMultibulkHeader c = .go c 0 := by
        unfold processMultibulkHeader; simp [hm]
      unfold processMultibulkBuffer
      rw [hh]
      simp only []
      unfold processMultibulkLoop
      simp only [hm, if_false]
      rcases hr with hr | hr
      · simp only [Nat.cast_zero] at hr
        rw [hr]
      · simp only [Nat.cast_zero] at hr
        rw [hr]
        simp [multibulkFinish, hm]
    · intro hlen
      have hr := readBulkLength_eval c pos (decimalInt z) rest hb hq (cleanOf_decimalInt z) hlen
      unfold processMultibulkLoop
      simp only [hm, if_false, hr]
      cases hll : string2ll (decimalInt z) with
      | none => rfl
      | some ll =>
        have := hbad ll hll
        simp only [this, if_true]
  · intro hz hlen
    have hr := readBulkLength_eval c pos (decimalInt z) rest hb hq (cleanOf_decimalInt z) hlen
    rcases hz with hz | hz
    · subst hz
      have hs : string2ll (decimalInt 0) = some 0 := by decide
      rw [hs] at hr
      refine ⟨{ c with bulklen := 0 }, _, hr, rfl, rfl, rfl, rfl⟩
    · subst hz
      have hd : decimalInt 536870912 = [53, 51, 54, 56, 55, 48, 57, 49, 50] := by
        unfold decimalInt
        simp only [show ¬ ((536870912 : Int) < 0) by decide, if_false]
        exact decimal_536870912
      have hs : string2ll (decimalInt 536870912) = some 536870912 := by rw [hd]; decide
      rw [hs] at hr
      refine ⟨{ c with querybuf := rest, bulklen := 536870912 }, _, hr, rfl, rfl, rfl, rfl⟩

/-- The witness of C9: `*1\r\n$-1\r\n` on a fresh client returns `C_ERR` with
`argc = 0` and `bulklen = -1`; in the state the header `*1\r\n` leaves, the
line `$-1\r\n` is refused and the line `$0\r\n` is accepted. -/
theorem bulk_length_limit_witness :
    processMultibulkBuffer (freshWith [42, 49, 13, 10, 36, 45, 49, 13, 10]) =
      .ok (C_ERR, { freshWith [42, 49, 13, 10, 36, 45, 49, 13, 10] with
                    multibulklen := 1, argv := some [none] }) ∧
    (processMultibulkBuffer
        { freshWith [36, 45, 49, 13, 10] with multibulklen := 1, argv := some [none] } =
      .ok (C_ERR, { freshWith [36, 45, 49, 13, 10] with multibulklen := 1, argv := some [none] }) ∧
     processMultibulkLoop (0 + 1)
        { freshWith [36, 45, 49, 13, 10] with multibulklen := 1, argv := some [none] } (0 : Nat) =
      .ok (.ret C_ERR
        { freshWith [36, 45, 49, 13, 10] with multibulklen := 1, argv := some [none] })) ∧
    (∃ (c1 : client) (pos1 : Int),
      readBulkLength
        { freshWith [36, 48, 13, 10, 13, 10] with multibulklen := 1, argv := some [none] }
        (0 : Nat) = .ok (.go c1 pos1) ∧
      c1.bulklen = 0 ∧ c1.argc = 0 ∧ c1.argv = some [none] ∧ c1.multibulklen = 1) :=
  ⟨by decide,
   ⟨((bulk_length_limit
        { freshWith [36, 45, 49, 13, 10] with multibulklen := 1, argv := some [none] } 0 0 (-1) []
        (by decide) rfl (by decide)).1 (Or.inl (by decide))).1 rfl,
    ((bulk_length_limit
        { freshWith [36, 45, 49, 13, 10] with multibulklen := 1, argv := some [none] } 0 0 (-1) []
        (by decide) rfl (by decide)).1 (Or.inl (by decide))).2 (by decide)⟩,
   (bulk_length_limit
        { freshWith [36, 48, 13, 10, 13, 10] with multibulklen := 1, argv := some [none] } 0 0 0
        [13, 10] (by decide) rfl (by decide)).2 (Or.inl rfl) (by decide)⟩

/-- C6: for every inline line made of non-empty unquoted tokens t1..tn
(n >= 1) separated by single spaces and ended by `\r\n`,
`processInlineBuffer` on a fresh client returns `C_OK` with `argc = n` and
`argv = [t1,..,tn]` in order. -/
theorem inline_tokens (tokens : List (List Nat))
    (hn : tokens ≠ []) (ht : ∀ t ∈ tokens, unquotedToken t) :
    (processInlineBuffer (freshWith (inlineLine tokens ++ [13, 10]))).map
        (fun r => (r.1, r.2.argc, r.2.argv)) =
      .ok (C_OK, (tokens.length : Int),
        some (tokens.map (fun t => some (createObject OBJ_STRING t)))) ∧
    ∀ t ∈ tokens, (createObject OBJ_STRING t).ptr = t := by
  constructor
  · have := processInlineBuffer_eval (freshWith (inlineLine tokens ++ [13, 10]))
      (inlineLine tokens) [] tokens rfl
      (fun b hb => ⟨(plain_no_nul tokens ht b hb).1, (plain_no_nul tokens ht b hb).2.1⟩)
      (sdssplitargs_inlineLine tokens hn ht) (fun t h => (ht t h).1) hn
    rw [this]
    rfl
  · intro t _; rfl

/-- The witness of C6: `PING\r\n` gives `argc = 1`, `argv = ["PING"]`. -/
theorem inline_tokens_ping :
    (inlineLine [pingName] ++ [13, 10] = [80, 73, 78, 71, 13, 10]) ∧
    ((processInlineBuffer (freshWith (inlineLine [pingName] ++ [13, 10]))).map
        (fun r => (r.1, r.2.argc, r.2.argv)) =
      .ok (C_OK, (([pingName] : List (List Nat)).length : Int),
        some (([pingName] : List (List Nat)).map (fun t => some (createObject OBJ_STRING t)))) ∧
    ∀ t ∈ ([pingName] : List (List Nat)), (createObject OBJ_STRING t).ptr = t) :=
  ⟨by decide, inline_tokens [pingName] (by decide) (by decide)⟩

/-- C1 (the code at the failing input): the well-formed command
`*3\r\n$7\r\ncommand\r\n$70000\r\n<70000 bytes A>\r\n$1\r\nb\r\n`.  Appended
whole to a fresh client, it is decoded with `argc = 3` and dispatched.
Appended in two chunks, the first one ending after the `$` of the last length
line, the first run returns `C_ERR` without trimming the buffer (no CR for
the length line and more than 64 KiB in the buffer), the second run reads the
buffer from the start of the payload again, and the command is never
completed: `argc = 2`, one argument still expected, nothing dispatched. -/
theorem chunking_breaks_past_64KiB (H : Handlers) :
    bigCommandHead bigArg ++ bigCommandTail = bigCommand bigArg ∧
    observe (feedChunks H [bigCommandHead bigArg ++ bigCommandTail] createClient []) =
      .ok { reqtype := PROTO_REQ_MULTIBULK, argc := 3, multibulklen := 0, bulklen := -1,
            querybuf := [], dispatched := [3] } ∧
    observe (feedChunks H [bigCommandHead bigArg, bigCommandTail] createClient []) =
      .ok { reqtype := PROTO_REQ_MULTIBULK, argc := 2, multibulklen := 1, bulklen := -1,
            querybuf := bigArg ++ [13, 10, 36] ++ bigCommandTail, dispatched := [] } :=
  chunking_breaks H bigArg bigArg_length bigArg_bytes

/-! ## String objects and reference counts -/

/-- C15: `createStringObject(ptr, len)` on `len` readable bytes returns a
string object whose payload is exactly the first `len` bytes of the input,
of length `len`, with encoding EMBSTR when `len <= 44` and RAW when
`len > 44`. -/
theorem createStringObject_encoding (ptr : List Nat) (len : Nat) (h : len ≤ ptr.length) :
    (createStringObject ptr len).type = OBJ_STRING ∧
    (createStringObject ptr len).ptr = ptr.take len ∧
    (createStringObject ptr len).ptr.length = len ∧
    (len ≤ 44 → createStringObject ptr len = createEmbeddedStringObject ptr len ∧
      (createStringObject ptr len).encoding = OBJ_ENCODING_EMBSTR) ∧
    (44 < len → createStringObject ptr len = createRawStringObject ptr len ∧
      (createStringObject ptr len).encoding = OBJ_ENCODING_RAW) := by
  by_cases h44 : len ≤ 44
  · have e : createStringObject ptr len = createEmbeddedStringObject ptr len := by
      unfold createStringObject OBJ_ENCODING_EMBSTR_SIZE_LIMIT
      rw [if_pos h44]
    rw [e]
    refine ⟨rfl, rfl, ?_, fun _ => ⟨rfl, rfl⟩, fun h1 => absurd h44 (by omega)⟩
    show (ptr.take len).length = len
    rw [List.length_take]; omega
  · have e : createStringObject ptr len = createRawStringObject ptr len := by
      unfold createStringObject OBJ_ENCODING_EMBSTR_SIZE_LIMIT
      rw [if_neg h44]
    rw [e]
    refine ⟨rfl, rfl, ?_, fun h1 => absurd h1 h44, fun _ => ⟨rfl, rfl⟩⟩
    show (ptr.take len).length = len
    rw [List.length_take]; omega

/-- C15, at the boundary: 44 bytes give an EMBSTR object, 45 bytes a RAW one. -/
theorem createStringObject_encoding_boundary :
    (44 ≤ (List.replicate 45 65).length ∧
      (createStringObject (List.replicate 45 65) 44).encoding = OBJ_ENCODING_EMBSTR ∧
      (createStringObject (List.replicate 45 65) 44).ptr = List.replicate 44 65) ∧
    (45 ≤ (List.replicate 45 65).length ∧
      (createStringObject (List.replicate 45 65) 45).encoding = OBJ_ENCODING_RAW ∧
      (createStringObject (List.replicate 45 65) 45).ptr = List.replicate 45 65) :=
  ⟨⟨by decide,
    ((createStringObject_encoding (List.replicate 45 65) 44 (by decide)).2.2.2.1 (by decide)).2,
    by decide⟩,
   ⟨by decide,
    ((createStringObject_encoding (List.replicate 45 65) 45 (by decide)).2.2.2.2 (by decide)).2,
    by decide⟩⟩

/-- C18: `incrRefCount` adds exactly 1 to the reference count unless the
count is the shared sentinel `OBJ_SHARED_REFCOUNT` (`INT_MAX`), in which case
the object is left as it was; type, encoding and payload are the same in both
cases. -/
theorem incrRefCount_adds_one (o : robj) :
    incrRefCount o =
      { o with refcount :=
          if o.refcount = OBJ_SHARED_REFCOUNT then o.refcount else o.refcount + 1 } ∧
    (incrRefCount o).type = o.type ∧ (incrRefCount o).encoding = o.encoding ∧
    (incrRefCount o).ptr = o.ptr ∧
    (OBJ_SHARED_REFCOUNT = INT_MAX) := by
  unfold incrRefCount
  by_cases h : o.refcount = OBJ_SHARED_REFCOUNT
  · have h1 : ¬ (o.refcount ≠ OBJ_SHARED_REFCOUNT) := fun h2 => h2 h
    rw [if_neg h1, if_pos h]
    exact ⟨rfl, rfl, rfl, rfl, rfl⟩
  · have h1 : o.refcount ≠ OBJ_SHARED_REFCOUNT := h
    rw [if_pos h1, if_neg h]
    exact ⟨rfl, rfl, rfl, rfl, rfl⟩

/-- C19: `decrRefCount` on an object whose count `r` is not the sentinel:
for `r > 1` the count becomes `r - 1` and the object is kept; for `r = 1` the
object is freed; and an object is freed by no other call than one that finds
the count at 1. -/
theorem decrRefCount_release (o : robj) (hs : o.refcount ≠ OBJ_SHARED_REFCOUNT) :
    (1 < o.refcount → decrRefCount o = some { o with refcount := o.refcount - 1 }) ∧
    (o.refcount = 1 → decrRefCount o = none) ∧
    (decrRefCount o = none ↔ o.refcount = 1) := by
  unfold decrRefCount
  refine ⟨fun h => ?_, fun h => ?_, ?_⟩
  · have h1 : ¬ o.refcount = 1 := by omega
    simp [h1, hs]
  · simp [h]
  · by_cases h1 : o.refcount = 1
    · simp [h1]
    · simp [h1, hs]

/-- C19, on a RAW string with count 2 and on one with count 1. -/
theorem decrRefCount_release_witness :
    decrRefCount { type := OBJ_STRING, encoding := OBJ_ENCODING_RAW, ptr := [97], refcount := 2 } =
      some { type := OBJ_STRING, encoding := OBJ_ENCODING_RAW, ptr := [97], refcount := 1 } ∧
    decrRefCount (createObject OBJ_STRING [97]) = none :=
  ⟨(decrRefCount_release
      { type := OBJ_STRING, encoding := OBJ_ENCODING_RAW, ptr := [97], refcount := 2 }
      (by decide)).1 (by decide),
   (decrRefCount_release (createObject OBJ_STRING [97]) (by decide)).2.1 rfl⟩

theorem incrRefCount_shared (o : robj) (h : o.refcount = OBJ_SHARED_REFCOUNT) :
    incrRefCount o = o := by
  unfold incrRefCount; simp [h]

theorem decrRefCount_shared (o : robj) (h : o.refcount = OBJ_SHARED_REFCOUNT) :
    decrRefCount o = some o := by
  have h1 : ¬ o.refcount = 1 := by rw [h]; decide
  have h2 : ¬ (o.refcount ≠ OBJ_SHARED_REFCOUNT) := fun h3 => h3 h
  unfold decrRefCount
  rw [if_neg h1, if_neg h2]

/-- C20: an object whose count is the shared sentinel is never freed and
keeps the sentinel: after any sequence of `incrRefCount` and `decrRefCount`
calls the object is there, unchanged. -/
theorem shared_object_never_freed (ops : List RefOp) (o : robj)
    (h : o.refcount = OBJ_SHARED_REFCOUNT) :
    applyRefOps ops o = some o ∧ decrRefCount o ≠ none := by
  refine ⟨?_, by rw [decrRefCount_shared o h]; simp⟩
  induction ops with
  | nil => rfl
  | cons op ops ih =>
    cases op with
    | incr => simp only [applyRefOps, incrRefCount_shared o h, ih]
    | decr => simp only [applyRefOps, decrRefCount_shared o h, ih]

/-- C20, on a shared string released three times and retained once. -/
theorem shared_object_never_freed_witness :
    applyRefOps [.decr, .decr, .incr, .decr]
      { type := OBJ_STRING, encoding := OBJ_ENCODING_RAW, ptr := [79, 75],
        refcount := OBJ_SHARED_REFCOUNT } =
      some { type := OBJ_STRING, encoding := OBJ_ENCODING_RAW, ptr := [79, 75],
             refcount := OBJ_SHARED_REFCOUNT } :=
  (shared_object_never_freed [.decr, .decr, .incr, .decr]
    { type := OBJ_STRING, encoding := OBJ_ENCODING_RAW, ptr := [79, 75],
      refcount := OBJ_SHARED_REFCOUNT } rfl).1

/-! ## What the decoder stores in `argv` -/

theorem argvStore_all (P : robj → Prop) (c c1 : client) (o : robj)
    (hc : argvAll P c) (ho : P o) (h : argvStore c o = .ok c1) : argvAll P c1 := by
  unfold argvStore at h
  cases hv : c.argv with
  | none => rw [hv] at h; cases h
  | some slots =>
    rw [hv] at h
    simp only at h
    by_cases hk : 0 ≤ c.argc ∧ c.argc < slots.length
    · rw [if_pos hk] at h
      injection h with h
      subst h
      intro s hs o1 ho1
      simp only [Option.some.injEq] at hs
      subst hs
      rcases List.mem_or_eq_of_mem_set ho1 with h1 | h1
      · exact hc slots hv o1 h1
      · injection h1 with h1
        subst h1
        exact ho
    · rw [if_neg hk] at h
      cases h

theorem inlineArgs_all (P : robj → Prop) (hP : ∀ x, P (createObject OBJ_STRING x))
    (toks : List (List Nat)) :
    ∀ c c1 : client, argvAll P c → inlineArgs toks c = .ok c1 → argvAll P c1 := by
  induction toks with
  | nil =>
    intro c c1 hc h
    simp only [inlineArgs] at h
    injection h with h
    subst h
    exact hc
  | cons t ts ih =>
    intro c c1 hc h
    unfold inlineArgs at h
    by_cases ht : t.length ≠ 0
    · rw [if_pos ht] at h
      cases hs : argvStore c (createObject OBJ_STRING t) with
      | error e => rw [hs] at h; cases h
      | ok c2 =>
        rw [hs] at h
        exact ih c2 c1 (argvStore_all P c c2 _ hc (hP t) hs) h
    · rw [if_neg ht] at h
      exact ih c c1 hc h

theorem argvAll_replicate (P : robj → Prop) (c : client) (n : Nat) :
    argvAll P { c with argv := some (List.replicate n none) } := by
  intro s hs o ho
  simp only [Option.some.injEq] at hs
  subst hs
  have := List.eq_of_mem_replicate ho
  cases this

/-- Whatever `processInlineBuffer` leaves in `argv` satisfies `P`, when the
objects there before the call do and `createObject` makes such objects. -/
theorem processInlineBuffer_all (P : robj → Prop) (hP : ∀ x, P (createObject OBJ_STRING x))
    (c c1 : client) (r : Int) (hc : argvAll P c)
    (h : processInlineBuffer c = .ok (r, c1)) : argvAll P c1 := by
  unfold processInlineBuffer at h
  cases hs : strchr c.querybuf 10 with
  | none =>
    rw [hs] at h
    simp only at h
    injection h with h
    injection h with h1 h2
    subst h2
    exact hc
  | some nl =>
    rw [hs] at h
    simp only at h
    split at h
    · injection h with h
      injection h with h1 h2
      subst h2
      exact hc
    · rename_i argv hsp
      split at h
      · cases h
      · rename_i c3 hin
        injection h with h
        injection h with h1 h2
        subst h2
        have hall := fun hc0 => inlineArgs_all P hP argv _ c3 hc0 hin
        apply hall
        intro sl hsl o ho
        by_cases hl : argv.length ≠ 0
        · rw [if_pos hl] at hsl
          simp only [Option.some.injEq] at hsl
          subst hsl
          have := List.eq_of_mem_replicate ho
          cases this
        · rw [if_neg hl] at hsl
          exact hc sl hsl o ho

theorem readBulkLength_argv (c : client) (pos : Int) (s : BulkStep)
    (h : readBulkLength c pos = .ok s) : (stepClient s).argv = c.argv := by
  unfold readBulkLength at h
  repeat' (split at h)
  all_goals (cases h <;> rfl)

theorem createObject_lengthEncoded (x : List Nat) (h : 44 < x.length) :
    lengthEncoded (createObject OBJ_STRING x) :=
  ⟨fun h1 => absurd h (by change ¬ 44 < x.length; change x.length ≤ 44 at h1; omega),
   fun _ => rfl⟩

theorem createStringObject_lengthEncoded (x : List Nat) (n : Nat) (h : n ≤ x.length) :
    lengthEncoded (createStringObject x n) := by
  have hl : (x.take n).length = n := by rw [List.length_take]; omega
  unfold createStringObject OBJ_ENCODING_EMBSTR_SIZE_LIMIT
  by_cases h44 : n ≤ 44
  · rw [if_pos h44]
    refine ⟨fun _ => rfl, fun h1 => ?_⟩
    change 44 < (x.take n).length at h1
    omega
  · rw [if_neg h44]
    refine ⟨fun h1 => ?_, fun _ => rfl⟩
    change (x.take n).length ≤ 44 at h1
    omega

/-- Whatever `readBulkArgument` stores satisfies `P`, when `P` holds of a
RAW object of more than 44 bytes and of the result of `createStringObject`
on readable bytes. -/
theorem readBulkArgument_all (P : robj → Prop)
    (hraw : ∀ x, 44 < x.length → P (createObject OBJ_STRING x))
    (hstr : ∀ x n, n ≤ x.length → P (createStringObject x n))
    (c c2 : client) (pos pos2 : Int) (hc : argvAll P c)
    (h : readBulkArgument c pos = .ok (some (c2, pos2))) : argvAll P c2 := by
  unfold readBulkArgument at h
  simp only at h
  split at h
  · cases h
  · split at h
    · rename_i hfit
      split at h
      · cases h
      · rename_i c1 hs
        injection h with h
        injection h with h
        injection h with h1 h2
        subst h1
        have hlen : 44 < (c.querybuf.take (c.querybuf.length - 2)).length := by
          rw [List.length_take]
          obtain ⟨_, hb, ht⟩ := hfit
          unfold PROTO_MBULK_BIG_ARG at hb
          unfold toInt32 at ht
          omega
        have := argvStore_all P c c1 _ hc (hraw _ hlen) hs
        intro s hs1 o ho
        exact this s hs1 o ho
    · split at h
      · cases h
      · split at h
        · cases h
        · rename_i hneg hoob
          split at h
          · cases h
          · rename_i c1 hs
            injection h with h
            injection h with h
            injection h with h1 h2
            subst h1
            have hn : c.bulklen.toNat ≤ (c.querybuf.drop pos.toNat).length := by
              rw [List.length_drop]
              omega
            have := argvStore_all P c c1 _ hc (hstr _ _ hn) hs
            intro s hs1 o ho
            exact this s hs1 o ho

theorem processMultibulkLoop_all (P : robj → Prop)
    (hraw : ∀ x, 44 < x.length → P (createObject OBJ_STRING x))
    (hstr : ∀ x n, n ≤ x.length → P (createStringObject x n)) (fuel : Nat) :
    ∀ (c : client) (pos : Int) (s : BulkStep), argvAll P c →
      processMultibulkLoop fuel c pos = .ok s → argvAll P (stepClient s) := by
  induction fuel with
  | zero => intro c pos s _ h; simp only [processMultibulkLoop] at h; cases h
  | succ fuel ih =>
    intro c pos s hc h
    unfold processMultibulkLoop at h
    by_cases hm : c.multibulklen = 0
    · rw [if_pos hm] at h
      injection h with h
      subst h
      exact hc
    · rw [if_neg hm] at h
      cases hrl : readBulkLength c pos with
      | error e => rw [hrl] at h; cases h
      | ok s1 =>
        have hv := readBulkLength_argv c pos s1 hrl
        have hc1 : argvAll P (stepClient s1) := by
          intro sl hsl o ho
          rw [hv] at hsl
          exact hc sl hsl o ho
        rw [hrl] at h
        cases s1 with
        | ret r c1 =>
          simp only at h
          injection h with h
          subst h
          exact hc1
        | brk c1 pos1 =>
          simp only at h
          injection h with h
          subst h
          exact hc1
        | go c1 pos1 =>
          simp only at h
          cases hra : readBulkArgument c1 pos1 with
          | error e => rw [hra] at h; cases h
          | ok res =>
            rw [hra] at h
            cases res with
            | none =>
              simp only at h
              injection h with h
              subst h
              exact hc1
            | some p =>
              obtain ⟨c2, pos2⟩ := p
              simp only at h
              exact ih c2 pos2 s (readBulkArgument_all P hraw hstr c1 c2 pos1 pos2 hc1 hra) h

theorem processMultibulkHeader_all (P : robj → Prop) (c : client) (hc : argvAll P c) :
    argvAll P (stepClient (processMultibulkHeader c)) := by
  unfold processMultibulkHeader
  repeat' split
  all_goals first
    | exact hc
    | exact argvAll_replicate P _ _
    | (intro s hs o ho
       simp only [stepClient, Option.some.injEq] at hs
       subst hs
       have := List.eq_of_mem_replicate ho
       cases this)

theorem multibulkFinish_all (P : robj → Prop) (c : client) (pos : Int) (hc : argvAll P c) :
    argvAll P (multibulkFinish c pos).2 := by
  unfold multibulkFinish
  simp only
  repeat' split
  all_goals (intro s hs o ho; exact hc s hs o ho)

/-- Whatever `processMultibulkBuffer` leaves in `argv` satisfies `P`, when
the objects there before the call do, and `P` holds of a RAW object of more
than 44 bytes and of the result of `createStringObject` on readable bytes. -/
theorem processMultibulkBuffer_all (P : robj → Prop)
    (hraw : ∀ x, 44 < x.length → P (createObject OBJ_STRING x))
    (hstr : ∀ x n, n ≤ x.length → P (createStringObject x n))
    (c c1 : client) (r : Int) (hc : argvAll P c)
    (h : processMultibulkBuffer c = .ok (r, c1)) : argvAll P c1 := by
  have hh := processMultibulkHeader_all P c hc
  unfold processMultibulkBuffer at h
  cases hs : processMultibulkHeader c with
  | ret r0 c0 =>
    rw [hs] at h hh
    simp only at h
    injection h with h
    injection h with h1 h2
    subst h2
    exact hh
  | brk c0 pos =>
    rw [hs] at h hh
    simp only at h
    injection h with h
    have := multibulkFinish_all P c0 pos hh
    rw [h] at this
    exact this
  | go c0 pos =>
    rw [hs] at h hh
    simp only at h
    cases hl : processMultibulkLoop (c0.querybuf.length + 2) c0 pos with
    | error e => rw [hl] at h; cases h
    | ok s =>
      have hs1 := processMultibulkLoop_all P hraw hstr _ c0 pos s hh hl
      rw [hl] at h
      cases s with
      | ret r2 c2 =>
        simp only at h
        injection h with h
        injection h with h1 h2
        subst h2
        exact hs1
      | brk c2 pos2 =>
        simp only at h
        injection h with h
        have := multibulkFinish_all P c2 pos2 hs1
        rw [h] at this
        exact this
      | go c2 pos2 =>
        simp only at h
        injection h with h
        have := multibulkFinish_all P c2 pos2 hs1
        rw [h] at this
        exact this

theorem argvAll_of_null (P : robj → Prop) (c : client) (h : c.argv = none) : argvAll P c := by
  intro s hs
  rw [h] at hs
  cases hs

/-- C17: every object that `createObject`, `createRawStringObject`,
`createEmbeddedStringObject` or `createStringObject` returns has reference
count 1; hence a call of `processInlineBuffer` or `processMultibulkBuffer` on
a client whose `argv` holds objects of count 1 only (none at all on a new
client) leaves `argv` holding objects of count 1 only: every Value the
decoder stores has count 1. -/
theorem created_values_have_refcount_one (c c1 : client) (r : Int)
    (hc : argvAll (fun o => o.refcount = 1) c) :
    (∀ (type : Nat) (ptr : List Nat), (createObject type ptr).refcount = 1) ∧
    (∀ (ptr : List Nat) (len : Nat), (createRawStringObject ptr len).refcount = 1) ∧
    (∀ (ptr : List Nat) (len : Nat), (createEmbeddedStringObject ptr len).refcount = 1) ∧
    (∀ (ptr : List Nat) (len : Nat), (createStringObject ptr len).refcount = 1) ∧
    argvAll (fun o => o.refcount = 1) createClient ∧
    (processInlineBuffer c = .ok (r, c1) → argvAll (fun o => o.refcount = 1) c1) ∧
    (processMultibulkBuffer c = .ok (r, c1) → argvAll (fun o => o.refcount = 1) c1) := by
  have hs : ∀ (ptr : List Nat) (len : Nat), (createStringObject ptr len).refcount = 1 := by
    intro ptr len
    unfold createStringObject
    by_cases h : len ≤ OBJ_ENCODING_EMBSTR_SIZE_LIMIT
    · rw [if_pos h]; rfl
    · rw [if_neg h]; rfl
  refine ⟨fun _ _ => rfl, fun _ _ => rfl, fun _ _ => rfl, hs,
    argvAll_of_null _ _ rfl, ?_, ?_⟩
  · exact processInlineBuffer_all (fun o => o.refcount = 1) (fun _ => rfl) c c1 r hc
  · exact processMultibulkBuffer_all (fun o => o.refcount = 1) (fun _ _ => rfl)
      (fun x n _ => hs x n) c c1 r hc

/-- C17, on `*2\r\n$3\r\nGET\r\n$3\r\nfoo\r\n` given to a new client: the two
objects of `argv` have count 1. -/
theorem created_values_have_refcount_one_getFoo :
    processMultibulkBuffer (freshWith getFoo) = .ok (C_OK,
      { createClient with
        argc := 2,
        argv := some [some (createStringObject [71, 69, 84] 3),
                      some (createStringObject [102, 111, 111] 3)] }) ∧
    argvAll (fun o => o.refcount = 1)
      { createClient with
        argc := 2,
        argv := some [some (createStringObject [71, 69, 84] 3),
                      some (createStringObject [102, 111, 111] 3)] } :=
  ⟨by decide,
   (created_values_have_refcount_one (freshWith getFoo) _ C_OK
      (argvAll_of_null _ _ rfl)).2.2.2.2.2.2 (by decide)⟩

/-- C16 (the claim as stated is refuted by the inline path): on `PING\r\n`
`processInlineBuffer` stores the 4-byte Value `PING` with the RAW encoding,
not the EMBSTR encoding that its length would select. -/
theorem inline_short_value_is_raw :
    processInlineBuffer (freshWith (pingName ++ [13, 10])) = .ok (C_OK,
      { createClient with
        argc := 1,
        argv := some [some { type := OBJ_STRING, encoding := OBJ_ENCODING_RAW,
                             ptr := pingName, refcount := 1 }] }) ∧
    pingName.length ≤ 44 ∧ OBJ_ENCODING_RAW ≠ OBJ_ENCODING_EMBSTR ∧
    ¬ lengthEncoded { type := OBJ_STRING, encoding := OBJ_ENCODING_RAW,
                      ptr := pingName, refcount := 1 } := by
  decide

/-- C16 (as amended): the encoding of a Value follows from its length on the
multibulk path only.  A call of `processMultibulkBuffer` on a client whose
`argv` holds length-encoded objects (EMBSTR up to 44 bytes, RAW above) leaves
`argv` holding length-encoded objects; a call of `processInlineBuffer` on a
client whose `argv` holds RAW objects leaves `argv` holding RAW objects,
whatever their lengths. -/
theorem encoding_by_length_on_multibulk_path (c c1 : client) (r : Int) :
    (argvAll lengthEncoded c → processMultibulkBuffer c = .ok (r, c1) →
      argvAll lengthEncoded c1) ∧
    (argvAll (fun o => o.encoding = OBJ_ENCODING_RAW) c → processInlineBuffer c = .ok (r, c1) →
      argvAll (fun o => o.encoding = OBJ_ENCODING_RAW) c1) :=
  ⟨fun hc h => processMultibulkBuffer_all lengthEncoded createObject_lengthEncoded
      createStringObject_lengthEncoded c c1 r hc h,
   fun hc h => processInlineBuffer_all (fun o => o.encoding = OBJ_ENCODING_RAW) (fun _ => rfl)
      c c1 r hc h⟩

/-- C16 as amended, on `*2\r\n$3\r\nGET\r\n$3\r\nfoo\r\n`: the two objects are
length-encoded (EMBSTR, 3 bytes each). -/
theorem encoding_by_length_getFoo :
    processMultibulkBuffer (freshWith getFoo) = .ok (C_OK,
      { createClient with
        argc := 2,
        argv := some [some { type := OBJ_STRING, encoding := OBJ_ENCODING_EMBSTR,
                             ptr := [71, 69, 84], refcount := 1 },
                      some { type := OBJ_STRING, encoding := OBJ_ENCODING_EMBSTR,
                             ptr := [102, 111, 111], refcount := 1 }] }) ∧
    argvAll lengthEncoded
      { createClient with
        argc := 2,
        argv := some [some { type := OBJ_STRING, encoding := OBJ_ENCODING_EMBSTR,
                             ptr := [71, 69, 84], refcount := 1 },
                      some { type := OBJ_STRING, encoding := OBJ_ENCODING_EMBSTR,
                             ptr := [102, 111, 111], refcount := 1 }] } :=
  ⟨by decide,
   (encoding_by_length_on_multibulk_path (freshWith getFoo) _ C_OK).1
      (argvAll_of_null _ _ rfl) (by decide)⟩

/-! ## The zero-copy path -/

theorem decimal_length_le (k : Nat) : ∀ n : Nat, n < 10 ^ (k + 1) →
    (decimal n).length ≤ k + 1 := by
  induction k with
  | zero =>
    intro n hn
    rw [decimal_lt_ten n (by simpa using hn)]
    simp
  | succ k ih =>
    intro n hn
    by_cases h : n < 10
    · rw [decimal_lt_ten n h]; simp
    · rw [decimal_ge_ten n (by omega)]
      have h1 : n / 10 < 10 ^ (k + 1) := by
        rw [Nat.div_lt_iff_lt_mul (by decide)]
        rw [pow_succ] at hn
        exact hn
      have := ih (n / 10) h1
      simp only [List.length_append, List.length_cons, List.length_nil]
      omega

theorem decimal_length_pos (n : Nat) : 1 ≤ (decimal n).length := by
  by_cases h : n < 10
  · rw [decimal_lt_ten n h]; simp
  · rw [decimal_ge_ten n (by omega)]; simp

/-- The decimal text of a length that the grammar admits has at most 9 digits. -/
theorem decimal_length_le_nine (n : Nat) (h : n ≤ 536870912) : (decimal n).length ≤ 9 :=
  decimal_length_le 8 n (by omega)

theorem zeroCopyArg_length : zeroCopyArg.length = 40000 := by
  unfold zeroCopyArg; rw [List.length_replicate]

theorem decimal_one : decimal 1 = [49] := by decide

theorem multibulk_single (a : List Nat) :
    multibulk [a] = 42 :: 49 :: 13 :: 10 :: bulk a := by
  simp [multibulk, bulks, decimal_one]

theorem length_multibulk_single (a : List Nat) (hmax : a.length ≤ 536870912) :
    (multibulk [a]).length < 2147483648 := by
  have hd := decimal_length_le_nine a.length hmax
  rw [multibulk_single]
  simp only [bulk, List.length_cons, List.length_append, List.length_nil]
  omega

/-- C14: for every length from 32,768 up to the limit of 512 MiB, when the
buffer of a client at the start of a command holds exactly the multibulk
command whose only argument `a` has that length: after the header and the
`$<len>` line the buffer holds exactly the `len + 2` bytes of the payload and
its CRLF, at cursor 0; `readBulkArgument` then takes the adopting branch (it
returns cursor 0 and an empty buffer, where the copying branch would return
cursor `len + 2` and leave the buffer alone), storing a RAW object whose bytes
are the payload without the CRLF; and the whole call returns `C_OK` with this
object as the only argument and an empty buffer. -/
theorem zero_copy_sole_argument (c : client) (a : List Nat)
    (hm : c.multibulklen = 0) (hb : c.bulklen = -1) (hk : c.argc = 0)
    (hq : c.querybuf = multibulk [a])
    (hbig : 32768 ≤ a.length) (hmax : a.length ≤ 536870912) :
    processMultibulkHeader c = .go { c with multibulklen := 1, argv := some [none] } 4 ∧
    readBulkLength { c with multibulklen := 1, argv := some [none] } 4 =
      .ok (.go { c with multibulklen := 1, argv := some [none],
                        querybuf := a ++ [13, 10], bulklen := (a.length : Int) } 0) ∧
    (a ++ [13, 10]).length = a.length + 2 ∧
    readBulkArgument { c with multibulklen := 1, argv := some [none],
                              querybuf := a ++ [13, 10], bulklen := (a.length : Int) } 0 =
      .ok (some ({ c with multibulklen := 0, argv := some [some (createObject OBJ_STRING a)],
                          argc := 1, querybuf := [], bulklen := -1 }, 0)) ∧
    processMultibulkBuffer c = .ok (C_OK,
      { c with querybuf := [], argc := 1, argv := some [some (createObject OBJ_STRING a)] }) ∧
    (createObject OBJ_STRING a).encoding = OBJ_ENCODING_RAW ∧
    (createObject OBJ_STRING a).ptr = a := by
  have hlen : c.querybuf.length < 2147483648 := by
    rw [hq]; exact length_multibulk_single a hmax
  have hbig1 : PROTO_MBULK_BIG_ARG ≤ a.length := by unfold PROTO_MBULK_BIG_ARG; omega
  have hbig2 : (a.length : Int) ≥ (PROTO_MBULK_BIG_ARG : Int) := by exact_mod_cast hbig1
  have hq1 : c.querybuf = 42 :: ([49] ++ 13 :: 10 :: bulk a) := by
    rw [hq, multibulk_single]; rfl
  have hobj : createStringObject a a.length = createObject OBJ_STRING a :=
    (createObject_big a hbig1).symm
  refine ⟨?_, ?_, by simp, ?_, ?_, rfl, rfl⟩
  · have hh := header_eval c 42 [49] (bulk a) hm hq1 (by decide)
      (by rw [← decimal_one]; exact cleanOf_decimal 1) hlen
    have hll : string2ll [49] = some 1 := by decide
    rw [hll] at hh
    rw [hh]
    rfl
  · have hrl := readBulkLength_bulk { c with multibulklen := 1, argv := some [none] } 4 a []
      hb hmax (by show c.querybuf.drop 4 = bulk a ++ []; rw [hq1]; simp) hlen
    simp only [hbig2, if_true] at hrl
    exact hrl
  · have hra := readBulkArgument_adopt
      { c with multibulklen := 1, argv := some [none],
               querybuf := a ++ [13, 10], bulklen := (a.length : Int) } a 13 10 [none] 0
      rfl hmax hbig1 rfl rfl hk (by simp)
    rw [hra, hobj]
    simp
  · have hd := multibulk_decode c [a] [] hm hb hk (by rw [hq]; simp) (by simp) (by simp)
      (by intro x hx; simp only [List.mem_singleton] at hx; subst hx; exact hmax) hlen
    rw [hd]
    simp only [List.length_singleton, List.map_cons, List.map_nil, hobj]
    rfl

/-- The witness of C14: a sole argument of 40,000 bytes. -/
theorem zero_copy_40000 :
    (32768 ≤ zeroCopyArg.length ∧ zeroCopyArg.length ≤ 536870912) ∧
    readBulkArgument
      { freshWith (multibulk [zeroCopyArg]) with
        multibulklen := 1, argv := some [none],
        querybuf := zeroCopyArg ++ [13, 10], bulklen := (zeroCopyArg.length : Int) } 0 =
      .ok (some ({ freshWith (multibulk [zeroCopyArg]) with
                   multibulklen := 0, argv := some [some (createObject OBJ_STRING zeroCopyArg)],
                   argc := 1, querybuf := [], bulklen := -1 }, 0)) ∧
    processMultibulkBuffer (freshWith (multibulk [zeroCopyArg])) = .ok (C_OK,
      { freshWith (multibulk [zeroCopyArg]) with
        querybuf := [], argc := 1,
        argv := some [some (createObject OBJ_STRING zeroCopyArg)] }) :=
  ⟨⟨by rw [zeroCopyArg_length]; decide, by rw [zeroCopyArg_length]; decide⟩,
   (zero_copy_sole_argument (freshWith (multibulk [zeroCopyArg])) zeroCopyArg rfl rfl rfl rfl
      (by rw [zeroCopyArg_length]; decide) (by rw [zeroCopyArg_length]; decide)).2.2.2.1,
   (zero_copy_sole_argument (freshWith (multibulk [zeroCopyArg])) zeroCopyArg rfl rfl rfl rfl
      (by rw [zeroCopyArg_length]; decide) (by rw [zeroCopyArg_length]; decide)).2.2.2.2.1⟩

/-! ## Results of the decoder -/

theorem readBulkLength_ret (c : client) (pos : Int) (r : Int) (c1 : client)
    (h : readBulkLength c pos = .ok (.ret r c1)) : r = C_ERR ∧ c1 = c := by
  unfold readBulkLength at h
  repeat' (split at h)
  all_goals (cases h <;> exact ⟨rfl, rfl⟩)

theorem processMultibulkLoop_ret (fuel : Nat) :
    ∀ (c : client) (pos : Int) (r : Int) (c2 : client),
      processMultibulkLoop fuel c pos = .ok (.ret r c2) → r = C_ERR := by
  induction fuel with
  | zero => intro c pos r c2 h; simp only [processMultibulkLoop] at h; cases h
  | succ fuel ih =>
    intro c pos r c2 h
    unfold processMultibulkLoop at h
    by_cases hm : c.multibulklen = 0
    · rw [if_pos hm] at h
      cases h
    · rw [if_neg hm] at h
      cases hrl : readBulkLength c pos with
      | error e => rw [hrl] at h; cases h
      | ok s1 =>
        rw [hrl] at h
        cases s1 with
        | ret r1 c1 =>
          simp only at h
          injection h with h
          injection h with h1 h2
          subst h1
          exact (readBulkLength_ret c pos r1 c1 hrl).1
        | brk c1 pos1 => simp only at h; cases h
        | go c1 pos1 =>
          simp only at h
          cases hra : readBulkArgument c1 pos1 with
          | error e => rw [hra] at h; cases h
          | ok res =>
            rw [hra] at h
            cases res with
            | none => simp only at h; cases h
            | some p =>
              obtain ⟨c3, pos3⟩ := p
              simp only at h
              exact ih c3 pos3 r c2 h

theorem processMultibulkHeader_ret (c : client) (r : Int) (c1 : client)
    (h : processMultibulkHeader c = .ret r c1) : r = C_OK ∨ (r = C_ERR ∧ c1 = c) := by
  unfold processMultibulkHeader at h
  repeat' (split at h)
  all_goals (cases h <;> first | exact Or.inr ⟨rfl, rfl⟩ | exact Or.inl rfl)

theorem processMultibulkHeader_not_brk (c c1 : client) (pos : Int) :
    processMultibulkHeader c ≠ .brk c1 pos := by
  intro h
  unfold processMultibulkHeader at h
  repeat' (split at h)
  all_goals (cases h)

theorem multibulkFinish_result (c : client) (pos : Int) :
    (multibulkFinish c pos).1 = C_OK ∨ (multibulkFinish c pos).1 = C_ERR := by
  unfold multibulkFinish
  simp only
  repeat' split
  all_goals first
    | exact Or.inl rfl
    | exact Or.inr rfl

/-- The decoder has two results only: `C_OK` and `C_ERR`. -/
theorem processMultibulkBuffer_result (c c1 : client) (r : Int)
    (h : processMultibulkBuffer c = .ok (r, c1)) : r = C_OK ∨ r = C_ERR := by
  unfold processMultibulkBuffer at h
  cases hs : processMultibulkHeader c with
  | ret r0 c0 =>
    rw [hs] at h
    simp only at h
    injection h with h
    injection h with h1 h2
    subst h1
    rcases processMultibulkHeader_ret c r0 c0 hs with h3 | h3
    · exact Or.inl h3
    · exact Or.inr h3.1
  | brk c0 pos => exact absurd hs (processMultibulkHeader_not_brk c c0 pos)
  | go c0 pos =>
    rw [hs] at h
    simp only at h
    cases hl : processMultibulkLoop (c0.querybuf.length + 2) c0 pos with
    | error e => rw [hl] at h; cases h
    | ok s =>
      rw [hl] at h
      cases s with
      | ret r2 c2 =>
        simp only at h
        injection h with h
        injection h with h1 h2
        subst h1
        exact Or.inr (processMultibulkLoop_ret _ c0 pos r2 c2 hl)
      | brk c2 pos2 =>
        simp only at h
        injection h with h
        have := multibulkFinish_result c2 pos2
        rw [h] at this
        exact this
      | go c2 pos2 =>
        simp only at h
        injection h with h
        have := multibulkFinish_result c2 pos2
        rw [h] at this
        exact this

theorem processInlineBuffer_result (c c1 : client) (r : Int)
    (h : processInlineBuffer c = .ok (r, c1)) : r = C_OK ∨ (r = C_ERR ∧ c1 = c) := by
  unfold processInlineBuffer at h
  cases hs : strchr c.querybuf 10 with
  | none =>
    rw [hs] at h
    cases h
    exact Or.inr ⟨rfl, rfl⟩
  | some nl =>
    rw [hs] at h
    simp only at h
    split at h
    · cases h
      exact Or.inr ⟨rfl, rfl⟩
    · split at h
      · cases h
      · cases h
        exact Or.inl rfl

theorem inlineRejects_result (c : client) (h : inlineRejects c = true) :
    processInlineBuffer c = .ok (C_ERR, c) := by
  unfold inlineRejects at h
  unfold processInlineBuffer
  cases hs : strchr c.querybuf 10 with
  | none => rfl
  | some nl =>
    rw [hs] at h
    simp only at h
    simp only
    rw [Option.isNone_iff_eq_none] at h
    rw [h]

theorem headerRejects_result (c : client) (h : headerRejects c = true) :
    processMultibulkHeader c = .ret C_ERR c := by
  unfold headerRejects at h
  rw [Bool.and_eq_true] at h
  obtain ⟨hm, h⟩ := h
  have hm1 : c.multibulklen = 0 := of_decide_eq_true hm
  unfold processMultibulkHeader
  rw [if_pos hm1]
  cases hs : strchr c.querybuf 13 with
  | none => rfl
  | some nl =>
    rw [hs] at h
    simp only at h
    simp only
    by_cases hn : (nl : Int) > toInt32 c.querybuf.length - 2
    · rw [if_pos hn]
    · rw [if_neg hn] at h
      rw [if_neg hn]
      cases hll : string2ll ((c.querybuf.drop 1).take (nl - 1)) with
      | none => rfl
      | some ll =>
        rw [hll] at h
        simp only at h
        have : ll > 1024 * 1024 := of_decide_eq_true h
        simp only
        rw [if_pos this]

theorem multibulkRejects_result (c : client) (h : multibulkRejects c = true) :
    ∃ c1, processMultibulkBuffer c = .ok (C_ERR, c1) := by
  unfold multibulkRejects at h
  rw [Bool.or_eq_true] at h
  rcases h with h | h
  · refine ⟨c, ?_⟩
    unfold processMultibulkBuffer
    rw [headerRejects_result c h]
  · cases hs : processMultibulkHeader c with
    | ret r0 c0 => rw [hs] at h; cases h
    | brk c0 pos => rw [hs] at h; cases h
    | go c0 pos =>
      rw [hs] at h
      simp only at h
      cases hl : processMultibulkLoop (c0.querybuf.length + 2) c0 pos with
      | error e => rw [hl] at h; cases h
      | ok s =>
        rw [hl] at h
        cases s with
        | ret r2 c2 =>
          have hr := processMultibulkLoop_ret _ c0 pos r2 c2 hl
          subst hr
          exact ⟨c2, processMultibulkBuffer_of_ret c c0 c2 pos C_ERR hs hl⟩
        | brk c2 pos2 => cases h
        | go c2 pos2 => cases h

/-! ## Calls that find insufficient data before consuming anything -/

/-- The header phase when the CR of the count line, or the byte after it,
has not arrived: `return C_ERR`, the client as it was, no rejection. -/
theorem header_incomplete (c : client) (hm : c.multibulklen = 0)
    (h : strchr c.querybuf 13 = none ∨
      ∃ nl, strchr c.querybuf 13 = some nl ∧ (nl : Int) > toInt32 c.querybuf.length - 2) :
    processMultibulkHeader c = .ret C_ERR c ∧ headerRejects c = false := by
  unfold processMultibulkHeader headerRejects
  rcases h with h | ⟨nl, h, hn⟩
  · rw [h]
    simp [hm]
  · rw [h]
    simp only [hm, if_true, hn, decide_True, Bool.true_and, and_self]

/-- Outside the header phase the header part of the call does nothing. -/
theorem header_skip (c : client) (hm : c.multibulklen ≠ 0) :
    processMultibulkHeader c = .go c 0 ∧ headerRejects c = false := by
  unfold processMultibulkHeader headerRejects
  simp [hm]

theorem multibulkFinish_zero (c : client) (hm : c.multibulklen ≠ 0) :
    multibulkFinish c 0 = (C_ERR, c) := by
  unfold multibulkFinish
  simp [hm]

/-- The result of `processMultibulkBuffer` when the argument loop ends by `break`. -/
theorem processMultibulkBuffer_of_brk (c c1 c2 : client) (pos pos2 : Int)
    (hh : processMultibulkHeader c = .go c1 pos)
    (hl : processMultibulkLoop (c1.querybuf.length + 2) c1 pos = .ok (.brk c2 pos2)) :
    processMultibulkBuffer c = .ok (multibulkFinish c2 pos2) ∧
    multibulkRejects c = headerRejects c := by
  unfold processMultibulkBuffer multibulkRejects
  rw [hh]
  simp only [hl, Bool.or_false]
  exact ⟨trivial, trivial⟩

/-- The result of `processMultibulkBuffer` when the argument loop runs to its end. -/
theorem processMultibulkBuffer_of_go (c c1 c2 : client) (pos pos2 : Int)
    (hh : processMultibulkHeader c = .go c1 pos)
    (hl : processMultibulkLoop (c1.querybuf.length + 2) c1 pos = .ok (.go c2 pos2)) :
    processMultibulkBuffer c = .ok (multibulkFinish c2 pos2) ∧
    multibulkRejects c = headerRejects c := by
  unfold processMultibulkBuffer multibulkRejects
  rw [hh]
  simp only [hl, Bool.or_false]
  exact ⟨trivial, trivial⟩

/-- The argument loop when the length line at the start of the buffer is
not complete: `break` at cursor 0. -/
theorem lengthLine_incomplete (c : client) (fuel : Nat)
    (hm : c.multibulklen ≠ 0) (hb : c.bulklen = -1)
    (h : (strchr c.querybuf 13 = none ∧ c.querybuf.length ≤ PROTO_INLINE_MAX_SIZE) ∨
      ∃ off, strchr c.querybuf 13 = some off ∧ (off : Int) > toInt32 c.querybuf.length - 2) :
    processMultibulkLoop (fuel + 1) c 0 = .ok (.brk c 0) := by
  have e0 : ¬ ((0 : Int) < 0 ∨ (0 : Int) > c.querybuf.length) := by omega
  unfold processMultibulkLoop readBulkLength
  rcases h with ⟨h, hl⟩ | ⟨off, h, hn⟩
  · have hl1 : ¬ c.querybuf.length > PROTO_INLINE_MAX_SIZE := by omega
    simp only [hm, if_false, hb, if_true, e0, Int.toNat_zero, List.drop_zero, h, hl1]
  · have hn1 : (0 : Int) + (off : Int) > toInt32 c.querybuf.length - 2 := by
      rw [zero_add]; exact hn
    simp only [hm, if_false, hb, if_true, e0, Int.toNat_zero, List.drop_zero, h, hn1]

/-- The argument loop when the length of the argument is known and the
buffer does not hold the payload and its CRLF yet: `break` at cursor 0. -/
theorem payload_incomplete (c : client) (fuel : Nat)
    (hm : c.multibulklen ≠ 0) (hb : c.bulklen ≠ -1)
    (h : toSizeT c.querybuf.length < toUInt32 (c.bulklen + 2)) :
    processMultibulkLoop (fuel + 1) c 0 = .ok (.brk c 0) := by
  have h1 : toSizeT ((c.querybuf.length : Int) - 0) < toUInt32 (c.bulklen + 2) := by
    rw [sub_zero]; exact h
  unfold processMultibulkLoop readBulkLength readBulkArgument
  simp only [hm, if_false, hb, h1, if_true]

/-- A call of `processMultibulkBuffer` that finds insufficient data before it
has consumed a line or an argument returns `C_ERR`, leaves the client as it
was, and takes no rejecting return. -/
theorem processMultibulkBuffer_no_progress (c : client)
    (h : (c.multibulklen = 0 ∧
        (strchr c.querybuf 13 = none ∨
          ∃ nl, strchr c.querybuf 13 = some nl ∧ (nl : Int) > toInt32 c.querybuf.length - 2)) ∨
      (c.multibulklen ≠ 0 ∧ c.bulklen = -1 ∧
        ((strchr c.querybuf 13 = none ∧ c.querybuf.length ≤ PROTO_INLINE_MAX_SIZE) ∨
          ∃ off, strchr c.querybuf 13 = some off ∧
            (off : Int) > toInt32 c.querybuf.length - 2)) ∨
      (c.multibulklen ≠ 0 ∧ c.bulklen ≠ -1 ∧
        toSizeT c.querybuf.length < toUInt32 (c.bulklen + 2))) :
    processMultibulkBuffer c = .ok (C_ERR, c) ∧ multibulkRejects c = false := by
  rcases h with ⟨hm, h⟩ | ⟨hm, hb, h⟩ | ⟨hm, hb, h⟩
  · obtain ⟨h1, h2⟩ := header_incomplete c hm h
    unfold processMultibulkBuffer multibulkRejects
    rw [h1, h2]
    exact ⟨rfl, rfl⟩
  · obtain ⟨h1, h2⟩ := header_skip c hm
    obtain ⟨h3, h4⟩ := processMultibulkBuffer_of_brk c c c 0 0 h1
      (lengthLine_incomplete c _ hm hb h)
    rw [h3, h4, h2, multibulkFinish_zero c hm]
    exact ⟨rfl, rfl⟩
  · obtain ⟨h1, h2⟩ := header_skip c hm
    obtain ⟨h3, h4⟩ := processMultibulkBuffer_of_brk c c c 0 0 h1
      (payload_incomplete c _ hm hb h)
    rw [h3, h4, h2, multibulkFinish_zero c hm]
    exact ⟨rfl, rfl⟩

/-- An iteration of the decode loop in which the inline parser does not
return `C_OK`: the loop is left and nothing is dispatched. -/
theorem processInputBufferLoop_break_inline (H : Handlers) (fuel : Nat) (c c2 : client)
    (log : List Dispatch) (hne : c.querybuf ≠ [])
    (ht : c.reqtype = PROTO_REQ_INLINE ∨ (c.reqtype = 0 ∧ c.querybuf.getD 0 0 ≠ 42))
    (hp : processInlineBuffer { c with reqtype := PROTO_REQ_INLINE } = .ok (C_ERR, c2)) :
    processInputBufferLoop H (fuel + 1) c log = .ok (c2, log) := by
  have hl : ¬ c.querybuf.length = 0 := fun h => hne (List.length_eq_zero.1 h)
  have hc : (if c.reqtype = 0 then
      (if c.querybuf.getD 0 0 = 42 then { c with reqtype := PROTO_REQ_MULTIBULK }
       else { c with reqtype := PROTO_REQ_INLINE })
      else c) = { c with reqtype := PROTO_REQ_INLINE } := by
    rcases ht with ht | ⟨ht1, ht2⟩
    · have : ¬ c.reqtype = 0 := by rw [ht]; decide
      simp only [this, if_false]
      rw [← ht]
    · simp only [ht1, ht2, if_true, if_false]
  unfold processInputBufferLoop
  simp only [hl, if_false, hc]
  have h2 : ¬ (C_ERR = C_OK) := by decide
  simp only [if_true, hp, ne_eq, h2, not_false_eq_true]

/-- C12 (the claim as stated is refuted): a count that is not an integer
(`*x\r\n`, a rejection) and a count line without its line feed (`*1\r`,
insufficient data) get the same result from `processMultibulkBuffer`, `C_ERR`
with the client as it was; so do an inline line with an unbalanced quote
(`"a\r\n`) and one without its end (`a`) from `processInlineBuffer`; and the
decode loop ends in the same way in the four cases, the buffer kept and
nothing else done. -/
theorem protocol_error_returned_as_incomplete :
    (headerRejects (freshWith badCount) = true ∧ multibulkRejects (freshWith badCount) = true ∧
      multibulkRejects (freshWith partialCount) = false) ∧
    processMultibulkBuffer (freshWith badCount) = .ok (C_ERR, freshWith badCount) ∧
    processMultibulkBuffer (freshWith partialCount) = .ok (C_ERR, freshWith partialCount) ∧
    (inlineRejects (freshWith badQuote) = true ∧ inlineRejects (freshWith partialLine) = false) ∧
    processInlineBuffer (freshWith badQuote) = .ok (C_ERR, freshWith badQuote) ∧
    processInlineBuffer (freshWith partialLine) = .ok (C_ERR, freshWith partialLine) ∧
    processInputBuffer idleHandlers (freshWith badCount) =
      .ok ({ freshWith badCount with reqtype := PROTO_REQ_MULTIBULK }, []) ∧
    processInputBuffer idleHandlers (freshWith partialCount) =
      .ok ({ freshWith partialCount with reqtype := PROTO_REQ_MULTIBULK }, []) ∧
    processInputBuffer idleHandlers (freshWith badQuote) =
      .ok ({ freshWith badQuote with reqtype := PROTO_REQ_INLINE }, []) ∧
    processInputBuffer idleHandlers (freshWith partialLine) =
      .ok ({ freshWith partialLine with reqtype := PROTO_REQ_INLINE }, []) := by
  decide

/-- C12 (as amended): the decoder reports a protocol error with the result
it uses for insufficient data.  Both parsers return `C_OK` or `C_ERR` and
nothing else; a rejection by `processInlineBuffer` (malformed quoting) gives
`C_ERR` and the client as it was, exactly as a buffer without a line feed
does; every rejection by `processMultibulkBuffer` gives `C_ERR`, with the
client as it was when the count line is rejected; and on `C_ERR` the decode
loop is left with the client that the parser returned and nothing dispatched,
whatever the cause. -/
theorem protocol_error_and_incomplete_both_C_ERR (H : Handlers) (c c1 : client) (r : Int) :
    (inlineRejects c = true → processInlineBuffer c = .ok (C_ERR, c)) ∧
    (strchr c.querybuf 10 = none → processInlineBuffer c = .ok (C_ERR, c)) ∧
    (multibulkRejects c = true → ∃ c2, processMultibulkBuffer c = .ok (C_ERR, c2)) ∧
    (processInlineBuffer c = .ok (r, c1) → r = C_OK ∨ r = C_ERR) ∧
    (processMultibulkBuffer c = .ok (r, c1) → r = C_OK ∨ r = C_ERR) ∧
    (c.querybuf ≠ [] → c.reqtype = PROTO_REQ_INLINE →
      processInlineBuffer c = .ok (C_ERR, c1) →
      ∀ (fuel : Nat) (log : List Dispatch),
        processInputBufferLoop H (fuel + 1) c log = .ok (c1, log)) ∧
    (c.querybuf ≠ [] → c.reqtype = PROTO_REQ_MULTIBULK →
      processMultibulkBuffer c = .ok (C_ERR, c1) →
      ∀ (fuel : Nat) (log : List Dispatch),
        processInputBufferLoop H (fuel + 1) c log = .ok (c1, log)) ∧
    (headerRejects c = true → processMultibulkBuffer c = .ok (C_ERR, c)) := by
  refine ⟨inlineRejects_result c, ?_, multibulkRejects_result c, ?_,
    processMultibulkBuffer_result c c1 r, ?_, ?_, ?_⟩
  · intro h
    unfold processInlineBuffer
    rw [h]
  · intro h
    rcases processInlineBuffer_result c c1 r h with h1 | h1
    · exact Or.inl h1
    · exact Or.inr h1.1
  · intro hne ht hp fuel log
    refine processInputBufferLoop_break_inline H fuel c c1 log hne (Or.inl ht) ?_
    have : ({ c with reqtype := PROTO_REQ_INLINE } : client) = c := by rw [← ht]
    rw [this]
    exact hp
  · intro hne ht hp fuel log
    refine processInputBufferLoop_break H fuel c c1 log hne (Or.inl ht) ?_
    have : ({ c with reqtype := PROTO_REQ_MULTIBULK } : client) = c := by rw [← ht]
    rw [this]
    exact hp
  · intro h
    unfold processMultibulkBuffer
    rw [headerRejects_result c h]

/-- C12 as amended, on `*x\r\n`: the rejection is returned as `C_ERR` and the
decode loop is left with the buffer kept. -/
theorem protocol_error_and_incomplete_both_C_ERR_badCount :
    multibulkRejects { freshWith badCount with reqtype := PROTO_REQ_MULTIBULK } = true ∧
    (∃ c2, processMultibulkBuffer
      { freshWith badCount with reqtype := PROTO_REQ_MULTIBULK } = .ok (C_ERR, c2)) ∧
    processInputBufferLoop idleHandlers (0 + 1)
      { freshWith badCount with reqtype := PROTO_REQ_MULTIBULK } [] =
      .ok ({ freshWith badCount with reqtype := PROTO_REQ_MULTIBULK }, []) :=
  ⟨by decide,
   (protocol_error_and_incomplete_both_C_ERR idleHandlers
      { freshWith badCount with reqtype := PROTO_REQ_MULTIBULK }
      { freshWith badCount with reqtype := PROTO_REQ_MULTIBULK } C_ERR).2.2.1 (by decide),
   (protocol_error_and_incomplete_both_C_ERR idleHandlers
      { freshWith badCount with reqtype := PROTO_REQ_MULTIBULK }
      { freshWith badCount with reqtype := PROTO_REQ_MULTIBULK } C_ERR).2.2.2.2.2.2.1
      (by decide) rfl (by decide) 0 []⟩

/-- C13 (the claim as stated is refuted): on `*2\r\n$3\r\nGET\r\n$3\r\nfo`, a
command whose last argument is not complete, `processMultibulkBuffer` takes
no rejecting return and reports `C_ERR` for lack of data, and the fields are
not what they were: `multibulklen` went from 0 to 1, `bulklen` from -1 to 3,
and the buffer holds `fo` only. -/
theorem incomplete_after_progress_changes_fields :
    multibulkRejects (freshWith partialGetFoo) = false ∧
    processMultibulkBuffer (freshWith partialGetFoo) = .ok (C_ERR,
      { createClient with
        querybuf := [102, 111], multibulklen := 1, bulklen := 3, argc := 1,
        argv := some [some (createStringObject [71, 69, 84] 3), none] }) ∧
    (freshWith partialGetFoo).multibulklen = 0 ∧ (freshWith partialGetFoo).bulklen = -1 ∧
    (freshWith partialGetFoo).querybuf = partialGetFoo := by
  decide

/-- C13 (as amended): a call that finds insufficient data before it has
consumed a complete line or argument leaves the client, hence `multibulklen`,
`bulklen` and the buffer, exactly as it was.  `processInlineBuffer` does so
whenever it returns `C_ERR`, in particular when the buffer has no line feed;
`processMultibulkBuffer` does so when (header phase) the CR of the count line
or the byte after it is missing, when (argument phase, length unknown) the
buffer of at most 64 KiB has no CR or its CR is its last byte, and when
(length known) the buffer is shorter than the payload and its CRLF. -/
theorem incomplete_without_progress (c : client) :
    (∀ c1, processInlineBuffer c = .ok (C_ERR, c1) → c1 = c) ∧
    (strchr c.querybuf 10 = none → processInlineBuffer c = .ok (C_ERR, c)) ∧
    (c.multibulklen = 0 →
      (strchr c.querybuf 13 = none ∨
        ∃ nl, strchr c.querybuf 13 = some nl ∧ (nl : Int) > toInt32 c.querybuf.length - 2) →
      processMultibulkBuffer c = .ok (C_ERR, c) ∧ multibulkRejects c = false) ∧
    (c.multibulklen ≠ 0 → c.bulklen = -1 →
      ((strchr c.querybuf 13 = none ∧ c.querybuf.length ≤ PROTO_INLINE_MAX_SIZE) ∨
        ∃ off, strchr c.querybuf 13 = some off ∧
          (off : Int) > toInt32 c.querybuf.length - 2) →
      processMultibulkBuffer c = .ok (C_ERR, c) ∧ multibulkRejects c = false) ∧
    (c.multibulklen ≠ 0 → c.bulklen ≠ -1 →
      toSizeT c.querybuf.length < toUInt32 (c.bulklen + 2) →
      processMultibulkBuffer c = .ok (C_ERR, c) ∧ multibulkRejects c = false) := by
  refine ⟨?_, ?_, ?_, ?_, ?_⟩
  · intro c1 h
    rcases processInlineBuffer_result c c1 C_ERR h with h1 | h1
    · exact absurd h1 (by decide)
    · exact h1.2
  · intro h
    unfold processInlineBuffer
    rw [h]
  · intro hm h
    exact processMultibulkBuffer_no_progress c (Or.inl ⟨hm, h⟩)
  · intro hm hb h
    exact processMultibulkBuffer_no_progress c (Or.inr (Or.inl ⟨hm, hb, h⟩))
  · intro hm hb h
    exact processMultibulkBuffer_no_progress c (Or.inr (Or.inr ⟨hm, hb, h⟩))

/-- C13 as amended, on the client that the call on `*2\r\n$3\r\nGET\r\n$3\r\nfo`
leaves (length 3 known, `fo` in the buffer): the next call changes nothing. -/
theorem incomplete_without_progress_fo :
    processMultibulkBuffer
      { createClient with
        querybuf := [102, 111], multibulklen := 1, bulklen := 3, argc := 1,
        argv := some [some (createStringObject [71, 69, 84] 3), none] } =
      .ok (C_ERR,
        { createClient with
          querybuf := [102, 111], multibulklen := 1, bulklen := 3, argc := 1,
          argv := some [some (createStringObject [71, 69, 84] 3), none] }) ∧
    multibulkRejects
      { createClient with
        querybuf := [102, 111], multibulklen := 1, bulklen := 3, argc := 1,
        argv := some [some (createStringObject [71, 69, 84] 3), none] } = false :=
  (incomplete_without_progress
    { createClient with
      querybuf := [102, 111], multibulklen := 1, bulklen := 3, argc := 1,
      argv := some [some (createStringObject [71, 69, 84] 3), none] }).2.2.2.2
    (by decide) (by decide) (by decide)

/-! ## One byte at a time: the steps of the multibulk parser -/

theorem prefix_take (q rem p s : List Nat) (h : q ++ rem = p ++ s) (hl : q.length ≤ p.length) :
    q = p.take q.length := by
  have h1 := congrArg (List.take q.length) h
  rw [List.take_left', List.take_append_of_le_length hl] at h1
  · exact h1
  · rfl

theorem cleanOf_take (ch : Nat) (p : List Nat) (k : Nat) (h : cleanOf ch p) :
    cleanOf ch (p.take k) :=
  fun b hb => h b (List.mem_of_mem_take hb)

/-- A proper prefix `q` of a line `<b0><txt>\r\n`: no CR in it, or its CR is
its last byte. -/
theorem line_prefix_strchr (b0 : Nat) (txt X q rem : List Nat) (hb0 : b0 ≠ 13 ∧ b0 ≠ 0)
    (ht : cleanOf 13 txt) (hq : q ++ rem = b0 :: (txt ++ 13 :: 10 :: X))
    (hl : q.length < txt.length + 3) (hd : txt.length ≤ 9) :
    (strchr q 13 = none ∨
      ∃ nl, strchr q 13 = some nl ∧ (nl : Int) > toInt32 q.length - 2) ∧ q.length ≤ 11 := by
  refine ⟨?_, by omega⟩
  have hc : cleanOf 13 (b0 :: txt) := cleanOf_cons 13 b0 txt hb0.1 hb0.2 ht
  by_cases h1 : q.length ≤ txt.length + 1
  · left
    have hq1 : q ++ rem = (b0 :: txt) ++ (13 :: 10 :: X) := by rw [hq]; simp
    have := prefix_take q rem (b0 :: txt) (13 :: 10 :: X) hq1 (by simpa using h1)
    rw [this]
    exact strchr_clean 13 _ (cleanOf_take 13 _ _ hc)
  · right
    have hq1 : q ++ rem = (b0 :: txt ++ [13]) ++ (10 :: X) := by rw [hq]; simp
    have hlen : q.length = (b0 :: txt ++ [13]).length := by
      simp only [List.length_cons, List.length_append, List.length_nil]; omega
    have hq2 := (List.append_inj hq1 hlen).1
    refine ⟨txt.length + 1, ?_, ?_⟩
    · rw [hq2]
      have := strchr_clean_append 13 (b0 :: txt) [] hc
      simpa using this
    · have hl2 : q.length = txt.length + 2 := by omega
      rw [hl2, toInt32_of_range] <;> push_cast <;> omega

/-- A call in the header phase on a proper prefix of the count line. -/
theorem header_prefix_step (c : client) (n : Nat) (rem X : List Nat)
    (hm : c.multibulklen = 0) (hn : n ≤ 1048576)
    (hq : c.querybuf ++ rem = 42 :: (decimal n ++ 13 :: 10 :: X))
    (hl : c.querybuf.length < (decimal n).length + 3) :
    processMultibulkBuffer c = .ok (C_ERR, c) ∧ multibulkRejects c = false := by
  have hd : (decimal n).length ≤ 9 := decimal_length_le_nine n (by omega)
  have := line_prefix_strchr 42 (decimal n) X c.querybuf rem (by decide) (cleanOf_decimal n)
    hq hl hd
  exact processMultibulkBuffer_no_progress c (Or.inl ⟨hm, this.1⟩)

/-- A call in the argument phase on a proper prefix of a length line. -/
theorem lengthLine_prefix_step (c : client) (n : Nat) (rem X : List Nat)
    (hm : c.multibulklen ≠ 0) (hb : c.bulklen = -1) (hn : n ≤ 536870912)
    (hq : c.querybuf ++ rem = 36 :: (decimal n ++ 13 :: 10 :: X))
    (hl : c.querybuf.length < (decimal n).length + 3) :
    processMultibulkBuffer c = .ok (C_ERR, c) ∧ multibulkRejects c = false := by
  have hd : (decimal n).length ≤ 9 := decimal_length_le_nine n hn
  obtain ⟨h1, h2⟩ := line_prefix_strchr 36 (decimal n) X c.querybuf rem (by decide)
    (cleanOf_decimal n) hq hl hd
  refine processMultibulkBuffer_no_progress c (Or.inr (Or.inl ⟨hm, hb, ?_⟩))
  rcases h1 with h1 | h1
  · left
    refine ⟨h1, ?_⟩
    unfold PROTO_INLINE_MAX_SIZE
    omega
  · right
    exact h1

/-- A call in the argument phase, the length known, on a proper prefix of the
payload and its CRLF. -/
theorem payload_prefix_step (c : client) (n : Nat)
    (hm : c.multibulklen ≠ 0) (hb : c.bulklen = n) (hn : n ≤ 536870912)
    (hl : c.querybuf.length < n + 2) :
    processMultibulkBuffer c = .ok (C_ERR, c) ∧ multibulkRejects c = false := by
  refine processMultibulkBuffer_no_progress c (Or.inr (Or.inr ⟨hm, ?_, ?_⟩))
  · rw [hb]; omega
  · rw [hb]
    have e1 : toSizeT (c.querybuf.length : Int) = c.querybuf.length := by
      rw [toSizeT_of_range] <;> omega
    have e2 : toUInt32 ((n : Int) + 2) = (n : Int) + 2 := by
      rw [toUInt32_of_range] <;> omega
    rw [e1, e2]
    omega

theorem headerRejects_of_go (c c1 : client) (pos : Int)
    (h : processMultibulkHeader c = .go c1 pos) : headerRejects c = false := by
  cases hr : headerRejects c with
  | false => rfl
  | true =>
    rw [headerRejects_result c hr] at h
    cases h

theorem readBulkArgument_short (c : client) (pos : Int)
    (h : toSizeT ((c.querybuf.length : Int) - pos) < toUInt32 (c.bulklen + 2)) :
    readBulkArgument c pos = .ok none := by
  unfold readBulkArgument
  simp only [h, if_true]

theorem loop_break_for_data (c c1 : client) (pos pos1 : Int) (fuel : Nat)
    (hm : c.multibulklen ≠ 0) (h1 : readBulkLength c pos = .ok (.go c1 pos1))
    (h2 : readBulkArgument c1 pos1 = .ok none) :
    processMultibulkLoop (fuel + 1) c pos = .ok (.brk c1 pos1) := by
  unfold processMultibulkLoop
  simp only [hm, if_false, h1, h2]

theorem loop_iterate (c c1 c2 : client) (pos pos1 pos2 : Int) (fuel : Nat)
    (hm : c.multibulklen ≠ 0) (h1 : readBulkLength c pos = .ok (.go c1 pos1))
    (h2 : readBulkArgument c1 pos1 = .ok (some (c2, pos2))) :
    processMultibulkLoop (fuel + 1) c pos = processMultibulkLoop fuel c2 pos2 := by
  conv_lhs => unfold processMultibulkLoop
  simp only [hm, if_false, h1, h2]

theorem loop_done (c : client) (pos : Int) (fuel : Nat) (hm : c.multibulklen = 0) :
    processMultibulkLoop (fuel + 1) c pos = .ok (.go c pos) := by
  unfold processMultibulkLoop
  simp only [hm, if_true]

theorem readBulkLength_known (c : client) (pos : Int) (hb : c.bulklen ≠ -1) :
    readBulkLength c pos = .ok (.go c pos) := by
  unfold readBulkLength
  simp only [hb, if_false]

/-- A call in the header phase on a buffer that holds exactly the count
line `*<n>\r\n`, `n` from 1 to 1048576: the count and the argument array are
set up, the line is consumed, and the call reports `C_ERR` for lack of data. -/
theorem header_complete_step (c : client) (n : Nat) (hn1 : 1 ≤ n) (hn2 : n ≤ 1048576)
    (hm : c.multibulklen = 0) (hb : c.bulklen = -1)
    (hq : c.querybuf = 42 :: (decimal n ++ [13, 10])) :
    processMultibulkBuffer c = .ok (C_ERR,
      { c with querybuf := [], multibulklen := (n : Int),
               argv := some (List.replicate n none) }) ∧
    multibulkRejects c = false := by
  have hd := decimal_length_le_nine n (by omega)
  have hlq : c.querybuf.length = (decimal n).length + 3 := by rw [hq]; simp
  have hlen : c.querybuf.length < 2147483648 := by omega
  have hh := header_eval c 42 (decimal n) [] hm (by rw [hq]) (by decide) (cleanOf_decimal n) hlen
  have hll : string2ll (decimal n) = some (n : Int) := by
    rw [string2ll_decimal, if_pos]
    unfold LLONG_MAX; omega
  have hr1 : ¬ ((n : Int) > 1024 * 1024) := by clear hh hll hq; omega
  have hr2 : ¬ ((n : Int) ≤ 0) := by clear hh hll hq; omega
  have e : ((decimal n).length : Int) + 3 = (((decimal n).length + 3 : Nat) : Int) := by
    push_cast; rfl
  rw [hll] at hh
  simp only [hr1, hr2, if_false, Int.toNat_ofNat, e] at hh
  have hm1 : ({ c with multibulklen := (n : Int),
                       argv := some (List.replicate n none) } : client).multibulklen ≠ 0 := by
    show (n : Int) ≠ 0
    clear hh hll hq; omega
  have hdrop : c.querybuf.drop ((decimal n).length + 3) = [] := by
    rw [List.drop_eq_nil_iff]; omega
  have hloop := loop_no_cr
    { c with multibulklen := (n : Int), argv := some (List.replicate n none) }
    ((decimal n).length + 3) (c.querybuf.length + 1) hm1 hb
    (by show (decimal n).length + 3 ≤ c.querybuf.length; omega)
    (by show strchr (c.querybuf.drop ((decimal n).length + 3)) 13 = none; rw [hdrop]; rfl)
  have hsmall : ¬ (c.querybuf.length > PROTO_INLINE_MAX_SIZE) := by
    unfold PROTO_INLINE_MAX_SIZE; omega
  simp only [hsmall, if_false] at hloop
  obtain ⟨h3, h4⟩ := processMultibulkBuffer_of_brk c _ _ _ _ hh hloop
  have hf := multibulkFinish_eval
    { c with multibulklen := (n : Int), argv := some (List.replicate n none) }
    ((decimal n).length + 3) [] hdrop hlen
  rw [h3, h4, headerRejects_of_go c _ _ hh, hf]
  simp only [hm1, if_false, and_self]

/-- A call in the argument phase on a buffer that holds exactly the length
line `$<n>\r\n`, `n` at most 512 MiB: the length is recorded, the line is
consumed, and the call reports `C_ERR` for lack of data. -/
theorem lengthLine_complete_step (c : client) (n : Nat) (hn : n ≤ 536870912)
    (hm : c.multibulklen ≠ 0) (hb : c.bulklen = -1)
    (hq : c.querybuf = 36 :: (decimal n ++ [13, 10])) :
    processMultibulkBuffer c = .ok (C_ERR, { c with querybuf := [], bulklen := (n : Int) }) ∧
    multibulkRejects c = false := by
  have hd := decimal_length_le_nine n hn
  have hlq : c.querybuf.length = (decimal n).length + 3 := by rw [hq]; simp
  have hlen : c.querybuf.length < 2147483648 := by omega
  obtain ⟨hh, hrej⟩ := header_skip c hm
  have hrl := readBulkLength_eval c 0 (decimal n) [] hb
    (by rw [List.drop_zero, hq]) (cleanOf_decimal n) hlen
  have hll : string2ll (decimal n) = some (n : Int) := by
    rw [string2ll_decimal, if_pos]
    unfold LLONG_MAX; omega
  have hr : ¬ ((n : Int) < 0 ∨ (n : Int) > 512 * 1024 * 1024) := by
    clear hrl hll hq hh hrej; omega
  rw [hll] at hrl
  simp only [hr, if_false, Nat.cast_zero, zero_add] at hrl
  have e2 : toUInt32 ((n : Int) + 2) = (n : Int) + 2 := by
    clear hrl hll hq hh hrej
    rw [toUInt32_of_range] <;> omega
  by_cases hbig : (n : Int) ≥ (PROTO_MBULK_BIG_ARG : Int)
  · simp only [hbig, if_true] at hrl
    have hra := readBulkArgument_short { c with querybuf := [], bulklen := (n : Int) } 0
      (by
        show toSizeT (((([] : List Nat).length : Nat) : Int) - 0) < toUInt32 ((n : Int) + 2)
        rw [e2]
        simp only [List.length_nil, Nat.cast_zero, sub_zero]
        have : toSizeT 0 = 0 := by decide
        rw [this]
        clear hrl hll hq hh hrej
        omega)
    have hloop := loop_break_for_data c _ 0 0 (c.querybuf.length + 1) hm hrl hra
    obtain ⟨h3, h4⟩ := processMultibulkBuffer_of_brk c c _ 0 0 hh hloop
    rw [h3, h4, hrej, multibulkFinish_zero _ (by exact hm)]
    exact ⟨rfl, rfl⟩
  · simp only [hbig, if_false] at hrl
    have e : ((decimal n).length : Int) + 3 = (((decimal n).length + 3 : Nat) : Int) := by
      push_cast; rfl
    rw [e] at hrl
    have hra := readBulkArgument_short { c with bulklen := (n : Int) }
      (((decimal n).length + 3 : Nat) : Int)
      (by
        show toSizeT ((c.querybuf.length : Int) - (((decimal n).length + 3 : Nat) : Int)) <
          toUInt32 ((n : Int) + 2)
        rw [e2, hlq]
        have : (((decimal n).length + 3 : Nat) : Int) - (((decimal n).length + 3 : Nat) : Int) = 0 :=
          sub_self _
        rw [this]
        have : toSizeT 0 = 0 := by decide
        rw [this]
        clear hrl hll hq hh hrej
        omega)
    have hloop := loop_break_for_data c _ 0 _ (c.querybuf.length + 1) hm hrl hra
    obtain ⟨h3, h4⟩ := processMultibulkBuffer_of_brk c c _ 0 _ hh hloop
    have hdrop : c.querybuf.drop ((decimal n).length + 3) = [] := by
      rw [List.drop_eq_nil_iff]; omega
    have hf := multibulkFinish_eval { c with bulklen := (n : Int) }
      ((decimal n).length + 3) [] hdrop hlen
    rw [h3, h4, hrej, hf]
    have hm1 : ¬ (({ c with bulklen := (n : Int) } : client).multibulklen = 0) := hm
    simp only [hm1, if_false, and_self]

/-- The end of a call in which the argument whose length was known has been
read and nothing is left after it: `C_OK` when it was the last argument,
`C_ERR` for lack of data otherwise; the buffer is empty. -/
theorem payload_tail (c c2 : client) (pos2 : Nat)
    (hm : c.multibulklen ≠ 0) (hb1 : c.bulklen ≠ -1)
    (hra : readBulkArgument c 0 = .ok (some (c2, (pos2 : Int))))
    (hdrop : c2.querybuf.drop pos2 = []) (hp : pos2 ≤ c2.querybuf.length)
    (hsmall : c2.querybuf.length ≤ 65536) (hb2 : c2.bulklen = -1) :
    processMultibulkBuffer c =
      .ok (if c2.multibulklen = 0 then C_OK else C_ERR, { c2 with querybuf := [] }) ∧
    multibulkRejects c = false := by
  obtain ⟨hh, hrej⟩ := header_skip c hm
  have hit : processMultibulkLoop (c.querybuf.length + 2) c 0 =
      processMultibulkLoop (c.querybuf.length + 1) c2 pos2 :=
    loop_iterate c c c2 0 0 pos2 (c.querybuf.length + 1) hm (readBulkLength_known c 0 hb1) hra
  have hlen : c2.querybuf.length < 2147483648 := by omega
  have hf := multibulkFinish_eval c2 pos2 [] hdrop hlen
  by_cases hz : c2.multibulklen = 0
  · have hl := loop_done c2 pos2 c.querybuf.length hz
    obtain ⟨h3, h4⟩ := processMultibulkBuffer_of_go c c c2 0 pos2 hh (by rw [hit, hl])
    rw [h3, h4, hrej, hf]
    exact ⟨rfl, rfl⟩
  · have hl := loop_no_cr c2 pos2 c.querybuf.length hz hb2 hp (by rw [hdrop]; rfl)
    have hs : ¬ (c2.querybuf.length > PROTO_INLINE_MAX_SIZE) := by
      unfold PROTO_INLINE_MAX_SIZE; omega
    simp only [hs, if_false] at hl
    obtain ⟨h3, h4⟩ := processMultibulkBuffer_of_brk c c c2 0 pos2 hh (by rw [hit, hl])
    rw [h3, h4, hrej, hf]
    exact ⟨rfl, rfl⟩

/-- A call in the argument phase, the length known, on a buffer that holds
exactly the payload and its CRLF: the argument is stored at index `argc`
(the buffer adopted when the argument has 32 KiB or more, its bytes copied
otherwise), the buffer is left empty, and the call returns `C_OK` when this
was the last argument and `C_ERR` for lack of data otherwise. -/
theorem payload_complete_step (c : client) (a : List Nat) (slots : List (Option robj))
    (k : Nat) (hmax : a.length ≤ 536870912) (hm : c.multibulklen ≠ 0)
    (hb : c.bulklen = a.length) (hq : c.querybuf = a ++ [13, 10])
    (hv : c.argv = some slots) (hk : c.argc = k) (hlt : k < slots.length) :
    processMultibulkBuffer c =
      .ok (if c.multibulklen - 1 = 0 then C_OK else C_ERR,
        { c with querybuf := [],
                 argv := some (slots.set k (some (createStringObject a a.length))),
                 argc := (k : Int) + 1, bulklen := -1,
                 multibulklen := c.multibulklen - 1 }) ∧
    multibulkRejects c = false := by
  have hb1 : c.bulklen ≠ -1 := by rw [hb]; omega
  have hlq : c.querybuf.length = a.length + 2 := by rw [hq]; simp
  by_cases hbig : PROTO_MBULK_BIG_ARG ≤ a.length
  · have hra := readBulkArgument_adopt c a 13 10 slots k hb hmax hbig hq hv hk hlt
    have := payload_tail c _ 0 hm hb1 hra rfl (Nat.zero_le _)
      (by show ([] : List Nat).length ≤ 65536; simp) rfl
    exact this
  · have hlen : c.querybuf.length < 2147483648 := by omega
    have hra := readBulkArgument_copy c 0 a [] 13 10 slots k hb hmax
      (by rw [List.drop_zero, hq]) hlen hv hk hlt (fun h => hbig h.2.1)
    have e : ((0 : Nat) : Int) + (a.length : Int) + 2 = ((a.length + 2 : Nat) : Int) := by
      push_cast; omega
    rw [e] at hra
    have := payload_tail c _ (a.length + 2) hm hb1 hra
      (by show c.querybuf.drop (a.length + 2) = []; rw [List.drop_eq_nil_iff]; omega)
      (by show a.length + 2 ≤ c.querybuf.length; omega)
      (by
        show c.querybuf.length ≤ 65536
        unfold PROTO_MBULK_BIG_ARG at hbig
        omega)
      rfl
    exact this

/-! ## One byte at a time: the decode loop -/

theorem readQueryFromClient_byte (H : Handlers) (c : client) (b : Nat) :
    readQueryFromClient H c [b] = processInputBuffer H (appendByte c b) :=
  readQueryFromClient_eval H c [b] (by simp)

theorem appendByte_ne_nil (c : client) (b : Nat) : (appendByte c b).querybuf ≠ [] := by
  show c.querybuf ++ [b] ≠ []
  simp

/-- An iteration of the decode loop in which the parse returns `C_ERR`: the
loop is left with the client that the parse returned, nothing dispatched. -/
theorem loop_of_parse_err (H : Handlers) (fuel : Nat) (c c2 : client) (log : List Dispatch)
    (hne : c.querybuf ≠ []) (hp : parseRequest (withReqtype c) = .ok (C_ERR, c2)) :
    processInputBufferLoop H (fuel + 1) c log = .ok (c2, log) := by
  have hl : ¬ c.querybuf.length = 0 := fun h => hne (List.length_eq_zero.1 h)
  unfold parseRequest withReqtype at hp
  unfold processInputBufferLoop
  simp only [hl, if_false, hp]
  have h2 : ¬ (C_ERR = C_OK) := by decide
  simp only [ne_eq, h2, not_false_eq_true, if_true]

theorem readQuery_byte_err (H : Handlers) (c c2 : client) (b : Nat)
    (hp : parseRequest (withReqtype (appendByte c b)) = .ok (C_ERR, c2)) :
    readQueryFromClient H c [b] = .ok (c2, []) := by
  rw [readQueryFromClient_byte]
  unfold processInputBuffer
  exact loop_of_parse_err H _ _ c2 [] (appendByte_ne_nil c b) hp

/-- An iteration of the decode loop in which the parse returns `C_OK` with a
first argument that names a command of the table whose handler leaves the
buffer empty: the command is dispatched once and the loop ends. -/
theorem loop_of_parse_ok (H : Handlers) (fuel : Nat) (c c2 : client) (log : List Dispatch)
    (o : robj) (cmd : redisCommand) (hne : c.querybuf ≠ [])
    (hp : parseRequest (withReqtype c) = .ok (C_OK, c2))
    (h0 : argv0 c2 = .ok o) (hargc : c2.argc ≠ 0) (hl : lookupCommand o.ptr = some cmd)
    (hbuf : (runProc H cmd.proc { c2 with cmd := some cmd, lastcmd := some cmd }).querybuf = []) :
    processInputBufferLoop H (fuel + 1) c log =
      .ok (runProc H cmd.proc { c2 with cmd := some cmd, lastcmd := some cmd },
        log ++ [{ argc := c2.argc, argv := c2.argv }]) := by
  have hl0 : ¬ c.querybuf.length = 0 := fun h => hne (List.length_eq_zero.1 h)
  have hpc : processCommand H c2 =
      .ok (C_OK, runProc H cmd.proc { c2 with cmd := some cmd, lastcmd := some cmd }) := by
    unfold processCommand
    simp only [h0, hl, call]
  unfold parseRequest withReqtype at hp
  conv_lhs => unfold processInputBufferLoop
  simp only [hl0, if_false, hp, ne_eq, not_true_eq_false, h0, hargc, hpc, if_true, resetClient]
  exact processInputBufferLoop_empty H fuel _ _ hbuf

theorem feedBytes_nil (H : Handlers) (c : client) : feedBytes H [] c = .ok (c, []) := rfl

theorem feedBytes_cons (H : Handlers) (c c1 : client) (b : Nat) (bs : List Nat)
    (h : readQueryFromClient H c [b] = .ok (c1, [])) :
    feedBytes H (b :: bs) c = feedBytes H bs c1 := by
  unfold feedBytes
  simp only [List.map_cons, feedChunks, h, List.append_nil]

/-- Feeding a prefix byte by byte under an invariant that every byte but the
last one of the input preserves, the parse returning `C_ERR`: the client ends
in the invariant, with nothing dispatched. -/
theorem feed_quiet (H : Handlers) (Inv : client → List Nat → Prop)
    (hstep : ∀ (c : client) (b : Nat) (rem : List Nat), Inv c (b :: rem) → rem ≠ [] →
      ∃ c2, parseRequest (withReqtype (appendByte c b)) = .ok (C_ERR, c2) ∧ Inv c2 rem)
    (pre : List Nat) :
    ∀ (c : client) (rem : List Nat), rem ≠ [] → Inv c (pre ++ rem) →
      ∃ c2, feedBytes H pre c = .ok (c2, []) ∧ Inv c2 rem ∧
        ∀ bs, feedBytes H (pre ++ bs) c = feedBytes H bs c2 := by
  induction pre with
  | nil => intro c rem _ hi; exact ⟨c, rfl, hi, fun _ => rfl⟩
  | cons b pre ih =>
    intro c rem hne hi
    have hne2 : pre ++ rem ≠ [] := by simp [hne]
    obtain ⟨c1, hp, hi1⟩ := hstep c b (pre ++ rem) hi hne2
    obtain ⟨c2, hf, hi2, hcont⟩ := ih c1 rem hne hi1
    refine ⟨c2, ?_, hi2, ?_⟩
    · rw [feedBytes_cons H c c1 b pre (readQuery_byte_err H c c1 b hp)]
      exact hf
    · intro bs
      rw [List.cons_append, feedBytes_cons H c c1 b (pre ++ bs) (readQuery_byte_err H c c1 b hp)]
      exact hcont bs

theorem withReqtype_multibulk (c : client)
    (h : c.reqtype = PROTO_REQ_MULTIBULK ∨ (c.reqtype = 0 ∧ c.querybuf.getD 0 0 = 42)) :
    withReqtype c = { c with reqtype := PROTO_REQ_MULTIBULK } := by
  unfold withReqtype
  rcases h with h | ⟨h1, h2⟩
  · have : ¬ c.reqtype = 0 := by rw [h]; decide
    simp only [this, if_false]
    rw [← h]
  · simp only [h1, h2, if_true]

theorem parse_multibulk (c : client) (h : c.reqtype = PROTO_REQ_MULTIBULK) :
    parseRequest c = processMultibulkBuffer c ∧ parseRejects c = multibulkRejects c := by
  have h1 : ¬ (PROTO_REQ_MULTIBULK = PROTO_REQ_INLINE) := by decide
  unfold parseRequest parseRejects
  simp only [h, h1, if_false, if_true, and_self]

theorem bulks_cons_ne_nil (a : List Nat) (todo : List (List Nat)) : bulks (a :: todo) ≠ [] := by
  simp [bulks, bulk]

theorem bulks_cons_shape (a : List Nat) (todo : List (List Nat)) :
    bulks (a :: todo) = 36 :: (decimal a.length ++ 13 :: 10 :: (a ++ 13 :: 10 :: bulks todo)) := by
  simp [bulks, bulk]

/-- One more byte inside (or at the end of) the count line. -/
theorem pending_header_step (args : List (List Nat)) (h1 : 1 ≤ args.length)
    (h2 : args.length ≤ 1048576) (c : client) (b : Nat) (rem : List Nat)
    (hm : c.multibulklen = 0) (hb : c.bulklen = -1) (hk : c.argc = 0)
    (hq : c.querybuf ++ b :: rem = multibulk args)
    (hl : c.querybuf.length < (decimal args.length).length + 3) :
    rem ≠ [] ∧ ∃ c2, processMultibulkBuffer (appendMultibulk c b) = .ok (C_ERR, c2) ∧
      multibulkRejects (appendMultibulk c b) = false ∧ Pending args c2 rem := by
  have hq1 : (appendMultibulk c b).querybuf ++ rem =
      42 :: (decimal args.length ++ 13 :: 10 :: bulks args) := by
    show (c.querybuf ++ [b]) ++ rem = _
    rw [List.append_assoc]
    exact hq
  have hlq : (appendMultibulk c b).querybuf.length = c.querybuf.length + 1 := by
    show (c.querybuf ++ [b]).length = _
    simp
  have hne : rem ≠ [] := by
    intro h
    rw [h, List.append_nil] at hq1
    have := congrArg List.length hq1
    rw [hlq] at this
    simp only [List.length_cons, List.length_append] at this
    have hb2 := length_le_bulks args
    omega
  refine ⟨hne, ?_⟩
  by_cases hlt : c.querybuf.length + 1 < (decimal args.length).length + 3
  · obtain ⟨h3, h4⟩ := header_prefix_step (appendMultibulk c b) args.length rem
      (bulks args) hm h2 hq1 (by rw [hlq]; exact hlt)
    exact ⟨_, h3, h4, Pending.header _ rem (Or.inl rfl) hm hb hk hq1 (by rw [hlq]; exact hlt)⟩
  · have hq2 : (appendMultibulk c b).querybuf ++ rem =
        (42 :: (decimal args.length ++ [13, 10])) ++ bulks args := by
      rw [hq1]; simp
    have hlen : (appendMultibulk c b).querybuf.length =
        (42 :: (decimal args.length ++ [13, 10])).length := by
      rw [hlq]
      simp only [List.length_cons, List.length_append, List.length_nil]
      omega
    obtain ⟨hq3, hrem⟩ := List.append_inj hq2 hlen
    obtain ⟨h3, h4⟩ := header_complete_step (appendMultibulk c b) args.length h1 h2
      hm hb hq3
    obtain ⟨a, todo, hargs⟩ : ∃ a todo, args = a :: todo := by
      cases args with
      | nil => simp at h1
      | cons a todo => exact ⟨a, todo, rfl⟩
    have hn : args.length = todo.length + 1 := by rw [hargs]; simp
    refine ⟨_, h3, h4, Pending.lengthLine _ rem [] a todo hargs rfl ?_ hb hk ?_ ?_ ?_⟩
    · show ((args.length : Nat) : Int) = ((todo.length + 1 : Nat) : Int)
      rw [hn]
    · show some (List.replicate args.length none) = _
      rw [hn]
      simp
    · show [] ++ rem = bulks (a :: todo)
      rw [List.nil_append, hrem, hargs]
    · show ([] : List Nat).length < _
      simp

/-- One more byte inside (or at the end of) the length line of an argument. -/
theorem pending_lengthLine_step (args : List (List Nat))
    (h3 : ∀ a ∈ args, a.length ≤ 536870912) (c : client) (b : Nat) (rem : List Nat)
    (done : List (List Nat)) (a : List Nat) (todo : List (List Nat))
    (ha : args = done ++ a :: todo)
    (hm : c.multibulklen = ((todo.length + 1 : Nat) : Int)) (hb : c.bulklen = -1)
    (hk : c.argc = (done.length : Int))
    (hv : c.argv = some ((done.map (fun x => createStringObject x x.length)).map some ++
      List.replicate (todo.length + 1) none))
    (hq : c.querybuf ++ b :: rem = bulks (a :: todo))
    (hl : c.querybuf.length < (decimal a.length).length + 3) :
    rem ≠ [] ∧ ∃ c2, processMultibulkBuffer (appendMultibulk c b) = .ok (C_ERR, c2) ∧
      multibulkRejects (appendMultibulk c b) = false ∧ Pending args c2 rem := by
  have hmax : a.length ≤ 536870912 := h3 a (by rw [ha]; simp)
  have hm0 : (appendMultibulk c b).multibulklen ≠ 0 := by
    show c.multibulklen ≠ 0
    rw [hm]
    clear hq hv hk hb ha h3
    omega
  have hq1 : (appendMultibulk c b).querybuf ++ rem =
      36 :: (decimal a.length ++ 13 :: 10 :: (a ++ 13 :: 10 :: bulks todo)) := by
    show (c.querybuf ++ [b]) ++ rem = _
    rw [List.append_assoc, ← bulks_cons_shape]
    exact hq
  have hlq : (appendMultibulk c b).querybuf.length = c.querybuf.length + 1 := by
    show (c.querybuf ++ [b]).length = _
    simp
  have hne : rem ≠ [] := by
    intro h
    rw [h, List.append_nil] at hq1
    have := congrArg List.length hq1
    rw [hlq] at this
    simp only [List.length_cons, List.length_append] at this
    omega
  refine ⟨hne, ?_⟩
  by_cases hlt : c.querybuf.length + 1 < (decimal a.length).length + 3
  · obtain ⟨h4, h5⟩ := lengthLine_prefix_step (appendMultibulk c b) a.length rem
      (a ++ 13 :: 10 :: bulks todo) hm0 hb hmax hq1 (by rw [hlq]; exact hlt)
    refine ⟨_, h4, h5, Pending.lengthLine _ rem done a todo ha rfl hm hb hk hv ?_
      (by rw [hlq]; exact hlt)⟩
    rw [hq1, bulks_cons_shape]
  · have hq2 : (appendMultibulk c b).querybuf ++ rem =
        (36 :: (decimal a.length ++ [13, 10])) ++ (a ++ 13 :: 10 :: bulks todo) := by
      rw [hq1]; simp
    have hlen : (appendMultibulk c b).querybuf.length =
        (36 :: (decimal a.length ++ [13, 10])).length := by
      rw [hlq]
      simp only [List.length_cons, List.length_append, List.length_nil]
      omega
    obtain ⟨hq3, hrem⟩ := List.append_inj hq2 hlen
    obtain ⟨h4, h5⟩ := lengthLine_complete_step (appendMultibulk c b) a.length hmax hm0 hb hq3
    refine ⟨_, h4, h5, Pending.payload _ rem done a todo ha rfl hm rfl hk hv ?_ ?_⟩
    · show [] ++ rem = _
      rw [List.nil_append]; exact hrem
    · show ([] : List Nat).length < _
      simp

/-- One more byte inside (or at the end of) the payload of an argument and
its CRLF. -/
theorem pending_payload_step (args : List (List Nat))
    (h3 : ∀ a ∈ args, a.length ≤ 536870912) (c : client) (b : Nat) (rem : List Nat)
    (done : List (List Nat)) (a : List Nat) (todo : List (List Nat))
    (ha : args = done ++ a :: todo)
    (hm : c.multibulklen = ((todo.length + 1 : Nat) : Int)) (hb : c.bulklen = (a.length : Int))
    (hk : c.argc = (done.length : Int))
    (hv : c.argv = some ((done.map (fun x => createStringObject x x.length)).map some ++
      List.replicate (todo.length + 1) none))
    (hq : c.querybuf ++ b :: rem = a ++ 13 :: 10 :: bulks todo)
    (hl : c.querybuf.length < a.length + 2) :
    (rem ≠ [] ∧ ∃ c2, processMultibulkBuffer (appendMultibulk c b) = .ok (C_ERR, c2) ∧
      multibulkRejects (appendMultibulk c b) = false ∧ Pending args c2 rem) ∨
    (rem = [] ∧ ∃ c2, processMultibulkBuffer (appendMultibulk c b) = .ok (C_OK, c2) ∧
      multibulkRejects (appendMultibulk c b) = false ∧
      c2.argc = (args.length : Int) ∧
      c2.argv = some (args.map (fun x => some (createStringObject x x.length))) ∧
      c2.querybuf = [] ∧ c2.multibulklen = 0 ∧ c2.bulklen = -1) := by
  have hmax : a.length ≤ 536870912 := h3 a (by rw [ha]; simp)
  have hm0 : (appendMultibulk c b).multibulklen ≠ 0 := by
    show c.multibulklen ≠ 0
    rw [hm]
    clear hq hv hk hb ha h3
    omega
  have hq1 : (appendMultibulk c b).querybuf ++ rem = a ++ 13 :: 10 :: bulks todo := by
    show (c.querybuf ++ [b]) ++ rem = _
    rw [List.append_assoc]
    exact hq
  have hlq : (appendMultibulk c b).querybuf.length = c.querybuf.length + 1 := by
    show (c.querybuf ++ [b]).length = _
    simp
  by_cases hlt : c.querybuf.length + 1 < a.length + 2
  · left
    have hne : rem ≠ [] := by
      intro h
      rw [h, List.append_nil] at hq1
      have := congrArg List.length hq1
      rw [hlq] at this
      simp only [List.length_cons, List.length_append] at this
      omega
    obtain ⟨h4, h5⟩ := payload_prefix_step (appendMultibulk c b) a.length hm0 hb hmax
      (by rw [hlq]; exact hlt)
    exact ⟨hne, _, h4, h5, Pending.payload _ rem done a todo ha rfl hm hb hk hv hq1
      (by rw [hlq]; exact hlt)⟩
  · have hq2 : (appendMultibulk c b).querybuf ++ rem = (a ++ [13, 10]) ++ bulks todo := by
      rw [hq1]; simp
    have hlen : (appendMultibulk c b).querybuf.length = (a ++ [13, 10]).length := by
      rw [hlq]
      simp only [List.length_cons, List.length_append, List.length_nil]
      omega
    obtain ⟨hq3, hrem⟩ := List.append_inj hq2 hlen
    have hslots : done.length <
        ((done.map (fun x => createStringObject x x.length)).map some ++
          List.replicate (todo.length + 1) (none : Option robj)).length := by
      simp only [List.length_append, List.length_map, List.length_replicate]
      omega
    obtain ⟨h4, h5⟩ := payload_complete_step (appendMultibulk c b) a _ done.length hmax hm0 hb
      hq3 hv hk hslots
    have hset := set_next_slot (done.map (fun x => createStringObject x x.length))
      (createStringObject a a.length) todo.length
    rw [List.length_map] at hset
    rw [hset] at h4
    have hm1 : (appendMultibulk c b).multibulklen - 1 = (todo.length : Int) := by
      show c.multibulklen - 1 = _
      rw [hm]
      push_cast
      ring
    rw [hm1] at h4
    cases todo with
    | nil =>
      right
      have hz : ((([] : List (List Nat)).length : Nat) : Int) = 0 := rfl
      rw [hz] at h4
      simp only [if_true] at h4
      refine ⟨by rw [hrem]; rfl, _, h4, h5, ?_, ?_, rfl, rfl, rfl⟩
      · show ((done.length : Nat) : Int) + 1 = (args.length : Int)
        rw [ha]
        simp
      · show some _ = some _
        rw [ha]
        simp [List.map_map, Function.comp_def]
    | cons a2 todo2 =>
      left
      have hz : ¬ ((((a2 :: todo2).length : Nat) : Int) = 0) := by
        simp only [List.length_cons]
        omega
      simp only [hz, if_false] at h4
      refine ⟨by rw [hrem]; exact bulks_cons_ne_nil a2 todo2, _, h4, h5,
        Pending.lengthLine _ rem (done ++ [a]) a2 todo2 ?_ rfl ?_ rfl ?_ ?_ ?_ ?_⟩
      · rw [ha]; simp
      · show (((a2 :: todo2).length : Nat) : Int) = ((todo2.length + 1 : Nat) : Int)
        simp
      · show ((done.length : Nat) : Int) + 1 = (((done ++ [a]).length : Nat) : Int)
        simp
      · show some _ = some _
        simp
      · show [] ++ rem = _
        rw [List.nil_append, hrem]
      · show ([] : List Nat).length < _
        simp

/-- One more byte of a multibulk command given to a client that stands
inside it: the parse takes no rejecting return; it reports `C_ERR` for lack of
data while bytes of the command remain, and the client stands inside the
command again; on the last byte it returns `C_OK` with the complete argument
vector and an empty buffer. -/
theorem pending_step (args : List (List Nat)) (h1 : 1 ≤ args.length)
    (h2 : args.length ≤ 1048576) (h3 : ∀ a ∈ args, a.length ≤ 536870912)
    (c : client) (b : Nat) (rem : List Nat) (hp : Pending args c (b :: rem)) :
    withReqtype (appendByte c b) = appendMultibulk c b ∧
    parseRejects (appendMultibulk c b) = false ∧
    ((rem ≠ [] ∧ ∃ c2, parseRequest (appendMultibulk c b) = .ok (C_ERR, c2) ∧
        Pending args c2 rem) ∨
     (rem = [] ∧ ∃ c2, parseRequest (appendMultibulk c b) = .ok (C_OK, c2) ∧
        c2.argc = (args.length : Int) ∧
        c2.argv = some (args.map (fun x => some (createStringObject x x.length))) ∧
        c2.querybuf = [] ∧ c2.multibulklen = 0 ∧ c2.bulklen = -1)) := by
  obtain ⟨hpr, hrj⟩ := parse_multibulk (appendMultibulk c b) rfl
  rw [hpr, hrj]
  cases hp with
  | header ht hm hb hk hq hl =>
    have hw : withReqtype (appendByte c b) = appendMultibulk c b := by
      refine withReqtype_multibulk (appendByte c b) ?_
      rcases ht with ht | ⟨ht1, ht2⟩
      · exact Or.inl ht
      · right
        refine ⟨ht1, ?_⟩
        show (c.querybuf ++ [b]).getD 0 0 = 42
        rw [ht2] at hq ⊢
        have hq0 : b :: rem = 42 :: (decimal args.length ++ 13 :: 10 :: bulks args) := hq
        have hb0 : b = 42 := (List.cons.inj hq0).1
        simp [hb0]
    obtain ⟨hne, c2, h4, h5, h6⟩ := pending_header_step args h1 h2 c b rem hm hb hk hq hl
    exact ⟨hw, h5, Or.inl ⟨hne, c2, h4, h6⟩⟩
  | lengthLine done a todo ha ht hm hb hk hv hq hl =>
    have hw : withReqtype (appendByte c b) = appendMultibulk c b :=
      withReqtype_multibulk (appendByte c b) (Or.inl ht)
    obtain ⟨hne, c2, h4, h5, h6⟩ :=
      pending_lengthLine_step args h3 c b rem done a todo ha hm hb hk hv hq hl
    exact ⟨hw, h5, Or.inl ⟨hne, c2, h4, h6⟩⟩
  | payload done a todo ha ht hm hb hk hv hq hl =>
    have hw : withReqtype (appendByte c b) = appendMultibulk c b :=
      withReqtype_multibulk (appendByte c b) (Or.inl ht)
    rcases pending_payload_step args h3 c b rem done a todo ha hm hb hk hv hq hl with
      ⟨hne, c2, h4, h5, h6⟩ | ⟨hne, c2, h4, h5, h6⟩
    · exact ⟨hw, h5, Or.inl ⟨hne, c2, h4, h6⟩⟩
    · exact ⟨hw, h5, Or.inr ⟨hne, c2, h4, h6⟩⟩

/-! ## One byte at a time: the inline parser -/

theorem nonEmptyTokens_cons (t : List Nat) (ts : List (List Nat)) :
    nonEmptyTokens (t :: ts) =
      if t.length ≠ 0 then t :: nonEmptyTokens ts else nonEmptyTokens ts := by
  unfold nonEmptyTokens
  by_cases h : t.length ≠ 0
  · rw [if_pos h, List.filter_cons_of_pos (by simpa using h)]
  · rw [if_neg h, List.filter_cons_of_neg (by simpa using h)]

/-- The loop of `processInlineBuffer` over any tokens: an object for every
token that is not empty, in order, in the next free slots. -/
theorem inlineArgs_filter (toks : List (List Nat)) :
    ∀ (c : client) (done : List robj) (m : Nat),
    (nonEmptyTokens toks).length ≤ m →
    c.argv = some (done.map some ++ List.replicate m none) →
    c.argc = done.length →
    inlineArgs toks c = .ok { c with
      argv := some ((done ++ (nonEmptyTokens toks).map
          (fun t => createObject OBJ_STRING t)).map some ++
        List.replicate (m - (nonEmptyTokens toks).length) none),
      argc := ((done.length + (nonEmptyTokens toks).length : Nat) : Int) } := by
  induction toks with
  | nil =>
    intro c done m _ hv hk
    cases c
    simp at hv hk
    simp [inlineArgs, nonEmptyTokens, hv, hk]
  | cons t ts ih =>
    intro c done m hm hv hk
    rw [nonEmptyTokens_cons] at hm ⊢
    by_cases htn : t.length ≠ 0
    · rw [if_pos htn] at hm ⊢
      obtain ⟨m1, rfl⟩ : ∃ m1, m = m1 + 1 := by
        simp only [List.length_cons] at hm
        exact ⟨m - 1, by omega⟩
      have hlt : done.length < (done.map some ++ List.replicate (m1 + 1) none).length := by
        simp
      unfold inlineArgs
      simp only [htn, ne_eq, not_false_eq_true, if_true,
        argvStore_eval c _ _ done.length hv hk hlt]
      rw [ih _ (done ++ [createObject OBJ_STRING t]) m1
        (by simp only [List.length_cons] at hm; omega)
        (by rw [set_next_slot])
        (by simp)]
      simp only [List.length_append, List.length_cons, List.length_nil, List.map_cons,
        List.append_assoc, List.singleton_append, Nat.add_sub_add_right]
      congr 2
      push_cast
      omega
    · rw [if_neg htn] at hm ⊢
      unfold inlineArgs
      simp only [htn, if_false]
      exact ih c done m hm hv hk

theorem nonEmptyTokens_length_le (toks : List (List Nat)) :
    (nonEmptyTokens toks).length ≤ toks.length :=
  List.length_filter_le _ _

/-- `processInlineBuffer` on a buffer that holds exactly one line and its
terminator (`\r\n`, or `\n` after a line that does not end in CR), the line
of at most 64 KiB, without LF and NUL, and accepted by the splitter with one
token or more: `C_OK`, an object for every token that is not empty, in
order, and an empty buffer; the rejecting return is not taken. -/
theorem processInlineBuffer_line (c : client) (line term : List Nat)
    (toks : List (List Nat)) (hq : c.querybuf = line ++ term)
    (hterm : term = [13, 10] ∨ (term = [10] ∧ line.getLast? ≠ some 13))
    (hclean : ∀ b ∈ line, b ≠ 0 ∧ b ≠ 10) (hlen : line.length ≤ 65536)
    (hs : sdssplitargs line = some toks) (hn : toks ≠ []) :
    processInlineBuffer c = .ok (C_OK, { c with
      querybuf := [],
      argv := some (((nonEmptyTokens toks).map (fun t => createObject OBJ_STRING t)).map some ++
        List.replicate (toks.length - (nonEmptyTokens toks).length) none),
      argc := ((nonEmptyTokens toks).length : Int) }) ∧
    inlineRejects c = false := by
  have hl : toks.length ≠ 0 := fun h => hn (List.length_eq_zero.1 h)
  have htl : term.length ≤ 2 := by
    rcases hterm with h | ⟨h, _⟩ <;> rw [h] <;> simp
  have hql : c.querybuf.length = line.length + term.length := by rw [hq]; simp
  have hlen2 : c.querybuf.length < 2147483648 := by omega
  have htake : c.querybuf.take line.length = line := by rw [hq]; simp
  have hrange : sdsrange c.querybuf (toInt32 ((line.length : Int) + 2)) (-1) = [] := by
    have e : toInt32 ((line.length : Int) + 2) = ((line.length + 2 : Nat) : Int) := by
      rw [toInt32_of_range] <;> push_cast <;> omega
    rw [e, sdsrange_drop _ _ hlen2, List.drop_eq_nil_iff]
    omega
  have hkey : ∃ nl, strchr c.querybuf 10 = some nl ∧
      (if nl ≠ 0 ∧ c.querybuf.getD (nl - 1) 0 = 13 then nl - 1 else nl) = line.length := by
    rcases hterm with h | ⟨h, hlast⟩
    · refine ⟨line.length + 1, ?_, ?_⟩
      · have hc : cleanOf 10 (line ++ [13]) := by
          intro b hb
          rcases List.mem_append.1 hb with hb | hb
          · have := hclean b hb; exact ⟨this.2, this.1⟩
          · simp at hb; subst hb; decide
        rw [hq, h]
        have := strchr_clean_append 10 (line ++ [13]) [] hc
        simpa using this
      · have hg : c.querybuf.getD line.length 0 = 13 := by
          rw [hq, h, List.getD_eq_getElem?_getD, List.getElem?_append_right (Nat.le_refl _)]
          simp
        simp only [ne_eq, Nat.add_one_ne_zero, not_false_eq_true, Nat.add_sub_cancel, hg,
          and_self, if_true]
    · refine ⟨line.length, ?_, ?_⟩
      · have hc : cleanOf 10 line := fun b hb => ⟨(hclean b hb).2, (hclean b hb).1⟩
        rw [hq, h]
        exact strchr_clean_append 10 line [] hc
      · have hcond : ¬ (line.length ≠ 0 ∧ c.querybuf.getD (line.length - 1) 0 = 13) := by
          rintro ⟨h0, h13⟩
          apply hlast
          have hlt : line.length - 1 < line.length := by omega
          rw [List.getLast?_eq_getElem?]
          rw [hq, List.getD_eq_getElem?_getD, List.getElem?_append_left hlt] at h13
          rw [List.getElem?_eq_getElem hlt] at h13 ⊢
          simp only [Option.getD_some] at h13
          rw [h13]
        rw [if_neg hcond]
  obtain ⟨nl, hstr, hnew⟩ := hkey
  constructor
  · unfold processInlineBuffer
    simp only [hstr, hnew, htake, hs, hrange, hl, ne_eq, not_false_eq_true, if_true]
    rw [inlineArgs_filter toks _ [] toks.length (nonEmptyTokens_length_le toks)
      (by simp) (by simp)]
    simp
  · unfold inlineRejects
    simp only [hstr, hnew, htake, hs, Option.isNone_some]

theorem withReqtype_inline (c : client)
    (h : c.reqtype = PROTO_REQ_INLINE ∨ (c.reqtype = 0 ∧ c.querybuf.getD 0 0 ≠ 42)) :
    withReqtype c = { c with reqtype := PROTO_REQ_INLINE } := by
  unfold withReqtype
  rcases h with h | ⟨h1, h2⟩
  · have : ¬ c.reqtype = 0 := by rw [h]; decide
    simp only [this, if_false]
    rw [← h]
  · simp only [h1, h2, if_true, if_false]

theorem parse_inline (c : client) (h : c.reqtype = PROTO_REQ_INLINE) :
    parseRequest c = processInlineBuffer c ∧ parseRejects c = inlineRejects c := by
  unfold parseRequest parseRejects
  simp only [h, if_true, and_self]

theorem payloads_map_some (vals : List robj) :
    payloads (vals.map some) = some (vals.map (fun o => o.ptr)) := by
  induction vals with
  | nil => rfl
  | cons v vs ih => simp [payloads, ih]

theorem argvBytes_of (c : client) (vals : List robj) (k : Nat)
    (hv : c.argv = some (vals.map some ++ List.replicate k none))
    (hk : c.argc = (vals.length : Int)) :
    argvBytes c = some (vals.map (fun o => o.ptr)) := by
  unfold argvBytes
  rw [hv, hk]
  simp only [Int.toNat_ofNat]
  have : (vals.map some ++ List.replicate k (none : Option robj)).take vals.length =
      vals.map some := by
    rw [List.take_append_of_le_length (by simp)]
    rw [List.take_of_length_le (by simp)]
  rw [this, payloads_map_some]

theorem argv0_of_argvBytes (c : client) (a : List Nat) (rest : List (List Nat))
    (h : argvBytes c = some (a :: rest)) : ∃ o, argv0 c = .ok o ∧ o.ptr = a := by
  unfold argvBytes at h
  cases hv : c.argv with
  | none => rw [hv] at h; cases h
  | some slots =>
    rw [hv] at h
    simp only at h
    cases slots with
    | nil => simp [payloads] at h
    | cons s ss =>
      cases hn : c.argc.toNat with
      | zero => rw [hn] at h; simp [payloads] at h
      | succ n =>
        rw [hn, List.take_succ_cons] at h
        cases s with
        | none => simp [payloads] at h
        | some o =>
          simp only [payloads, Option.map_eq_some'] at h
          obtain ⟨l, _, hl⟩ := h
          refine ⟨o, ?_, (List.cons.inj hl).1⟩
          unfold argv0
          rw [hv]
          rfl

/-- One more byte of an inline command given to a client that stands inside
it: the parse takes no rejecting return; it reports `C_ERR` for lack of data
while bytes of the command remain; on the last byte it returns `C_OK` with
the non-empty tokens as arguments and an empty buffer. -/
theorem pendingInline_step (line term : List Nat) (toks : List (List Nat))
    (hterm : term = [13, 10] ∨ (term = [10] ∧ line.getLast? ≠ some 13))
    (hstar : line.head? ≠ some 42) (hclean : ∀ b ∈ line, b ≠ 0 ∧ b ≠ 10)
    (hlen : line.length ≤ 65536)
    (hs : sdssplitargs line = some toks) (hne : nonEmptyTokens toks ≠ [])
    (c : client) (b : Nat) (rem : List Nat)
    (hp : PendingInline (line ++ term) c (b :: rem)) :
    withReqtype (appendByte c b) = appendInline c b ∧
    parseRejects (appendInline c b) = false ∧
    ((rem ≠ [] ∧ ∃ c2, parseRequest (appendInline c b) = .ok (C_ERR, c2) ∧
        PendingInline (line ++ term) c2 rem) ∨
     (rem = [] ∧ ∃ c2, parseRequest (appendInline c b) = .ok (C_OK, c2) ∧
        c2.argc = ((nonEmptyTokens toks).length : Int) ∧
        argvBytes c2 = some (nonEmptyTokens toks) ∧ c2.querybuf = [])) := by
  obtain ⟨ht, hq⟩ := hp
  have htoks : toks ≠ [] := by
    intro h
    rw [h] at hne
    exact hne rfl
  have hline : line ≠ [] := by
    intro h
    rw [h] at hs
    have : sdssplitargs [] = some [] := rfl
    rw [this] at hs
    injection hs with hs
    exact htoks hs.symm
  obtain ⟨l0, ls, hl0⟩ : ∃ l0 ls, line = l0 :: ls := by
    cases line with
    | nil => exact absurd rfl hline
    | cons l0 ls => exact ⟨l0, ls, rfl⟩
  have hw : withReqtype (appendByte c b) = appendInline c b := by
    refine withReqtype_inline (appendByte c b) ?_
    rcases ht with ht | ⟨ht1, ht2⟩
    · exact Or.inl ht
    · right
      refine ⟨ht1, ?_⟩
      show (c.querybuf ++ [b]).getD 0 0 ≠ 42
      rw [ht2] at hq ⊢
      rw [hl0] at hq hstar
      have hb0 : b = l0 := (List.cons.inj hq).1
      intro h42
      apply hstar
      simp only [List.nil_append, List.getD_cons_zero] at h42
      rw [← hb0, h42]
      rfl
  obtain ⟨hpr, hrj⟩ := parse_inline (appendInline c b) rfl
  rw [hpr, hrj]
  have hq1 : (appendInline c b).querybuf ++ rem = line ++ term := by
    show (c.querybuf ++ [b]) ++ rem = _
    rw [List.append_assoc]
    exact hq
  refine ⟨hw, ?_⟩
  by_cases hrem : rem = []
  · rw [hrem, List.append_nil] at hq1
    obtain ⟨h1, h2⟩ := processInlineBuffer_line (appendInline c b) line term toks hq1 hterm
      hclean hlen hs htoks
    refine ⟨h2, Or.inr ⟨hrem, _, h1, rfl, ?_, rfl⟩⟩
    have := argvBytes_of
      { appendInline c b with
        querybuf := [],
        argv := some (((nonEmptyTokens toks).map (fun t => createObject OBJ_STRING t)).map some ++
          List.replicate (toks.length - (nonEmptyTokens toks).length) none),
        argc := ((nonEmptyTokens toks).length : Int) }
      ((nonEmptyTokens toks).map (fun t => createObject OBJ_STRING t))
      (toks.length - (nonEmptyTokens toks).length) rfl (by simp)
    rw [this]
    simp [List.map_map, Function.comp_def, createObject]
  · have hbody : ∃ body, line ++ term = body ++ [10] ∧ cleanOf 10 body := by
      rcases hterm with h | ⟨h, _⟩
      · refine ⟨line ++ [13], by rw [h]; simp, ?_⟩
        intro x hx
        rcases List.mem_append.1 hx with hx | hx
        · have := hclean x hx; exact ⟨this.2, this.1⟩
        · simp at hx; subst hx; decide
      · exact ⟨line, by rw [h], fun x hx => ⟨(hclean x hx).2, (hclean x hx).1⟩⟩
    obtain ⟨body, hb1, hb2⟩ := hbody
    rw [hb1] at hq1
    have hlq : (appendInline c b).querybuf.length ≤ body.length := by
      have := congrArg List.length hq1
      simp only [List.length_append, List.length_cons, List.length_nil] at this
      have : 0 < rem.length := List.length_pos.2 hrem
      omega
    have hpre := prefix_take _ rem body [10] hq1 hlq
    have hstr : strchr (appendInline c b).querybuf 10 = none := by
      rw [hpre]
      exact strchr_clean 10 _ (cleanOf_take 10 _ _ hb2)
    have h1 : processInlineBuffer (appendInline c b) = .ok (C_ERR, appendInline c b) := by
      unfold processInlineBuffer
      rw [hstr]
    have h2 : inlineRejects (appendInline c b) = false := by
      unfold inlineRejects
      rw [hstr]
    refine ⟨h2, Or.inl ⟨hrem, _, h1, Or.inl rfl, ?_⟩⟩
    rw [hq1, hb1]

/-! ## One byte at a time: the whole command -/

theorem split_at (bytes : List Nat) (k : Nat) (hk : k < bytes.length) :
    bytes = bytes.take k ++ (bytes.getD k 0 :: bytes.drop (k + 1)) ∧
    bytes.take (k + 1) = bytes.take k ++ [bytes.getD k 0] := by
  have h1 : bytes.getD k 0 = bytes[k] := List.getD_eq_getElem bytes 0 hk
  have h2 : bytes.drop k = bytes[k] :: bytes.drop (k + 1) := List.drop_eq_getElem_cons hk
  constructor
  · rw [h1, ← h2, List.take_append_drop]
  · rw [h1, List.take_succ, List.getElem?_eq_getElem hk]
    rfl

/-- Byte-by-byte feeding of a command under an invariant whose steps take no
rejecting return, report `C_ERR` while bytes remain and `C_OK` with the
arguments on the last byte. -/
theorem bytewise_generic (H : Handlers) (Inv : client → List Nat → Prop)
    (bytes : List Nat) (args : List (List Nat)) (hargs : args ≠ [])
    (hstep : ∀ (c : client) (b : Nat) (rem : List Nat), Inv c (b :: rem) →
      parseRejects (withReqtype (appendByte c b)) = false ∧
      ((rem ≠ [] ∧ ∃ c2, parseRequest (withReqtype (appendByte c b)) = .ok (C_ERR, c2) ∧
          Inv c2 rem) ∨
       (rem = [] ∧ ∃ c2, parseRequest (withReqtype (appendByte c b)) = .ok (C_OK, c2) ∧
          c2.argc = (args.length : Int) ∧ argvBytes c2 = some args ∧ c2.querybuf = [])))
    (h0 : Inv createClient bytes) (k : Nat) (hk : k < bytes.length) :
    ∃ c, feedBytes H (bytes.take k) createClient = .ok (c, []) ∧
      parseRejects (withReqtype (appendByte c (bytes.getD k 0))) = false ∧
      (k + 1 < bytes.length →
        ∃ c2, parseRequest (withReqtype (appendByte c (bytes.getD k 0))) = .ok (C_ERR, c2) ∧
          feedBytes H (bytes.take (k + 1)) createClient = .ok (c2, [])) ∧
      (k + 1 = bytes.length →
        ∃ c2, parseRequest (withReqtype (appendByte c (bytes.getD k 0))) = .ok (C_OK, c2) ∧
          c2.argc = (args.length : Int) ∧ argvBytes c2 = some args ∧ c2.querybuf = [] ∧
          ∀ cmd, lookupCommand (args.headD []) = some cmd →
            (runProc H cmd.proc { c2 with cmd := some cmd, lastcmd := some cmd }).querybuf = [] →
            feedBytes H bytes createClient =
              .ok (runProc H cmd.proc { c2 with cmd := some cmd, lastcmd := some cmd },
                [{ argc := c2.argc, argv := c2.argv }])) := by
  obtain ⟨hsplit, htake⟩ := split_at bytes k hk
  have hstep1 : ∀ (c : client) (b : Nat) (rem : List Nat), Inv c (b :: rem) → rem ≠ [] →
      ∃ c2, parseRequest (withReqtype (appendByte c b)) = .ok (C_ERR, c2) ∧ Inv c2 rem := by
    intro c b rem hi hne
    rcases (hstep c b rem hi).2 with ⟨_, c2, h, hi2⟩ | ⟨h, _⟩
    · exact ⟨c2, h, hi2⟩
    · exact absurd h hne
  have hInv : Inv createClient (bytes.take k ++ (bytes.getD k 0 :: bytes.drop (k + 1))) := by
    rw [← hsplit]; exact h0
  obtain ⟨c, hf, hi, hcont⟩ := feed_quiet H Inv hstep1 (bytes.take k) createClient
    (bytes.getD k 0 :: bytes.drop (k + 1)) (by simp) hInv
  obtain ⟨hrej, hcase⟩ := hstep c (bytes.getD k 0) (bytes.drop (k + 1)) hi
  refine ⟨c, hf, hrej, ?_, ?_⟩
  · intro hlt
    rcases hcase with ⟨_, c2, hp, _⟩ | ⟨hnil, _⟩
    · refine ⟨c2, hp, ?_⟩
      rw [htake, hcont [bytes.getD k 0],
        feedBytes_cons H c c2 _ [] (readQuery_byte_err H c c2 _ hp)]
      rfl
    · rw [List.drop_eq_nil_iff] at hnil
      omega
  · intro heq
    rcases hcase with ⟨hne, _⟩ | ⟨hnil, c2, hp, hargc, hab, hqb⟩
    · exact absurd (List.drop_eq_nil_iff.2 (by omega)) hne
    · refine ⟨c2, hp, hargc, hab, hqb, ?_⟩
      intro cmd hlook hbuf
      obtain ⟨a, rest, hargs1⟩ : ∃ a rest, args = a :: rest := by
        cases args with
        | nil => exact absurd rfl hargs
        | cons a rest => exact ⟨a, rest, rfl⟩
      rw [hargs1] at hab hlook hargc
      obtain ⟨o, ho1, ho2⟩ := argv0_of_argvBytes c2 a rest hab
      have hne0 : c2.argc ≠ 0 := by
        rw [hargc]
        simp only [List.length_cons]
        omega
      have hrq : readQueryFromClient H c [bytes.getD k 0] =
          .ok (runProc H cmd.proc { c2 with cmd := some cmd, lastcmd := some cmd },
            [{ argc := c2.argc, argv := c2.argv }]) := by
        rw [readQueryFromClient_byte]
        unfold processInputBuffer
        rw [loop_of_parse_ok H _ _ c2 [] o cmd (appendByte_ne_nil c _) hp ho1 hne0
          (by rw [ho2]; exact hlook) hbuf]
        rfl
      have hb : bytes = bytes.take k ++ [bytes.getD k 0] := by
        rw [← htake, List.take_of_length_le (by omega)]
      have hfb : feedBytes H bytes createClient = feedBytes H [bytes.getD k 0] c :=
        (congrArg (fun l => feedBytes H l createClient) hb).trans (hcont [bytes.getD k 0])
      rw [hfb]
      exact feedChunks_one H c _ _ _ hrq

/-- C11: for every well-formed command (multibulk: 1 to 1,048,576
arguments of at most 512 MiB each; inline: a line of at most 64 KiB accepted
by the splitter with a non-empty token, ended by `\r\n` or `\n`) given to a
new client one byte at a time, one `readQueryFromClient` per byte.  For every
`k` below the length of the command: after the first `k` bytes (every proper
prefix) the client is there, without fault, and nothing has been dispatched;
the parse that the decode loop runs on the next byte takes no rejecting
return; when that byte is not the last one the parse reports `C_ERR` for lack
of data and the run ends with nothing dispatched; when it is the last one the
parse returns `C_OK` with `argc` the number of arguments, `argv` holding
exactly their bytes in order, and an empty buffer; and when the command table
knows the first argument and the handler leaves the empty buffer alone, the
whole feed ends with exactly this command dispatched, once. -/
theorem bytewise_decoding (H : Handlers) (bytes : List Nat) (args : List (List Nat))
    (hw : WellFormedCommand bytes args) (k : Nat) (hk : k < bytes.length) :
    ∃ c, feedBytes H (bytes.take k) createClient = .ok (c, []) ∧
      parseRejects (withReqtype (appendByte c (bytes.getD k 0))) = false ∧
      (k + 1 < bytes.length →
        ∃ c2, parseRequest (withReqtype (appendByte c (bytes.getD k 0))) = .ok (C_ERR, c2) ∧
          feedBytes H (bytes.take (k + 1)) createClient = .ok (c2, [])) ∧
      (k + 1 = bytes.length →
        ∃ c2, parseRequest (withReqtype (appendByte c (bytes.getD k 0))) = .ok (C_OK, c2) ∧
          c2.argc = (args.length : Int) ∧ argvBytes c2 = some args ∧ c2.querybuf = [] ∧
          ∀ cmd, lookupCommand (args.headD []) = some cmd →
            (runProc H cmd.proc { c2 with cmd := some cmd, lastcmd := some cmd }).querybuf = [] →
            feedBytes H bytes createClient =
              .ok (runProc H cmd.proc { c2 with cmd := some cmd, lastcmd := some cmd },
                [{ argc := c2.argc, argv := c2.argv }])) := by
  cases hw with
  | multibulk _ h1 h2 h3 =>
    have hargs : args ≠ [] := by
      intro h; rw [h] at h1; simp at h1
    refine bytewise_generic H (Pending args) (multibulk args) args hargs ?_ ?_ k hk
    · intro c b rem hp
      obtain ⟨hw1, hrej, hcase⟩ := pending_step args h1 h2 h3 c b rem hp
      rw [hw1]
      refine ⟨hrej, ?_⟩
      rcases hcase with hcase | ⟨hnil, c2, hp2, hargc, hargv, hq, _, _⟩
      · exact Or.inl hcase
      · refine Or.inr ⟨hnil, c2, hp2, hargc, ?_, hq⟩
        have := argvBytes_of c2 (args.map (fun x => createStringObject x x.length)) 0
          (by rw [hargv]; simp [List.map_map, Function.comp_def])
          (by rw [hargc]; simp)
        rw [this, List.map_map]
        congr 1
        have hid : ∀ x ∈ args,
            ((fun o : robj => o.ptr) ∘ fun x => createStringObject x x.length) x = id x :=
          fun x _ => createStringObject_ptr x
        rw [List.map_congr_left hid, List.map_id]
    · exact Pending.header createClient (multibulk args) (Or.inr ⟨rfl, rfl⟩) rfl rfl rfl rfl
        (by show 0 < _; omega)
  | inline line term toks hterm hstar hclean hlen hs hne =>
    refine bytewise_generic H (PendingInline (line ++ term)) (line ++ term)
      (nonEmptyTokens toks) hne ?_ ⟨Or.inr ⟨rfl, rfl⟩, rfl⟩ k hk
    intro c b rem hp
    obtain ⟨hw1, hrej, hcase⟩ :=
      pendingInline_step line term toks hterm hstar hclean hlen hs hne c b rem hp
    rw [hw1]
    exact ⟨hrej, hcase⟩

/-- C11 on `*2\r\n$3\r\nGET\r\n$3\r\nfoo\r\n` (22 bytes): after the first 21
bytes nothing is dispatched; the last byte completes `GET foo`, which is
dispatched once. -/
theorem bytewise_decoding_getFoo :
    WellFormedCommand (multibulk [[71, 69, 84], [102, 111, 111]])
      [[71, 69, 84], [102, 111, 111]] ∧
    ∃ c, feedBytes idleHandlers ((multibulk [[71, 69, 84], [102, 111, 111]]).take 21)
        createClient = .ok (c, []) ∧
      ∃ c2, parseRequest (withReqtype (appendByte c 10)) = .ok (C_OK, c2) ∧
        c2.argc = 2 ∧ argvBytes c2 = some [[71, 69, 84], [102, 111, 111]] ∧
        c2.querybuf = [] ∧
        ∃ c3, feedBytes idleHandlers (multibulk [[71, 69, 84], [102, 111, 111]]) createClient =
          .ok (c3, [{ argc := c2.argc, argv := c2.argv }]) :=
  ⟨WellFormedCommand.multibulk _ (by decide) (by decide) (by decide),
   match bytewise_decoding idleHandlers _ _
      (WellFormedCommand.multibulk [[71, 69, 84], [102, 111, 111]]
        (by decide) (by decide) (by decide)) 21 (by decide) with
   | ⟨c, h1, _, _, h4⟩ =>
     ⟨c, h1,
      match h4 (by decide) with
      | ⟨c2, h5, h6, h7, h8, h9⟩ =>
        ⟨c2, h5, h6, h7, h8, _,
          h9 { name := [103, 101, 116], proc := .getCommand, arity := 2, sflags := [114, 70] }
            (by decide) h8⟩⟩⟩

/-! ## The decode loop, one iteration -/

/-- One iteration of the loop of `processInputBuffer` on a buffer that is
not empty, in terms of the request type selected and the parse run for it. -/
theorem processInputBufferLoop_succ (H : Handlers) (fuel : Nat) (c : client)
    (log : List Dispatch) (hne : c.querybuf ≠ []) :
    processInputBufferLoop H (fuel + 1) c log =
      match parseRequest (withReqtype c) with
      | .error e => .error e
      | .ok (r, c2) =>
        if r ≠ C_OK then .ok (c2, log)
        else
          match argv0 c2 with
          | .error e => .error e
          | .ok _ =>
            if c2.argc = 0 then processInputBufferLoop H fuel (resetClient c2) log
            else
              match processCommand H c2 with
              | .error e => .error e
              | .ok (rc, c3) =>
                processInputBufferLoop H fuel (if rc = C_OK then resetClient c3 else c3)
                  (log ++ [{ argc := c2.argc, argv := c2.argv }]) := by
  have hl : ¬ c.querybuf.length = 0 := fun h => hne (List.length_eq_zero.1 h)
  conv_lhs => unfold processInputBufferLoop
  simp only [hl, if_false]
  rfl

/-- Every call of `processCommand` that a run of the decode loop records was
made on the client that a parse returned with `C_OK`. -/
theorem dispatches_follow_C_OK (H : Handlers) (fuel : Nat) :
    ∀ (c c1 : client) (log log1 : List Dispatch),
    processInputBufferLoop H fuel c log = .ok (c1, log1) →
    ∃ extra, log1 = log ++ extra ∧
      ∀ d ∈ extra, ∃ c0 c2, c0.querybuf ≠ [] ∧
        parseRequest (withReqtype c0) = .ok (C_OK, c2) ∧ c2.argc ≠ 0 ∧
        d = { argc := c2.argc, argv := c2.argv } := by
  induction fuel with
  | zero =>
    intro c c1 log log1 h
    unfold processInputBufferLoop at h
    split at h
    · cases h
      exact ⟨[], by simp, by simp⟩
    · cases h
  | succ fuel ih =>
    intro c c1 log log1 h
    by_cases hne : c.querybuf = []
    · rw [processInputBufferLoop_empty H _ c log hne] at h
      cases h
      exact ⟨[], by simp, by simp⟩
    · rw [processInputBufferLoop_succ H fuel c log hne] at h
      cases hp : parseRequest (withReqtype c) with
      | error e => rw [hp] at h; cases h
      | ok res =>
        obtain ⟨r, c2⟩ := res
        rw [hp] at h
        simp only at h
        by_cases hr : r ≠ C_OK
        · rw [if_pos hr] at h
          cases h
          exact ⟨[], by simp, by simp⟩
        · rw [if_neg hr] at h
          have hr1 : r = C_OK := not_not.1 hr
          subst hr1
          cases h0 : argv0 c2 with
          | error e => rw [h0] at h; cases h
          | ok o =>
            rw [h0] at h
            simp only at h
            by_cases hz : c2.argc = 0
            · rw [if_pos hz] at h
              exact ih _ c1 log log1 h
            · rw [if_neg hz] at h
              cases hpc : processCommand H c2 with
              | error e => rw [hpc] at h; cases h
              | ok res2 =>
                obtain ⟨rc, c3⟩ := res2
                rw [hpc] at h
                simp only at h
                obtain ⟨extra, he, hall⟩ := ih _ c1 _ log1 h
                refine ⟨{ argc := c2.argc, argv := c2.argv } :: extra, ?_, ?_⟩
                · rw [he]; simp
                · intro d hd
                  rcases List.mem_cons.1 hd with hd | hd
                  · exact ⟨c, c2, hne, hp, hz, hd⟩
                  · exact hall d hd

/-! ## The request type is selected once -/

/-- C21: the request type is selected from the first byte of the buffer
(42, the byte `*`, gives the multibulk grammar, any other byte the inline
grammar) only while `reqtype` is 0; once set it is kept, and `resetClient`
does not set it back.  So the selection is made for the first command of a
connection only: after the multibulk command `command`, the inline command
`command` is handed to the multibulk parser, which rejects it, and nothing
is dispatched, while a new client dispatches the same bytes; in the other
order the count line of the multibulk command is parsed as an inline
command. -/
theorem grammar_selected_for_first_command_only :
    (∀ c : client, c.reqtype = 0 → c.querybuf.getD 0 0 = 42 →
      withReqtype c = { c with reqtype := PROTO_REQ_MULTIBULK }) ∧
    (∀ c : client, c.reqtype = 0 → c.querybuf.getD 0 0 ≠ 42 →
      withReqtype c = { c with reqtype := PROTO_REQ_INLINE }) ∧
    (∀ c : client, c.reqtype ≠ 0 → withReqtype c = c) ∧
    (∀ c : client, resetClient c = c) ∧
    observe (feedChunks idleHandlers [inlineCommand] createClient []) =
      .ok { reqtype := PROTO_REQ_INLINE, argc := 1, multibulklen := 0, bulklen := -1,
            querybuf := [], dispatched := [1] } ∧
    observe (feedChunks idleHandlers [commandCmd] createClient []) =
      .ok { reqtype := PROTO_REQ_MULTIBULK, argc := 1, multibulklen := 0, bulklen := -1,
            querybuf := [], dispatched := [1] } ∧
    observe (feedChunks idleHandlers [commandCmd, inlineCommand] createClient []) =
      .ok { reqtype := PROTO_REQ_MULTIBULK, argc := 1, multibulklen := 0, bulklen := -1,
            querybuf := inlineCommand, dispatched := [1] } ∧
    feedChunks idleHandlers [inlineCommand, commandCmd] createClient [] = .error .nullDeref := by
  refine ⟨?_, ?_, ?_, ?_, by decide, by decide, by decide, by decide⟩
  · intro c h0 hb
    unfold withReqtype
    rw [if_pos h0, if_pos hb]
  · intro c h0 hb
    unfold withReqtype
    rw [if_pos h0, if_neg hb]
  · intro c h0
    unfold withReqtype
    rw [if_neg h0]
  · intro c
    rfl

/-! ## Dispatch only after a complete parse -/

/-- C22: in an iteration of the loop of `processInputBuffer`, a parse that
returns anything but `C_OK` (insufficient data, or a rejection) ends the loop
with the list of dispatched commands as it was; and every command that a run
of the loop hands to `processCommand` is the argument vector of a client
that the parse of that iteration returned with `C_OK` and `argc` not 0. -/
theorem partial_commands_not_dispatched (H : Handlers) (fuel : Nat) (c c1 : client)
    (log log1 : List Dispatch) :
    (∀ r c2, c.querybuf ≠ [] → parseRequest (withReqtype c) = .ok (r, c2) → r ≠ C_OK →
      processInputBufferLoop H (fuel + 1) c log = .ok (c2, log)) ∧
    (processInputBufferLoop H fuel c log = .ok (c1, log1) →
      ∃ extra, log1 = log ++ extra ∧
        ∀ d ∈ extra, ∃ c0 c2, c0.querybuf ≠ [] ∧
          parseRequest (withReqtype c0) = .ok (C_OK, c2) ∧ c2.argc ≠ 0 ∧
          d = { argc := c2.argc, argv := c2.argv }) := by
  refine ⟨?_, dispatches_follow_C_OK H fuel c c1 log log1⟩
  intro r c2 hne hp hr
  rw [processInputBufferLoop_succ H fuel c log hne, hp]
  exact if_pos hr

theorem partial_commands_not_dispatched_witness :
    processInputBufferLoop idleHandlers 4 (freshWith partialCount) [] =
      .ok ({ freshWith partialCount with reqtype := PROTO_REQ_MULTIBULK }, []) ∧
    ∃ c1 log1, processInputBufferLoop idleHandlers 23 (freshWith getFoo) [] = .ok (c1, log1) ∧
      ∃ extra, log1 = [] ++ extra ∧
        ∀ d ∈ extra, ∃ c0 c2, c0.querybuf ≠ [] ∧
          parseRequest (withReqtype c0) = .ok (C_OK, c2) ∧ c2.argc ≠ 0 ∧
          d = { argc := c2.argc, argv := c2.argv } := by
  refine ⟨(partial_commands_not_dispatched idleHandlers 3 (freshWith partialCount)
      (freshWith partialCount) [] []).1 C_ERR
      { freshWith partialCount with reqtype := PROTO_REQ_MULTIBULK }
      (by decide) (by decide) (by decide), ?_⟩
  have hok : (processInputBufferLoop idleHandlers 23 (freshWith getFoo) []).isOk = true := by
    decide
  cases h : processInputBufferLoop idleHandlers 23 (freshWith getFoo) [] with
  | error e => rw [h] at hok; cases hok
  | ok p =>
    exact ⟨p.1, p.2, rfl,
      (partial_commands_not_dispatched idleHandlers 23 (freshWith getFoo) p.1 [] p.2).2 h⟩

/-! ## Length lines: the 64 KiB guard, the `$`, the integer -/

/-- The rejecting classification of a call whose argument loop ends by `return`. -/
theorem multibulkRejects_of_ret (c c1 c2 : client) (pos r : Int)
    (hh : processMultibulkHeader c = .go c1 pos)
    (hl : processMultibulkLoop (c1.querybuf.length + 2) c1 pos = .ok (.ret r c2)) :
    multibulkRejects c = true := by
  unfold multibulkRejects
  rw [hh]
  simp only [hl, Bool.or_true]

theorem cleanOf_replicate (ch b n : Nat) (h1 : b ≠ ch) (h2 : b ≠ 0) :
    cleanOf ch (List.replicate n b) := by
  intro x hx
  rw [List.eq_of_mem_replicate hx]
  exact ⟨h1, h2⟩

/-- The length line when no CR is found from the cursor on. -/
theorem readBulkLength_no_cr (c : client) (pos : Nat)
    (hb : c.bulklen = -1) (hp : pos ≤ c.querybuf.length)
    (hs : strchr (c.querybuf.drop pos) 13 = none) :
    readBulkLength c pos =
      if c.querybuf.length > PROTO_INLINE_MAX_SIZE then .ok (.ret C_ERR c)
      else .ok (.brk c pos) := by
  have e0 : ¬ ((pos : Int) < 0 ∨ (pos : Int) > c.querybuf.length) := by
    clear hs hb; omega
  unfold readBulkLength
  simp only [hb, if_true, e0, if_false, Int.toNat_ofNat, hs]

/-- C23: in the argument phase with the length of the argument unknown, when
no CR is found from the cursor on, the length line and the loop end by the
rejecting `return C_ERR` when the length of the buffer exceeds 65,536, and by
the `break` for lack of data when it does not; for a call that starts at
cursor 0 the call is a rejection exactly when the length exceeds 65,536. -/
theorem no_cr_rejected_exactly_above_64KiB (c : client) (pos fuel : Nat)
    (hm : c.multibulklen ≠ 0) (hb : c.bulklen = -1) (hp : pos ≤ c.querybuf.length)
    (hs : strchr (c.querybuf.drop pos) 13 = none) :
    (65536 < c.querybuf.length →
      readBulkLength c pos = .ok (.ret C_ERR c) ∧
      processMultibulkLoop (fuel + 1) c pos = .ok (.ret C_ERR c)) ∧
    (c.querybuf.length ≤ 65536 →
      readBulkLength c pos = .ok (.brk c pos) ∧
      processMultibulkLoop (fuel + 1) c pos = .ok (.brk c pos)) ∧
    (pos = 0 →
      processMultibulkBuffer c = .ok (C_ERR, c) ∧
      (multibulkRejects c = true ↔ 65536 < c.querybuf.length)) := by
  have h1 := readBulkLength_no_cr c pos hb hp hs
  have h2 := fun f => loop_no_cr c pos f hm hb hp hs
  refine ⟨?_, ?_, ?_⟩
  · intro hgt
    have hg : c.querybuf.length > PROTO_INLINE_MAX_SIZE := hgt
    rw [h1, h2 fuel, if_pos hg]
    exact ⟨rfl, rfl⟩
  · intro hle
    have hg : ¬ c.querybuf.length > PROTO_INLINE_MAX_SIZE := by
      unfold PROTO_INLINE_MAX_SIZE; clear h1 h2 hs hb hm; omega
    rw [h1, h2 fuel, if_neg hg]
    exact ⟨rfl, rfl⟩
  · intro hp0
    subst hp0
    by_cases hgt : 65536 < c.querybuf.length
    · have hg : c.querybuf.length > PROTO_INLINE_MAX_SIZE := hgt
      have hl := h2 (c.querybuf.length + 1)
      rw [if_pos hg] at hl
      have hh := (header_skip c hm).1
      exact ⟨processMultibulkBuffer_of_ret c c c 0 C_ERR hh hl,
        ⟨fun _ => hgt, fun _ => multibulkRejects_of_ret c c c 0 C_ERR hh hl⟩⟩
    · have hle : c.querybuf.length ≤ PROTO_INLINE_MAX_SIZE := by
        unfold PROTO_INLINE_MAX_SIZE; clear h1 h2 hs hb hm; omega
      have hs0 : strchr c.querybuf 13 = none := by simpa using hs
      obtain ⟨h3, h4⟩ := processMultibulkBuffer_no_progress c
        (Or.inr (Or.inl ⟨hm, hb, Or.inl ⟨hs0, hle⟩⟩))
      refine ⟨h3, ?_⟩
      rw [h4]
      exact ⟨fun h => Bool.noConfusion h, fun h => absurd h hgt⟩

theorem no_cr_rejected_exactly_above_64KiB_witness :
    ((65536 < ({ createClient with querybuf := [36, 51], multibulklen := 1 } : client).querybuf.length →
      readBulkLength { createClient with querybuf := [36, 51], multibulklen := 1 } (0 : Nat) =
        .ok (.ret C_ERR { createClient with querybuf := [36, 51], multibulklen := 1 }) ∧
      processMultibulkLoop (0 + 1) { createClient with querybuf := [36, 51], multibulklen := 1 }
          (0 : Nat) =
        .ok (.ret C_ERR { createClient with querybuf := [36, 51], multibulklen := 1 })) ∧
    (({ createClient with querybuf := [36, 51], multibulklen := 1 } : client).querybuf.length
        ≤ 65536 →
      readBulkLength { createClient with querybuf := [36, 51], multibulklen := 1 } (0 : Nat) =
        .ok (.brk { createClient with querybuf := [36, 51], multibulklen := 1 } (0 : Nat)) ∧
      processMultibulkLoop (0 + 1) { createClient with querybuf := [36, 51], multibulklen := 1 }
          (0 : Nat) =
        .ok (.brk { createClient with querybuf := [36, 51], multibulklen := 1 } (0 : Nat))) ∧
    ((0 : Nat) = 0 →
      processMultibulkBuffer { createClient with querybuf := [36, 51], multibulklen := 1 } =
        .ok (C_ERR, { createClient with querybuf := [36, 51], multibulklen := 1 }) ∧
      (multibulkRejects { createClient with querybuf := [36, 51], multibulklen := 1 } = true ↔
        65536 <
          ({ createClient with querybuf := [36, 51], multibulklen := 1 } : client).querybuf.length))) ∧
    65536 < bigArg.length ∧
    (readBulkLength { createClient with querybuf := bigArg, multibulklen := 1 } (0 : Nat) =
        .ok (.ret C_ERR { createClient with querybuf := bigArg, multibulklen := 1 }) ∧
      processMultibulkLoop (0 + 1) { createClient with querybuf := bigArg, multibulklen := 1 }
          (0 : Nat) =
        .ok (.ret C_ERR { createClient with querybuf := bigArg, multibulklen := 1 })) ∧
    processMultibulkBuffer { createClient with querybuf := bigArg, multibulklen := 1 } =
      .ok (C_ERR, { createClient with querybuf := bigArg, multibulklen := 1 }) ∧
    multibulkRejects { createClient with querybuf := bigArg, multibulklen := 1 } = true := by
  have hbig : 65536 < bigArg.length := by rw [bigArg_length]; decide
  have h := no_cr_rejected_exactly_above_64KiB
    { createClient with querybuf := bigArg, multibulklen := 1 } 0 0
    (by decide) rfl (Nat.zero_le _)
    (strchr_clean 13 bigArg (cleanOf_replicate 13 65 70000 (by decide) (by decide)))
  exact ⟨no_cr_rejected_exactly_above_64KiB
      { createClient with querybuf := [36, 51], multibulklen := 1 } 0 0
      (by decide) (by decide) (by decide) (by decide),
    hbig, h.1 hbig, (h.2.2 rfl).1, (h.2.2 rfl).2.2 hbig⟩

/-! ## Unterminated inline lines and count lines -/

/-- Without a terminator there is no rejection: `processInlineBuffer` on a
buffer in which no LF is found, and the header phase of
`processMultibulkBuffer` on a buffer in which no CR is found, return `C_ERR`
by the return for a missing terminator and leave the client as it was. -/
theorem no_terminator_no_rejection (c : client) :
    (strchr c.querybuf 10 = none →
      processInlineBuffer c = .ok (C_ERR, c) ∧ inlineRejects c = false) ∧
    (c.multibulklen = 0 → strchr c.querybuf 13 = none →
      processMultibulkBuffer c = .ok (C_ERR, c) ∧ multibulkRejects c = false) := by
  refine ⟨?_, ?_⟩
  · intro h1
    refine ⟨?_, ?_⟩
    · unfold processInlineBuffer
      simp only [h1]
    · unfold inlineRejects
      simp only [h1]
  · intro hm h2
    exact processMultibulkBuffer_no_progress c (Or.inl ⟨hm, Or.inl h2⟩)

theorem bigCount_length : bigCount.length = 70000 := by
  unfold bigCount; rw [List.length_replicate]

/-- The counterexample to C24 as stated: an inline line of 70,000 bytes `A`
without LF, and a count line `*111...` of 70,001 bytes without CR, on a new
client: both are longer than 65,536 bytes, and the parser returns `C_ERR` by
the return for a missing terminator, the client as it was, no rejection. -/
theorem unterminated_lines_past_64KiB_kept :
    (65536 < bigArg.length ∧ 65536 < (42 :: bigCount).length) ∧
    (processInlineBuffer (freshWith bigArg) = .ok (C_ERR, freshWith bigArg) ∧
      inlineRejects (freshWith bigArg) = false) ∧
    (processMultibulkBuffer (freshWith (42 :: bigCount)) =
        .ok (C_ERR, freshWith (42 :: bigCount)) ∧
      multibulkRejects (freshWith (42 :: bigCount)) = false) :=
  ⟨⟨by rw [bigArg_length]; decide, by rw [List.length_cons, bigCount_length]; decide⟩,
    (no_terminator_no_rejection (freshWith bigArg)).1
      (strchr_clean 10 _ (cleanOf_replicate 10 65 70000 (by decide) (by decide))),
    (no_terminator_no_rejection (freshWith (42 :: bigCount))).2 rfl
      (strchr_clean 13 _ (cleanOf_cons 13 42 _ (by decide) (by decide)
        (cleanOf_replicate 13 49 70000 (by decide) (by decide))))⟩

/-- C24 (as amended): an inline line in which no LF is found, and a count
line in which no CR is found, are reported as insufficient data whatever
their length, also above 65,536 bytes: `processInlineBuffer` and the header
phase of `processMultibulkBuffer` return `C_ERR` by the return for a missing
terminator, leave the client as it was, and take no rejecting return. -/
theorem unterminated_line_never_rejected (c : client) :
    (strchr c.querybuf 10 = none →
      processInlineBuffer c = .ok (C_ERR, c) ∧ inlineRejects c = false) ∧
    (c.multibulklen = 0 → strchr c.querybuf 13 = none →
      processMultibulkBuffer c = .ok (C_ERR, c) ∧ multibulkRejects c = false) :=
  no_terminator_no_rejection c

theorem unterminated_line_never_rejected_witness :
    65536 < (List.replicate 65537 65).length ∧
    (processInlineBuffer (freshWith (List.replicate 65537 65)) =
        .ok (C_ERR, freshWith (List.replicate 65537 65)) ∧
      inlineRejects (freshWith (List.replicate 65537 65)) = false) ∧
    (processMultibulkBuffer (freshWith (42 :: List.replicate 65537 49)) =
        .ok (C_ERR, freshWith (42 :: List.replicate 65537 49)) ∧
      multibulkRejects (freshWith (42 :: List.replicate 65537 49)) = false) :=
  ⟨by rw [List.length_replicate]; decide,
    (unterminated_line_never_rejected (freshWith (List.replicate 65537 65))).1
      (strchr_clean 10 _ (cleanOf_replicate 10 65 65537 (by decide) (by decide))),
    (unterminated_line_never_rejected (freshWith (42 :: List.replicate 65537 49))).2 rfl
      (strchr_clean 13 _ (cleanOf_cons 13 42 _ (by decide) (by decide)
        (cleanOf_replicate 13 49 65537 (by decide) (by decide))))⟩

/-! ## A length line that does not start with `$` -/

/-- C25: in the argument phase with the length of the argument unknown, when
a complete line stands at the cursor and its first byte is not `$`, the
length line and the loop end by the rejecting `return C_ERR` with the client
as it was (nothing stored in `argv`, `argc` and `multibulklen` unchanged,
`bulklen` still -1); a call that starts at cursor 0 returns `C_ERR` with the
client unchanged and is a rejection. -/
theorem line_without_dollar_rejected (c : client) (pos off fuel : Nat)
    (hm : c.multibulklen ≠ 0) (hb : c.bulklen = -1) (hp : pos ≤ c.querybuf.length)
    (hs : strchr (c.querybuf.drop pos) 13 = some off)
    (hl : ¬ ((pos : Int) + (off : Int) > toInt32 c.querybuf.length - 2))
    (hd : c.querybuf.getD pos 0 ≠ 36) :
    readBulkLength c pos = .ok (.ret C_ERR c) ∧
    processMultibulkLoop (fuel + 1) c pos = .ok (.ret C_ERR c) ∧
    c.bulklen = -1 ∧
    (pos = 0 →
      processMultibulkBuffer c = .ok (C_ERR, c) ∧ multibulkRejects c = true) := by
  have e0 : ¬ ((pos : Int) < 0 ∨ (pos : Int) > c.querybuf.length) := by
    clear hs hb hm hd hl; omega
  have h1 : readBulkLength c pos = .ok (.ret C_ERR c) := by
    unfold readBulkLength
    simp only [hb, if_true, e0, if_false, Int.toNat_ofNat, hs, hl, hd, ne_eq,
      not_false_eq_true]
  have h2 : ∀ f, processMultibulkLoop (f + 1) c pos = .ok (.ret C_ERR c) := by
    intro f
    unfold processMultibulkLoop
    simp only [hm, if_false, h1]
  refine ⟨h1, h2 fuel, hb, ?_⟩
  intro hp0
  subst hp0
  have hh := (header_skip c hm).1
  exact ⟨processMultibulkBuffer_of_ret c c c 0 C_ERR hh (h2 _),
    multibulkRejects_of_ret c c c 0 C_ERR hh (h2 _)⟩

theorem line_without_dollar_rejected_witness :
    readBulkLength { createClient with querybuf := [51, 13, 10], multibulklen := 1 } (0 : Nat) =
      .ok (.ret C_ERR { createClient with querybuf := [51, 13, 10], multibulklen := 1 }) ∧
    processMultibulkLoop (0 + 1)
        { createClient with querybuf := [51, 13, 10], multibulklen := 1 } (0 : Nat) =
      .ok (.ret C_ERR { createClient with querybuf := [51, 13, 10], multibulklen := 1 }) ∧
    ({ createClient with querybuf := [51, 13, 10], multibulklen := 1 } : client).bulklen = -1 ∧
    ((0 : Nat) = 0 →
      processMultibulkBuffer { createClient with querybuf := [51, 13, 10], multibulklen := 1 } =
        .ok (C_ERR, { createClient with querybuf := [51, 13, 10], multibulklen := 1 }) ∧
      multibulkRejects { createClient with querybuf := [51, 13, 10], multibulklen := 1 } =
        true) :=
  line_without_dollar_rejected
    { createClient with querybuf := [51, 13, 10], multibulklen := 1 } 0 1 0
    (by decide) (by decide) (by decide) (by decide) (by decide) (by decide)

/-! ## Fields that are not integers -/

theorem string2llDigits_digits (ds : List Nat) :
    ∀ v w, string2llDigits ds v = some w → ∀ b ∈ ds, 48 ≤ b ∧ b ≤ 57 := by
  induction ds with
  | nil => intro v w _ b hb; cases hb
  | cons d ds ih =>
    intro v w h b hb
    unfold string2llDigits at h
    by_cases hd : 48 ≤ d ∧ d ≤ 57
    · rw [if_pos hd] at h
      rcases List.mem_cons.1 hb with hb | hb
      · subst hb; exact hd
      · split at h
        · cases h
        · split at h
          · cases h
          · exact ih _ w h b hb
    · rw [if_neg hd] at h
      cases h

/-- What `string2ll` accepts is a base-10 integer: an optional minus sign
and then digits only, one or more. -/
theorem string2ll_isBase10 (s : List Nat) (v : Int) (h : string2ll s = some v) :
    isBase10 s := by
  unfold string2ll at h
  by_cases h0 : s.length = 0
  · rw [if_pos h0] at h; cases h
  · rw [if_neg h0] at h
    by_cases h1 : s = [48]
    · subst h1; decide
    · rw [if_neg h1] at h
      simp only at h
      unfold isBase10
      cases hp : (if (decide (s.head? = some 45)) = true then s.tail else s) with
      | nil => rw [hp] at h; cases h
      | cons d ds =>
        rw [hp] at h
        simp only at h
        have hp1 : (if s.head? = some 45 then s.tail else s) = d :: ds := by
          rw [← hp]
          by_cases hn : s.head? = some 45
          · simp only [hn, decide_True, if_true]
          · simp only [hn, decide_False, if_false, Bool.false_eq_true]
        rw [hp1]
        refine ⟨List.cons_ne_nil d ds, ?_⟩
        by_cases hd : 49 ≤ d ∧ d ≤ 57
        · rw [if_pos hd] at h
          cases hg : string2llDigits ds (d - 48) with
          | none => rw [hg] at h; cases h
          | some w =>
            intro b hb
            rcases List.mem_cons.1 hb with hb | hb
            · subst hb; exact ⟨by omega, hd.2⟩
            · exact string2llDigits_digits ds _ w hg b hb
        · rw [if_neg hd] at h
          by_cases hz : d = 48 ∧ s.length = 1
          · exfalso
            obtain ⟨hz1, hz2⟩ := hz
            apply h1
            cases s with
            | nil => cases hz2
            | cons a t =>
              cases t with
              | cons a2 t2 => simp at hz2
              | nil =>
                by_cases hn : [a].head? = some 45
                · rw [if_pos hn] at hp1
                  cases hp1
                · rw [if_neg hn] at hp1
                  cases hp1
                  rw [hz1]
          · rw [if_neg hz] at h
            cases h

/-- The header phase when the count line is complete and its count is not
an integer. -/
theorem header_not_integer (c : client) (nl : Nat) (hm : c.multibulklen = 0)
    (hs : strchr c.querybuf 13 = some nl)
    (hl : ¬ ((nl : Int) > toInt32 c.querybuf.length - 2))
    (hn : string2ll ((c.querybuf.drop 1).take (nl - 1)) = none) :
    processMultibulkHeader c = .ret C_ERR c ∧ headerRejects c = true := by
  unfold processMultibulkHeader headerRejects
  rw [hs]
  simp only [hm, if_true, hl, if_false, hn, decide_True, Bool.true_and, and_self]

/-- C26 (the claim as stated is refuted): the count `x` of `*x\r\n` and the
length `x` of `$x\r\n` are not base-10 integers, and `processMultibulkBuffer`
handles them as it handles a field that has not arrived in full (`*1\r`,
`$3\r`): the header phase leaves by `return C_ERR` in both cases, the call
returns `C_ERR` with the client as it was in the four cases, and the reader
goes on as after insufficient data: the buffer is kept, the bytes of the next
read are appended to it, and nothing is dispatched. -/
theorem non_integer_field_treated_as_incomplete :
    ¬ isBase10 [120] ∧
    processMultibulkHeader (freshWith badCount) = .ret C_ERR (freshWith badCount) ∧
    processMultibulkHeader (freshWith partialCount) = .ret C_ERR (freshWith partialCount) ∧
    processMultibulkBuffer (freshWith badCount) = .ok (C_ERR, freshWith badCount) ∧
    processMultibulkBuffer (freshWith partialCount) = .ok (C_ERR, freshWith partialCount) ∧
    processMultibulkBuffer { createClient with querybuf := [36, 120, 13, 10], multibulklen := 1 } =
      .ok (C_ERR, { createClient with querybuf := [36, 120, 13, 10], multibulklen := 1 }) ∧
    processMultibulkBuffer { createClient with querybuf := [36, 51, 13], multibulklen := 1 } =
      .ok (C_ERR, { createClient with querybuf := [36, 51, 13], multibulklen := 1 }) ∧
    feedChunks idleHandlers [badCount, getFoo] createClient [] =
      .ok ({ createClient with querybuf := badCount ++ getFoo, querybuf_peak := 4,
                               reqtype := PROTO_REQ_MULTIBULK }, []) := by
  decide

/-- C26 (as amended): a count or length field that is not a base-10 integer
is refused by `string2ll` and is never taken as a number; the call ends with
`C_ERR`, the value that it also returns for insufficient data.  In the header
phase, a complete count line whose count `string2ll` refuses makes
`processMultibulkBuffer` return `C_ERR` with the client unchanged (no count
recorded, no `argv` allocated), and the decode loop is left with nothing
dispatched; in the argument phase, a complete `$` line whose length
`string2ll` refuses ends the length line and the loop by `return C_ERR` with
the client unchanged (no length recorded, nothing stored), and so the call
and the decode loop when the line is at the start of the buffer.  A count
line or a length line without its CR gets the same result from the call:
`C_ERR` and the client unchanged. -/
theorem non_integer_field_rejected :
    (∀ txt : List Nat, ¬ isBase10 txt → string2ll txt = none) ∧
    (∀ (c : client) (nl : Nat), c.multibulklen = 0 →
      strchr c.querybuf 13 = some nl →
      ¬ ((nl : Int) > toInt32 c.querybuf.length - 2) →
      string2ll ((c.querybuf.drop 1).take (nl - 1)) = none →
      processMultibulkHeader c = .ret C_ERR c ∧
      processMultibulkBuffer c = .ok (C_ERR, c) ∧
      ∀ (H : Handlers) (fuel : Nat) (log : List Dispatch),
        c.reqtype = PROTO_REQ_MULTIBULK →
        processInputBufferLoop H (fuel + 1) c log = .ok (c, log)) ∧
    (∀ (c : client) (pos off fuel : Nat), c.multibulklen ≠ 0 → c.bulklen = -1 →
      pos ≤ c.querybuf.length →
      strchr (c.querybuf.drop pos) 13 = some off →
      ¬ ((pos : Int) + (off : Int) > toInt32 c.querybuf.length - 2) →
      c.querybuf.getD pos 0 = 36 →
      string2ll ((c.querybuf.drop (pos + 1)).take (off - 1)) = none →
      readBulkLength c pos = .ok (.ret C_ERR c) ∧
      processMultibulkLoop (fuel + 1) c pos = .ok (.ret C_ERR c) ∧
      (pos = 0 →
        processMultibulkBuffer c = .ok (C_ERR, c) ∧
        ∀ (H : Handlers) (fuel1 : Nat) (log : List Dispatch),
          c.reqtype = PROTO_REQ_MULTIBULK →
          processInputBufferLoop H (fuel1 + 1) c log = .ok (c, log))) ∧
    (∀ c : client, c.multibulklen = 0 → strchr c.querybuf 13 = none →
      processMultibulkBuffer c = .ok (C_ERR, c)) ∧
    (∀ c : client, c.multibulklen ≠ 0 → c.bulklen = -1 → strchr c.querybuf 13 = none →
      c.querybuf.length ≤ PROTO_INLINE_MAX_SIZE →
      processMultibulkBuffer c = .ok (C_ERR, c)) := by
  have hloop : ∀ (c : client) (H : Handlers) (fuel : Nat) (log : List Dispatch),
      c.querybuf ≠ [] → processMultibulkBuffer c = .ok (C_ERR, c) →
      c.reqtype = PROTO_REQ_MULTIBULK →
      processInputBufferLoop H (fuel + 1) c log = .ok (c, log) := by
    intro c H fuel log hne hp ht
    refine processInputBufferLoop_break H fuel c c log hne (Or.inl ht) ?_
    have e : ({ c with reqtype := PROTO_REQ_MULTIBULK } : client) = c := by rw [← ht]
    rw [e]
    exact hp
  refine ⟨?_, ?_, ?_, ?_, ?_⟩
  · intro txt hnb
    cases h : string2ll txt with
    | none => rfl
    | some v => exact absurd (string2ll_isBase10 txt v h) hnb
  · intro c nl hm hs hl hn
    have h1 := (header_not_integer c nl hm hs hl hn).1
    have h3 : processMultibulkBuffer c = .ok (C_ERR, c) := by
      unfold processMultibulkBuffer
      rw [h1]
    have hne : c.querybuf ≠ [] := by
      intro h0
      rw [h0] at hs
      cases hs
    exact ⟨h1, h3, fun H fuel log ht => hloop c H fuel log hne h3 ht⟩
  · intro c pos off fuel hm hb hp hs hl hd hn
    have e0 : ¬ ((pos : Int) < 0 ∨ (pos : Int) > c.querybuf.length) := by
      clear hs hb hm hd hl hn; omega
    have hd1 : ¬ c.querybuf.getD pos 0 ≠ 36 := not_not.2 hd
    have h1 : readBulkLength c pos = .ok (.ret C_ERR c) := by
      unfold readBulkLength
      simp only [hb, if_true, e0, if_false, Int.toNat_ofNat, hs, hl, hd1, hn]
    have h2 : ∀ f, processMultibulkLoop (f + 1) c pos = .ok (.ret C_ERR c) := by
      intro f
      unfold processMultibulkLoop
      simp only [hm, if_false, h1]
    refine ⟨h1, h2 fuel, ?_⟩
    intro hp0
    subst hp0
    have hh := (header_skip c hm).1
    have h3 := processMultibulkBuffer_of_ret c c c 0 C_ERR hh (h2 _)
    have hne : c.querybuf ≠ [] := by
      intro h0
      rw [h0] at hs
      cases hs
    exact ⟨h3, fun H fuel1 log ht => hloop c H fuel1 log hne h3 ht⟩
  · intro c hm hs
    exact (processMultibulkBuffer_no_progress c (Or.inl ⟨hm, Or.inl hs⟩)).1
  · intro c hm hb hs hl
    exact (processMultibulkBuffer_no_progress c
      (Or.inr (Or.inl ⟨hm, hb, Or.inl ⟨hs, hl⟩⟩))).1

/-- C26 as amended, on `1x` (refused by `string2ll`), on the count line
`*x\r\n` in a client of the multibulk grammar, on the length line `$+3\r\n`,
and on the lines `*1` and `$3` without their CR. -/
theorem non_integer_field_rejected_witness :
    string2ll [49, 120] = none ∧
    (processMultibulkHeader { freshWith badCount with reqtype := PROTO_REQ_MULTIBULK } =
        .ret C_ERR { freshWith badCount with reqtype := PROTO_REQ_MULTIBULK } ∧
      processMultibulkBuffer { freshWith badCount with reqtype := PROTO_REQ_MULTIBULK } =
        .ok (C_ERR, { freshWith badCount with reqtype := PROTO_REQ_MULTIBULK }) ∧
      processInputBufferLoop idleHandlers (0 + 1)
          { freshWith badCount with reqtype := PROTO_REQ_MULTIBULK } [] =
        .ok ({ freshWith badCount with reqtype := PROTO_REQ_MULTIBULK }, [])) ∧
    (readBulkLength
        { createClient with querybuf := [36, 43, 51, 13, 10], multibulklen := 1,
                            reqtype := PROTO_REQ_MULTIBULK } (0 : Nat) =
        .ok (.ret C_ERR
          { createClient with querybuf := [36, 43, 51, 13, 10], multibulklen := 1,
                              reqtype := PROTO_REQ_MULTIBULK }) ∧
      processMultibulkBuffer
          { createClient with querybuf := [36, 43, 51, 13, 10], multibulklen := 1,
                              reqtype := PROTO_REQ_MULTIBULK } =
        .ok (C_ERR, { createClient with querybuf := [36, 43, 51, 13, 10], multibulklen := 1,
                                        reqtype := PROTO_REQ_MULTIBULK }) ∧
      processInputBufferLoop idleHandlers (0 + 1)
          { createClient with querybuf := [36, 43, 51, 13, 10], multibulklen := 1,
                              reqtype := PROTO_REQ_MULTIBULK } [] =
        .ok ({ createClient with querybuf := [36, 43, 51, 13, 10], multibulklen := 1,
                                 reqtype := PROTO_REQ_MULTIBULK }, [])) ∧
    processMultibulkBuffer (freshWith [42, 49]) = .ok (C_ERR, freshWith [42, 49]) ∧
    processMultibulkBuffer { createClient with querybuf := [36, 51], multibulklen := 1 } =
      .ok (C_ERR, { createClient with querybuf := [36, 51], multibulklen := 1 }) :=
  ⟨non_integer_field_rejected.1 [49, 120] (by decide),
   ⟨(non_integer_field_rejected.2.1 { freshWith badCount with reqtype := PROTO_REQ_MULTIBULK } 2
      (by decide) (by decide) (by decide) (by decide)).1,
    (non_integer_field_rejected.2.1 { freshWith badCount with reqtype := PROTO_REQ_MULTIBULK } 2
      (by decide) (by decide) (by decide) (by decide)).2.1,
    (non_integer_field_rejected.2.1 { freshWith badCount with reqtype := PROTO_REQ_MULTIBULK } 2
      (by decide) (by decide) (by decide) (by decide)).2.2 idleHandlers 0 [] rfl⟩,
   ⟨(non_integer_field_rejected.2.2.1
      { createClient with querybuf := [36, 43, 51, 13, 10], multibulklen := 1,
                          reqtype := PROTO_REQ_MULTIBULK } 0 3 0
      (by decide) (by decide) (by decide) (by decide) (by decide) (by decide) (by decide)).1,
    ((non_integer_field_rejected.2.2.1
      { createClient with querybuf := [36, 43, 51, 13, 10], multibulklen := 1,
                          reqtype := PROTO_REQ_MULTIBULK } 0 3 0
      (by decide) (by decide) (by decide) (by decide) (by decide) (by decide) (by decide)).2.2
        rfl).1,
    ((non_integer_field_rejected.2.2.1
      { createClient with querybuf := [36, 43, 51, 13, 10], multibulklen := 1,
                          reqtype := PROTO_REQ_MULTIBULK } 0 3 0
      (by decide) (by decide) (by decide) (by decide) (by decide) (by decide) (by decide)).2.2
        rfl).2 idleHandlers 0 [] rfl⟩,
   non_integer_field_rejected.2.2.2.1 (freshWith [42, 49]) (by decide) (by decide),
   non_integer_field_rejected.2.2.2.2 { createClient with querybuf := [36, 51], multibulklen := 1 }
     (by decide) (by decide) (by decide) (by decide)⟩

/-! ## Inline lines: empty tokens -/

theorem mem_nonEmptyTokens (toks : List (List Nat)) (t : List Nat) :
    t ∈ nonEmptyTokens toks ↔ t ∈ toks ∧ t ≠ [] := by
  unfold nonEmptyTokens
  rw [List.mem_filter]
  simp only [ne_eq, decide_not, Bool.not_eq_true', decide_eq_false_iff_not,
    List.length_eq_zero]

/-- C27: when the buffer holds a line and `sdssplitargs` splits it into the
tokens `toks`, `processInlineBuffer` returns `C_OK` with `argc` the number of
tokens that are not empty; when there is a token at all, `argv` is a new
array of as many slots as tokens, whose first `argc` slots hold the tokens
that are not empty, in the order of the line (the empty ones are dropped);
when there is no token, `argv` is left as it was. -/
theorem inline_drops_empty_tokens (c : client) (nl : Nat) (toks : List (List Nat))
    (hs : strchr c.querybuf 10 = some nl)
    (ht : sdssplitargs (c.querybuf.take
      (if nl ≠ 0 ∧ c.querybuf.getD (nl - 1) 0 = 13 then nl - 1 else nl)) = some toks) :
    ∃ c1, processInlineBuffer c = .ok (C_OK, c1) ∧
      c1.argc = ((nonEmptyTokens toks).length : Int) ∧
      (∀ t, t ∈ nonEmptyTokens toks ↔ t ∈ toks ∧ t ≠ []) ∧
      List.Sublist (nonEmptyTokens toks) toks ∧
      (toks ≠ [] →
        c1.argv = some (((nonEmptyTokens toks).map (fun t => createObject OBJ_STRING t)).map some
          ++ List.replicate (toks.length - (nonEmptyTokens toks).length) none) ∧
        argvBytes c1 = some (nonEmptyTokens toks)) ∧
      (toks = [] → c1.argv = c.argv) := by
  have hsub : List.Sublist (nonEmptyTokens toks) toks := List.filter_sublist toks
  by_cases hn : toks = []
  · subst hn
    have hp : processInlineBuffer c = .ok (C_OK,
        { c with
          querybuf := sdsrange c.querybuf (toInt32 (((if nl ≠ 0 ∧
            c.querybuf.getD (nl - 1) 0 = 13 then nl - 1 else nl : Nat) : Int) + 2)) (-1),
          argc := 0 }) := by
      unfold processInlineBuffer
      simp only [hs, ht, List.length_nil, ne_eq, not_true_eq_false, if_false, inlineArgs]
    exact ⟨_, hp, rfl, mem_nonEmptyTokens [], hsub, fun h => absurd rfl h, fun _ => rfl⟩
  · have hl : toks.length ≠ 0 := fun h => hn (List.length_eq_zero.1 h)
    have hia := inlineArgs_filter toks
      { c with
        querybuf := sdsrange c.querybuf (toInt32 (((if nl ≠ 0 ∧ c.querybuf.getD (nl - 1) 0 = 13
          then nl - 1 else nl : Nat) : Int) + 2)) (-1),
        argv := some (List.replicate toks.length none), argc := 0 }
      [] toks.length (nonEmptyTokens_length_le toks) (by simp) (by simp)
    have hp : processInlineBuffer c = .ok (C_OK,
        { c with
          querybuf := sdsrange c.querybuf (toInt32 (((if nl ≠ 0 ∧
            c.querybuf.getD (nl - 1) 0 = 13 then nl - 1 else nl : Nat) : Int) + 2)) (-1),
          argv := some (((nonEmptyTokens toks).map (fun t => createObject OBJ_STRING t)).map some
            ++ List.replicate (toks.length - (nonEmptyTokens toks).length) none),
          argc := ((nonEmptyTokens toks).length : Int) }) := by
      unfold processInlineBuffer
      simp only [hs, ht, hl, ne_eq, not_false_eq_true, if_true]
      rw [hia]
      simp
    have hv := argvBytes_of
      { c with
        querybuf := sdsrange c.querybuf (toInt32 (((if nl ≠ 0 ∧ c.querybuf.getD (nl - 1) 0 = 13
          then nl - 1 else nl : Nat) : Int) + 2)) (-1),
        argv := some (((nonEmptyTokens toks).map (fun t => createObject OBJ_STRING t)).map some
          ++ List.replicate (toks.length - (nonEmptyTokens toks).length) none),
        argc := ((nonEmptyTokens toks).length : Int) }
      ((nonEmptyTokens toks).map (fun t => createObject OBJ_STRING t))
      (toks.length - (nonEmptyTokens toks).length) rfl (by simp)
    have hm : ((nonEmptyTokens toks).map (fun t => createObject OBJ_STRING t)).map
        (fun o => o.ptr) = nonEmptyTokens toks := by
      rw [List.map_map]
      have : ((fun o : robj => o.ptr) ∘ fun t => createObject OBJ_STRING t) = id := by
        funext t; rfl
      rw [this, List.map_id]
    rw [hm] at hv
    exact ⟨_, hp, rfl, mem_nonEmptyTokens toks, hsub, fun _ => ⟨rfl, hv⟩, fun h => absurd h hn⟩

theorem inline_drops_empty_tokens_witness :
    sdssplitargs lineWithEmptyToken = some [[97], [], [98]] ∧
    nonEmptyTokens [[97], [], [98]] = [[97], [98]] ∧
    ∃ c1, processInlineBuffer (freshWith (lineWithEmptyToken ++ [13, 10])) = .ok (C_OK, c1) ∧
      c1.argc = ((nonEmptyTokens [[97], [], [98]]).length : Int) ∧
      argvBytes c1 = some (nonEmptyTokens [[97], [], [98]]) := by
  refine ⟨by decide, by decide, ?_⟩
  obtain ⟨c1, h1, h2, _, _, h5, _⟩ := inline_drops_empty_tokens
    (freshWith (lineWithEmptyToken ++ [13, 10])) 7 [[97], [], [98]] (by decide) (by decide)
  exact ⟨c1, h1, h2, (h5 (by decide)).2⟩

/-! ## The early trim for big arguments; a payload that has not arrived -/

/-- The length line `$<len>` at the cursor, `len` from 0 to 512 MiB: the early
trim for `len` of 32,768 or more, the cursor moved past the line otherwise. -/
theorem readBulkLength_trim (c : client) (pos : Nat) (txt rest : List Nat) (ll : Int)
    (hb : c.bulklen = -1) (hq : c.querybuf.drop pos = 36 :: (txt ++ 13 :: 10 :: rest))
    (ht : cleanOf 13 txt) (hll : string2ll txt = some ll)
    (h0 : 0 ≤ ll) (h1 : ll ≤ 512 * 1024 * 1024) (hlen : c.querybuf.length < 2147483648) :
    (32768 ≤ ll →
      readBulkLength c pos = .ok (.go { c with querybuf := rest, bulklen := ll } 0)) ∧
    (ll < 32768 →
      readBulkLength c pos =
        .ok (.go { c with bulklen := ll } ((pos : Int) + txt.length + 3)) ∧
      c.querybuf.drop (pos + txt.length + 3) = rest) := by
  have h := readBulkLength_eval c pos txt rest hb hq ht hlen
  rw [hll] at h
  have hr : ¬ (ll < 0 ∨ ll > 512 * 1024 * 1024) := by
    clear h hq hb; omega
  simp only [hr, if_false] at h
  refine ⟨?_, ?_⟩
  · intro hbig
    have hg : ll ≥ (PROTO_MBULK_BIG_ARG : Int) := by
      unfold PROTO_MBULK_BIG_ARG; clear h hq hb; push_cast; omega
    rw [h, if_pos hg]
  · intro hsmall
    have hg : ¬ ll ≥ (PROTO_MBULK_BIG_ARG : Int) := by
      unfold PROTO_MBULK_BIG_ARG; clear h hq hb; push_cast; omega
    refine ⟨by rw [h, if_neg hg], ?_⟩
    have e2 : (c.querybuf.drop pos).drop (txt.length + 3) = rest := by rw [hq]; simp
    rw [List.drop_drop] at e2
    rw [← e2]
    congr 1

/-- C28: reading a complete length line `$<len>` at the cursor, in a buffer
below 2 GiB, with `len` from 0 to 512 MiB: for `len` of 32,768 or more the
buffer is cut down to the bytes after the line and the cursor is set to 0
(the payload starts at offset 0, and the length of the buffer is the number
of bytes received after the line); for a smaller `len` the buffer is left
as it is and the cursor moves past the line. -/
theorem big_argument_trimmed_early (c : client) (pos : Nat) (txt rest : List Nat) (ll : Int)
    (hb : c.bulklen = -1) (hq : c.querybuf.drop pos = 36 :: (txt ++ 13 :: 10 :: rest))
    (ht : cleanOf 13 txt) (hll : string2ll txt = some ll)
    (h0 : 0 ≤ ll) (h1 : ll ≤ 512 * 1024 * 1024) (hlen : c.querybuf.length < 2147483648) :
    (32768 ≤ ll →
      readBulkLength c pos = .ok (.go { c with querybuf := rest, bulklen := ll } 0)) ∧
    (ll < 32768 →
      readBulkLength c pos =
        .ok (.go { c with bulklen := ll } ((pos : Int) + txt.length + 3)) ∧
      c.querybuf.drop (pos + txt.length + 3) = rest) :=
  readBulkLength_trim c pos txt rest ll hb hq ht hll h0 h1 hlen

/-- C28 on `$40000\r\n` followed by 100 bytes (the line is cut off, the
buffer is the 100 bytes, the cursor is 0) and on `$3\r\nab` (the buffer is
left as it is, the cursor is 4). -/
theorem big_argument_trimmed_early_witness :
    (readBulkLength
        { createClient with
            querybuf := [36, 52, 48, 48, 48, 48, 13, 10] ++ List.replicate 100 65,
            multibulklen := 1 } (0 : Nat) =
        .ok (.go { createClient with querybuf := List.replicate 100 65, multibulklen := 1,
                                     bulklen := 40000 } 0) ∧
      (List.replicate 100 65).length = 100) ∧
    (readBulkLength { createClient with querybuf := [36, 51, 13, 10, 97, 98], multibulklen := 1 }
        (0 : Nat) =
        .ok (.go { createClient with querybuf := [36, 51, 13, 10, 97, 98], multibulklen := 1,
                                     bulklen := 3 }
          (((0 : Nat) : Int) + ([51] : List Nat).length + 3)) ∧
      ([36, 51, 13, 10, 97, 98] : List Nat).drop (0 + ([51] : List Nat).length + 3) = [97, 98]) :=
  ⟨⟨(big_argument_trimmed_early
      { createClient with
          querybuf := [36, 52, 48, 48, 48, 48, 13, 10] ++ List.replicate 100 65,
          multibulklen := 1 } 0 [52, 48, 48, 48, 48] (List.replicate 100 65) 40000
      (by decide) (by decide) (by decide) (by decide) (by decide) (by decide) (by decide)).1
      (by decide), by decide⟩,
   (big_argument_trimmed_early
      { createClient with querybuf := [36, 51, 13, 10, 97, 98], multibulklen := 1 } 0 [51]
      [97, 98] 3
      (by decide) (by decide) (by decide) (by decide) (by decide) (by decide) (by decide)).2
      (by decide)⟩

/-- The loop when the length line at the cursor is complete and the payload
with its CRLF is not: `break` with the length recorded, and the end of the
call cuts the buffer down to the bytes of the payload received so far. -/
theorem loop_payload_pending (c : client) (pos n fuel : Nat) (part : List Nat)
    (hm : c.multibulklen ≠ 0) (hb : c.bulklen = -1)
    (hq : c.querybuf.drop pos = 36 :: (decimal n ++ 13 :: 10 :: part))
    (hn : n ≤ 536870912) (hshort : part.length < n + 2)
    (hlen : c.querybuf.length < 2147483648) :
    ∃ c1 pos1, processMultibulkLoop (fuel + 1) c pos = .ok (.brk c1 pos1) ∧
      c1.bulklen = (n : Int) ∧
      multibulkFinish c1 pos1 = (C_ERR, { c with querybuf := part, bulklen := (n : Int) }) := by
  have hll : string2ll (decimal n) = some (n : Int) := by
    rw [string2ll_decimal, if_pos]
    unfold LLONG_MAX; omega
  have hdl : (c.querybuf.drop pos).length = (decimal n).length + 3 + part.length := by
    rw [hq]; simp; omega
  have hpl : pos + ((decimal n).length + 3 + part.length) = c.querybuf.length := by
    rw [List.length_drop] at hdl; omega
  obtain ⟨hbig, hsmall⟩ := readBulkLength_trim c pos (decimal n) part n hb hq
    (cleanOf_decimal n) hll (by omega) (by omega) hlen
  have e2 : toUInt32 ((n : Int) + 2) = (n : Int) + 2 := by
    rw [toUInt32_of_range] <;> omega
  by_cases hg : 32768 ≤ n
  · have hrl := hbig (by exact_mod_cast hg)
    have hra : readBulkArgument { c with querybuf := part, bulklen := (n : Int) } 0 =
        .ok none := by
      apply readBulkArgument_short
      show toSizeT ((part.length : Int) - 0) < toUInt32 ((n : Int) + 2)
      rw [e2, sub_zero, toSizeT_of_range] <;> omega
    refine ⟨_, _, loop_break_for_data c _ pos 0 fuel hm hrl hra, rfl, ?_⟩
    exact multibulkFinish_zero _ hm
  · have hrl := (hsmall (by exact_mod_cast (Nat.lt_of_not_le hg))).1
    have hdrop := (hsmall (by exact_mod_cast (Nat.lt_of_not_le hg))).2
    have hra : readBulkArgument { c with bulklen := (n : Int) }
        ((pos : Int) + (decimal n).length + 3) = .ok none := by
      apply readBulkArgument_short
      show toSizeT ((c.querybuf.length : Int) - ((pos : Int) + (decimal n).length + 3)) <
        toUInt32 ((n : Int) + 2)
      have e1 : (c.querybuf.length : Int) - ((pos : Int) + (decimal n).length + 3) =
          (part.length : Int) := by
        clear hrl hdrop hq hbig hsmall; omega
      rw [e2, e1, toSizeT_of_range] <;> omega
    refine ⟨_, _, loop_break_for_data c _ pos _ fuel hm hrl hra, rfl, ?_⟩
    have hc : ((pos : Int) + (decimal n).length + 3) =
        ((pos + (decimal n).length + 3 : Nat) : Int) := by push_cast; rfl
    rw [hc, multibulkFinish_eval { c with bulklen := (n : Int) }
      (pos + (decimal n).length + 3) part hdrop hlen]
    have hm1 : ¬ ({ c with bulklen := (n : Int) } : client).multibulklen = 0 := hm
    rw [if_neg hm1]

/-- C29: in the argument phase, when the length line `$<n>` at the cursor is
complete (`n` from 0 to 512 MiB, buffer below 2 GiB) and fewer than `n + 2`
bytes follow it, the loop breaks for lack of data with `bulklen = n`, and the
call ends with `C_ERR`, the buffer cut down to the bytes of the payload
received so far, and no rejection; the client it leaves skips the length
line (`bulklen` is not -1), and once the rest of the payload and its CRLF
have been appended the next call stores the argument. -/
theorem payload_pending_is_incomplete (c : client) (pos n fuel : Nat) (part : List Nat)
    (hm : c.multibulklen ≠ 0) (hb : c.bulklen = -1)
    (hq : c.querybuf.drop pos = 36 :: (decimal n ++ 13 :: 10 :: part))
    (hn : n ≤ 536870912) (hshort : part.length < n + 2)
    (hlen : c.querybuf.length < 2147483648) :
    (∃ c1 pos1, processMultibulkLoop (fuel + 1) c pos = .ok (.brk c1 pos1) ∧
      c1.bulklen = (n : Int) ∧
      multibulkFinish c1 pos1 = (C_ERR, { c with querybuf := part, bulklen := (n : Int) })) ∧
    readBulkLength { c with querybuf := part, bulklen := (n : Int) } 0 =
      .ok (.go { c with querybuf := part, bulklen := (n : Int) } 0) ∧
    (pos = 0 →
      processMultibulkBuffer c = .ok (C_ERR, { c with querybuf := part, bulklen := (n : Int) }) ∧
      multibulkRejects c = false) ∧
    (∀ (more a : List Nat) (slots : List (Option robj)) (k : Nat),
      part ++ more = a ++ [13, 10] → a.length = n → c.argv = some slots → c.argc = k →
      k < slots.length →
      processMultibulkBuffer { c with querybuf := part ++ more, bulklen := (n : Int) } =
        .ok (if c.multibulklen - 1 = 0 then C_OK else C_ERR,
          { c with querybuf := [],
                   argv := some (slots.set k (some (createStringObject a a.length))),
                   argc := (k : Int) + 1, bulklen := -1,
                   multibulklen := c.multibulklen - 1 })) := by
  have hb1 : ({ c with querybuf := part, bulklen := (n : Int) } : client).bulklen ≠ -1 := by
    show (n : Int) ≠ -1
    omega
  refine ⟨loop_payload_pending c pos n fuel part hm hb hq hn hshort hlen,
    readBulkLength_known _ 0 hb1, ?_, ?_⟩
  · intro hp0
    subst hp0
    obtain ⟨c1, pos1, hl, _, hf⟩ :=
      loop_payload_pending c 0 n (c.querybuf.length + 1) part hm hb hq hn hshort hlen
    obtain ⟨hh, hrej⟩ := header_skip c hm
    obtain ⟨h3, h4⟩ := processMultibulkBuffer_of_brk c c c1 0 pos1 hh hl
    rw [h3, h4, hf]
    exact ⟨rfl, hrej⟩
  · intro more a slots k hpm han hv hk hlt
    exact (payload_complete_step { c with querybuf := part ++ more, bulklen := (n : Int) }
      a slots k (by omega) hm (by rw [han]) hpm hv hk hlt).1

theorem payload_pending_is_incomplete_witness :
    processMultibulkBuffer
        { createClient with querybuf := [36, 51, 13, 10, 102, 111], multibulklen := 1 } =
      .ok (C_ERR, { createClient with querybuf := [102, 111], multibulklen := 1, bulklen := 3 }) ∧
    multibulkRejects
        { createClient with querybuf := [36, 51, 13, 10, 102, 111], multibulklen := 1 } = false ∧
    processMultibulkBuffer (freshWith partialGetFoo) =
      .ok (C_ERR, { createClient with
        querybuf := [102, 111], multibulklen := 1, bulklen := 3, argc := 1,
        argv := some [some (createStringObject [71, 69, 84] 3), none] }) :=
  ⟨((payload_pending_is_incomplete
      { createClient with querybuf := [36, 51, 13, 10, 102, 111], multibulklen := 1 }
      0 3 0 [102, 111] (by decide) (by decide) (by decide) (by decide) (by decide)
      (by decide)).2.2.1 rfl).1,
   ((payload_pending_is_incomplete
      { createClient with querybuf := [36, 51, 13, 10, 102, 111], multibulklen := 1 }
      0 3 0 [102, 111] (by decide) (by decide) (by decide) (by decide) (by decide)
      (by decide)).2.2.1 rfl).2,
   by decide⟩

/-! ## A complete command followed by more bytes -/

theorem hugeTail_length : hugeTail.length = 2147483648 := by
  unfold hugeTail; rw [List.length_replicate]

/-- The command `*1\r\n$1\r\na\r\n` followed by 2 GiB of bytes: the bytes
that follow are not empty, and the header phase refuses the buffer. -/
theorem command_before_2GiB_refused (z : List Nat) (hz : z.length = 2147483648) :
    z ≠ [] ∧
    processMultibulkBuffer (freshWith (multibulk [[97]] ++ z)) =
      .ok (C_ERR, freshWith (multibulk [[97]] ++ z)) := by
  constructor
  · intro h
    rw [h] at hz
    cases hz
  · have hl : (multibulk [[97]] ++ z).length = 2147483659 := by
      have hd : decimal (0 + 1) = [49] := by decide
      rw [multibulk_single]
      simp only [bulk, List.length_cons, List.length_append, List.length_nil, hd, hz]
    exact processMultibulkBuffer_over_2GiB (freshWith (multibulk [[97]] ++ z)) 42 [49]
      (10 :: (bulk [97] ++ z)) rfl (by rw [multibulk_single]; rfl) (by decide) (by decide)
      (by show 2147483648 ≤ (multibulk [[97]] ++ z).length
          rw [hl]; decide)
      (by show (multibulk [[97]] ++ z).length < 4294967296
          rw [hl]; decide)

/-- The counterexample to C30 as stated: `*1\r\n$1\r\na\r\n` is one complete
command (alone in the buffer of a fresh client it is decoded with `C_OK`),
the 2 GiB of bytes that follow it are not empty, and `processMultibulkBuffer`
on the two together returns `C_ERR` and leaves the buffer as it was. -/
theorem complete_command_before_2GiB_not_decoded :
    processMultibulkBuffer (freshWith (multibulk [[97]])) =
      .ok (C_OK, { createClient with
        querybuf := [], argc := 1, argv := some [some (createStringObject [97] 1)] }) ∧
    hugeTail ≠ [] ∧
    processMultibulkBuffer (freshWith (multibulk [[97]] ++ hugeTail)) =
      .ok (C_ERR, freshWith (multibulk [[97]] ++ hugeTail)) :=
  ⟨by decide, command_before_2GiB_refused hugeTail hugeTail_length⟩

/-- C30 (as amended): on a buffer shorter than 2 GiB that holds one complete
multibulk command (1 to 1,048,576 arguments of at most 512 MiB each)
followed by the bytes `tail`, `processMultibulkBuffer` in the header phase
returns `C_OK` with the arguments of the command in `argv`, each one a copy
made by `createStringObject`, and the buffer afterwards is exactly `tail`. -/
theorem complete_command_leaves_tail (c : client) (args : List (List Nat)) (tail : List Nat)
    (hm : c.multibulklen = 0) (hb : c.bulklen = -1) (hk : c.argc = 0)
    (hq : c.querybuf = multibulk args ++ tail)
    (h1 : 1 ≤ args.length) (h2 : args.length ≤ 1048576)
    (h3 : ∀ a ∈ args, a.length ≤ 536870912)
    (h4 : c.querybuf.length < 2147483648) :
    processMultibulkBuffer c = .ok (C_OK,
      { c with querybuf := tail, argc := (args.length : Int),
               argv := some (args.map (fun a => some (createStringObject a a.length))) }) :=
  multibulk_decode c args tail hm hb hk hq h1 h2 h3 h4

theorem complete_command_leaves_tail_getFoo :
    multibulk [[71, 69, 84], [102, 111, 111]] ++ inlineCommand = getFoo ++ inlineCommand ∧
    inlineCommand ≠ [] ∧
    processMultibulkBuffer
        (freshWith (multibulk [[71, 69, 84], [102, 111, 111]] ++ inlineCommand)) =
      .ok (C_OK,
        { freshWith (multibulk [[71, 69, 84], [102, 111, 111]] ++ inlineCommand) with
          querybuf := inlineCommand,
          argc := (([[71, 69, 84], [102, 111, 111]] : List (List Nat)).length : Int),
          argv := some (([[71, 69, 84], [102, 111, 111]] : List (List Nat)).map
            (fun a => some (createStringObject a a.length))) }) :=
  ⟨by decide, by decide,
    complete_command_leaves_tail
      (freshWith (multibulk [[71, 69, 84], [102, 111, 111]] ++ inlineCommand))
      [[71, 69, 84], [102, 111, 111]] inlineCommand rfl rfl rfl rfl
      (by decide) (by decide) (by decide) (by decide)⟩

/-! ## The two argument branches; retain followed by release -/

/-- C36: for a payload `a` of 32,768 bytes or more at offset 0 of the buffer,
followed by two bytes: when the buffer ends there, `readBulkArgument` takes
the adopting branch, and when more bytes follow (buffer below 2 GiB) it takes
the copying branch; the object stored in `argv` is the same in both cases (a
RAW string with the bytes of `a` and count 1), `argc`, `multibulklen` and
`bulklen` are the same, and only the buffer and the cursor differ: an empty
buffer with cursor 0 after adoption, the buffer as it was with the cursor
past the payload and the two bytes after the copy. -/
theorem zero_copy_and_copy_agree (c : client) (a more : List Nat) (x y : Nat)
    (slots : List (Option robj)) (k : Nat)
    (hb : c.bulklen = a.length) (hbig : 32768 ≤ a.length) (hmax : a.length ≤ 536870912)
    (hv : c.argv = some slots) (hk : c.argc = k) (hlt : k < slots.length)
    (hmore : more ≠ []) (hlen : (a ++ x :: y :: more).length < 2147483648) :
    readBulkArgument { c with querybuf := a ++ [x, y] } 0 = .ok (some
      ({ c with argv := some (slots.set k (some (createObject OBJ_STRING a))),
                argc := (k : Int) + 1, querybuf := [], bulklen := -1,
                multibulklen := c.multibulklen - 1 }, 0)) ∧
    readBulkArgument { c with querybuf := a ++ x :: y :: more } 0 = .ok (some
      ({ c with argv := some (slots.set k (some (createObject OBJ_STRING a))),
                argc := (k : Int) + 1, querybuf := a ++ x :: y :: more, bulklen := -1,
                multibulklen := c.multibulklen - 1 }, (a.length : Int) + 2)) ∧
    createStringObject (a ++ x :: y :: more) a.length = createObject OBJ_STRING a ∧
    (createObject OBJ_STRING a).ptr = a ∧
    (createObject OBJ_STRING a).encoding = OBJ_ENCODING_RAW ∧
    (a ++ x :: y :: more).drop (a.length + 2) = more := by
  have hbig1 : PROTO_MBULK_BIG_ARG ≤ a.length := hbig
  have hobj : createObject OBJ_STRING a = createStringObject a a.length :=
    createObject_big a hbig1
  have h1 := readBulkArgument_adopt { c with querybuf := a ++ [x, y] } a x y slots k
    hb hmax hbig1 rfl hv hk hlt
  have h2 := readBulkArgument_copy { c with querybuf := a ++ x :: y :: more } 0 a more x y
    slots k hb hmax rfl hlen hv hk hlt (fun h => hmore h.2.2)
  refine ⟨?_, ?_, ?_, rfl, rfl, ?_⟩
  · rw [hobj]
    exact h1
  · simp only [Nat.cast_zero, zero_add] at h2
    rw [hobj, h2]
  · rw [hobj, createStringObject_append]
  · have e : a ++ x :: y :: more = (a ++ [x, y]) ++ more := by simp
    rw [e, List.drop_append_of_le_length (by simp)]
    simp

theorem length_40000_and_three (z : List Nat) (hz : z.length = 40000) :
    (z ++ 13 :: 10 :: [42]).length < 2147483648 := by
  simp only [List.length_append, List.length_cons, List.length_nil, hz]
  decide

theorem zero_copy_and_copy_agree_witness :
    readBulkArgument
        { createClient with querybuf := zeroCopyArg ++ [13, 10], multibulklen := 1,
                            bulklen := (zeroCopyArg.length : Int), argv := some [none] } 0 =
      .ok (some ({ createClient with
        argv := some ([none].set 0 (some (createObject OBJ_STRING zeroCopyArg))),
        argc := ((0 : Nat) : Int) + 1, querybuf := [], bulklen := -1,
        multibulklen := (1 : Int) - 1 }, 0)) ∧
    readBulkArgument
        { createClient with querybuf := zeroCopyArg ++ 13 :: 10 :: [42], multibulklen := 1,
                            bulklen := (zeroCopyArg.length : Int), argv := some [none] } 0 =
      .ok (some ({ createClient with
        argv := some ([none].set 0 (some (createObject OBJ_STRING zeroCopyArg))),
        argc := ((0 : Nat) : Int) + 1, querybuf := zeroCopyArg ++ 13 :: 10 :: [42],
        bulklen := -1, multibulklen := (1 : Int) - 1 }, (zeroCopyArg.length : Int) + 2)) :=
  ⟨(zero_copy_and_copy_agree
      { createClient with multibulklen := 1, bulklen := (zeroCopyArg.length : Int),
                          argv := some [none] }
      zeroCopyArg [42] 13 10 [none] 0 rfl
      (by rw [zeroCopyArg_length]; decide) (by rw [zeroCopyArg_length]; decide)
      rfl rfl (by decide) (by decide)
      (length_40000_and_three zeroCopyArg zeroCopyArg_length)).1,
   (zero_copy_and_copy_agree
      { createClient with multibulklen := 1, bulklen := (zeroCopyArg.length : Int),
                          argv := some [none] }
      zeroCopyArg [42] 13 10 [none] 0 rfl
      (by rw [zeroCopyArg_length]; decide) (by rw [zeroCopyArg_length]; decide)
      rfl rfl (by decide) (by decide)
      (length_40000_and_three zeroCopyArg zeroCopyArg_length)).2.1⟩

/-- The counterexample to C37 as stated: the count `INT_MAX - 1` is at least 1
and is not the sentinel; `incrRefCount` makes it `INT_MAX`, which is the
sentinel, and `decrRefCount` then leaves it alone: the count ends at
`INT_MAX`, not at `INT_MAX - 1`. -/
theorem retain_release_sticks_at_sentinel :
    (1 : Int) ≤ INT_MAX - 1 ∧ INT_MAX - 1 ≠ OBJ_SHARED_REFCOUNT ∧
    decrRefCount (incrRefCount
        { type := OBJ_STRING, encoding := OBJ_ENCODING_RAW, ptr := [97],
          refcount := INT_MAX - 1 }) =
      some { type := OBJ_STRING, encoding := OBJ_ENCODING_RAW, ptr := [97],
             refcount := INT_MAX } := by
  decide

/-- C37 (as amended): for every object whose count `r` is at least 1 and is
not `INT_MAX - 1`, `incrRefCount` followed by `decrRefCount` does not free the
object and gives back the object as it was, with count `r`; for a count of at
least 1 this is the only exception (the result is the object itself exactly
when `r` is not `INT_MAX - 1`). -/
theorem retain_release_identity (o : robj) (h1 : 1 ≤ o.refcount) :
    (o.refcount ≠ OBJ_SHARED_REFCOUNT - 1 → decrRefCount (incrRefCount o) = some o) ∧
    (decrRefCount (incrRefCount o) = some o ↔ o.refcount ≠ OBJ_SHARED_REFCOUNT - 1) ∧
    decrRefCount (incrRefCount o) ≠ none := by
  have key : o.refcount ≠ OBJ_SHARED_REFCOUNT - 1 → decrRefCount (incrRefCount o) = some o := by
    intro h2
    by_cases hs : o.refcount = OBJ_SHARED_REFCOUNT
    · rw [incrRefCount_shared o hs, decrRefCount_shared o hs]
    · unfold incrRefCount decrRefCount
      have e1 : ¬ (o.refcount + 1 = 1) := by omega
      have e2 : o.refcount + 1 ≠ OBJ_SHARED_REFCOUNT := by omega
      simp only [ne_eq, hs, not_false_eq_true, if_true, e1, if_false, e2,
        add_sub_cancel_right]
  have bad : o.refcount = OBJ_SHARED_REFCOUNT - 1 →
      decrRefCount (incrRefCount o) = some { o with refcount := OBJ_SHARED_REFCOUNT } := by
    intro h2
    have hs : o.refcount ≠ OBJ_SHARED_REFCOUNT := by omega
    have e0 : o.refcount + 1 = OBJ_SHARED_REFCOUNT := by omega
    have e1 : ¬ (OBJ_SHARED_REFCOUNT = 1) := by decide
    unfold incrRefCount decrRefCount
    simp only [ne_eq, hs, not_false_eq_true, if_true, e0, e1, if_false, not_true_eq_false]
  refine ⟨key, ⟨fun h h2 => ?_, key⟩, ?_⟩
  · rw [bad h2] at h
    have := congrArg (fun r => r.map (fun o => o.refcount)) h
    simp only [Option.map_some'] at this
    injection this with this
    omega
  · by_cases h2 : o.refcount = OBJ_SHARED_REFCOUNT - 1
    · rw [bad h2]; simp
    · rw [key h2]; simp

theorem retain_release_identity_witness :
    decrRefCount (incrRefCount (createObject OBJ_STRING [97])) =
      some (createObject OBJ_STRING [97]) ∧
    decrRefCount (incrRefCount (createObject OBJ_STRING [97])) ≠ none :=
  ⟨(retain_release_identity (createObject OBJ_STRING [97]) (by decide)).1 (by decide),
   (retain_release_identity (createObject OBJ_STRING [97]) (by decide)).2.2⟩

/-! ## What one step of the argument loop changes -/

theorem argvStore_frame (c c1 : client) (o : robj) (h : argvStore c o = .ok c1) :
    c1.querybuf = c.querybuf ∧ c1.multibulklen = c.multibulklen ∧ c1.bulklen = c.bulklen ∧
    c1.argc = c.argc + 1 ∧ c1.reqtype = c.reqtype := by
  unfold argvStore at h
  repeat' (split at h)
  all_goals (cases h <;> exact ⟨rfl, rfl, rfl, rfl, rfl⟩)

theorem argvStore_error (c : client) (o : robj) (e : Fault) (h : argvStore c o = .error e) :
    e = .nullDeref ∨ e = .argvOverflow := by
  unfold argvStore at h
  repeat' (split at h)
  all_goals (cases h <;> first | exact Or.inl rfl | exact Or.inr rfl)

theorem readBulkLength_frame (c : client) (pos : Int) (s : BulkStep)
    (h : readBulkLength c pos = .ok s) :
    (stepClient s).multibulklen = c.multibulklen ∧ (stepClient s).argc = c.argc ∧
    (stepClient s).reqtype = c.reqtype := by
  unfold readBulkLength at h
  repeat' (split at h)
  all_goals (cases h <;> exact ⟨rfl, rfl, rfl⟩)

theorem readBulkLength_brk (c : client) (pos : Int) (c1 : client) (p1 : Int)
    (h : readBulkLength c pos = .ok (.brk c1 p1)) : c1 = c ∧ p1 = pos := by
  unfold readBulkLength at h
  repeat' (split at h)
  all_goals (cases h <;> exact ⟨rfl, rfl⟩)

theorem readBulkLength_error (c : client) (pos : Int) (e : Fault)
    (h : readBulkLength c pos = .error e) :
    e = .outOfBounds ∧ c.bulklen = -1 ∧ (pos < 0 ∨ pos > c.querybuf.length) := by
  unfold readBulkLength at h
  by_cases hb : c.bulklen = -1
  · rw [if_pos hb] at h
    by_cases hp : pos < 0 ∨ pos > c.querybuf.length
    · rw [if_pos hp] at h
      cases h
      exact ⟨rfl, hb, hp⟩
    · rw [if_neg hp] at h
      repeat' (split at h)
      all_goals cases h
  · rw [if_neg hb] at h
    cases h

/-- The length that a length line leaves in `bulklen`. -/
theorem readBulkLength_bulklen (c : client) (pos : Int) (c1 : client) (p1 : Int)
    (h : readBulkLength c pos = .ok (.go c1 p1)) :
    (c.bulklen = -1 → 0 ≤ c1.bulklen ∧ c1.bulklen ≤ 536870912) ∧
    (c.bulklen ≠ -1 → c1 = c ∧ p1 = pos) := by
  unfold readBulkLength at h
  by_cases hb : c.bulklen = -1
  · refine ⟨fun _ => ?_, fun h1 => absurd hb h1⟩
    rw [if_pos hb] at h
    repeat' (split at h)
    all_goals (cases h <;> (dsimp only; omega))
  · refine ⟨fun h1 => absurd h1 hb, fun _ => ?_⟩
    rw [if_neg hb] at h
    cases h
    exact ⟨rfl, rfl⟩

/-- The cursor after a length line: inside the buffer, no further from its
end than before; the buffer is the same, or (early trim) the bytes from the
new cursor on with the cursor at 0. -/
theorem readBulkLength_cursor (c : client) (pos : Int) (c1 : client) (p1 : Int)
    (hlen : c.querybuf.length < 2147483648) (hin : inBounds c pos)
    (h : readBulkLength c pos = .ok (.go c1 p1)) :
    inBounds c1 p1 ∧
    (c1.querybuf.length : Int) - p1 ≤ (c.querybuf.length : Int) - pos ∧
    ((c1.querybuf = c.querybuf ∧ pos ≤ p1) ∨
      (∃ k : Nat, pos ≤ (k : Int) ∧ k ≤ c.querybuf.length ∧
        c1.querybuf = c.querybuf.drop k ∧ p1 = 0)) := by
  obtain ⟨hp0, hp1⟩ := hin
  unfold readBulkLength at h
  by_cases hb : c.bulklen = -1
  · rw [if_pos hb] at h
    have hp : ¬ (pos < 0 ∨ pos > c.querybuf.length) := by
      clear h hb; omega
    rw [if_neg hp] at h
    cases hs : strchr (c.querybuf.drop pos.toNat) 13 with
    | none =>
      rw [hs] at h
      simp only at h
      split at h <;> cases h
    | some off =>
      rw [hs] at h
      simp only at h
      by_cases ht : pos + (off : Int) > toInt32 c.querybuf.length - 2
      · rw [if_pos ht] at h; cases h
      · rw [if_neg ht] at h
        by_cases hd : c.querybuf.getD pos.toNat 0 ≠ 36
        · rw [if_pos hd] at h; cases h
        · rw [if_neg hd] at h
          cases hl : string2ll ((c.querybuf.drop (pos.toNat + 1)).take (off - 1)) with
          | none => rw [hl] at h; cases h
          | some ll =>
            rw [hl] at h
            simp only at h
            by_cases hr : ll < 0 ∨ ll > 512 * 1024 * 1024
            · rw [if_pos hr] at h; cases h
            · rw [if_neg hr] at h
              have e1 : toInt32 (c.querybuf.length : Int) = (c.querybuf.length : Int) := by
                clear h hs hl hd ht hr
                rw [toInt32_of_range] <;> omega
              rw [e1] at ht
              have e2 : toInt32 (pos + ((off : Int) + 2)) = pos + ((off : Int) + 2) := by
                clear h hs hl hd hr e1
                rw [toInt32_of_range] <;> omega
              rw [e2] at h
              by_cases hg : ll ≥ (PROTO_MBULK_BIG_ARG : Int)
              · rw [if_pos hg] at h
                cases h
                have e3 : pos + ((off : Int) + 2) = (((pos + ((off : Int) + 2)).toNat : Nat) : Int) := by
                  clear hs hl hd hr e1 e2 hg
                  omega
                have hk : (pos + ((off : Int) + 2)).toNat ≤ c.querybuf.length := by
                  clear hs hl hd hr e1 e2 hg e3
                  omega
                have hq : sdsrange c.querybuf (pos + ((off : Int) + 2)) (-1) =
                    c.querybuf.drop (pos + ((off : Int) + 2)).toNat := by
                  rw [e3, sdsrange_drop _ _ hlen, ← e3]
                have hql : (sdsrange c.querybuf (pos + ((off : Int) + 2)) (-1)).length =
                    c.querybuf.length - (pos + ((off : Int) + 2)).toNat := by
                  rw [hq, List.length_drop]
                refine ⟨⟨le_refl _, ?_⟩, ?_, Or.inr ⟨_, ?_, hk, hq, rfl⟩⟩
                · show (0 : Int) ≤ ((sdsrange c.querybuf (pos + ((off : Int) + 2)) (-1)).length : Int)
                  exact Int.natCast_nonneg _
                · show ((sdsrange c.querybuf (pos + ((off : Int) + 2)) (-1)).length : Int) - 0 ≤
                    (c.querybuf.length : Int) - pos
                  rw [hql]
                  clear hs hl hd hr e1 e2 hg hq hql
                  omega
                · clear hs hl hd hr e1 e2 hg hq hql
                  omega
              · rw [if_neg hg] at h
                cases h
                refine ⟨⟨?_, ?_⟩, ?_, Or.inl ⟨rfl, ?_⟩⟩
                · clear hs hl hd hr e1 e2 hg
                  omega
                · show pos + ((off : Int) + 2) ≤ (c.querybuf.length : Int)
                  clear hs hl hd hr e1 e2 hg
                  omega
                · show (c.querybuf.length : Int) - (pos + ((off : Int) + 2)) ≤
                    (c.querybuf.length : Int) - pos
                  clear hs hl hd hr e1 e2 hg
                  omega
                · clear hs hl hd hr e1 e2 hg
                  omega
  · rw [if_neg hb] at h
    cases h
    exact ⟨⟨hp0, hp1⟩, le_refl _, Or.inl ⟨rfl, le_refl _⟩⟩

theorem readBulkArgument_error (c : client) (pos : Int) (e : Fault)
    (h : readBulkArgument c pos = .error e) :
    e = .nullDeref ∨ e = .argvOverflow ∨ e = .badLength ∨
    (e = .outOfBounds ∧ 0 ≤ c.bulklen ∧
      ¬ toSizeT ((c.querybuf.length : Int) - pos) < toUInt32 (c.bulklen + 2) ∧
      (pos < 0 ∨ pos + c.bulklen > c.querybuf.length)) := by
  unfold readBulkArgument at h
  simp only at h
  by_cases h1 : toSizeT ((c.querybuf.length : Int) - pos) < toUInt32 (c.bulklen + 2)
  · rw [if_pos h1] at h; cases h
  · rw [if_neg h1] at h
    split at h
    · cases hs : argvStore c (createObject OBJ_STRING (c.querybuf.take (c.querybuf.length - 2))) with
      | error e1 =>
        rw [hs] at h
        cases h
        rcases argvStore_error c _ _ hs with h2 | h2
        · exact Or.inl h2
        · exact Or.inr (Or.inl h2)
      | ok c1 => rw [hs] at h; cases h
    · by_cases h3 : c.bulklen < 0
      · rw [if_pos h3] at h
        cases h
        exact Or.inr (Or.inr (Or.inl rfl))
      · rw [if_neg h3] at h
        by_cases h4 : pos < 0 ∨ pos + c.bulklen > c.querybuf.length
        · rw [if_pos h4] at h
          cases h
          exact Or.inr (Or.inr (Or.inr ⟨rfl, by omega, h1, h4⟩))
        · rw [if_neg h4] at h
          cases hs : argvStore c (createStringObject (c.querybuf.drop pos.toNat) c.bulklen.toNat) with
          | error e1 =>
            rw [hs] at h
            cases h
            rcases argvStore_error c _ _ hs with h2 | h2
            · exact Or.inl h2
            · exact Or.inr (Or.inl h2)
          | ok c1 => rw [hs] at h; cases h

/-- What a consumed argument changes: `argc` goes up by 1, `multibulklen`
down by 1, `bulklen` back to -1; the cursor stays inside the buffer and moves
at least two bytes closer to its end; the buffer is the same, or (adoption)
empty with the cursor at 0. -/
theorem readBulkArgument_cursor (c : client) (pos : Int) (c2 : client) (p2 : Int)
    (hlen : c.querybuf.length < 2147483648) (hin : inBounds c pos)
    (h : readBulkArgument c pos = .ok (some (c2, p2))) :
    inBounds c2 p2 ∧
    (c2.querybuf.length : Int) - p2 + 2 ≤ (c.querybuf.length : Int) - pos ∧
    ((c2.querybuf = c.querybuf ∧ pos + 2 ≤ p2) ∨ (c2.querybuf = [] ∧ p2 = 0)) ∧
    c2.bulklen = -1 ∧ c2.multibulklen = c.multibulklen - 1 ∧ c2.argc = c.argc + 1 ∧
    c2.reqtype = c.reqtype := by
  obtain ⟨hp0, hp1⟩ := hin
  unfold readBulkArgument at h
  simp only at h
  by_cases h1 : toSizeT ((c.querybuf.length : Int) - pos) < toUInt32 (c.bulklen + 2)
  · rw [if_pos h1] at h; cases h
  · rw [if_neg h1] at h
    have e1 : toSizeT ((c.querybuf.length : Int) - pos) = (c.querybuf.length : Int) - pos := by
      clear h h1
      rw [toSizeT_of_range] <;> omega
    rw [e1] at h1
    split at h
    · rename_i hfit
      cases hs : argvStore c (createObject OBJ_STRING (c.querybuf.take (c.querybuf.length - 2))) with
      | error e1 => rw [hs] at h; cases h
      | ok c1 =>
        rw [hs] at h
        cases h
        obtain ⟨f1, f2, f3, f4, f5⟩ := argvStore_frame c c1 _ hs
        have e4 : toInt32 (c.querybuf.length : Int) = (c.querybuf.length : Int) := by
          clear hs h1 e1 hfit f1 f2 f3 f4 f5
          rw [toInt32_of_range] <;> omega
        obtain ⟨hf1, hf2, hf3⟩ := hfit
        rw [e4] at hf3
        refine ⟨⟨le_refl _, ?_⟩, ?_, Or.inr ⟨rfl, rfl⟩, rfl, ?_, f4, f5⟩
        · show (0 : Int) ≤ (([] : List Nat).length : Int)
          simp
        · show ((([] : List Nat).length : Nat) : Int) - 0 + 2 ≤ (c.querybuf.length : Int) - pos
          unfold PROTO_MBULK_BIG_ARG at hf2
          simp only [List.length_nil, Nat.cast_zero]
          clear hs h1 e1 f1 f2 f3 f4 f5 e4
          omega
        · show c1.multibulklen - 1 = c.multibulklen - 1
          rw [f2]
    · by_cases h3 : c.bulklen < 0
      · rw [if_pos h3] at h; cases h
      · rw [if_neg h3] at h
        by_cases h4 : pos < 0 ∨ pos + c.bulklen > c.querybuf.length
        · rw [if_pos h4] at h; cases h
        · rw [if_neg h4] at h
          cases hs : argvStore c (createStringObject (c.querybuf.drop pos.toNat) c.bulklen.toNat) with
          | error e1 => rw [hs] at h; cases h
          | ok c1 =>
            rw [hs] at h
            cases h
            obtain ⟨f1, f2, f3, f4, f5⟩ := argvStore_frame c c1 _ hs
            have e2 : toUInt32 (c.bulklen + 2) = c.bulklen + 2 := by
              clear hs h1 e1 f1 f2 f3 f4 f5
              rw [toUInt32_of_range] <;> omega
            rw [e2] at h1
            have e3 : toInt32 (pos + (c.bulklen + 2)) = pos + (c.bulklen + 2) := by
              clear hs e1 e2 f1 f2 f3 f4 f5
              rw [toInt32_of_range] <;> omega
            refine ⟨⟨?_, ?_⟩, ?_, Or.inl ⟨f1, ?_⟩, rfl, ?_, f4, f5⟩
            · show 0 ≤ toInt32 (pos + (c.bulklen + 2))
              rw [e3]
              clear hs e1 e2 e3 f1 f2 f3 f4 f5
              omega
            · show toInt32 (pos + (c.bulklen + 2)) ≤ (c1.querybuf.length : Int)
              rw [e3, f1]
              clear hs e1 e2 e3 f1 f2 f3 f4 f5
              omega
            · show (c1.querybuf.length : Int) - toInt32 (pos + (c.bulklen + 2)) + 2 ≤
                (c.querybuf.length : Int) - pos
              rw [e3, f1]
              clear hs e1 e2 e3 f1 f2 f3 f4 f5
              omega
            · show pos + 2 ≤ toInt32 (pos + (c.bulklen + 2))
              rw [e3]
              clear hs e1 e2 e3 f1 f2 f3 f4 f5
              omega
            · show c1.multibulklen - 1 = c.multibulklen - 1
              rw [f2]

/-- Inside the buffer, with a pending length that fits `unsigned`, the copy
never reads past the end of the buffer. -/
theorem readBulkArgument_in_bounds (c : client) (pos : Int)
    (hlen : c.querybuf.length < 2147483648) (hin : inBounds c pos)
    (hb : c.bulklen ≤ 2147483647) :
    readBulkArgument c pos ≠ .error .outOfBounds ∧
    toSizeT ((c.querybuf.length : Int) - pos) = (c.querybuf.length : Int) - pos := by
  obtain ⟨hp0, hp1⟩ := hin
  have e1 : toSizeT ((c.querybuf.length : Int) - pos) = (c.querybuf.length : Int) - pos := by
    rw [toSizeT_of_range] <;> omega
  refine ⟨fun h => ?_, e1⟩
  rcases readBulkArgument_error c pos _ h with h1 | h1 | h1 | ⟨_, h2, h3, h4⟩
  · cases h1
  · cases h1
  · cases h1
  · rw [e1] at h3
    have e2 : toUInt32 (c.bulklen + 2) = c.bulklen + 2 := by
      clear h h3 h4 e1
      rw [toUInt32_of_range] <;> omega
    rw [e2] at h3
    clear h e1 e2
    omega

theorem readBulkArgument_frame (c : client) (pos : Int) (c2 : client) (p2 : Int)
    (h : readBulkArgument c pos = .ok (some (c2, p2))) :
    c2.bulklen = -1 ∧ c2.multibulklen = c.multibulklen - 1 ∧ c2.argc = c.argc + 1 ∧
    c2.reqtype = c.reqtype := by
  unfold readBulkArgument at h
  simp only at h
  split at h
  · cases h
  · split at h
    · split at h
      · cases h
      · rename_i c1 hs
        cases h
        obtain ⟨_, f2, _, f4, f5⟩ := argvStore_frame c c1 _ hs
        exact ⟨rfl, by show c1.multibulklen - 1 = c.multibulklen - 1; rw [f2], f4, f5⟩
    · split at h
      · cases h
      · split at h
        · cases h
        · split at h
          · cases h
          · rename_i c1 hs
            cases h
            obtain ⟨_, f2, _, f4, f5⟩ := argvStore_frame c c1 _ hs
            exact ⟨rfl, by show c1.multibulklen - 1 = c.multibulklen - 1; rw [f2], f4, f5⟩

/-- The header phase: when it goes on to the argument loop, the cursor is
inside the buffer, the buffer, `bulklen` and `argc` are as they were, and
`multibulklen` is the count read (1 to 1,048,576) or, outside the header
phase, what it was; when it returns, either nothing has changed (`C_ERR`) or
the count was 0 or less and the count line has been removed (`C_OK`). -/
theorem processMultibulkHeader_cursor (c : client) (hlen : c.querybuf.length < 2147483648) :
    (∀ c1 p, processMultibulkHeader c = .go c1 p →
      inBounds c1 p ∧ c1.querybuf = c.querybuf ∧ c1.bulklen = c.bulklen ∧ c1.argc = c.argc ∧
      c1.reqtype = c.reqtype ∧
      ((c.multibulklen ≠ 0 ∧ c1 = c ∧ p = 0) ∨
        (c.multibulklen = 0 ∧ 2 ≤ p ∧ 0 < c1.multibulklen ∧ c1.multibulklen ≤ 1048576))) ∧
    (∀ r c1, processMultibulkHeader c = .ret r c1 →
      (r = C_ERR ∧ c1 = c) ∨
      (r = C_OK ∧ c.multibulklen = 0 ∧
        ∃ k : Nat, 2 ≤ k ∧ k ≤ c.querybuf.length ∧
          c1 = { c with querybuf := c.querybuf.drop k })) := by
  have e1 : toInt32 (c.querybuf.length : Int) = (c.querybuf.length : Int) := by
    rw [toInt32_of_range] <;> omega
  unfold processMultibulkHeader
  by_cases hm : c.multibulklen = 0
  · rw [if_pos hm]
    cases hs : strchr c.querybuf 13 with
    | none =>
      simp only
      exact ⟨fun c1 p h => (by cases h), fun r c1 h => (by cases h; exact Or.inl ⟨rfl, rfl⟩)⟩
    | some nl =>
      simp only
      by_cases ht : (nl : Int) > toInt32 c.querybuf.length - 2
      · rw [if_pos ht]
        exact ⟨fun c1 p h => (by cases h), fun r c1 h => (by cases h; exact Or.inl ⟨rfl, rfl⟩)⟩
      · rw [if_neg ht]
        rw [e1] at ht
        have e2 : toInt32 ((nl : Int) + 2) = ((nl + 2 : Nat) : Int) := by
          clear hs e1 hm
          rw [toInt32_of_range] <;> push_cast <;> omega
        cases hl : string2ll ((c.querybuf.drop 1).take (nl - 1)) with
        | none =>
          simp only
          exact ⟨fun c1 p h => (by cases h), fun r c1 h => (by cases h; exact Or.inl ⟨rfl, rfl⟩)⟩
        | some ll =>
          simp only
          by_cases hr : ll > 1024 * 1024
          · rw [if_pos hr]
            exact ⟨fun c1 p h => (by cases h),
              fun r c1 h => (by cases h; exact Or.inl ⟨rfl, rfl⟩)⟩
          · rw [if_neg hr]
            by_cases hz : ll ≤ 0
            · rw [if_pos hz]
              refine ⟨fun c1 p h => (by cases h), fun r c1 h => ?_⟩
              cases h
              refine Or.inr ⟨rfl, hm, nl + 2, by omega, by clear hs hl e1 e2 hm hr hz; omega, ?_⟩
              rw [e2, sdsrange_drop _ _ hlen]
            · rw [if_neg hz]
              have e3 : toInt32 ll = ll := by
                clear hs hl e1 e2 hm ht
                rw [toInt32_of_range] <;> omega
              refine ⟨fun c1 p h => ?_, fun r c1 h => (by cases h)⟩
              cases h
              refine ⟨⟨?_, ?_⟩, rfl, rfl, rfl, rfl, Or.inr ⟨hm, ?_, ?_, ?_⟩⟩
              · rw [e2]; exact Int.natCast_nonneg _
              · show toInt32 ((nl : Int) + 2) ≤ (c.querybuf.length : Int)
                rw [e2]
                clear hs hl e1 e2 e3 hm hr hz
                push_cast
                omega
              · rw [e2]
                clear hs hl e1 e2 e3 hm hr hz ht
                push_cast
                omega
              · show 0 < toInt32 ll
                rw [e3]
                clear hs hl e1 e2 e3 hm hr ht
                omega
              · show toInt32 ll ≤ 1048576
                rw [e3]
                clear hs hl e1 e2 e3 hm hz ht
                omega
  · rw [if_neg hm]
    refine ⟨fun c1 p h => ?_, fun r c1 h => (by cases h)⟩
    cases h
    exact ⟨⟨le_refl _, Int.natCast_nonneg _⟩, rfl, rfl, rfl, rfl, Or.inl ⟨hm, rfl, rfl⟩⟩

/-! ## The parts of a call -/

/-- A call that returns is a return of the header phase, or the header phase
followed by the argument loop, which returns or leaves the rest to the end
of the function. -/
theorem processMultibulkBuffer_cases (c : client) (r : Int) (c1 : client)
    (h : processMultibulkBuffer c = .ok (r, c1)) :
    processMultibulkHeader c = .ret r c1 ∨
    ∃ ch p s, processMultibulkHeader c = .go ch p ∧
      processMultibulkLoop (ch.querybuf.length + 2) ch p = .ok s ∧
      (s = .ret r c1 ∨
        ∃ c2 p2, (s = .brk c2 p2 ∨ s = .go c2 p2) ∧ multibulkFinish c2 p2 = (r, c1)) := by
  unfold processMultibulkBuffer at h
  cases hh : processMultibulkHeader c with
  | ret r0 c0 =>
    rw [hh] at h
    cases h
    exact Or.inl rfl
  | brk c0 p0 => exact absurd hh (processMultibulkHeader_not_brk c c0 p0)
  | go ch p =>
    rw [hh] at h
    simp only at h
    cases hl : processMultibulkLoop (ch.querybuf.length + 2) ch p with
    | error e => rw [hl] at h; cases h
    | ok s =>
      rw [hl] at h
      refine Or.inr ⟨ch, p, s, rfl, hl, ?_⟩
      cases s with
      | ret r2 c2 =>
        cases h
        exact Or.inl rfl
      | brk c2 p2 =>
        simp only at h
        injection h with h
        exact Or.inr ⟨c2, p2, Or.inl rfl, h⟩
      | go c2 p2 =>
        simp only at h
        injection h with h
        exact Or.inr ⟨c2, p2, Or.inr rfl, h⟩

/-- The end of the function changes the buffer only, and returns `C_OK`
exactly when no argument remains. -/
theorem multibulkFinish_frame (c : client) (pos : Int) (r : Int) (c1 : client)
    (h : multibulkFinish c pos = (r, c1)) :
    c1.multibulklen = c.multibulklen ∧ c1.bulklen = c.bulklen ∧ c1.argc = c.argc ∧
    c1.argv = c.argv ∧ c1.reqtype = c.reqtype ∧
    (r = C_OK ↔ c.multibulklen = 0) ∧
    (c1.querybuf = if pos ≠ 0 then sdsrange c.querybuf pos (-1) else c.querybuf) := by
  unfold multibulkFinish at h
  simp only at h
  by_cases hp : pos ≠ 0
  · rw [if_pos hp] at h
    rw [if_pos hp]
    by_cases hm : c.multibulklen = 0
    · have hm1 : ({ c with querybuf := sdsrange c.querybuf pos (-1) } : client).multibulklen = 0 := hm
      rw [if_pos hm1] at h
      cases h
      exact ⟨rfl, rfl, rfl, rfl, rfl, ⟨fun _ => hm, fun _ => rfl⟩, rfl⟩
    · have hm1 : ¬ ({ c with querybuf := sdsrange c.querybuf pos (-1) } : client).multibulklen = 0 :=
        hm
      rw [if_neg hm1] at h
      cases h
      exact ⟨rfl, rfl, rfl, rfl, rfl, ⟨fun h => (by cases h), fun h => absurd h hm⟩, rfl⟩
  · rw [if_neg hp] at h
    rw [if_neg hp]
    by_cases hm : c.multibulklen = 0
    · rw [if_pos hm] at h
      cases h
      exact ⟨rfl, rfl, rfl, rfl, rfl, ⟨fun _ => hm, fun _ => rfl⟩, rfl⟩
    · rw [if_neg hm] at h
      cases h
      exact ⟨rfl, rfl, rfl, rfl, rfl, ⟨fun h => (by cases h), fun h => absurd h hm⟩, rfl⟩

/-! ## The ranges of `multibulklen` and `bulklen` -/

theorem readBulkLength_inv (c : client) (pos : Int) (s : BulkStep)
    (hi : DecoderInv c) (hm : c.multibulklen ≠ 0) (h : readBulkLength c pos = .ok s) :
    DecoderInv (stepClient s) := by
  obtain ⟨i1, i2, i3, i4⟩ := hi
  obtain ⟨f1, _, _⟩ := readBulkLength_frame c pos s h
  cases s with
  | ret r c1 =>
    obtain ⟨_, h2⟩ := readBulkLength_ret c pos r c1 h
    subst h2
    exact ⟨i1, i2, i3, i4⟩
  | brk c1 p1 =>
    obtain ⟨h2, _⟩ := readBulkLength_brk c pos c1 p1 h
    subst h2
    exact ⟨i1, i2, i3, i4⟩
  | go c1 p1 =>
    obtain ⟨b1, b2⟩ := readBulkLength_bulklen c pos c1 p1 h
    have f1a : c1.multibulklen = c.multibulklen := f1
    by_cases hb : c.bulklen = -1
    · obtain ⟨b3, b4⟩ := b1 hb
      show 0 ≤ c1.multibulklen ∧ c1.multibulklen ≤ 1048576 ∧
        (c1.bulklen = -1 ∨ (0 ≤ c1.bulklen ∧ c1.bulklen ≤ 536870912)) ∧
        (c1.bulklen ≠ -1 → 0 < c1.multibulklen)
      rw [f1a]
      exact ⟨i1, i2, Or.inr ⟨b3, b4⟩, fun _ => by omega⟩
    · obtain ⟨b3, _⟩ := b2 hb
      subst b3
      exact ⟨i1, i2, i3, i4⟩

theorem readBulkArgument_inv (c : client) (pos : Int) (c2 : client) (p2 : Int)
    (hi : DecoderInv c) (hm : c.multibulklen ≠ 0)
    (h : readBulkArgument c pos = .ok (some (c2, p2))) : DecoderInv c2 := by
  obtain ⟨i1, i2, _, _⟩ := hi
  obtain ⟨f1, f2, _, _⟩ := readBulkArgument_frame c pos c2 p2 h
  unfold DecoderInv
  rw [f1, f2]
  refine ⟨by omega, by omega, Or.inl rfl, fun h => absurd rfl h⟩

theorem processMultibulkLoop_inv (fuel : Nat) :
    ∀ (c : client) (pos : Int) (s : BulkStep), DecoderInv c →
      processMultibulkLoop fuel c pos = .ok s →
      DecoderInv (stepClient s) ∧ ∀ c1 p1, s = .go c1 p1 → c1.multibulklen = 0 := by
  induction fuel with
  | zero => intro c pos s _ h; simp only [processMultibulkLoop] at h; cases h
  | succ fuel ih =>
    intro c pos s hi h
    unfold processMultibulkLoop at h
    by_cases hm : c.multibulklen = 0
    · rw [if_pos hm] at h
      cases h
      exact ⟨hi, fun c1 p1 h1 => by cases h1; exact hm⟩
    · rw [if_neg hm] at h
      cases hrl : readBulkLength c pos with
      | error e => rw [hrl] at h; cases h
      | ok s1 =>
        rw [hrl] at h
        have hi1 := readBulkLength_inv c pos s1 hi hm hrl
        have hm1 := (readBulkLength_frame c pos s1 hrl).1
        cases s1 with
        | ret r c1 =>
          cases h
          exact ⟨hi1, fun c1 p1 h1 => by cases h1⟩
        | brk c1 p1 =>
          cases h
          exact ⟨hi1, fun c1 p1 h1 => by cases h1⟩
        | go c1 p1 =>
          simp only at h
          cases hra : readBulkArgument c1 p1 with
          | error e => rw [hra] at h; cases h
          | ok res =>
            rw [hra] at h
            cases res with
            | none =>
              cases h
              exact ⟨hi1, fun c1 p1 h1 => by cases h1⟩
            | some pr =>
              obtain ⟨c2, p2⟩ := pr
              simp only at h
              have hm2 : c1.multibulklen ≠ 0 := by
                have : c1.multibulklen = c.multibulklen := hm1
                rw [this]; exact hm
              exact ih c2 p2 s (readBulkArgument_inv c1 p1 c2 p2 hi1 hm2 hra) h

theorem processMultibulkHeader_inv (c : client) (hi : DecoderInv c) :
    DecoderInv (stepClient (processMultibulkHeader c)) ∧
    (∀ c1, processMultibulkHeader c = .ret C_OK c1 → c1.multibulklen = 0 ∧ c1.bulklen = -1) := by
  obtain ⟨i1, i2, i3, i4⟩ := hi
  have hne : ¬ (C_ERR = C_OK) := by decide
  have herr : ∀ c1, BulkStep.ret C_ERR c = BulkStep.ret C_OK c1 →
      c1.multibulklen = 0 ∧ c1.bulklen = -1 := by
    intro c1 h
    injection h with h1 _
    exact absurd h1 hne
  unfold processMultibulkHeader
  by_cases hm : c.multibulklen = 0
  · have hb : c.bulklen = -1 := by
      by_contra hb
      have := i4 hb
      omega
    rw [if_pos hm]
    cases hs : strchr c.querybuf 13 with
    | none => exact ⟨⟨i1, i2, i3, i4⟩, herr⟩
    | some nl =>
      simp only
      by_cases ht : (nl : Int) > toInt32 c.querybuf.length - 2
      · rw [if_pos ht]
        exact ⟨⟨i1, i2, i3, i4⟩, herr⟩
      · rw [if_neg ht]
        cases hl : string2ll ((c.querybuf.drop 1).take (nl - 1)) with
        | none => exact ⟨⟨i1, i2, i3, i4⟩, herr⟩
        | some ll =>
          simp only
          by_cases hr : ll > 1024 * 1024
          · rw [if_pos hr]
            exact ⟨⟨i1, i2, i3, i4⟩, herr⟩
          · rw [if_neg hr]
            by_cases hz : ll ≤ 0
            · rw [if_pos hz]
              refine ⟨⟨i1, i2, i3, i4⟩, fun c1 h => ?_⟩
              injection h with _ h2
              rw [← h2]
              exact ⟨hm, hb⟩
            · rw [if_neg hz]
              have e3 : toInt32 ll = ll := by
                clear hs hl ht
                rw [toInt32_of_range] <;> omega
              refine ⟨?_, fun c1 h => (by cases h)⟩
              show 0 ≤ toInt32 ll ∧ toInt32 ll ≤ 1048576 ∧
                (c.bulklen = -1 ∨ (0 ≤ c.bulklen ∧ c.bulklen ≤ 536870912)) ∧
                (c.bulklen ≠ -1 → 0 < toInt32 ll)
              rw [e3]
              exact ⟨by omega, by omega, i3, fun _ => by omega⟩
  · rw [if_neg hm]
    exact ⟨⟨i1, i2, i3, i4⟩, fun c1 h => (by cases h)⟩

/-- A call of `processMultibulkBuffer` keeps the ranges of the two fields, and
returns `C_OK` only with `multibulklen = 0` and `bulklen = -1`. -/
theorem processMultibulkBuffer_inv (c : client) (hi : DecoderInv c) (r : Int) (c1 : client)
    (h : processMultibulkBuffer c = .ok (r, c1)) :
    DecoderInv c1 ∧ (r = C_OK → c1.multibulklen = 0 ∧ c1.bulklen = -1) := by
  have key : ∀ c2 p2, DecoderInv c2 → multibulkFinish c2 p2 = (r, c1) →
      DecoderInv c1 ∧ (r = C_OK → c1.multibulklen = 0 ∧ c1.bulklen = -1) := by
    intro c2 p2 hi2 hf
    obtain ⟨f1, f2, _, _, _, f6, _⟩ := multibulkFinish_frame c2 p2 r c1 hf
    obtain ⟨j1, j2, j3, j4⟩ := hi2
    have hd : DecoderInv c1 := by
      unfold DecoderInv
      rw [f1, f2]
      exact ⟨j1, j2, j3, j4⟩
    refine ⟨hd, fun hr => ?_⟩
    have hm := f6.1 hr
    refine ⟨by rw [f1]; exact hm, ?_⟩
    rw [f2]
    by_contra hb
    have := j4 hb
    omega
  obtain ⟨hh1, hh2⟩ := processMultibulkHeader_inv c hi
  rcases processMultibulkBuffer_cases c r c1 h with hr | ⟨ch, p, s, hh, hl, hs⟩
  · rw [hr] at hh1
    refine ⟨hh1, fun hok => ?_⟩
    subst hok
    exact hh2 c1 hr
  · rw [hh] at hh1
    obtain ⟨hl1, hl2⟩ := processMultibulkLoop_inv _ ch p s hh1 hl
    rcases hs with hs | ⟨c2, p2, hs, hf⟩
    · subst hs
      refine ⟨hl1, fun hok => ?_⟩
      have := processMultibulkLoop_ret _ ch p r c1 hl
      rw [hok] at this
      cases this
    · rcases hs with hs | hs
      · subst hs
        exact key c2 p2 hl1 hf
      · subst hs
        exact key c2 p2 hl1 hf

/-- C32: every client reached from the one that `createClient` returns, by
appending bytes to the buffer and by calls of `processMultibulkBuffer`, has
`multibulklen` from 0 to 1,048,576 and `bulklen` equal to -1 or from 0 to
536,870,912, with `bulklen` different from -1 only when `multibulklen` is
more than 0; and a call on such a client that returns `C_OK` returns
`multibulklen = 0` and `bulklen = -1`. -/
theorem decoder_state_invariant (c : client) (h : Reachable c) :
    DecoderInv c ∧
    ∀ c1, processMultibulkBuffer c = .ok (C_OK, c1) → c1.multibulklen = 0 ∧ c1.bulklen = -1 := by
  have hi : DecoderInv c := by
    induction h with
    | fresh => decide
    | append c data _ ih => exact ih
    | call c r c1 _ hc ih => exact (processMultibulkBuffer_inv c ih r c1 hc).1
  exact ⟨hi, fun c1 hc => (processMultibulkBuffer_inv c hi C_OK c1 hc).2 rfl⟩

theorem decoder_state_invariant_witness :
    DecoderInv { createClient with
      querybuf := [102, 111], multibulklen := 1, bulklen := 3, argc := 1,
      argv := some [some (createStringObject [71, 69, 84] 3), none] } ∧
    ∀ c1, processMultibulkBuffer { createClient with
        querybuf := [102, 111], multibulklen := 1, bulklen := 3, argc := 1,
        argv := some [some (createStringObject [71, 69, 84] 3), none] } = .ok (C_OK, c1) →
      c1.multibulklen = 0 ∧ c1.bulklen = -1 :=
  decoder_state_invariant _
    (Reachable.call (freshWith partialGetFoo) C_ERR _
      (Reachable.append createClient partialGetFoo Reachable.fresh) (by decide))

/-! ## `argc + multibulklen` -/

theorem processMultibulkLoop_sum (fuel : Nat) :
    ∀ (c : client) (pos : Int) (s : BulkStep),
      processMultibulkLoop fuel c pos = .ok s →
      (stepClient s).argc + (stepClient s).multibulklen = c.argc + c.multibulklen := by
  induction fuel with
  | zero => intro c pos s h; simp only [processMultibulkLoop] at h; cases h
  | succ fuel ih =>
    intro c pos s h
    unfold processMultibulkLoop at h
    by_cases hm : c.multibulklen = 0
    · rw [if_pos hm] at h
      cases h
      rfl
    · rw [if_neg hm] at h
      cases hrl : readBulkLength c pos with
      | error e => rw [hrl] at h; cases h
      | ok s1 =>
        rw [hrl] at h
        obtain ⟨f1, f2, _⟩ := readBulkLength_frame c pos s1 hrl
        cases s1 with
        | ret r c1 =>
          cases h
          show c1.argc + c1.multibulklen = c.argc + c.multibulklen
          rw [show c1.argc = c.argc from f2, show c1.multibulklen = c.multibulklen from f1]
        | brk c1 p1 =>
          cases h
          show c1.argc + c1.multibulklen = c.argc + c.multibulklen
          rw [show c1.argc = c.argc from f2, show c1.multibulklen = c.multibulklen from f1]
        | go c1 p1 =>
          simp only at h
          have g1 : c1.multibulklen = c.multibulklen := f1
          have g2 : c1.argc = c.argc := f2
          cases hra : readBulkArgument c1 p1 with
          | error e => rw [hra] at h; cases h
          | ok res =>
            rw [hra] at h
            cases res with
            | none =>
              cases h
              show c1.argc + c1.multibulklen = c.argc + c.multibulklen
              rw [g1, g2]
            | some pr =>
              obtain ⟨c2, p2⟩ := pr
              simp only at h
              obtain ⟨_, k2, k3, _⟩ := readBulkArgument_frame c1 p1 c2 p2 hra
              rw [ih c2 p2 s h, k2, k3, g1, g2]
              ring

/-- The count that the header phase reads. -/
theorem processMultibulkHeader_count (c ch : client) (p : Int) (hm : c.multibulklen = 0)
    (h : processMultibulkHeader c = .go ch p) :
    ∃ nl ll, strchr c.querybuf 13 = some nl ∧
      string2ll ((c.querybuf.drop 1).take (nl - 1)) = some ll ∧
      0 < ll ∧ ll ≤ 1048576 ∧ ch.multibulklen = ll ∧ ch.argc = c.argc := by
  unfold processMultibulkHeader at h
  rw [if_pos hm] at h
  cases hs : strchr c.querybuf 13 with
  | none => rw [hs] at h; cases h
  | some nl =>
    rw [hs] at h
    simp only at h
    by_cases ht : (nl : Int) > toInt32 c.querybuf.length - 2
    · rw [if_pos ht] at h; cases h
    · rw [if_neg ht] at h
      cases hl : string2ll ((c.querybuf.drop 1).take (nl - 1)) with
      | none => rw [hl] at h; cases h
      | some ll =>
        rw [hl] at h
        simp only at h
        by_cases hr : ll > 1024 * 1024
        · rw [if_pos hr] at h; cases h
        · rw [if_neg hr] at h
          by_cases hz : ll ≤ 0
          · rw [if_pos hz] at h; cases h
          · rw [if_neg hz] at h
            have e3 : toInt32 ll = ll := by
              clear hs hl ht h
              rw [toInt32_of_range] <;> omega
            cases h
            exact ⟨nl, ll, rfl, hl, by omega, by omega, e3, rfl⟩

/-- A call of `processMultibulkBuffer` in terms of the client that the header
phase hands to the argument loop: `argc + multibulklen` is what it was
there. -/
theorem processMultibulkBuffer_sum (c ch : client) (p : Int) (r : Int) (c1 : client)
    (hh : processMultibulkHeader c = .go ch p)
    (h : processMultibulkBuffer c = .ok (r, c1)) :
    c1.argc + c1.multibulklen = ch.argc + ch.multibulklen ∧ (r = C_OK → c1.multibulklen = 0) := by
  rcases processMultibulkBuffer_cases c r c1 h with hr | ⟨ch1, p1, s, hh1, hl, hs⟩
  · rw [hr] at hh; cases hh
  · rw [hh] at hh1
    cases hh1
    have hsum := processMultibulkLoop_sum _ ch p s hl
    rcases hs with hs | ⟨c2, p2, hs, hf⟩
    · subst hs
      refine ⟨hsum, fun hok => ?_⟩
      have := processMultibulkLoop_ret _ ch p r c1 hl
      rw [hok] at this
      cases this
    · obtain ⟨f1, _, f3, _, _, f6, _⟩ := multibulkFinish_frame c2 p2 r c1 hf
      have hsum2 : c2.argc + c2.multibulklen = ch.argc + ch.multibulklen := by
        rcases hs with hs | hs <;> (subst hs; exact hsum)
      refine ⟨by rw [f1, f3]; exact hsum2, fun hok => ?_⟩
      rw [f1]
      exact f6.1 hok

theorem sameCommand_sum (c c1 : client) (h : SameCommand c c1) :
    c1.argc + c1.multibulklen = c.argc + c.multibulklen := by
  induction h with
  | refl => rfl
  | append c1 data _ ih => exact ih
  | call c1 r c2 _ hm hc ih =>
    rw [← ih]
    exact (processMultibulkBuffer_sum c1 c1 0 r c2 (header_skip c1 hm).1 hc).1

/-- C33: a consumed argument adds 1 to `argc` and takes 1 from `multibulklen`;
the argument loop keeps `argc + multibulklen`, however it ends; so does
every sequence of appends and of calls of `processMultibulkBuffer` made in
the argument phase, whatever the calls return; and for a call in the header
phase that reads the count `n > 0`, `argc + multibulklen` on return is
`argc + n` for the `argc` on entry, so that when the command is complete
(`multibulklen = 0`, as on every `C_OK` return), in this call or after
later ones, `argc` is `n` if it was 0 on entry. -/
theorem argc_plus_multibulklen_constant (c : client) :
    (∀ pos c2 p2, readBulkArgument c pos = .ok (some (c2, p2)) →
      c2.argc = c.argc + 1 ∧ c2.multibulklen = c.multibulklen - 1) ∧
    (∀ fuel pos s, processMultibulkLoop fuel c pos = .ok s →
      (stepClient s).argc + (stepClient s).multibulklen = c.argc + c.multibulklen) ∧
    (∀ c1, SameCommand c c1 → c1.argc + c1.multibulklen = c.argc + c.multibulklen) ∧
    (c.multibulklen = 0 → ∀ ch p r c1, processMultibulkHeader c = .go ch p →
      processMultibulkBuffer c = .ok (r, c1) →
      ∃ nl n, strchr c.querybuf 13 = some nl ∧
        string2ll ((c.querybuf.drop 1).take (nl - 1)) = some n ∧ 0 < n ∧
        c1.argc + c1.multibulklen = c.argc + n ∧
        (r = C_OK → c1.multibulklen = 0 ∧ c1.argc = c.argc + n) ∧
        ∀ c2, SameCommand c1 c2 → c2.multibulklen = 0 → c.argc = 0 → c2.argc = n) := by
  refine ⟨fun pos c2 p2 h => ?_, fun fuel pos s h => processMultibulkLoop_sum fuel c pos s h,
    fun c1 h => sameCommand_sum c c1 h, fun hm ch p r c1 hh hc => ?_⟩
  · obtain ⟨_, k2, k3, _⟩ := readBulkArgument_frame c pos c2 p2 h
    exact ⟨k3, k2⟩
  · obtain ⟨nl, n, h1, h2, h3, _, h5, h6⟩ := processMultibulkHeader_count c ch p hm hh
    obtain ⟨g1, g2⟩ := processMultibulkBuffer_sum c ch p r c1 hh hc
    rw [h5, h6] at g1
    refine ⟨nl, n, h1, h2, h3, g1, fun hok => ?_, fun c2 hs hz ha => ?_⟩
    · have hz := g2 hok
      refine ⟨hz, ?_⟩
      rw [hz] at g1
      omega
    · have := sameCommand_sum c1 c2 hs
      rw [hz, g1, ha] at this
      omega

theorem argc_plus_multibulklen_constant_witness :
    ∃ nl n, strchr partialGetFoo 13 = some nl ∧
      string2ll ((partialGetFoo.drop 1).take (nl - 1)) = some n ∧ 0 < n ∧
      ∀ c2, SameCommand { createClient with
          querybuf := [102, 111], multibulklen := 1, bulklen := 3, argc := 1,
          argv := some [some (createStringObject [71, 69, 84] 3), none] } c2 →
        c2.multibulklen = 0 → (0 : Int) = 0 → c2.argc = n := by
  obtain ⟨nl, n, h1, h2, h3, _, _, h6⟩ :=
    (argc_plus_multibulklen_constant (freshWith partialGetFoo)).2.2.2 rfl
      { freshWith partialGetFoo with multibulklen := 2, argv := some [none, none] } 4 C_ERR
      { createClient with
        querybuf := [102, 111], multibulklen := 1, bulklen := 3, argc := 1,
        argv := some [some (createStringObject [71, 69, 84] 3), none] }
      (by decide) (by decide)
  exact ⟨nl, n, h1, h2, h3, h6⟩

/-! ## The cursor and the buffer along the argument loop -/

theorem drop_of_drop (q : List Nat) (k j : Nat) : (q.drop k).drop j = q.drop (k + j) := by
  rw [List.drop_drop, Nat.add_comm]

/-- The argument loop on a buffer below 2 GiB, started with the cursor
inside the buffer.  However the loop ends, the buffer it leaves is the
buffer of the start without a prefix that lies within it; when it ends by
`break` or by running to its end, the cursor is inside the buffer and the
unread part is no longer than at the start, and at least two bytes shorter
when the loop has run to its end from a start with `multibulklen` not 0.
The loop does not read outside the buffer when the pending length fits an
`int`, and it ends within `fuel` iterations when `fuel` exceeds the length
of the unread part. -/
theorem processMultibulkLoop_cursor (fuel : Nat) :
    ∀ (c : client) (pos : Int), c.querybuf.length < 2147483648 → inBounds c pos →
      (∀ s, processMultibulkLoop fuel c pos = .ok s →
        ∃ j : Nat, j ≤ c.querybuf.length ∧ (stepClient s).querybuf = c.querybuf.drop j ∧
          ∀ c1 p1, (s = .brk c1 p1 ∨ s = .go c1 p1) →
            inBounds c1 p1 ∧
            (c1.querybuf.length : Int) - p1 ≤ (c.querybuf.length : Int) - pos ∧
            (s = .go c1 p1 → c.multibulklen ≠ 0 →
              (c1.querybuf.length : Int) - p1 + 2 ≤ (c.querybuf.length : Int) - pos)) ∧
      (c.bulklen ≤ 2147483647 → processMultibulkLoop fuel c pos ≠ .error .outOfBounds) ∧
      ((c.querybuf.length : Int) - pos < fuel →
        processMultibulkLoop fuel c pos ≠ .error .fuel) := by
  induction fuel with
  | zero =>
    intro c pos hlen hin
    obtain ⟨hp0, hp1⟩ := hin
    refine ⟨fun s h => ?_, fun _ h => ?_, fun hf _ => ?_⟩
    · simp only [processMultibulkLoop] at h; cases h
    · simp only [processMultibulkLoop] at h; cases h
    · simp only [Nat.cast_zero] at hf
      omega
  | succ fuel ih =>
    intro c pos hlen hin
    by_cases hm : c.multibulklen = 0
    · rw [loop_done c pos fuel hm]
      refine ⟨fun s h => ?_, fun _ h => (by cases h), fun _ h => (by cases h)⟩
      cases h
      refine ⟨0, Nat.zero_le _, rfl, fun c1 p1 h1 => ?_⟩
      have hb : (BulkStep.go c pos = BulkStep.go c1 p1) := by
        rcases h1 with h1 | h1
        · cases h1
        · exact h1
      cases hb
      exact ⟨hin, le_refl _, fun _ h2 => absurd hm h2⟩
    · cases hrl : readBulkLength c pos with
      | error e =>
        obtain ⟨_, _, hbad⟩ := readBulkLength_error c pos e hrl
        obtain ⟨hp0, hp1⟩ := hin
        exfalso
        clear hrl
        omega
      | ok s1 =>
        cases s1 with
        | ret r c1 =>
          have hl : processMultibulkLoop (fuel + 1) c pos = .ok (.ret r c1) := by
            unfold processMultibulkLoop
            simp only [hm, if_false, hrl]
          rw [hl]
          obtain ⟨_, hc⟩ := readBulkLength_ret c pos r c1 hrl
          refine ⟨fun s h => ?_, fun _ h => (by cases h), fun _ h => (by cases h)⟩
          cases h
          refine ⟨0, Nat.zero_le _, by rw [hc]; rfl, fun c2 p2 h1 => ?_⟩
          rcases h1 with h1 | h1 <;> cases h1
        | brk c1 p1 =>
          have hl : processMultibulkLoop (fuel + 1) c pos = .ok (.brk c1 p1) := by
            unfold processMultibulkLoop
            simp only [hm, if_false, hrl]
          rw [hl]
          obtain ⟨hc, hp⟩ := readBulkLength_brk c pos c1 p1 hrl
          subst hc
          subst hp
          refine ⟨fun s h => ?_, fun _ h => (by cases h), fun _ h => (by cases h)⟩
          cases h
          refine ⟨0, Nat.zero_le _, rfl, fun c2 p2 h1 => ?_⟩
          rcases h1 with h1 | h1
          · cases h1
            exact ⟨hin, le_refl _, fun h2 => by cases h2⟩
          · cases h1
        | go c1 p1 =>
          obtain ⟨hin1, hms1, hbuf1⟩ := readBulkLength_cursor c pos c1 p1 hlen hin hrl
          obtain ⟨hbl1, hbl2⟩ := readBulkLength_bulklen c pos c1 p1 hrl
          have hk : ∃ k : Nat, k ≤ c.querybuf.length ∧ c1.querybuf = c.querybuf.drop k := by
            rcases hbuf1 with ⟨h1, _⟩ | ⟨k, _, h2, h3, _⟩
            · exact ⟨0, Nat.zero_le _, by rw [h1]; rfl⟩
            · exact ⟨k, h2, h3⟩
          obtain ⟨k, hk1, hk2⟩ := hk
          have hlen1 : c1.querybuf.length < 2147483648 := by
            rw [hk2, List.length_drop]
            omega
          have hql1 : c1.querybuf.length = c.querybuf.length - k := by
            rw [hk2, List.length_drop]
          cases hra : readBulkArgument c1 p1 with
          | error e =>
            have hl : processMultibulkLoop (fuel + 1) c pos = .error e := by
              unfold processMultibulkLoop
              simp only [hm, if_false, hrl, hra]
            rw [hl]
            refine ⟨fun s h => (by cases h), fun hb h => ?_, fun _ h => ?_⟩
            · cases h
              have hb1 : c1.bulklen ≤ 2147483647 := by
                by_cases hbc : c.bulklen = -1
                · have := (hbl1 hbc).2
                  omega
                · rw [(hbl2 hbc).1]; exact hb
              exact (readBulkArgument_in_bounds c1 p1 hlen1 hin1 hb1).1 hra
            · cases h
              rcases readBulkArgument_error c1 p1 _ hra with h1 | h1 | h1 | ⟨h1, _⟩ <;> cases h1
          | ok res =>
            cases res with
            | none =>
              rw [loop_break_for_data c c1 pos p1 fuel hm hrl hra]
              refine ⟨fun s h => ?_, fun _ h => (by cases h), fun _ h => (by cases h)⟩
              cases h
              refine ⟨k, hk1, hk2, fun c2 p2 h1 => ?_⟩
              rcases h1 with h1 | h1
              · cases h1
                exact ⟨hin1, hms1, fun h2 => by cases h2⟩
              · cases h1
            | some pr =>
              obtain ⟨c2, p2⟩ := pr
              rw [loop_iterate c c1 c2 pos p1 p2 fuel hm hrl hra]
              obtain ⟨hin2, hms2, hbuf2, hb2, _, _, _⟩ :=
                readBulkArgument_cursor c1 p1 c2 p2 hlen1 hin1 hra
              have hlen2 : c2.querybuf.length < 2147483648 := by
                rcases hbuf2 with ⟨h1, _⟩ | ⟨h1, _⟩
                · rw [h1]; exact hlen1
                · rw [h1]; simp
              have hj : ∃ j : Nat, j ≤ c.querybuf.length ∧ c2.querybuf = c.querybuf.drop j ∧
                  c2.querybuf.length = c.querybuf.length - j := by
                rcases hbuf2 with ⟨h1, _⟩ | ⟨h1, _⟩
                · exact ⟨k, hk1, by rw [h1]; exact hk2, by rw [h1]; exact hql1⟩
                · refine ⟨c.querybuf.length, le_refl _, ?_, ?_⟩
                  · rw [h1, List.drop_length]
                  · rw [h1]; simp
              obtain ⟨j, hj1, hj2, hj3⟩ := hj
              obtain ⟨i1, i2, i3⟩ := ih c2 p2 hlen2 hin2
              refine ⟨fun s h => ?_, fun _ => i2 (by rw [hb2]; decide), fun hf => i3 ?_⟩
              · obtain ⟨j2, hj21, hj22, hj23⟩ := i1 s h
                refine ⟨j + j2, by omega, by rw [hj22, hj2, drop_of_drop], fun c3 p3 h1 => ?_⟩
                obtain ⟨g1, g2, _⟩ := hj23 c3 p3 h1
                refine ⟨g1, ?_, fun _ _ => ?_⟩
                · clear hj22 hj2 hk2 hrl hra h i1 i2 i3 hj23 hbl1 hbl2 hbuf1 hbuf2
                  omega
                · clear hj22 hj2 hk2 hrl hra h i1 i2 i3 hj23 hbl1 hbl2 hbuf1 hbuf2
                  omega
              · clear hj2 hk2 hrl hra i1 i2 i3 hbl1 hbl2 hbuf1 hbuf2
                push_cast at hf
                omega

theorem loopReach_cursor (c : client) (pos : Int) (hlen : c.querybuf.length < 2147483648)
    (hin : inBounds c pos) (c1 : client) (p1 : Int) (h : LoopReach c pos c1 p1) :
    inBounds c1 p1 ∧ c1.querybuf.length < 2147483648 ∧ (c1 = c ∨ c1.bulklen = -1) := by
  induction h with
  | start => exact ⟨hin, hlen, Or.inl rfl⟩
  | step c1 p1 c2 p2 c3 p3 _ _ hrl hra ih =>
    obtain ⟨hin1, hlen1, _⟩ := ih
    obtain ⟨hin2, _, hbuf2⟩ := readBulkLength_cursor c1 p1 c2 p2 hlen1 hin1 hrl
    have hlen2 : c2.querybuf.length < 2147483648 := by
      rcases hbuf2 with ⟨h1, _⟩ | ⟨k, _, _, h3, _⟩
      · rw [h1]; exact hlen1
      · rw [h3, List.length_drop]; omega
    obtain ⟨hin3, _, hbuf3, hb3, _, _, _⟩ := readBulkArgument_cursor c2 p2 c3 p3 hlen2 hin2 hra
    refine ⟨hin3, ?_, Or.inr hb3⟩
    rcases hbuf3 with ⟨h1, _⟩ | ⟨h1, _⟩
    · rw [h1]; exact hlen2
    · rw [h1]; simp

theorem processMultibulkBuffer_error (c : client) (e : Fault)
    (h : processMultibulkBuffer c = .error e) :
    ∃ ch p, processMultibulkHeader c = .go ch p ∧
      processMultibulkLoop (ch.querybuf.length + 2) ch p = .error e := by
  unfold processMultibulkBuffer at h
  cases hh : processMultibulkHeader c with
  | ret r0 c0 => rw [hh] at h; cases h
  | brk c0 p0 => rw [hh] at h; cases h
  | go ch p =>
    rw [hh] at h
    simp only at h
    cases hl : processMultibulkLoop (ch.querybuf.length + 2) ch p with
    | error e1 =>
      rw [hl] at h
      cases h
      exact ⟨ch, p, rfl, hl⟩
    | ok s =>
      rw [hl] at h
      cases s <;> cases h

/-- The end of the function below 2 GiB with the cursor inside the buffer:
the buffer loses the bytes before the cursor. -/
theorem multibulkFinish_drop (c : client) (pos : Int) (r : Int) (c1 : client)
    (hlen : c.querybuf.length < 2147483648) (hin : inBounds c pos)
    (h : multibulkFinish c pos = (r, c1)) : c1.querybuf = c.querybuf.drop pos.toNat := by
  obtain ⟨hp0, hp1⟩ := hin
  obtain ⟨_, _, _, _, _, _, f7⟩ := multibulkFinish_frame c pos r c1 h
  rw [f7]
  by_cases hp : pos ≠ 0
  · rw [if_pos hp]
    have e : pos = ((pos.toNat : Nat) : Int) := by omega
    rw [e, sdsrange_drop _ _ hlen, ← e]
  · rw [if_neg hp]
    have e : pos = 0 := not_not.1 hp
    rw [e]
    rfl

/-- A call of `processMultibulkBuffer` on a buffer below 2 GiB: it does not
read outside the buffer when the pending length fits an `int`, the argument
loop ends within the iterations allowed, the buffer it leaves is the buffer
of the start without a prefix that lies within it, and a `C_OK` return has
removed two bytes or more. -/
theorem processMultibulkBuffer_cursor (c : client) (hlen : c.querybuf.length < 2147483648) :
    (c.bulklen ≤ 2147483647 → processMultibulkBuffer c ≠ .error .outOfBounds) ∧
    processMultibulkBuffer c ≠ .error .fuel ∧
    (∀ r c1, processMultibulkBuffer c = .ok (r, c1) →
      ∃ j : Nat, j ≤ c.querybuf.length ∧ c1.querybuf = c.querybuf.drop j ∧
        (r = C_OK → 2 ≤ j)) := by
  obtain ⟨hh1, hh2⟩ := processMultibulkHeader_cursor c hlen
  refine ⟨fun hb h => ?_, fun h => ?_, fun r c1 h => ?_⟩
  · obtain ⟨ch, p, hh, hl⟩ := processMultibulkBuffer_error c _ h
    obtain ⟨hin, hq, hbl, _⟩ := hh1 ch p hh
    exact (processMultibulkLoop_cursor _ ch p (by rw [hq]; exact hlen) hin).2.1
      (by rw [hbl]; exact hb) hl
  · obtain ⟨ch, p, hh, hl⟩ := processMultibulkBuffer_error c _ h
    obtain ⟨hin, hq, _⟩ := hh1 ch p hh
    refine (processMultibulkLoop_cursor _ ch p (by rw [hq]; exact hlen) hin).2.2 ?_ hl
    obtain ⟨hp0, _⟩ := hin
    push_cast
    omega
  · rcases processMultibulkBuffer_cases c r c1 h with hr | ⟨ch, p, s, hh, hl, hs⟩
    · rcases hh2 r c1 hr with ⟨h1, h2⟩ | ⟨h1, _, k, hk1, hk2, hk3⟩
      · refine ⟨0, Nat.zero_le _, by rw [h2]; rfl, fun hok => ?_⟩
        rw [hok] at h1
        exact absurd h1 (by decide)
      · exact ⟨k, hk2, by rw [hk3], fun _ => hk1⟩
    · obtain ⟨hin, hq, _, _, _, hph⟩ := hh1 ch p hh
      have hlenh : ch.querybuf.length < 2147483648 := by rw [hq]; exact hlen
      obtain ⟨j, hj1, hj2, hj3⟩ := (processMultibulkLoop_cursor _ ch p hlenh hin).1 s hl
      rw [hq] at hj1 hj2
      rcases hs with hs | ⟨c2, p2, hs, hf⟩
      · subst hs
        refine ⟨j, hj1, hj2, fun hok => ?_⟩
        have := processMultibulkLoop_ret _ ch p r c1 hl
        rw [hok] at this
        exact absurd this (by decide)
      · obtain ⟨g1, g2, g3⟩ := hj3 c2 p2 hs
        have hq2 : c2.querybuf = c.querybuf.drop j := by
          rcases hs with hs | hs <;> (subst hs; exact hj2)
        have hl2 : c2.querybuf.length = c.querybuf.length - j := by
          rw [hq2, List.length_drop]
        have hlen2 : c2.querybuf.length < 2147483648 := by omega
        have hfin := multibulkFinish_drop c2 p2 r c1 hlen2 g1 hf
        obtain ⟨gp0, gp1⟩ := g1
        obtain ⟨hp0, hp1⟩ := hin
        refine ⟨j + p2.toNat, ?_, by rw [hfin, hq2, drop_of_drop], fun hok => ?_⟩
        · clear hfin hq2 hj2 hl hh hf g3 hj3
          omega
        · obtain ⟨_, _, _, _, _, f6, _⟩ := multibulkFinish_frame c2 p2 r c1 hf
          have hm2 : c2.multibulklen = 0 := f6.1 hok
          have hgo : s = .go c2 p2 := by
            rcases hs with hs | hs
            · subst hs
              exfalso
              have key : ∀ fuel (c : client) (pos : Int) (c2 : client) (p2 : Int),
                  processMultibulkLoop fuel c pos = .ok (.brk c2 p2) → c2.multibulklen ≠ 0 := by
                intro fuel
                induction fuel with
                | zero =>
                  intro c pos c2 p2 h
                  simp only [processMultibulkLoop] at h
                  cases h
                | succ fuel ih =>
                  intro c pos c2 p2 h
                  unfold processMultibulkLoop at h
                  by_cases hm : c.multibulklen = 0
                  · rw [if_pos hm] at h; cases h
                  · rw [if_neg hm] at h
                    cases hrl : readBulkLength c pos with
                    | error e => rw [hrl] at h; cases h
                    | ok s1 =>
                      rw [hrl] at h
                      have hf1 := (readBulkLength_frame c pos s1 hrl).1
                      cases s1 with
                      | ret r c1 => cases h
                      | brk c1 p1 =>
                        cases h
                        rw [show c2.multibulklen = c.multibulklen from hf1]
                        exact hm
                      | go c1 p1 =>
                        simp only at h
                        cases hra : readBulkArgument c1 p1 with
                        | error e => rw [hra] at h; cases h
                        | ok res =>
                          rw [hra] at h
                          cases res with
                          | none =>
                            cases h
                            rw [show c2.multibulklen = c.multibulklen from hf1]
                            exact hm
                          | some pr =>
                            obtain ⟨c3, p3⟩ := pr
                            simp only at h
                            exact ih c3 p3 c2 p2 h
              exact key _ ch p c2 p2 hl hm2
            · exact hs
          rcases hph with ⟨hm0, hc, hpz⟩ | ⟨_, hp2, _, _⟩
          · have hmh : ch.multibulklen ≠ 0 := by rw [hc]; exact hm0
            have := g3 hgo hmh
            rw [hq] at this
            clear hfin hq2 hj2 hl hh hf g3 hj3
            omega
          · rw [hq] at g2
            clear hfin hq2 hj2 hl hh hf g3 hj3
            omega

/-- C31: in a call of `processMultibulkBuffer` on a buffer below 2 GiB with
a pending length that fits an `int`: the cursor that the header phase sets
is inside the buffer; at the head of every iteration of the argument loop
that starts inside the buffer, the cursor is inside the buffer, the length
line reads no byte outside it, and the cursor after the length line is
inside the buffer (after the early trim of a prefix that lies within the
buffer, too), so that the subtraction `sdslen - pos` of the payload test does
not wrap and the copy does not read outside the buffer; the cursor is inside
the buffer when the loop is left; and the buffer that the call leaves is the
buffer of the start without a prefix that lies within it. -/
theorem cursor_stays_in_buffer (c : client) (pos : Int)
    (hlen : c.querybuf.length < 2147483648) (hb : c.bulklen ≤ 2147483647)
    (hin : inBounds c pos) :
    (∀ ch p, processMultibulkHeader c = .go ch p → inBounds ch p) ∧
    (∀ c1 p1, LoopReach c pos c1 p1 →
      inBounds c1 p1 ∧
      (∀ e, readBulkLength c1 p1 ≠ .error e) ∧
      (∀ c2 p2, readBulkLength c1 p1 = .ok (.go c2 p2) →
        inBounds c2 p2 ∧
        (∃ k : Nat, k ≤ c1.querybuf.length ∧ c2.querybuf = c1.querybuf.drop k) ∧
        toSizeT ((c2.querybuf.length : Int) - p2) = (c2.querybuf.length : Int) - p2 ∧
        readBulkArgument c2 p2 ≠ .error .outOfBounds)) ∧
    (∀ fuel s c1 p1, processMultibulkLoop fuel c pos = .ok s →
      (s = .brk c1 p1 ∨ s = .go c1 p1) → inBounds c1 p1) ∧
    (∀ fuel, processMultibulkLoop fuel c pos ≠ .error .outOfBounds) ∧
    processMultibulkBuffer c ≠ .error .outOfBounds ∧
    (∀ r c1, processMultibulkBuffer c = .ok (r, c1) →
      ∃ j : Nat, j ≤ c.querybuf.length ∧ c1.querybuf = c.querybuf.drop j) := by
  refine ⟨fun ch p hh => ((processMultibulkHeader_cursor c hlen).1 ch p hh).1,
    fun c1 p1 hr => ?_, fun fuel s c1 p1 hl hs => ?_, fun fuel => ?_,
    (processMultibulkBuffer_cursor c hlen).1 hb, fun r c1 h => ?_⟩
  · obtain ⟨hin1, hlen1, hb1⟩ := loopReach_cursor c pos hlen hin c1 p1 hr
    have hbl1 : c1.bulklen ≤ 2147483647 := by
      rcases hb1 with h1 | h1
      · rw [h1]; exact hb
      · rw [h1]; decide
    refine ⟨hin1, fun e he => ?_, fun c2 p2 hrl => ?_⟩
    · obtain ⟨_, _, hbad⟩ := readBulkLength_error c1 p1 e he
      obtain ⟨hp0, hp1⟩ := hin1
      clear he
      omega
    · obtain ⟨hin2, _, hbuf2⟩ := readBulkLength_cursor c1 p1 c2 p2 hlen1 hin1 hrl
      obtain ⟨hbl2a, hbl2b⟩ := readBulkLength_bulklen c1 p1 c2 p2 hrl
      have hk : ∃ k : Nat, k ≤ c1.querybuf.length ∧ c2.querybuf = c1.querybuf.drop k := by
        rcases hbuf2 with ⟨h1, _⟩ | ⟨k, _, h2, h3, _⟩
        · exact ⟨0, Nat.zero_le _, by rw [h1]; rfl⟩
        · exact ⟨k, h2, h3⟩
      have hlen2 : c2.querybuf.length < 2147483648 := by
        obtain ⟨k, _, hk2⟩ := hk
        rw [hk2, List.length_drop]
        omega
      have hbl2 : c2.bulklen ≤ 2147483647 := by
        by_cases hbc : c1.bulklen = -1
        · have := (hbl2a hbc).2
          omega
        · rw [(hbl2b hbc).1]; exact hbl1
      obtain ⟨hn, hw⟩ := readBulkArgument_in_bounds c2 p2 hlen2 hin2 hbl2
      exact ⟨hin2, hk, hw, hn⟩
  · obtain ⟨_, _, _, hj⟩ := (processMultibulkLoop_cursor fuel c pos hlen hin).1 s hl
    exact (hj c1 p1 hs).1
  · exact (processMultibulkLoop_cursor fuel c pos hlen hin).2.1 hb
  · obtain ⟨j, hj1, hj2, _⟩ := (processMultibulkBuffer_cursor c hlen).2.2 r c1 h
    exact ⟨j, hj1, hj2⟩

theorem cursor_stays_in_buffer_witness :
    (∀ ch p, processMultibulkHeader (freshWith getFoo) = .go ch p → inBounds ch p) ∧
    inBounds { freshWith getFoo with multibulklen := 2, argv := some [none, none] } 4 ∧
    processMultibulkBuffer (freshWith getFoo) ≠ .error .outOfBounds ∧
    (∀ r c1, processMultibulkBuffer (freshWith getFoo) = .ok (r, c1) →
      ∃ j : Nat, j ≤ (freshWith getFoo).querybuf.length ∧
        c1.querybuf = (freshWith getFoo).querybuf.drop j) :=
  ⟨(cursor_stays_in_buffer (freshWith getFoo) 0 (by decide) (by decide) (by decide)).1,
   (cursor_stays_in_buffer (freshWith getFoo) 0 (by decide) (by decide) (by decide)).1 _ _
     (by decide),
   (cursor_stays_in_buffer (freshWith getFoo) 0 (by decide) (by decide) (by decide)).2.2.2.2.1,
   (cursor_stays_in_buffer (freshWith getFoo) 0 (by decide) (by decide) (by decide)).2.2.2.2.2⟩

/-! ## The decoder only consumes -/

/-- Up to 4 GiB, `sdsrange s start (-1)` leaves a suffix of `s`, whatever
`start` is. -/
theorem sdsrange_suffix (s : List Nat) (start : Int) (h : s.length ≤ 4294967296) :
    List.IsSuffix (sdsrange s start (-1)) s := by
  unfold sdsrange
  by_cases h0 : (s.length : Int) = 0
  · simp only [h0, if_true]
    exact List.suffix_refl s
  · simp only [h0, if_false]
    unfold toInt32
    repeat' split
    all_goals first
      | exact List.nil_suffix
      | (rw [List.take_of_length_le (by simp only [List.length_drop]; omega)]
         exact List.drop_suffix _ _)

theorem inlineArgs_querybuf (toks : List (List Nat)) :
    ∀ c c1 : client, inlineArgs toks c = .ok c1 → c1.querybuf = c.querybuf := by
  induction toks with
  | nil =>
    intro c c1 h
    simp only [inlineArgs] at h
    cases h
    rfl
  | cons t ts ih =>
    intro c c1 h
    unfold inlineArgs at h
    by_cases ht : t.length ≠ 0
    · rw [if_pos ht] at h
      cases hs : argvStore c (createObject OBJ_STRING t) with
      | error e => rw [hs] at h; cases h
      | ok c2 =>
        rw [hs] at h
        simp only at h
        rw [ih c2 c1 h, (argvStore_frame c c2 _ hs).1]
    · rw [if_neg ht] at h
      exact ih c c1 h

theorem processInlineBuffer_suffix (c : client) (hlen : c.querybuf.length ≤ 4294967296)
    (r : Int) (c1 : client) (h : processInlineBuffer c = .ok (r, c1)) :
    List.IsSuffix c1.querybuf c.querybuf := by
  unfold processInlineBuffer at h
  cases hs : strchr c.querybuf 10 with
  | none =>
    rw [hs] at h
    cases h
    exact List.suffix_refl _
  | some nl =>
    rw [hs] at h
    simp only at h
    split at h
    · cases h
      exact List.suffix_refl _
    · rename_i argv hsp
      split at h
      · cases h
      · rename_i c3 hia
        cases h
        rw [inlineArgs_querybuf argv _ c1 hia]
        split
        · exact sdsrange_suffix _ _ hlen
        · exact sdsrange_suffix _ _ hlen

theorem readBulkLength_suffix (c : client) (pos : Int) (s : BulkStep)
    (hlen : c.querybuf.length ≤ 4294967296) (h : readBulkLength c pos = .ok s) :
    List.IsSuffix (stepClient s).querybuf c.querybuf := by
  unfold readBulkLength at h
  repeat' (split at h)
  all_goals (cases h <;> first | exact List.suffix_refl _ | exact sdsrange_suffix _ _ hlen)

theorem readBulkArgument_suffix (c : client) (pos : Int) (c2 : client) (p2 : Int)
    (h : readBulkArgument c pos = .ok (some (c2, p2))) :
    List.IsSuffix c2.querybuf c.querybuf := by
  unfold readBulkArgument at h
  simp only at h
  split at h
  · cases h
  · split at h
    · split at h
      · cases h
      · cases h
        exact List.nil_suffix
    · split at h
      · cases h
      · split at h
        · cases h
        · split at h
          · cases h
          · rename_i c1 hs
            cases h
            show List.IsSuffix c1.querybuf c.querybuf
            rw [(argvStore_frame c c1 _ hs).1]

theorem processMultibulkLoop_suffix (fuel : Nat) :
    ∀ (c : client) (pos : Int) (s : BulkStep), c.querybuf.length ≤ 4294967296 →
      processMultibulkLoop fuel c pos = .ok s →
      List.IsSuffix (stepClient s).querybuf c.querybuf := by
  induction fuel with
  | zero => intro c pos s _ h; simp only [processMultibulkLoop] at h; cases h
  | succ fuel ih =>
    intro c pos s hlen h
    unfold processMultibulkLoop at h
    by_cases hm : c.multibulklen = 0
    · rw [if_pos hm] at h
      cases h
      exact List.suffix_refl _
    · rw [if_neg hm] at h
      cases hrl : readBulkLength c pos with
      | error e => rw [hrl] at h; cases h
      | ok s1 =>
        rw [hrl] at h
        have hs1 := readBulkLength_suffix c pos s1 hlen hrl
        cases s1 with
        | ret r c1 => cases h; exact hs1
        | brk c1 p1 => cases h; exact hs1
        | go c1 p1 =>
          simp only at h
          have hs1a : List.IsSuffix c1.querybuf c.querybuf := hs1
          cases hra : readBulkArgument c1 p1 with
          | error e => rw [hra] at h; cases h
          | ok res =>
            rw [hra] at h
            cases res with
            | none => cases h; exact hs1
            | some pr =>
              obtain ⟨c2, p2⟩ := pr
              simp only at h
              have hs2 := readBulkArgument_suffix c1 p1 c2 p2 hra
              have hl2 : c2.querybuf.length ≤ 4294967296 :=
                le_trans (hs2.trans hs1a).length_le hlen
              exact (ih c2 p2 s hl2 h).trans (hs2.trans hs1a)

theorem processMultibulkHeader_suffix (c : client) (hlen : c.querybuf.length ≤ 4294967296) :
    List.IsSuffix (stepClient (processMultibulkHeader c)).querybuf c.querybuf := by
  unfold processMultibulkHeader
  repeat' split
  all_goals first | exact List.suffix_refl _ | exact sdsrange_suffix _ _ hlen

theorem multibulkFinish_suffix (c : client) (pos : Int) (hlen : c.querybuf.length ≤ 4294967296) :
    List.IsSuffix (multibulkFinish c pos).2.querybuf c.querybuf := by
  unfold multibulkFinish
  simp only
  repeat' split
  all_goals first | exact List.suffix_refl _ | exact sdsrange_suffix _ _ hlen

/-- C38: on a buffer of at most 4 GiB, whatever the rest of the client
holds, a call of `processInlineBuffer` or of `processMultibulkBuffer` that
returns, with either return value, leaves a buffer that is a suffix of the
buffer before the call: bytes are removed from the front and nothing is
added, moved or rewritten. -/
theorem decoder_only_consumes (c : client) (hlen : c.querybuf.length ≤ 4294967296) :
    (∀ r c1, processInlineBuffer c = .ok (r, c1) → List.IsSuffix c1.querybuf c.querybuf) ∧
    (∀ r c1, processMultibulkBuffer c = .ok (r, c1) → List.IsSuffix c1.querybuf c.querybuf) := by
  refine ⟨fun r c1 h => processInlineBuffer_suffix c hlen r c1 h, fun r c1 h => ?_⟩
  have hh := processMultibulkHeader_suffix c hlen
  rcases processMultibulkBuffer_cases c r c1 h with hr | ⟨ch, p, s, hhg, hl, hs⟩
  · rw [hr] at hh
    exact hh
  · rw [hhg] at hh
    have hh1 : List.IsSuffix ch.querybuf c.querybuf := hh
    have hlh : ch.querybuf.length ≤ 4294967296 := le_trans hh1.length_le hlen
    have hls := processMultibulkLoop_suffix _ ch p s hlh hl
    rcases hs with hs | ⟨c2, p2, hs, hf⟩
    · subst hs
      exact hls.trans hh1
    · have h2 : List.IsSuffix c2.querybuf ch.querybuf := by
        rcases hs with hs | hs <;> (subst hs; exact hls)
      have hl2 : c2.querybuf.length ≤ 4294967296 := le_trans h2.length_le hlh
      have hf2 := multibulkFinish_suffix c2 p2 hl2
      rw [hf] at hf2
      exact (hf2.trans h2).trans hh1

theorem decoder_only_consumes_witness :
    (∀ r c1, processInlineBuffer (freshWith inlineCommand) = .ok (r, c1) →
      List.IsSuffix c1.querybuf (freshWith inlineCommand).querybuf) ∧
    (∀ r c1, processMultibulkBuffer (freshWith (getFoo ++ inlineCommand)) = .ok (r, c1) →
      List.IsSuffix c1.querybuf (freshWith (getFoo ++ inlineCommand)).querybuf) :=
  ⟨(decoder_only_consumes (freshWith inlineCommand) (by decide)).1,
   (decoder_only_consumes (freshWith (getFoo ++ inlineCommand)) (by decide)).2⟩

/-! ## The decode loop ends -/

theorem strchr_lt (ch : Nat) (s : List Nat) : ∀ n, strchr s ch = some n → n < s.length := by
  induction s with
  | nil => intro n h; simp [strchr] at h
  | cons b bs ih =>
    intro n h
    unfold strchr at h
    by_cases h1 : b = ch
    · rw [if_pos h1] at h
      cases h
      simp
    · rw [if_neg h1] at h
      by_cases h2 : b = 0
      · rw [if_pos h2] at h; cases h
      · rw [if_neg h2] at h
        cases hs : strchr bs ch with
        | none => rw [hs] at h; cases h
        | some m =>
          rw [hs] at h
          cases h
          have := ih m hs
          simp only [List.length_cons]
          omega

theorem inlineArgs_reqtype (toks : List (List Nat)) :
    ∀ c c1 : client, inlineArgs toks c = .ok c1 → c1.reqtype = c.reqtype := by
  induction toks with
  | nil =>
    intro c c1 h
    simp only [inlineArgs] at h
    cases h
    rfl
  | cons t ts ih =>
    intro c c1 h
    unfold inlineArgs at h
    by_cases ht : t.length ≠ 0
    · rw [if_pos ht] at h
      cases hs : argvStore c (createObject OBJ_STRING t) with
      | error e => rw [hs] at h; cases h
      | ok c2 =>
        rw [hs] at h
        simp only at h
        rw [ih c2 c1 h, (argvStore_frame c c2 _ hs).2.2.2.2]
    · rw [if_neg ht] at h
      exact ih c c1 h

theorem inlineArgs_error (toks : List (List Nat)) :
    ∀ (c : client) (e : Fault), inlineArgs toks c = .error e →
      e = .nullDeref ∨ e = .argvOverflow := by
  induction toks with
  | nil => intro c e h; simp only [inlineArgs] at h; cases h
  | cons t ts ih =>
    intro c e h
    unfold inlineArgs at h
    by_cases ht : t.length ≠ 0
    · rw [if_pos ht] at h
      cases hs : argvStore c (createObject OBJ_STRING t) with
      | error e1 =>
        rw [hs] at h
        cases h
        exact argvStore_error c _ _ hs
      | ok c2 =>
        rw [hs] at h
        exact ih c2 e h
    · rw [if_neg ht] at h
      exact ih c e h

/-- `processInlineBuffer` on a buffer below `INT_MAX` bytes: the request
type is kept, a `C_OK` return leaves a shorter buffer, and the only faults
are those of the store into `argv`. -/
theorem processInlineBuffer_progress (c : client) (hlen : c.querybuf.length < 2147483647) :
    (∀ r c1, processInlineBuffer c = .ok (r, c1) →
      c1.reqtype = c.reqtype ∧ (r = C_OK → c1.querybuf.length < c.querybuf.length)) ∧
    (∀ e, processInlineBuffer c = .error e → e = .nullDeref ∨ e = .argvOverflow) := by
  unfold processInlineBuffer
  cases hs : strchr c.querybuf 10 with
  | none =>
    refine ⟨fun r c1 h => ?_, fun e h => (by cases h)⟩
    cases h
    exact ⟨rfl, fun h => absurd h (by decide)⟩
  | some nl =>
    simp only
    have hnl := strchr_lt 10 c.querybuf nl hs
    cases hsp : sdssplitargs (c.querybuf.take
        (if nl ≠ 0 ∧ c.querybuf.getD (nl - 1) 0 = 13 then nl - 1 else nl)) with
    | none =>
      refine ⟨fun r c1 h => ?_, fun e h => (by cases h)⟩
      cases h
      exact ⟨rfl, fun h => absurd h (by decide)⟩
    | some argv =>
      simp only
      have hq : (if nl ≠ 0 ∧ c.querybuf.getD (nl - 1) 0 = 13 then nl - 1 else nl) ≤ nl := by
        split <;> omega
      generalize (if nl ≠ 0 ∧ c.querybuf.getD (nl - 1) 0 = 13 then nl - 1 else nl) = ql at hq
      have e1 : toInt32 ((ql : Int) + 2) = ((ql + 2 : Nat) : Int) := by
        clear hs hsp
        rw [toInt32_of_range] <;> push_cast <;> omega
      have hdrop : sdsrange c.querybuf (toInt32 ((ql : Int) + 2)) (-1) =
          c.querybuf.drop (ql + 2) := by
        rw [e1, sdsrange_drop _ _ (by omega)]
      have hshort : (c.querybuf.drop (ql + 2)).length < c.querybuf.length := by
        rw [List.length_drop]
        omega
      refine ⟨fun r c1 h => ?_, fun e h => ?_⟩
      · split at h
        · cases h
        · rename_i c3 hia
          cases h
          have h1 := inlineArgs_querybuf argv _ c1 hia
          have h2 := inlineArgs_reqtype argv _ c1 hia
          refine ⟨?_, fun _ => ?_⟩
          · rw [h2]
            split <;> rfl
          · rw [h1]
            have : ∀ x : client, x.querybuf = c.querybuf.drop (ql + 2) →
                x.querybuf.length < c.querybuf.length := by
              intro x hx; rw [hx]; exact hshort
            apply this
            split <;> exact hdrop
      · split at h
        · rename_i e1 hia
          cases h
          exact inlineArgs_error argv _ _ hia
        · cases h

theorem processMultibulkLoop_reqtype (fuel : Nat) :
    ∀ (c : client) (pos : Int) (s : BulkStep),
      processMultibulkLoop fuel c pos = .ok s → (stepClient s).reqtype = c.reqtype := by
  induction fuel with
  | zero => intro c pos s h; simp only [processMultibulkLoop] at h; cases h
  | succ fuel ih =>
    intro c pos s h
    unfold processMultibulkLoop at h
    by_cases hm : c.multibulklen = 0
    · rw [if_pos hm] at h
      cases h
      rfl
    · rw [if_neg hm] at h
      cases hrl : readBulkLength c pos with
      | error e => rw [hrl] at h; cases h
      | ok s1 =>
        rw [hrl] at h
        obtain ⟨_, _, f3⟩ := readBulkLength_frame c pos s1 hrl
        cases s1 with
        | ret r c1 => cases h; exact f3
        | brk c1 p1 => cases h; exact f3
        | go c1 p1 =>
          simp only at h
          cases hra : readBulkArgument c1 p1 with
          | error e => rw [hra] at h; cases h
          | ok res =>
            rw [hra] at h
            cases res with
            | none => cases h; exact f3
            | some pr =>
              obtain ⟨c2, p2⟩ := pr
              simp only at h
              obtain ⟨_, _, _, k4⟩ := readBulkArgument_frame c1 p1 c2 p2 hra
              rw [ih c2 p2 s h, k4]
              exact f3

theorem processMultibulkBuffer_reqtype (c : client) (hlen : c.querybuf.length < 2147483648)
    (r : Int) (c1 : client) (h : processMultibulkBuffer c = .ok (r, c1)) :
    c1.reqtype = c.reqtype := by
  obtain ⟨hh1, hh2⟩ := processMultibulkHeader_cursor c hlen
  rcases processMultibulkBuffer_cases c r c1 h with hr | ⟨ch, p, s, hh, hl, hs⟩
  · rcases hh2 r c1 hr with ⟨_, h2⟩ | ⟨_, _, k, _, _, hk3⟩
    · rw [h2]
    · rw [hk3]
  · obtain ⟨_, _, _, _, hrt, _⟩ := hh1 ch p hh
    have hlr := processMultibulkLoop_reqtype _ ch p s hl
    rcases hs with hs | ⟨c2, p2, hs, hf⟩
    · subst hs
      rw [← hrt]
      exact hlr
    · obtain ⟨_, _, _, _, f5, _, _⟩ := multibulkFinish_frame c2 p2 r c1 hf
      have : c2.reqtype = ch.reqtype := by
        rcases hs with hs | hs <;> (subst hs; exact hlr)
      rw [f5, this, hrt]

theorem processCommand_keeps (H : Handlers) (hH : KeepBuffer H) (c : client) (rc : Int)
    (c1 : client) (h : processCommand H c = .ok (rc, c1)) :
    c1.querybuf = c.querybuf ∧ c1.reqtype = c.reqtype := by
  unfold processCommand at h
  cases ha : argv0 c with
  | error e => rw [ha] at h; cases h
  | ok o =>
    rw [ha] at h
    simp only at h
    unfold call at h
    cases hc : lookupCommand o.ptr with
    | none => rw [hc] at h; cases h
    | some cmd =>
      rw [hc] at h
      simp only at h
      cases h
      obtain ⟨g1, g2, g3, g4⟩ := hH { c with cmd := some cmd, lastcmd := some cmd }
      cases hp : cmd.proc with
      | getCommand => simp only [runProc, hp]; exact ⟨g1, g2⟩
      | setCommand => simp only [runProc, hp]; exact ⟨g3, g4⟩
      | commandCommand => simp only [runProc, hp]; exact ⟨rfl, rfl⟩

theorem processCommand_error (H : Handlers) (c : client) (e : Fault)
    (h : processCommand H c = .error e) : e ≠ .fuel := by
  unfold processCommand at h
  cases ha : argv0 c with
  | error e1 =>
    rw [ha] at h
    cases h
    unfold argv0 at ha
    repeat' (split at ha)
    all_goals (cases ha <;> decide)
  | ok o =>
    rw [ha] at h
    simp only at h
    unfold call at h
    cases hc : lookupCommand o.ptr with
    | none => rw [hc] at h; cases h; decide
    | some cmd => rw [hc] at h; cases h

theorem argv0_error (c : client) (e : Fault) (h : argv0 c = .error e) : e ≠ .fuel := by
  unfold argv0 at h
  repeat' (split at h)
  all_goals (cases h <;> decide)

/-- The parse of one iteration of the decode loop, on a buffer that is not
empty and is below `INT_MAX` bytes, for a request type that the code sets:
the request type stays one that the code sets, a `C_OK` return leaves a
shorter buffer, and the parse does not run out of iterations. -/
theorem parse_progress (c : client) (hlen : c.querybuf.length < 2147483647)
    (hv : validReqtype c) :
    (∀ r c2, parseRequest (withReqtype c) = .ok (r, c2) →
      validReqtype c2 ∧ (r = C_OK → c2.querybuf.length < c.querybuf.length)) ∧
    parseRequest (withReqtype c) ≠ .error .fuel := by
  have hw : (withReqtype c).querybuf = c.querybuf ∧
      ((withReqtype c).reqtype = PROTO_REQ_INLINE ∨
        (withReqtype c).reqtype = PROTO_REQ_MULTIBULK) := by
    unfold withReqtype
    by_cases h0 : c.reqtype = 0
    · rw [if_pos h0]
      split
      · exact ⟨rfl, Or.inr rfl⟩
      · exact ⟨rfl, Or.inl rfl⟩
    · rw [if_neg h0]
      rcases hv with h | h | h
      · exact absurd h h0
      · exact ⟨rfl, Or.inl h⟩
      · exact ⟨rfl, Or.inr h⟩
  obtain ⟨hwq, hwr⟩ := hw
  have hlenw : (withReqtype c).querybuf.length < 2147483647 := by rw [hwq]; exact hlen
  rcases hwr with hr | hr
  · obtain ⟨hp1, hp2⟩ := parse_inline (withReqtype c) hr
    rw [hp1]
    obtain ⟨g1, g2⟩ := processInlineBuffer_progress (withReqtype c) hlenw
    refine ⟨fun r c2 h => ?_, fun h => ?_⟩
    · obtain ⟨k1, k2⟩ := g1 r c2 h
      refine ⟨Or.inr (Or.inl (by rw [k1]; exact hr)), fun hok => ?_⟩
      rw [← hwq]
      exact k2 hok
    · rcases g2 _ h with h1 | h1 <;> cases h1
  · obtain ⟨hp1, hp2⟩ := parse_multibulk (withReqtype c) hr
    rw [hp1]
    have hlenw2 : (withReqtype c).querybuf.length < 2147483648 := by omega
    obtain ⟨_, g2, g3⟩ := processMultibulkBuffer_cursor (withReqtype c) hlenw2
    refine ⟨fun r c2 h => ?_, g2⟩
    have k1 := processMultibulkBuffer_reqtype (withReqtype c) hlenw2 r c2 h
    refine ⟨Or.inr (Or.inr (by rw [k1]; exact hr)), fun hok => ?_⟩
    obtain ⟨j, hj1, hj2, hj3⟩ := g3 r c2 h
    have hj4 := hj3 hok
    rw [hj2, List.length_drop, hwq]
    rw [hwq] at hj1
    omega

/-- With handlers that leave the buffer and the request type alone, the
decode loop on a buffer below `INT_MAX` bytes does not run out of iterations
when it is given as many as the buffer has bytes, and more iterations do not
change its result. -/
theorem processInputBufferLoop_fuel (H : Handlers) (hH : KeepBuffer H) (f1 : Nat) :
    ∀ (c : client) (log : List Dispatch), c.querybuf.length < 2147483647 → validReqtype c →
      c.querybuf.length ≤ f1 →
      processInputBufferLoop H f1 c log ≠ .error .fuel ∧
      ∀ f2, c.querybuf.length ≤ f2 →
        processInputBufferLoop H f2 c log = processInputBufferLoop H f1 c log := by
  induction f1 with
  | zero =>
    intro c log _ _ hf
    have hq : c.querybuf = [] := List.length_eq_zero.1 (by omega)
    rw [processInputBufferLoop_empty H 0 c log hq]
    refine ⟨fun h => (by cases h), fun f2 _ => ?_⟩
    rw [processInputBufferLoop_empty H f2 c log hq]
  | succ f1 ih =>
    intro c log hlen hv hf
    by_cases hq : c.querybuf = []
    · rw [processInputBufferLoop_empty H (f1 + 1) c log hq]
      refine ⟨fun h => (by cases h), fun f2 _ => ?_⟩
      rw [processInputBufferLoop_empty H f2 c log hq]
    · have hpos : 0 < c.querybuf.length := List.length_pos.2 hq
      obtain ⟨hp1, hp2⟩ := parse_progress c hlen hv
      have main : ∀ g : Nat, c.querybuf.length ≤ g + 1 →
          processInputBufferLoop H (f1 + 1) c log ≠ .error .fuel ∧
          processInputBufferLoop H (g + 1) c log = processInputBufferLoop H (f1 + 1) c log := by
        intro g hg
        rw [processInputBufferLoop_succ H f1 c log hq, processInputBufferLoop_succ H g c log hq]
        cases hp : parseRequest (withReqtype c) with
        | error e =>
          refine ⟨fun h => ?_, rfl⟩
          cases h
          exact hp2 hp
        | ok res =>
          obtain ⟨r, c2⟩ := res
          simp only
          obtain ⟨hv2, hsh⟩ := hp1 r c2 hp
          by_cases hr : r ≠ C_OK
          · rw [if_pos hr, if_pos hr]
            exact ⟨fun h => (by cases h), rfl⟩
          · rw [if_neg hr, if_neg hr]
            have hlt := hsh (not_not.1 hr)
            cases ha : argv0 c2 with
            | error e =>
              refine ⟨fun h => ?_, rfl⟩
              cases h
              exact argv0_error c2 _ ha rfl
            | ok o =>
              simp only
              by_cases hz : c2.argc = 0
              · rw [if_pos hz, if_pos hz]
                obtain ⟨i1, i2⟩ := ih (resetClient c2) log (by show c2.querybuf.length < _; omega)
                  hv2 (by show c2.querybuf.length ≤ f1; omega)
                exact ⟨i1, i2 g (by show c2.querybuf.length ≤ g; omega)⟩
              · rw [if_neg hz, if_neg hz]
                cases hc : processCommand H c2 with
                | error e =>
                  refine ⟨fun h => ?_, rfl⟩
                  cases h
                  exact processCommand_error H c2 _ hc rfl
                | ok res2 =>
                  obtain ⟨rc, c3⟩ := res2
                  simp only
                  obtain ⟨k1, k2⟩ := processCommand_keeps H hH c2 rc c3 hc
                  have hcc : (if rc = C_OK then resetClient c3 else c3) = c3 := by
                    split <;> rfl
                  rw [hcc]
                  have hv3 : validReqtype c3 := by
                    unfold validReqtype
                    rw [k2]
                    exact hv2
                  obtain ⟨i1, i2⟩ := ih c3 (log ++ [{ argc := c2.argc, argv := c2.argv }])
                    (by rw [k1]; omega) hv3 (by rw [k1]; omega)
                  exact ⟨i1, i2 g (by rw [k1]; omega)⟩
      refine ⟨(main f1 hf).1, fun f2 hf2 => ?_⟩
      obtain ⟨g, rfl⟩ : ∃ g, f2 = g + 1 := ⟨f2 - 1, by omega⟩
      exact (main g hf2).2

/-- C34: with handlers that leave the buffer and the request type alone, on
a client whose buffer is below `INT_MAX` bytes and whose request type is one
that the code sets: an iteration of the decode loop whose parse does not
return `C_OK` ends the loop, and one whose parse returns `C_OK` on a buffer
that is not empty leaves the buffer shorter; the parse and the argument loop
of `processMultibulkBuffer` do not run out of iterations; hence the decode
loop, given as many iterations as the buffer has bytes, does not run out of
them (it returns, or leaves defined behaviour), and more iterations do not
change its result. -/
theorem decode_loop_terminates (H : Handlers) (hH : KeepBuffer H) (c : client)
    (hlen : c.querybuf.length < 2147483647) (hv : validReqtype c) :
    (∀ fuel log r c2, c.querybuf ≠ [] → parseRequest (withReqtype c) = .ok (r, c2) →
      r ≠ C_OK → processInputBufferLoop H (fuel + 1) c log = .ok (c2, log)) ∧
    (∀ c2, c.querybuf ≠ [] → parseRequest (withReqtype c) = .ok (C_OK, c2) →
      c2.querybuf.length < c.querybuf.length) ∧
    parseRequest (withReqtype c) ≠ .error .fuel ∧
    processMultibulkBuffer c ≠ .error .fuel ∧
    (∀ fuel log, c.querybuf.length ≤ fuel →
      processInputBufferLoop H fuel c log ≠ .error .fuel ∧
      processInputBufferLoop H fuel c log =
        processInputBufferLoop H c.querybuf.length c log) ∧
    processInputBuffer H c ≠ .error .fuel := by
  obtain ⟨hp1, hp2⟩ := parse_progress c hlen hv
  refine ⟨fun fuel log r c2 hne hp hr => ?_, fun c2 _ hp => (hp1 C_OK c2 hp).2 rfl, hp2,
    (processMultibulkBuffer_cursor c (by omega)).2.1, fun fuel log hf => ?_, ?_⟩
  · rw [processInputBufferLoop_succ H fuel c log hne, hp]
    exact if_pos hr
  · obtain ⟨i1, i2⟩ := processInputBufferLoop_fuel H hH fuel c log hlen hv hf
    exact ⟨i1, (i2 c.querybuf.length (le_refl _)).symm⟩
  · exact (processInputBufferLoop_fuel H hH (c.querybuf.length + 1) c [] hlen hv
      (Nat.le_succ _)).1

theorem decode_loop_terminates_witness :
    (∀ c2, (freshWith (commandCmd ++ partialGetFoo)).querybuf ≠ [] →
      parseRequest (withReqtype (freshWith (commandCmd ++ partialGetFoo))) = .ok (C_OK, c2) →
      c2.querybuf.length < (freshWith (commandCmd ++ partialGetFoo)).querybuf.length) ∧
    processInputBuffer idleHandlers (freshWith (commandCmd ++ partialGetFoo)) ≠ .error .fuel :=
  ⟨(decode_loop_terminates idleHandlers (fun _ => ⟨rfl, rfl, rfl, rfl⟩)
      (freshWith (commandCmd ++ partialGetFoo)) (by decide) (by decide)).2.1,
   (decode_loop_terminates idleHandlers (fun _ => ⟨rfl, rfl, rfl, rfl⟩)
      (freshWith (commandCmd ++ partialGetFoo)) (by decide) (by decide)).2.2.2.2.2⟩

/-! ## Bytes that are passed over -/

theorem skipRel_length (b : Int) (u u' : List Nat) (h : SkipRel b u u') :
    u'.length = u.length := by
  induction h with
  | same b u => rfl
  | line pre rest rest' x y b' _ _ _ ih => simp [ih]
  | payload a rest rest' x y x' y' _ ih => simp [ih]
  | payloadTail a x x' => simp

theorem getD_zero_line (pre rest : List Nat) (x : Nat) :
    (pre ++ 13 :: x :: rest).getD 0 0 = (pre ++ [13]).getD 0 0 := by
  cases pre <;> rfl

theorem take_line_text (pre rest : List Nat) (x : Nat) :
    ((pre ++ 13 :: x :: rest).drop 1).take (pre.length - 1) = pre.drop 1 := by
  cases pre with
  | nil => rfl
  | cons b t =>
    simp only [List.cons_append, List.drop_succ_cons, List.drop_zero, List.length_cons,
      Nat.add_sub_cancel]
    rw [List.take_append_of_le_length (le_refl _), List.take_length]

theorem drop_line (pre rest : List Nat) (x : Nat) :
    (pre ++ 13 :: x :: rest).drop (pre.length + 2) = rest := by
  have e : pre ++ 13 :: x :: rest = (pre ++ [13, x]) ++ rest := by simp
  rw [e, List.drop_append_of_le_length (by simp)]
  simp

/-- A NUL byte before the first CR hides the CR from `strchr`. -/
theorem strchr_nul_append (pre r : List Nat) (hcr : ∀ b ∈ pre, b ≠ 13)
    (hz : ¬ ∀ b ∈ pre, b ≠ 0) : strchr (pre ++ 13 :: r) 13 = none := by
  induction pre with
  | nil => exact absurd (fun b hb => by cases hb) hz
  | cons b t ih =>
    have hb : b ≠ 13 := hcr b (List.mem_cons_self _ _)
    simp only [List.cons_append, strchr, if_neg hb]
    by_cases h0 : b = 0
    · rw [if_pos h0]
    · rw [if_neg h0]
      have ht : ¬ ∀ a ∈ t, a ≠ 0 := by
        intro h
        apply hz
        intro a ha
        rcases List.mem_cons.1 ha with e | e
        · rw [e]
          exact h0
        · exact h a e
      have e := ih (fun a ha => hcr a (List.mem_cons_of_mem _ ha)) ht
      show Option.map (fun x => x + 1) (strchr (t ++ 13 :: r) 13) = none
      rw [e]
      rfl

/-- What a length line reads of two unread parts that differ in bytes passed
over: the same place of the CR, the same first byte, the same text of the
number; and after the line the two unread parts differ again in bytes passed
over only, for the length read. -/
theorem skipRel_line_reads (b : Int) (u u' : List Nat) (h : SkipRel b u u') (hb : b = -1) :
    strchr u' 13 = strchr u 13 ∧
    ∀ off, strchr u 13 = some off →
      u'.getD 0 0 = u.getD 0 0 ∧
      (u'.drop 1).take (off - 1) = (u.drop 1).take (off - 1) ∧
      ∀ ll, string2ll ((u.drop 1).take (off - 1)) = some ll →
        SkipRel ll (u.drop (off + 2)) (u'.drop (off + 2)) := by
  cases h with
  | same =>
    exact ⟨rfl, fun off _ => ⟨rfl, rfl, fun ll _ => SkipRel.same _ _⟩⟩
  | line pre rest rest' x y b' hcr hl hr =>
    by_cases hz : ∀ b ∈ pre, b ≠ 0
    · have hc : cleanOf 13 pre := fun b hb => ⟨hcr b hb, hz b hb⟩
      have h1 := strchr_clean_append 13 pre (x :: rest) hc
      have h2 := strchr_clean_append 13 pre (y :: rest') hc
      refine ⟨by rw [h1, h2], fun off ho => ?_⟩
      rw [h1] at ho
      injection ho with ho
      subst ho
      refine ⟨by rw [getD_zero_line, getD_zero_line], by rw [take_line_text, take_line_text],
        fun ll hll => ?_⟩
      rw [take_line_text] at hll
      rw [drop_line, drop_line]
      rcases hl with hl | hl
      · rw [hl] at hll
        injection hll with hll
        subst hll
        exact hr
      · rw [hl] at hll
        cases hll
    · have h1 := strchr_nul_append pre (x :: rest) hcr hz
      have h2 := strchr_nul_append pre (y :: rest') hcr hz
      refine ⟨by rw [h1, h2], fun off ho => ?_⟩
      rw [h1] at ho
      cases ho
  | payload a rest rest' x y x' y' hr =>
    exfalso
    omega
  | payloadTail a x x' =>
    exfalso
    omega

/-- What the argument branch reads of two unread parts that differ in bytes
passed over, when the pending length `b` is known and the payload with two
more bytes is there: the same payload; and after the payload and the two
bytes the unread parts differ again in bytes passed over only. -/
theorem skipRel_payload_reads (b : Int) (u u' : List Nat) (h : SkipRel b u u')
    (hb : 0 ≤ b) :
    u'.take b.toNat = u.take b.toNat ∧
    SkipRel (-1) (u.drop (b.toNat + 2)) (u'.drop (b.toNat + 2)) := by
  cases h with
  | same => exact ⟨rfl, SkipRel.same _ _⟩
  | line pre rest rest' x y b' hc hl hr =>
    exfalso
    omega
  | payload a rest rest' x y x' y' hr =>
    have e1 : ((a.length : Int)).toNat = a.length := Int.toNat_ofNat _
    rw [e1]
    refine ⟨?_, ?_⟩
    · rw [List.take_append_of_le_length (le_refl _), List.take_append_of_le_length (le_refl _)]
    · have d1 : (a ++ x :: y :: rest).drop (a.length + 2) = rest := by
        have e : a ++ x :: y :: rest = (a ++ [x, y]) ++ rest := by simp
        rw [e, List.drop_append_of_le_length (by simp)]
        simp
      have d2 : (a ++ x' :: y' :: rest').drop (a.length + 2) = rest' := by
        have e : a ++ x' :: y' :: rest' = (a ++ [x', y']) ++ rest' := by simp
        rw [e, List.drop_append_of_le_length (by simp)]
        simp
      rw [d1, d2]
      exact hr
  | payloadTail a x x' =>
    have e1 : ((a.length : Int)).toNat = a.length := Int.toNat_ofNat _
    rw [e1]
    refine ⟨?_, ?_⟩
    · rw [List.take_append_of_le_length (le_refl _), List.take_append_of_le_length (le_refl _)]
    · rw [List.drop_of_length_le (by simp), List.drop_of_length_le (by simp)]
      exact SkipRel.same _ _

theorem getD_drop_zero (q : List Nat) (n : Nat) : (q.drop n).getD 0 0 = q.getD n 0 := by
  induction q generalizing n with
  | nil => simp
  | cons b t ih =>
    cases n with
    | zero => rfl
    | succ m => simp [ih m]

theorem argvStore_withBuf (c : client) (o : robj) (q : List Nat) :
    argvStore { c with querybuf := q } o =
      (argvStore c o).map (fun c1 => { c1 with querybuf := q }) := by
  unfold argvStore
  dsimp only
  cases c.argv with
  | none => rfl
  | some slots =>
    dsimp only
    by_cases h : 0 ≤ c.argc ∧ c.argc < (slots.length : Int)
    · rw [if_pos h, if_pos h]; rfl
    · rw [if_neg h, if_neg h]; rfl

theorem sdsrange_length_congr (s s' : List Nat) (a b : Int) (h : s'.length = s.length) :
    (sdsrange s' a b).length = (sdsrange s a b).length := by
  unfold sdsrange
  simp only [h]
  by_cases h0 : (s.length : Int) = 0
  · rw [if_pos h0, if_pos h0, h]
  · rw [if_neg h0, if_neg h0]
    generalize (if a < 0 then (if toInt32 ((s.length : Int) + a) < 0 then 0 else toInt32 ((s.length : Int) + a)) else a) = s1
    generalize (if b < 0 then (if toInt32 ((s.length : Int) + b) < 0 then 0 else toInt32 ((s.length : Int) + b)) else b) = e1
    generalize (if s1 > e1 then 0 else (e1 - s1) + 1) = nl
    by_cases h1 : nl ≠ 0
    · rw [if_pos h1, if_pos h1]
      by_cases h2 : s1 ≥ toInt32 (s.length : Int)
      · rw [if_pos h2, if_pos h2]
      · rw [if_neg h2, if_neg h2]
        by_cases h3 : e1 ≥ toInt32 (s.length : Int)
        · rw [if_pos h3, if_pos h3]
          simp only [List.length_take, List.length_drop, h]
        · rw [if_neg h3, if_neg h3]
          simp only [List.length_take, List.length_drop, h]
    · rw [if_neg h1, if_neg h1]

theorem toInt32_small (x : Int) (h0 : 0 ≤ x) (h1 : x < 2147483648) : toInt32 x = x := by
  unfold toInt32
  omega

/-- The length line read in two buffers that differ in bytes passed over. -/
theorem readBulkLength_skip (c : client) (pos : Int) (q' : List Nat)
    (hlen : c.querybuf.length < 2147483648) (hl : q'.length = c.querybuf.length)
    (hr : SkipRel c.bulklen (c.querybuf.drop pos.toNat) (q'.drop pos.toNat)) :
    SkipSim (readBulkLength c pos) (readBulkLength { c with querybuf := q' } pos) := by
  unfold readBulkLength
  dsimp only
  rw [hl]
  by_cases hb : c.bulklen = -1
  · rw [if_pos hb, if_pos hb]
    by_cases hp : pos < 0 ∨ pos > (c.querybuf.length : Int)
    · rw [if_pos hp, if_pos hp]
      exact SkipSim.error _
    · rw [if_neg hp, if_neg hp]
      obtain ⟨hs, hrd⟩ := skipRel_line_reads _ _ _ hr hb
      rw [hs]
      cases ho : strchr (c.querybuf.drop pos.toNat) 13 with
      | none =>
        dsimp only
        by_cases h64 : c.querybuf.length > PROTO_INLINE_MAX_SIZE
        · rw [if_pos h64, if_pos h64]
          exact SkipSim.ret _ _ _ hl
        · rw [if_neg h64, if_neg h64]
          exact SkipSim.brk _ _ _ hl
      | some off =>
        dsimp only
        obtain ⟨hg, ht, hnext⟩ := hrd off ho
        by_cases h1 : pos + (off : Int) > toInt32 c.querybuf.length - 2
        · rw [if_pos h1, if_pos h1]
          exact SkipSim.brk _ _ _ hl
        · rw [if_neg h1, if_neg h1]
          rw [← getD_drop_zero q', ← getD_drop_zero c.querybuf, hg]
          by_cases h2 : (c.querybuf.drop pos.toNat).getD 0 0 ≠ 36
          · rw [if_pos h2, if_pos h2]
            exact SkipSim.ret _ _ _ hl
          · rw [if_neg h2, if_neg h2]
            rw [← List.drop_drop 1 pos.toNat q', ← List.drop_drop 1 pos.toNat c.querybuf, ht]
            cases hll : string2ll ((c.querybuf.drop pos.toNat).drop 1 |>.take (off - 1)) with
            | none =>
              dsimp only
              exact SkipSim.ret _ _ _ hl
            | some ll =>
              dsimp only
              by_cases h3 : ll < 0 ∨ ll > 512 * 1024 * 1024
              · rw [if_pos h3, if_pos h3]
                exact SkipSim.ret _ _ _ hl
              · rw [if_neg h3, if_neg h3]
                have hnx := hnext ll hll
                rw [List.drop_drop, List.drop_drop] at hnx
                have hlen32 : toInt32 (c.querybuf.length : Int) = c.querybuf.length :=
                  toInt32_small _ (by omega) (by omega)
                rw [hlen32] at h1
                have hp1 : toInt32 (pos + ((off : Int) + 2)) = ((pos.toNat + (off + 2) : Nat) : Int) := by
                  rw [toInt32_small _ (by omega) (by omega)]
                  omega
                rw [hp1]
                by_cases h4 : ll ≥ PROTO_MBULK_BIG_ARG
                · rw [if_pos h4, if_pos h4]
                  have e1 := sdsrange_drop c.querybuf (pos.toNat + (off + 2)) hlen
                  have e2 := sdsrange_drop q' (pos.toNat + (off + 2)) (by omega)
                  rw [e1, e2]
                  refine SkipSim.go _ 0 _ ?_ ?_
                  · simp only [List.length_drop, hl]
                  · exact hnx
                · rw [if_neg h4, if_neg h4]
                  refine SkipSim.go _ _ _ hl ?_
                  rw [Int.toNat_ofNat]
                  exact hnx
  · rw [if_neg hb, if_neg hb]
    exact SkipSim.go _ _ _ hl hr

theorem createStringObject_congr (p p' : List Nat) (n : Nat) (h : p'.take n = p.take n) :
    createStringObject p' n = createStringObject p n := by
  unfold createStringObject createEmbeddedStringObject createRawStringObject
  rw [h]

/-- The argument read in two buffers that differ in bytes passed over. -/
theorem readBulkArgument_skip (c : client) (pos : Int) (q' : List Nat)
    (hlen : c.querybuf.length < 2147483648) (hl : q'.length = c.querybuf.length)
    (hr : SkipRel c.bulklen (c.querybuf.drop pos.toNat) (q'.drop pos.toNat)) :
    ArgSim (readBulkArgument c pos) (readBulkArgument { c with querybuf := q' } pos) := by
  unfold readBulkArgument
  dsimp only
  rw [hl]
  by_cases h1 : toSizeT ((c.querybuf.length : Int) - pos) < toUInt32 (c.bulklen + 2)
  · rw [if_pos h1, if_pos h1]
    exact ArgSim.none
  · rw [if_neg h1, if_neg h1]
    by_cases h2 : pos = 0 ∧ c.bulklen ≥ PROTO_MBULK_BIG_ARG ∧
        toInt32 (c.querybuf.length : Int) = c.bulklen + 2
    · rw [if_pos h2, if_pos h2]
      obtain ⟨hp0, hbig, he⟩ := h2
      subst hp0
      have hb0 : 0 ≤ c.bulklen := by
        unfold PROTO_MBULK_BIG_ARG at hbig
        omega
      obtain ⟨ht, _⟩ := skipRel_payload_reads _ _ _ hr hb0
      rw [toInt32_small _ (by omega) (by omega)] at he
      have hn : c.bulklen.toNat = c.querybuf.length - 2 := by omega
      rw [hn] at ht
      simp only [Int.toNat_zero, List.drop_zero] at ht
      rw [ht, argvStore_withBuf c _ q']
      cases ha : argvStore c (createObject OBJ_STRING (c.querybuf.take (c.querybuf.length - 2))) with
      | error e => exact ArgSim.error e
      | ok c1 =>
        exact ArgSim.some
          { c1 with querybuf := [], bulklen := -1, multibulklen := c1.multibulklen - 1 } 0 [] rfl
          (SkipRel.same _ _)
    · rw [if_neg h2, if_neg h2]
      by_cases h3 : c.bulklen < 0
      · rw [if_pos h3, if_pos h3]
        exact ArgSim.error _
      · rw [if_neg h3, if_neg h3]
        by_cases h4 : pos < 0 ∨ pos + c.bulklen > (c.querybuf.length : Int)
        · rw [if_pos h4, if_pos h4]
          exact ArgSim.error _
        · rw [if_neg h4, if_neg h4]
          obtain ⟨ht, hd⟩ := skipRel_payload_reads _ _ _ hr (by omega)
          rw [createStringObject_congr _ _ _ ht, argvStore_withBuf c _ q']
          cases ha : argvStore c
              (createStringObject (c.querybuf.drop pos.toNat) c.bulklen.toNat) with
          | error e => exact ArgSim.error e
          | ok c1 =>
            have hf := (argvStore_frame c c1 _ ha).1
            have hrange : pos + (c.bulklen + 2) ≤ (c.querybuf.length : Int) := by
              unfold toSizeT toUInt32 at h1
              omega
            have hp2 : (toInt32 (pos + (c.bulklen + 2))).toNat =
                pos.toNat + (c.bulklen.toNat + 2) := by
              rw [toInt32_small _ (by omega) (by omega)]
              omega
            rw [List.drop_drop, List.drop_drop, ← hp2, ← hf] at hd
            exact ArgSim.some
              { c1 with bulklen := -1, multibulklen := c1.multibulklen - 1 }
              (toInt32 (pos + (c.bulklen + 2))) q' (by rw [hl, hf]) hd

/-- The argument loop run on two buffers that differ in bytes passed over. -/
theorem processMultibulkLoop_skip : ∀ (fuel : Nat) (c : client) (pos : Int) (q' : List Nat),
    c.querybuf.length < 2147483648 → q'.length = c.querybuf.length →
    SkipRel c.bulklen (c.querybuf.drop pos.toNat) (q'.drop pos.toNat) →
    SkipSim (processMultibulkLoop fuel c pos)
      (processMultibulkLoop fuel { c with querybuf := q' } pos)
  | 0, _, _, _, _, _, _ => SkipSim.error _
  | fuel + 1, c, pos, q', hlen, hl, hr => by
    simp only [processMultibulkLoop]
    by_cases hm : c.multibulklen = 0
    · rw [if_pos hm, if_pos hm]
      exact SkipSim.go _ _ _ hl hr
    · rw [if_neg hm, if_neg hm]
      have h1 := readBulkLength_skip c pos q' hlen hl hr
      cases hx : readBulkLength c pos with
      | error e =>
        rw [hx] at h1
        generalize readBulkLength { c with querybuf := q' } pos = x' at h1 ⊢
        cases h1
        exact SkipSim.error e
      | ok s =>
        rw [hx] at h1
        generalize readBulkLength { c with querybuf := q' } pos = x' at h1 ⊢
        cases h1 with
        | ret r c1 q1 h => exact SkipSim.ret _ _ _ h
        | brk c1 p1 q1 h => exact SkipSim.brk _ _ _ h
        | go c1 p1 q1 h hr1 =>
          dsimp only
          have hsuf := readBulkLength_suffix c pos _ (by omega) hx
          have hlen1 : c1.querybuf.length < 2147483648 :=
            lt_of_le_of_lt hsuf.length_le hlen
          have h2 := readBulkArgument_skip c1 p1 q1 hlen1 h hr1
          cases hy : readBulkArgument c1 p1 with
          | error e =>
            rw [hy] at h2
            generalize readBulkArgument { c1 with querybuf := q1 } p1 = y' at h2 ⊢
            cases h2
            exact SkipSim.error e
          | ok o =>
            rw [hy] at h2
            generalize readBulkArgument { c1 with querybuf := q1 } p1 = y' at h2 ⊢
            cases h2 with
            | none => exact SkipSim.brk _ _ _ h
            | some c2 p2 q2 hq2 hr2 =>
              have hsuf2 := readBulkArgument_suffix c1 p1 c2 p2 hy
              exact processMultibulkLoop_skip fuel c2 p2 q2
                (lt_of_le_of_lt hsuf2.length_le hlen1) hq2 hr2

theorem multibulkFinish_skip (c : client) (pos : Int) (q' : List Nat)
    (hl : q'.length = c.querybuf.length) :
    CallSim (.ok (multibulkFinish c pos)) (.ok (multibulkFinish { c with querybuf := q' } pos)) := by
  unfold multibulkFinish
  dsimp only
  by_cases hp : pos ≠ 0
  · rw [if_pos hp, if_pos hp]
    dsimp only
    by_cases hm : c.multibulklen = 0
    · rw [if_pos hm, if_pos hm]
      exact CallSim.ok _ { c with querybuf := sdsrange c.querybuf pos (-1) } _
        (sdsrange_length_congr _ _ _ _ hl)
    · rw [if_neg hm, if_neg hm]
      exact CallSim.ok _ { c with querybuf := sdsrange c.querybuf pos (-1) } _
        (sdsrange_length_congr _ _ _ _ hl)
  · rw [if_neg hp, if_neg hp]
    dsimp only
    by_cases hm : c.multibulklen = 0
    · rw [if_pos hm, if_pos hm]
      exact CallSim.ok _ c _ hl
    · rw [if_neg hm, if_neg hm]
      exact CallSim.ok _ c _ hl

theorem skipSim_refl (s : BulkStep) : SkipSim (.ok s) (.ok s) := by
  cases s with
  | ret r c => exact SkipSim.ret r c c.querybuf rfl
  | brk c pos => exact SkipSim.brk c pos c.querybuf rfl
  | go c pos => exact SkipSim.go c pos c.querybuf rfl (SkipRel.same _ _)

/-- The header phase run on two buffers that differ in bytes passed over. -/
theorem processMultibulkHeader_skip (c : client) (q' : List Nat)
    (hlen : c.querybuf.length < 2147483648) (h : SkipBuffers c q') :
    q'.length = c.querybuf.length ∧
    SkipSim (.ok (processMultibulkHeader c))
      (.ok (processMultibulkHeader { c with querybuf := q' })) := by
  rcases h with ⟨hm, hr⟩ | ⟨hm, h⟩
  · have hl := skipRel_length _ _ _ hr
    refine ⟨hl, ?_⟩
    unfold processMultibulkHeader
    dsimp only
    rw [if_neg hm, if_neg hm]
    exact SkipSim.go _ _ _ hl hr
  · rcases h with h | ⟨pre, rest, rest', x, y, hcr, hq, hq', hr⟩
    · subst h
      exact ⟨rfl, skipSim_refl _⟩
    · have hl : q'.length = c.querybuf.length := by
        rw [hq, hq']
        simp only [List.length_append, List.length_cons, skipRel_length _ _ _ hr]
      by_cases hz : ¬ ∀ b ∈ pre, b ≠ 0
      · have hn : strchr c.querybuf 13 = none := by
          rw [hq]
          exact strchr_nul_append pre _ hcr hz
        have hn' : strchr q' 13 = none := by
          rw [hq']
          exact strchr_nul_append pre _ hcr hz
        refine ⟨hl, ?_⟩
        unfold processMultibulkHeader
        dsimp only
        rw [if_pos hm, if_pos hm, hn, hn']
        exact SkipSim.ret _ _ _ hl
      have hc : cleanOf 13 pre := fun b hb => ⟨hcr b hb, (not_not.1 hz) b hb⟩
      have hpl : pre.length + 2 ≤ c.querybuf.length := by
        rw [hq]
        simp only [List.length_append, List.length_cons]
        omega
      have hs : strchr c.querybuf 13 = some pre.length := by
        rw [hq]
        exact strchr_clean_append 13 pre _ hc
      have hs' : strchr q' 13 = some pre.length := by
        rw [hq']
        exact strchr_clean_append 13 pre _ hc
      have ht : (q'.drop 1).take (pre.length - 1) = (c.querybuf.drop 1).take (pre.length - 1) := by
        rw [hq, hq', take_line_text, take_line_text]
      have hd : SkipRel c.bulklen (c.querybuf.drop (pre.length + 2))
          (q'.drop (pre.length + 2)) := by
        rw [hq, hq', drop_line, drop_line]
        exact hr
      refine ⟨hl, ?_⟩
      unfold processMultibulkHeader
      dsimp only
      rw [if_pos hm, if_pos hm, hs, hs']
      dsimp only
      rw [hl, ht]
      by_cases h1 : (pre.length : Int) > toInt32 c.querybuf.length - 2
      · rw [if_pos h1, if_pos h1]
        exact SkipSim.ret _ _ _ hl
      · rw [if_neg h1, if_neg h1]
        cases hll : string2ll ((c.querybuf.drop 1).take (pre.length - 1)) with
        | none => exact SkipSim.ret _ _ _ hl
        | some ll =>
          dsimp only
          by_cases h2 : ll > 1024 * 1024
          · rw [if_pos h2, if_pos h2]
            exact SkipSim.ret _ _ _ hl
          · rw [if_neg h2, if_neg h2]
            by_cases h3 : ll ≤ 0
            · rw [if_pos h3, if_pos h3]
              exact SkipSim.ret _ { c with querybuf := sdsrange c.querybuf _ (-1) } _
                (sdsrange_length_congr _ _ _ _ hl)
            · rw [if_neg h3, if_neg h3]
              refine SkipSim.go _ _ _ hl ?_
              have e : (toInt32 ((pre.length : Int) + 2)).toNat = pre.length + 2 := by
                rw [toInt32_small _ (by omega) (by omega)]
                omega
              dsimp only
              rw [e]
              exact hd

/-- A call of `processMultibulkBuffer` on two buffers that differ in bytes
passed over: the same fault, or the same return value and the same client up
to the buffer, with buffers of the same length. -/
theorem processMultibulkBuffer_skip (c : client) (q' : List Nat)
    (hlen : c.querybuf.length < 2147483648) (h : SkipBuffers c q') :
    q'.length = c.querybuf.length ∧
    CallSim (processMultibulkBuffer c) (processMultibulkBuffer { c with querybuf := q' }) := by
  obtain ⟨hl, hh⟩ := processMultibulkHeader_skip c q' hlen h
  refine ⟨hl, ?_⟩
  unfold processMultibulkBuffer
  have hsuf := processMultibulkHeader_suffix c (by omega)
  cases hx : processMultibulkHeader c with
  | ret r c1 =>
    rw [hx] at hh
    generalize processMultibulkHeader { c with querybuf := q' } = x' at hh ⊢
    cases hh with
    | ret _ _ q1 h1 => exact CallSim.ok _ _ _ h1
  | brk c1 p1 =>
    rw [hx] at hh
    generalize processMultibulkHeader { c with querybuf := q' } = x' at hh ⊢
    cases hh with
    | brk _ _ q1 h1 => exact multibulkFinish_skip _ _ _ h1
  | go c1 p1 =>
    rw [hx] at hh hsuf
    generalize processMultibulkHeader { c with querybuf := q' } = x' at hh ⊢
    cases hh with
    | go _ _ q1 h1 hr1 =>
      dsimp only
      rw [h1]
      have hlen1 : c1.querybuf.length < 2147483648 := lt_of_le_of_lt hsuf.length_le hlen
      have hL := processMultibulkLoop_skip (c1.querybuf.length + 2) c1 p1 q1 hlen1 h1 hr1
      cases hy : processMultibulkLoop (c1.querybuf.length + 2) c1 p1 with
      | error e =>
        rw [hy] at hL
        generalize processMultibulkLoop (c1.querybuf.length + 2) { c1 with querybuf := q1 } p1
          = y' at hL ⊢
        cases hL
        exact CallSim.error e
      | ok s =>
        rw [hy] at hL
        generalize processMultibulkLoop (c1.querybuf.length + 2) { c1 with querybuf := q1 } p1
          = y' at hL ⊢
        cases hL with
        | ret r c2 q2 h2 => exact CallSim.ok _ _ _ h2
        | brk c2 p2 q2 h2 => exact multibulkFinish_skip _ _ _ h2
        | go c2 p2 q2 h2 _ => exact multibulkFinish_skip _ _ _ h2

theorem getFooSkewed_skips : SkipBuffers (freshWith getFoo) getFooSkewed :=
  Or.inr ⟨rfl, Or.inr ⟨[42, 50], _, _, 10, 88, by decide, rfl, rfl,
    SkipRel.line [36, 51] _ _ 10 89 3 (by decide) (Or.inl (by decide))
      (SkipRel.payload [71, 69, 84] _ _ 13 10 97 98
        (SkipRel.line [36, 51] _ _ 10 90 3 (by decide) (Or.inl (by decide))
          (SkipRel.payload [102, 111, 111] [] [] 13 10 99 100 (SkipRel.same _ _))))⟩⟩

/-- C35: `processMultibulkBuffer` does not look at the byte after the CR of a
header line nor at the two bytes after a bulk payload.  For a buffer below
2 GiB and any second buffer that differs from it at most in those places
(`SkipBuffers`: the byte after the first CR of the count line and of every
length line, the two bytes after every payload, as the call frames them), the two
buffers have the same length and the two calls give the same observation:
either the same fault, or the same return value, `argc`, `argv` (every slot
with its object, hence the argument bytes), `multibulklen`, `bulklen` and the
same number of bytes consumed. -/
theorem skipped_bytes_not_inspected (c : client) (q' : List Nat)
    (hlen : c.querybuf.length < 2147483648) (h : SkipBuffers c q') :
    q'.length = c.querybuf.length ∧
    callObs { c with querybuf := q' } (processMultibulkBuffer { c with querybuf := q' }) =
      callObs c (processMultibulkBuffer c) := by
  obtain ⟨hl, hs⟩ := processMultibulkBuffer_skip c q' hlen h
  refine ⟨hl, ?_⟩
  generalize processMultibulkBuffer c = x at hs ⊢
  generalize processMultibulkBuffer { c with querybuf := q' } = x' at hs ⊢
  cases hs with
  | error e => rfl
  | ok r c1 q1 h1 =>
    show Except.ok _ = Except.ok _
    congr 1
    show CallObs.mk _ _ _ _ _ _ = CallObs.mk _ _ _ _ _ _
    dsimp only
    rw [hl, h1]

/-- The two bytes sequences `getFoo` and `getFooSkewed` differ in the byte
after each of the three CRs of lines and in the two bytes after each of the
two payloads; both decode to the command GET foo with 22 bytes consumed. -/
theorem skipped_bytes_not_inspected_witness :
    (freshWith getFoo).querybuf.length < 2147483648 ∧
    SkipBuffers (freshWith getFoo) getFooSkewed ∧
    getFooSkewed ≠ getFoo ∧
    getFooSkewed.length = (freshWith getFoo).querybuf.length ∧
    callObs { freshWith getFoo with querybuf := getFooSkewed }
        (processMultibulkBuffer { freshWith getFoo with querybuf := getFooSkewed }) =
      callObs (freshWith getFoo) (processMultibulkBuffer (freshWith getFoo)) ∧
    (callObs (freshWith getFoo) (processMultibulkBuffer (freshWith getFoo))).toOption.map
        (fun o => (o.ret, o.argc, o.consumed)) = some (C_OK, 2, 22) :=
  ⟨by decide, getFooSkewed_skips, by decide,
    (skipped_bytes_not_inspected (freshWith getFoo) getFooSkewed (by decide)
      getFooSkewed_skips).1,
    (skipped_bytes_not_inspected (freshWith getFoo) getFooSkewed (by decide)
      getFooSkewed_skips).2, by decide⟩

end SimpleRedis
